import Mathlib

/-!
# Verification development for `sivachandra/guts`

A shallow embedding of the Go packages `clap` (command line argument parsing),
`cli` (the line tokenizer `parseCmdStr`), `leb128` (LEB128 numbers), `ruts`
(reading from a byte reader up to a delimiter) and `xet` (XML element trees),
together with the parts of the Go standard library they call (`strconv`,
`strings`, `unicode`, UTF-8 decoding of `range` over a string, the verb `%f` of
`fmt`, the tokens of `encoding/xml`).

Conventions of the embedding.

* A Go `string` is a sequence of bytes; it is modelled as a `List Nat` whose
  elements are the byte values (numbers below 256).
* Pointers to caller-owned variables are addresses into a typed store
  (`clap.Store`), one address space per Go type.
* In `clap`, `int` and `uint` are 64 bits wide (`strconv.IntSize = 64`). In `leb128`
  the width of `uint` is a parameter of the functions that count a shift
  (`leb128.UintSize`: 32 or 64 bits, as the platform has it).
* A `[]byte` of an `encoding/xml` token is a view of an array in a memory
  (`xml.ByteSlice`, `xml.Memory`): the decoder stores into the same array again when
  it reads on.
* A command of `clap` is modelled twice: as a value that owns its sub-commands
  (`clap.Cmd`, a tree), and as an object of a heap whose map `subCmds` holds
  addresses (`clap.CmdObject`, `clap.Heap`), which is what the `*Cmd` of the Go code
  are. On heaps that form a tree the two agree (`clap.heapParse_tree`).
* Errors are values of inductive types carrying the operands that the Go code
  passes to `fmt.Errorf`.
-/

set_option autoImplicit false

/-- A Go string: the sequence of its bytes. -/
abbrev GoString := List Nat

namespace utf8

/-- The UTF-8 encoding of the code point `r` (`utf8.EncodeRune` for a valid rune). -/
def encodeRune (r : Nat) : List Nat :=
  if r < 0x80 then [r]
  else if r < 0x800 then [0xC0 + r / 64, 0x80 + r % 64]
  else if r < 0x10000 then [0xE0 + r / 4096, 0x80 + r / 64 % 64, 0x80 + r % 64]
  else [0xF0 + r / 262144, 0x80 + r / 4096 % 64, 0x80 + r / 64 % 64, 0x80 + r % 64]

/-- The bytes of a list of characters. -/
def encodeChars : List Char → GoString
  | [] => []
  | c :: cs => encodeRune c.toNat ++ encodeChars cs

end utf8

/-- The Go string denoted by a literal. -/
def str (s : String) : GoString := utf8.encodeChars s.data

namespace strings

/-- Go `strings.HasPrefix(s, p)`. -/
def HasPrefix (s p : GoString) : Bool := p.isPrefixOf s

/-- Go `strings.Index(s, "=")` for a one byte separator `b`: the index of the first
occurrence, `none` standing for `-1`. -/
def IndexByte (s : GoString) (b : Nat) : Option Nat :=
  match s with
  | [] => none
  | c :: cs => if c = b then some 0 else (IndexByte cs b).map (· + 1)

end strings

namespace strconv

/-- Go `strconv.IntSize`: the size in bits of `int` and `uint` (a 64 bit platform). -/
def IntSize : Nat := 64

/-- The largest `uint64`. -/
def maxUint64 : Nat := 2 ^ 64 - 1

/-- The reasons recorded in a `strconv.NumError`. -/
inductive ErrKind
  /-- Go `strconv.ErrSyntax`. -/
  | ErrSyntax
  /-- Go `strconv.ErrRange`. -/
  | ErrRange
  /-- The error made by `baseError`. -/
  | ErrBase (base : Nat)
  /-- The error made by `bitSizeError`. -/
  | ErrBitSize (bitSize : Nat)
  deriving DecidableEq, Repr

/-- Go `strconv.NumError`: the failing function, its input and the reason. -/
structure NumError where
  /-- The failing function (`ParseInt`, `ParseUint`, `ParseBool`, `ParseFloat`). -/
  Func : GoString
  /-- The input text. -/
  Num : GoString
  /-- The reason. -/
  Err : ErrKind
  deriving DecidableEq, Repr

/-- Go `lower(c)`: `c | ('x' - 'X')`. -/
def lower (c : Nat) : Nat := c ||| 0x20

/-- Go `strconv.ParseBool`. -/
def ParseBool (s : GoString) : Bool × Option NumError :=
  if s = str "1" ∨ s = str "t" ∨ s = str "T" ∨ s = str "true" ∨ s = str "TRUE" ∨ s = str "True" then
    (true, none)
  else if s = str "0" ∨ s = str "f" ∨ s = str "F" ∨ s = str "false" ∨ s = str "FALSE"
      ∨ s = str "False" then
    (false, none)
  else (false, some ⟨str "ParseBool", s, .ErrSyntax⟩)

/-- The state of the scan in `underscoreOK`: the last character seen. -/
inductive Saw
  /-- The beginning of the number (`'^'`). -/
  | start
  /-- A digit or the base marker (`'0'`). -/
  | digit
  /-- An underscore (`'_'`). -/
  | underscore
  /-- None of the above (`'!'`). -/
  | none
  deriving DecidableEq, Repr

/-- The loop of `underscoreOK` over the number proper. -/
def underscoreLoop (hex : Bool) : List Nat → Saw → Bool
  | [], saw => saw ≠ Saw.underscore
  | c :: cs, saw =>
    if (48 ≤ c ∧ c ≤ 57) ∨ (hex = true ∧ 97 ≤ lower c ∧ lower c ≤ 102) then
      underscoreLoop hex cs Saw.digit
    else if c = 95 then
      if saw ≠ Saw.digit then false else underscoreLoop hex cs Saw.underscore
    else if saw = Saw.underscore then false
    else underscoreLoop hex cs Saw.none

/-- Go `strconv.underscoreOK`: underscores may only separate digits, or follow the
base marker. -/
def underscoreOK (s : GoString) : Bool :=
  let s1 := match s with
    | c :: cs => if c = 45 ∨ c = 43 then cs else s
    | [] => s
  match s1 with
  | c0 :: c1 :: rest =>
    if c0 = 48 ∧ (lower c1 = 98 ∨ lower c1 = 111 ∨ lower c1 = 120) then
      underscoreLoop (lower c1 = 120) rest Saw.digit
    else underscoreLoop false s1 Saw.start
  | _ => underscoreLoop false s1 Saw.start

/-- The outcome of the digit loop of `ParseUint`. -/
inductive Digits
  /-- All bytes were digits: the value, and whether an underscore was skipped. -/
  | ok (n : Nat) (underscores : Bool)
  /-- The loop returned early with this value and this reason. -/
  | fail (val : Nat) (e : ErrKind)
  deriving DecidableEq, Repr

/-- The digit loop of `ParseUint`: `n` is the value so far, all arithmetic is on
`uint64`. -/
def digitsLoop (base0 : Bool) (base cutoff maxVal : Nat) : List Nat → Nat → Bool → Digits
  | [], n, us => .ok n us
  | c :: cs, n, us =>
    if c = 95 ∧ base0 = true then digitsLoop base0 base cutoff maxVal cs n true
    else
      let d : Option Nat :=
        if 48 ≤ c ∧ c ≤ 57 then some (c - 48)
        else if 97 ≤ lower c ∧ lower c ≤ 122 then some (lower c - 97 + 10)
        else none
      match d with
      | none => .fail 0 .ErrSyntax
      | some d =>
        if d ≥ base % 256 then .fail 0 .ErrSyntax
        else if n ≥ cutoff then .fail maxVal .ErrRange
        else
          let nb := n * base % 2 ^ 64
          let n1 := (nb + d) % 2 ^ 64
          if n1 < nb ∨ n1 > maxVal then .fail maxVal .ErrRange
          else digitsLoop base0 base cutoff maxVal cs n1 us

/-- The base selection of `ParseUint` for `base == 0`: the base and the text after the
base marker. -/
def detectBase (s : GoString) : Nat × GoString :=
  match s with
  | 48 :: rest =>
    match rest with
    | c1 :: c2 :: more =>
      if lower c1 = 98 then (2, c2 :: more)
      else if lower c1 = 111 then (8, c2 :: more)
      else if lower c1 = 120 then (16, c2 :: more)
      else (8, rest)
    | _ => (8, rest)
  | _ => (10, s)

/-- Go `strconv.ParseUint(s, base, bitSize)`: the value and the error. -/
def ParseUint (s : GoString) (base bitSize : Nat) : Nat × Option NumError :=
  if s = [] then (0, some ⟨str "ParseUint", s, .ErrSyntax⟩)
  else
    let base0 : Bool := base = 0
    let sel : Option (Nat × GoString) :=
      if 2 ≤ base ∧ base ≤ 36 then some (base, s)
      else if base = 0 then some (detectBase s)
      else none
    match sel with
    | none => (0, some ⟨str "ParseUint", s, .ErrBase base⟩)
    | some (b, digits) =>
      if bitSize > 64 then (0, some ⟨str "ParseUint", s, .ErrBitSize bitSize⟩)
      else
        let bits := if bitSize = 0 then IntSize else bitSize
        let cutoff := maxUint64 / b + 1
        let maxVal := (2 ^ bits % 2 ^ 64 + 2 ^ 64 - 1) % 2 ^ 64
        match digitsLoop base0 b cutoff maxVal digits 0 false with
        | .fail v e => (v, some ⟨str "ParseUint", s, e⟩)
        | .ok n us =>
          if us = true ∧ underscoreOK s = false then (0, some ⟨str "ParseUint", s, .ErrSyntax⟩)
          else (n, none)

/-- The conversion `int64(u)` of a `uint64`. -/
def toInt64 (u : Nat) : Int :=
  if u % 2 ^ 64 < 2 ^ 63 then (u % 2 ^ 64 : Nat) else (u % 2 ^ 64 : Nat) - 2 ^ 64

/-- Negation of an `int64`, wrapping on overflow. -/
def negInt64 (i : Int) : Int := if i = -(2 ^ 63) then i else -i

/-- Go `strconv.ParseInt(s, base, bitSize)`: the value and the error. -/
def ParseInt (s : GoString) (base bitSize : Nat) : Int × Option NumError :=
  match s with
  | [] => (0, some ⟨str "ParseInt", s, .ErrSyntax⟩)
  | c :: cs =>
    let neg : Bool := c = 45
    let rest := if c = 43 ∨ c = 45 then cs else s
    let (un, err) := ParseUint rest base bitSize
    match err with
    | some ⟨_, _, .ErrSyntax⟩ => (0, some ⟨str "ParseInt", s, .ErrSyntax⟩)
    | some ⟨_, _, .ErrBase b⟩ => (0, some ⟨str "ParseInt", s, .ErrBase b⟩)
    | some ⟨_, _, .ErrBitSize b⟩ => (0, some ⟨str "ParseInt", s, .ErrBitSize b⟩)
    | _ =>
      let bits := if bitSize = 0 then IntSize else bitSize
      let cutoff := 2 ^ (bits - 1) % 2 ^ 64
      if neg = false ∧ un ≥ cutoff then
        (toInt64 (cutoff - 1), some ⟨str "ParseInt", s, .ErrRange⟩)
      else if neg = true ∧ un > cutoff then
        (negInt64 (toInt64 cutoff), some ⟨str "ParseInt", s, .ErrRange⟩)
      else
        let n := toInt64 un
        (if neg then negInt64 n else n, none)

/-- The digits of `fmt`'s integer formatting, produced from the right: `acc` holds the
digits already written. -/
def fmtDigits : Nat → Nat → List Nat → List Nat
  | 0, _, acc => acc
  | fuel + 1, u, acc =>
    if u ≥ 10 then fmtDigits fuel (u / 10) ((48 + (u - u / 10 * 10)) :: acc)
    else (48 + u) :: acc

/-- Go `fmt.Sprintf("%d", u)` for an unsigned integer. -/
def FormatUint (u : Nat) : GoString := fmtDigits (u + 1) u []

/-- Go `fmt.Sprintf("%d", i)` for a signed integer. -/
def FormatInt (i : Int) : GoString :=
  if i < 0 then 45 :: FormatUint i.natAbs else FormatUint i.natAbs

/-- Go `fmt.Sprintf("%t", b)`. -/
def FormatBool (b : Bool) : GoString := if b then str "true" else str "false"

end strconv


namespace clap

/-- The floating point functions of the Go library that `clap` calls, taken as
parameters. A `float64` is represented by its IEEE 754 bit pattern. -/
structure FloatLib where
  /-- Go `strconv.ParseFloat(s, 64)`: the value and the error. -/
  ParseFloat : GoString → Nat × Option strconv.NumError
  /-- Go `fmt.Sprintf("%f", x)`. -/
  FormatFloat : Nat → GoString

/-- The caller-owned variables that arguments are bound to: one address space for each
Go type that a destination pointer can have. -/
structure Store where
  /-- The `int` variables. -/
  int : Nat → Int
  /-- The `uint` variables. -/
  uint : Nat → Nat
  /-- The `int64` variables. -/
  int64 : Nat → Int
  /-- The `uint64` variables. -/
  uint64 : Nat → Nat
  /-- The `float64` variables (bit patterns). -/
  float64 : Nat → Nat
  /-- The `bool` variables. -/
  bool : Nat → Bool
  /-- The `string` variables. -/
  string : Nat → GoString

/-- The assignment `*p = v` on one address space. -/
def upd {α : Type} (f : Nat → α) (p : Nat) (v : α) : Nat → α :=
  fun q => if q = p then v else f q

/-- A value of type `*bool`: a caller-owned variable, or the field
`shouldRenderHelp` of the command that owns the specification (`NewCmd` passes
`&cmd.shouldRenderHelp`). -/
inductive BoolPtr
  /-- A caller-owned `bool` variable. -/
  | var (p : Nat)
  /-- The field `&cmd.shouldRenderHelp`. -/
  | shouldRenderHelp
  deriving DecidableEq, Repr

/-- The dynamic value of the field `dest interface{}` of a `NamedArg`. -/
inductive Dest
  /-- A `*int`. -/
  | int (p : Nat)
  /-- A `*uint`. -/
  | uint (p : Nat)
  /-- A `*int64`. -/
  | int64 (p : Nat)
  /-- A `*uint64`. -/
  | uint64 (p : Nat)
  /-- A `*float64`. -/
  | float64 (p : Nat)
  /-- A `*bool`. -/
  | bool (p : BoolPtr)
  /-- A `*string`. -/
  | string (p : Nat)
  /-- A value of any other dynamic type. -/
  | other
  deriving DecidableEq, Repr

/-- Whether the type switch `switch arg.dest.(type)` takes the case `*bool`. -/
def Dest.isBool : Dest → Bool
  | .bool _ => true
  | _ => false

/-- Go `type NamedArg struct`. -/
structure NamedArg where
  /-- The canonical name. -/
  name : GoString
  /-- The short alias. -/
  short : GoString
  /-- The help text. -/
  help : GoString
  /-- The default value, as text. -/
  defValStr : GoString
  /-- The binding. -/
  dest : Dest
  /-- Whether the argument is required. -/
  required : Bool
  /-- Whether the argument was supplied in this parse cycle. -/
  set : Bool
  deriving DecidableEq, Repr

/-- Go `newNamedArg`. -/
def newNamedArg (name short help defValStr : GoString) (dest : Dest) (required : Bool) :
    NamedArg :=
  { name := name, short := short, help := help, defValStr := defValStr, dest := dest,
    required := required, set := false }

/-- The errors made by `fmt.Errorf` in package `clap`, with their operands. -/
inductive Error
  /-- The message "Unknown argument '%s'." -/
  | unknownArgument (name : GoString)
  /-- The message "Missing value for argument '%s'." -/
  | missingValue (name : GoString)
  /-- The message "Probably missing an argument name in '%s'." -/
  | missingName (argument : GoString)
  /-- The message "Unexpected argument type while parsing." -/
  | unexpectedTypeParsing
  /-- The message "Error parsing value of argument '%s'.\n%s", whose only operand is
  the text of the conversion error. -/
  | valueError (cause : strconv.NumError)
  /-- The message "Required argument '%s' not specified." -/
  | requiredNotSpecified (name : GoString)
  /-- The message "Unexpected argument type while resetting named arg '%s'." -/
  | unexpectedTypeResetting (name : GoString)
  /-- The message "Error while resetting named arg '%s' to default value.\n%s" -/
  | resetDefault (name : GoString) (cause : strconv.NumError)
  /-- The message "Unable to clear command '%s'.\n%s'" -/
  | clearCommand (name : GoString) (cause : Error)
  /-- The message "Unable to clear sub-command '%s' of command '%s'.\n%s", with the
  operands in the order of the call: `cmd.name`, `subCmd.name`. -/
  | clearSubCommand (first second : GoString) (cause : Error)
  /-- The message "Sub-command with name '%s' already registered with '%s'." -/
  | subCmdRegistered (subCmdName cmdName : GoString)
  deriving DecidableEq, Repr

/-- The lookup `m[k]` of a Go map, kept as an association list. -/
def mapGet {α : Type} : List (GoString × α) → GoString → Option α
  | [], _ => none
  | (k1, v) :: rest, k => if k1 = k then some v else mapGet rest k

/-- The assignment `m[k] = v` of a Go map. -/
def mapSet {α : Type} : List (GoString × α) → GoString → α → List (GoString × α)
  | [], k, v => [(k, v)]
  | (k1, v1) :: rest, k, v => if k1 = k then (k, v) :: rest else (k1, v1) :: mapSet rest k v

/-- Go `type Cmd struct`, with the sub-commands held by value: the command owns its
sub-commands and the commands form a tree. This is what the pointers of the Go map
`subCmds` give as long as a command is attached to one command only, is not reachable
from itself and is not used through another pointer once it is attached; commands as
objects that pointers refer to are `CmdObject` and `Heap` below. `namedArgMap` holds,
for a key, the index in `namedArgList` of the specification that the Go map points
to. -/
structure Cmd where
  /-- Command name. -/
  name : GoString
  /-- Sub-commands. -/
  subCmds : List (GoString × Cmd)
  /-- Command description. -/
  description : GoString
  /-- Mapping from arg names to args. -/
  namedArgMap : List (GoString × Nat)
  /-- List of all named args. -/
  namedArgList : List NamedArg
  /-- List of unnamed arguments to the command. -/
  argList : List GoString
  /-- Whether -h or --help was specified during parsing. -/
  shouldRenderHelp : Bool
  /-- Whether the Parse method was called successfully (never assigned after `NewCmd`). -/
  parsed : Bool

/-- The lookup `cmd.namedArgMap[name]`: the index of the specification and the
specification itself. -/
def Cmd.lookupArg (cmd : Cmd) (name : GoString) : Option (Nat × NamedArg) :=
  match mapGet cmd.namedArgMap name with
  | none => none
  | some i =>
    match cmd.namedArgList.get? i with
    | none => none
    | some arg => some (i, arg)

/-- The read `*p` of a `*bool`. -/
def readBool (cmd : Cmd) (st : Store) : BoolPtr → Bool
  | .var p => st.bool p
  | .shouldRenderHelp => cmd.shouldRenderHelp

/-- The assignment `*p = b` through a `*bool`. -/
def writeBool (cmd : Cmd) (st : Store) (p : BoolPtr) (b : Bool) : Cmd × Store :=
  match p with
  | .var q => (cmd, { st with bool := upd st.bool q b })
  | .shouldRenderHelp => ({ cmd with shouldRenderHelp := b }, st)

/-- The outcome of the type switch that converts a text and writes it through a
destination. -/
inductive Coerced
  /-- The `default:` case: the dynamic type is none of the seven pointer types. -/
  | unexpectedType
  /-- One of the seven cases ran: the state after it and the conversion error. -/
  | done (cmd : Cmd) (st : Store) (err : Option strconv.NumError)

/-- The type switch on `dest` that occurs both in `Cmd.Parse` (clap.go 340-394) and in
`NamedArg.Reset` (clap.go 43-99): convert `valStr` and write the result through the
destination. For `*int` and `*uint` the write happens only when the conversion
succeeds; for the other kinds the value returned by the conversion is written in any
case. -/
def coerce (lib : FloatLib) (cmd : Cmd) (st : Store) (dest : Dest) (valStr : GoString) :
    Coerced :=
  match dest with
  | .int p =>
    let r := strconv.ParseInt valStr 0 0
    if r.2 = none then .done cmd { st with int := upd st.int p r.1 } r.2
    else .done cmd st r.2
  | .uint p =>
    let r := strconv.ParseUint valStr 0 0
    if r.2 = none then .done cmd { st with uint := upd st.uint p r.1 } r.2
    else .done cmd st r.2
  | .int64 p =>
    let r := strconv.ParseInt valStr 0 64
    .done cmd { st with int64 := upd st.int64 p r.1 } r.2
  | .uint64 p =>
    let r := strconv.ParseUint valStr 0 64
    .done cmd { st with uint64 := upd st.uint64 p r.1 } r.2
  | .float64 p =>
    let r := lib.ParseFloat valStr
    .done cmd { st with float64 := upd st.float64 p r.1 } r.2
  | .bool p =>
    let r := strconv.ParseBool valStr
    .done (writeBool cmd st p r.1).1 (writeBool cmd st p r.1).2 r.2
  | .string p => .done cmd { st with string := upd st.string p valStr } none
  | .other => .unexpectedType

/-- The resolution of a named-argument token (clap.go 276-336). -/
inductive Resolved
  /-- The token is in error. -/
  | fail (err : Error)
  /-- The token names the specification at index `i`, with value text `valStr`;
  `consumed` tells whether the next token was taken as the value. -/
  | ok (i : Nat) (arg : NamedArg) (valStr : GoString) (consumed : Bool)

/-- The text `stripped` of a named-argument token (clap.go 276-279): the token without
its first byte, and without the next one too if that is a `-`. -/
def stripDashes (argument : GoString) : GoString :=
  let stripped := argument.drop 1
  if strings.HasPrefix stripped (str "-") then stripped.drop 1 else stripped

/-- The key and value of a named-argument token `argument`, the tokens after it being
`rest` (clap.go 276-336). -/
def resolve (cmd : Cmd) (argument : GoString) (rest : List GoString) : Resolved :=
  let stripped := stripDashes argument
  match strings.IndexByte stripped 61 with
  | none =>
    let name := stripped
    match cmd.lookupArg name with
    | none => .fail (.unknownArgument name)
    | some (i, arg) =>
      if arg.dest.isBool then
        match rest with
        | [] => .ok i arg (str "true") false
        | nextArgStr :: _ =>
          if (strconv.ParseBool nextArgStr).2 = none then .ok i arg nextArgStr true
          else .ok i arg (str "true") false
      else
        match rest with
        | [] => .fail (.missingValue name)
        | valStr :: _ => .ok i arg valStr true
  | some 0 => .fail (.missingName argument)
  | some (indexOfEqual + 1) =>
    let name := stripped.take (indexOfEqual + 1)
    let valStr := stripped.drop (indexOfEqual + 2)
    match cmd.lookupArg name with
    | none => .fail (.unknownArgument name)
    | some (i, arg) => .ok i arg valStr false

/-- The assignment `arg.set = true` through the pointer held by the map. -/
def Cmd.markSet (cmd : Cmd) (i : Nat) (arg : NamedArg) : Cmd :=
  { cmd with namedArgList := cmd.namedArgList.set i { arg with set := true } }

/-- The outcome of one iteration of the loop of `Cmd.Parse`. -/
inductive Step
  /-- The iteration returned an error; the state is the one reached. -/
  | fail (err : Error) (cmd : Cmd) (st : Store)
  /-- The iteration completed; `consumed` tells whether `i` was advanced past the
  next token as well. -/
  | next (cmd : Cmd) (st : Store) (consumed : Bool)

/-- One iteration of the loop of `Cmd.Parse` (clap.go 264-412) on the token `argument`,
the tokens after it being `rest`. -/
def step (lib : FloatLib) (cmd : Cmd) (st : Store) (argument : GoString)
    (rest : List GoString) : Step :=
  if strings.HasPrefix argument (str "-") then
    match resolve cmd argument rest with
    | .fail err => .fail err cmd st
    | .ok i arg valStr consumed =>
      match coerce lib cmd st arg.dest valStr with
      | .unexpectedType => .fail .unexpectedTypeParsing cmd st
      | .done cmd1 st1 (some e) => .fail (.valueError e) cmd1 st1
      | .done cmd1 st1 none =>
        if arg.required then .next (cmd1.markSet i arg) st1 consumed
        else .next cmd1 st1 consumed
  else .next { cmd with argList := cmd.argList ++ [argument] } st false

/-- The loop of `Cmd.Parse` (clap.go 262-413) over the tokens not yet read: the error
of the iteration that returned, if any, and the state reached. -/
def parseLoop (lib : FloatLib) : Cmd → Store → List GoString → Option Error × Cmd × Store
  | cmd, st, [] => (none, cmd, st)
  | cmd, st, [argument] =>
    match step lib cmd st argument [] with
    | .fail err cmd1 st1 => (some err, cmd1, st1)
    | .next cmd1 st1 _ => (none, cmd1, st1)
  | cmd, st, argument :: nextArg :: rest =>
    match step lib cmd st argument (nextArg :: rest) with
    | .fail err cmd1 st1 => (some err, cmd1, st1)
    | .next cmd1 st1 true => parseLoop lib cmd1 st1 rest
    | .next cmd1 st1 false => parseLoop lib cmd1 st1 (nextArg :: rest)

/-- The check of the required arguments (clap.go 416-421): the first specification, in
registration order, that is required and not set. -/
def firstMissing : List NamedArg → Option NamedArg
  | [] => none
  | arg :: rest => if arg.required ∧ arg.set = false then some arg else firstMissing rest

/-- The result of `Cmd.Parse`: the two values returned and the state left behind. -/
structure ParseResult where
  /-- The chain of command names. -/
  chain : List GoString
  /-- The error. -/
  err : Option Error
  /-- The command after the call. -/
  cmd : Cmd
  /-- The store after the call. -/
  store : Store

/-- The part of `Cmd.Parse` after the dispatch on a sub-command (clap.go 262-424). -/
def parseOwn (lib : FloatLib) (cmd : Cmd) (st : Store) (arguments : List GoString) :
    ParseResult :=
  match parseLoop lib cmd st arguments with
  | (some err, cmd1, st1) => ⟨[cmd.name], some err, cmd1, st1⟩
  | (none, cmd1, st1) =>
    if cmd1.shouldRenderHelp = false then
      match firstMissing cmd1.namedArgList with
      | some arg => ⟨[cmd.name], some (.requiredNotSpecified arg.name), cmd1, st1⟩
      | none => ⟨[cmd.name], none, cmd1, st1⟩
    else ⟨[cmd.name], none, cmd1, st1⟩

/-- Go `(cmd *Cmd) Parse(arguments []string) ([]string, error)` on a tree of commands
held by value: the sub-command that the call is passed on to is put back into the map in
the state that the call leaves. `Heap.Parse` is the same method on commands that are
objects of a heap. -/
def Cmd.Parse (lib : FloatLib) : Cmd → Store → List GoString → ParseResult
  | cmd, st, [] => parseOwn lib cmd st []
  | cmd, st, first :: rest =>
    match mapGet cmd.subCmds first with
    | some subCmd =>
      let r := Cmd.Parse lib subCmd st rest
      ⟨cmd.name :: r.chain, r.err, { cmd with subCmds := mapSet cmd.subCmds first r.cmd },
        r.store⟩
    | none => parseOwn lib cmd st (first :: rest)

/-- Go `(cmd *Cmd) Args() []Arg`. -/
def Cmd.Args (cmd : Cmd) : List GoString := cmd.argList

/-- Go `(cmd *Cmd) ShouldRenderHelp() bool`. -/
def Cmd.ShouldRenderHelp (cmd : Cmd) : Bool := cmd.shouldRenderHelp

/-- Go `(cmd *Cmd) Name() string`. -/
def Cmd.Name (cmd : Cmd) : GoString := cmd.name

/-- Go `(namedArg *NamedArg) Reset() error`, for the specification at index `i` of
`cmd.namedArgList`. -/
def NamedArg.Reset (lib : FloatLib) (cmd : Cmd) (st : Store) (i : Nat) (namedArg : NamedArg) :
    Option Error × Cmd × Store :=
  let cmd0 : Cmd :=
    { cmd with namedArgList := cmd.namedArgList.set i { namedArg with set := false } }
  if namedArg.required = false then
    match coerce lib cmd0 st namedArg.dest namedArg.defValStr with
    | .unexpectedType => (some (.unexpectedTypeResetting namedArg.name), cmd0, st)
    | .done cmd1 st1 (some e) => (some (.resetDefault namedArg.name e), cmd1, st1)
    | .done cmd1 st1 none => (none, cmd1, st1)
  else (none, cmd0, st)

/-- The first loop of `Cmd.Clear` (clap.go 434-441) over the specifications from index
`i` on. -/
def resetLoop (lib : FloatLib) : Cmd → Store → Nat → List NamedArg → Option Error × Cmd × Store
  | cmd, st, _, [] => (none, cmd, st)
  | cmd, st, i, namedArg :: rest =>
    match NamedArg.Reset lib cmd st i namedArg with
    | (some err, cmd1, st1) => (some (.clearCommand cmd.name err), cmd1, st1)
    | (none, cmd1, st1) => resetLoop lib cmd1 st1 (i + 1) rest

mutual
/-- Go `(cmd *Cmd) Clear() error`. The sub-commands are visited in the order of the
association list (Go leaves the order of a map iteration unspecified). -/
def Cmd.Clear (lib : FloatLib) : Cmd → Store → Option Error × Cmd × Store
  | ⟨name, subCmds, description, namedArgMap, namedArgList, _, shouldRenderHelp, parsed⟩, st =>
    let cmd0 : Cmd :=
      ⟨name, subCmds, description, namedArgMap, namedArgList, [], shouldRenderHelp, parsed⟩
    match resetLoop lib cmd0 st 0 namedArgList with
    | (some err, cmd1, st1) => (some err, cmd1, st1)
    | (none, cmd1, st1) =>
      match clearSubCmds lib name subCmds st1 with
      | (err, subCmds1, st2) => (err, { cmd1 with subCmds := subCmds1 }, st2)
/-- The second loop of `Cmd.Clear` (clap.go 443-451) over the sub-commands of the
command named `cmdName`. -/
def clearSubCmds (lib : FloatLib) (cmdName : GoString) :
    List (GoString × Cmd) → Store → Option Error × List (GoString × Cmd) × Store
  | [], st => (none, [], st)
  | (key, subCmd) :: rest, st =>
    match Cmd.Clear lib subCmd st with
    | (some err, subCmd1, st1) =>
      (some (.clearSubCommand cmdName subCmd.name err), (key, subCmd1) :: rest, st1)
    | (none, subCmd1, st1) =>
      match clearSubCmds lib cmdName rest st1 with
      | (err, rest1, st2) => (err, (key, subCmd1) :: rest1, st2)
end

/-- Go `(cmd *Cmd) addNamedArg`. -/
def Cmd.addNamedArg (cmd : Cmd) (name short help defValStr : GoString) (dest : Dest)
    (required : Bool) : Cmd :=
  let arg := newNamedArg name short help defValStr dest required
  let i := cmd.namedArgList.length
  { cmd with
    namedArgList := cmd.namedArgList ++ [arg]
    namedArgMap := mapSet (mapSet cmd.namedArgMap name i) short i }

/-- Go `(cmd *Cmd) AddIntArg`. -/
def Cmd.AddIntArg (cmd : Cmd) (st : Store) (name short : GoString) (dest : Nat) (dflt : Int)
    (required : Bool) (help : GoString) : Cmd × Store :=
  (cmd.addNamedArg name short help (strconv.FormatInt dflt) (.int dest) required,
    { st with int := upd st.int dest dflt })

/-- Go `(cmd *Cmd) AddInt64Arg`. -/
def Cmd.AddInt64Arg (cmd : Cmd) (st : Store) (name short : GoString) (dest : Nat) (dflt : Int)
    (required : Bool) (help : GoString) : Cmd × Store :=
  (cmd.addNamedArg name short help (strconv.FormatInt dflt) (.int64 dest) required,
    { st with int64 := upd st.int64 dest dflt })

/-- Go `(cmd *Cmd) AddUIntArg`. -/
def Cmd.AddUIntArg (cmd : Cmd) (st : Store) (name short : GoString) (dest : Nat) (dflt : Nat)
    (required : Bool) (help : GoString) : Cmd × Store :=
  (cmd.addNamedArg name short help (strconv.FormatUint dflt) (.uint dest) required,
    { st with uint := upd st.uint dest dflt })

/-- Go `(cmd *Cmd) AddUInt64Arg`. -/
def Cmd.AddUInt64Arg (cmd : Cmd) (st : Store) (name short : GoString) (dest : Nat)
    (dflt : Nat) (required : Bool) (help : GoString) : Cmd × Store :=
  (cmd.addNamedArg name short help (strconv.FormatUint dflt) (.uint64 dest) required,
    { st with uint64 := upd st.uint64 dest dflt })

/-- Go `(cmd *Cmd) AddFloat64Arg`. -/
def Cmd.AddFloat64Arg (lib : FloatLib) (cmd : Cmd) (st : Store) (name short : GoString)
    (dest : Nat) (dflt : Nat) (required : Bool) (help : GoString) : Cmd × Store :=
  (cmd.addNamedArg name short help (lib.FormatFloat dflt) (.float64 dest) required,
    { st with float64 := upd st.float64 dest dflt })

/-- Go `(cmd *Cmd) AddBoolArg`. -/
def Cmd.AddBoolArg (cmd : Cmd) (st : Store) (name short : GoString) (dest : BoolPtr)
    (dflt : Bool) (required : Bool) (help : GoString) : Cmd × Store :=
  writeBool (cmd.addNamedArg name short help (strconv.FormatBool dflt) (.bool dest) required)
    st dest dflt

/-- Go `(cmd *Cmd) AddStringArg`. -/
def Cmd.AddStringArg (cmd : Cmd) (st : Store) (name short : GoString) (dest : Nat)
    (dflt : GoString) (required : Bool) (help : GoString) : Cmd × Store :=
  (cmd.addNamedArg name short help dflt (.string dest) required,
    { st with string := upd st.string dest dflt })

/-- The store in which every variable has the zero value of its type. -/
def Store.zero : Store :=
  { int := fun _ => 0, uint := fun _ => 0, int64 := fun _ => 0, uint64 := fun _ => 0,
    float64 := fun _ => 0, bool := fun _ => false, string := fun _ => [] }

/-- Go `NewCmd(name, description)`. The call of `AddBoolArg` writes through
`&cmd.shouldRenderHelp` only, so no caller-owned variable is involved. -/
def NewCmd (name description : GoString) : Cmd :=
  let cmd : Cmd :=
    { name := name, subCmds := [], description := description, namedArgMap := [],
      namedArgList := [], argList := [], shouldRenderHelp := false, parsed := false }
  (cmd.AddBoolArg Store.zero (str "help") (str "h") .shouldRenderHelp cmd.shouldRenderHelp false
    (str "Print '" ++ name ++ str "' usage information.")).1

/-- Go `(cmd *Cmd) AddSubCmd(subCmd *Cmd) error` on a tree of commands held by value:
the map is given the sub-command in its present state. `Heap.AddSubCmd` is the same
method on commands that are objects of a heap, where the map is given the pointer. -/
def Cmd.AddSubCmd (cmd subCmd : Cmd) : Option Error × Cmd :=
  let subCmdName := subCmd.Name
  match mapGet cmd.subCmds subCmdName with
  | some _ => (some (.subCmdRegistered subCmdName cmd.name), cmd)
  | none => (none, { cmd with subCmds := mapSet cmd.subCmds subCmdName subCmd })

/-! ### The commands of `clap_test.go`

The package variables of the test are addresses of the store: `intArg` is `int` 0,
`defIntArg` is `int` 1, `intSubArg` is `int` 2, `int64Arg` is `int64` 0, `int64SubArg`
is `int64` 1, and `uintArg`, `uint64Arg`, `boolArg`, `float64Arg`, `stringArg` are
address 0 of their types. -/

/-- Go `createTestCmd` of `clap_test.go`. -/
def createTestCmd (lib : FloatLib) (st : Store) : Cmd × Store :=
  let cmd := NewCmd (str "command") (str "A test command.")
  let r := cmd.AddIntArg st (str "int") (str "i") 0 0 true (str "An int argument.")
  let r := r.1.AddIntArg r.2 (str "dint") (str "d") 1 54321 false (str "A default int argument.")
  let r := r.1.AddInt64Arg r.2 (str "int64") (str "l") 0 0 true (str "An int64 argument.")
  let r := r.1.AddUIntArg r.2 (str "uint") (str "u") 0 0 true (str "A uint argument.")
  let r := r.1.AddUInt64Arg r.2 (str "uint64") (str "x") 0 0 true (str "A uint64 argument.")
  let r := r.1.AddBoolArg r.2 (str "bool") (str "b") (.var 0) false true (str "A bool argument.")
  let r := Cmd.AddFloat64Arg lib r.1 r.2 (str "float64") (str "f") 0 0 true
    (str "A float64 argument.")
  r.1.AddStringArg r.2 (str "string") (str "s") 0 (str "empty") true (str "A string argument.")

/-- Go `addSubCmd` of `clap_test.go`. -/
def addSubCmd (cmd : Cmd) (st : Store) : Option Error × Cmd × Store :=
  let subCmd := NewCmd (str "subcmd") (str "A test sub-command.")
  let r := subCmd.AddIntArg st (str "int") (str "i") 2 0 true (str "An int argument.")
  let r := r.1.AddInt64Arg r.2 (str "int64") (str "l") 1 0 true (str "An int64 argument.")
  let a := cmd.AddSubCmd r.1
  (a.1, a.2, r.2)

end clap

namespace utf8

/-- Go `utf8.RuneError`: the replacement character U+FFFD. -/
def RuneError : Nat := 0xFFFD

/-- Go `utf8.RuneSelf`: bytes below it are single-byte runes. -/
def RuneSelf : Nat := 0x80

/-- Go `utf8.UTFMax`: the maximum number of bytes of an encoded rune. -/
def UTFMax : Nat := 4

/-- The table `first` of package `utf8` for a leading byte of a multi-byte sequence:
the length of the sequence and the range accepted for its second byte; `none` for a
byte that starts no sequence. -/
def firstInfo (s0 : Nat) : Option (Nat × Nat × Nat) :=
  if 0xC2 ≤ s0 ∧ s0 ≤ 0xDF then some (2, 0x80, 0xBF)
  else if s0 = 0xE0 then some (3, 0xA0, 0xBF)
  else if 0xE1 ≤ s0 ∧ s0 ≤ 0xEC then some (3, 0x80, 0xBF)
  else if s0 = 0xED then some (3, 0x80, 0x9F)
  else if 0xEE ≤ s0 ∧ s0 ≤ 0xEF then some (3, 0x80, 0xBF)
  else if s0 = 0xF0 then some (4, 0x90, 0xBF)
  else if 0xF1 ≤ s0 ∧ s0 ≤ 0xF3 then some (4, 0x80, 0xBF)
  else if s0 = 0xF4 then some (4, 0x80, 0x8F)
  else none

/-- Go `utf8.DecodeRuneInString`: the first rune of `s` and its width in bytes; an
invalid encoding gives `(RuneError, 1)`. This is also the decoding done by a `range`
loop over a string. The masks and shifts of the Go code are written with `%` and
`*`. -/
def DecodeRune (s : GoString) : Nat × Nat :=
  match s with
  | [] => (RuneError, 0)
  | s0 :: t =>
    if s0 < RuneSelf then (s0, 1)
    else
      match firstInfo s0 with
      | none => (RuneError, 1)
      | some (sz, lo, hi) =>
        if s.length < sz then (RuneError, 1)
        else
          match t with
          | [] => (RuneError, 1)
          | s1 :: t1 =>
            if s1 < lo ∨ hi < s1 then (RuneError, 1)
            else if sz ≤ 2 then (s0 % 32 * 64 + s1 % 64, 2)
            else
              match t1 with
              | [] => (RuneError, 1)
              | s2 :: t2 =>
                if s2 < 0x80 ∨ 0xBF < s2 then (RuneError, 1)
                else if sz ≤ 3 then (s0 % 16 * 4096 + s1 % 64 * 64 + s2 % 64, 3)
                else
                  match t2 with
                  | [] => (RuneError, 1)
                  | s3 :: _ =>
                    if s3 < 0x80 ∨ 0xBF < s3 then (RuneError, 1)
                    else (s0 % 8 * 262144 + s1 % 64 * 4096 + s2 % 64 * 64 + s3 % 64, 4)

/-- Go `utf8.RuneStart`: the byte is not a continuation byte. -/
def RuneStart (b : Nat) : Bool := b / 64 % 4 != 2

/-- The loop of `DecodeLastRuneInString` that walks back from `start` to a byte that
can start a rune, not below `lim`. -/
def backToStart (s : GoString) (lim : Int) : Nat → Int → Int
  | 0, start => start
  | fuel + 1, start =>
    if start ≥ lim then
      if RuneStart (s.getD start.toNat 0) then start else backToStart s lim fuel (start - 1)
    else start

/-- Go `utf8.DecodeLastRuneInString`: the last rune of `s` and its width. -/
def DecodeLastRune (s : GoString) : Nat × Nat :=
  let e := s.length
  if e = 0 then (RuneError, 0)
  else
    let r := s.getD (e - 1) 0
    if r < RuneSelf then (r, 1)
    else
      let lim : Int := if (e : Int) - UTFMax < 0 then 0 else (e : Int) - UTFMax
      let start0 := backToStart s lim UTFMax ((e : Int) - 2)
      let start := if start0 < 0 then 0 else start0.toNat
      let d := DecodeRune (s.drop start)
      if start + d.2 ≠ e then (RuneError, 1) else d

end utf8

namespace unicode

/-- Go `unicode.IsSpace`: the characters with the Unicode property White_Space. -/
def IsSpace (r : Nat) : Bool :=
  if r ≤ 0xFF then
    r = 9 ∨ r = 10 ∨ r = 11 ∨ r = 12 ∨ r = 13 ∨ r = 32 ∨ r = 0x85 ∨ r = 0xA0
  else
    r = 0x1680 ∨ (0x2000 ≤ r ∧ r ≤ 0x200A) ∨ r = 0x2028 ∨ r = 0x2029 ∨ r = 0x202F ∨
      r = 0x205F ∨ r = 0x3000

end unicode

namespace strings

/-- Go `strings.indexFunc`: the index of the first rune `r` of `s` with
`f(r) == truth`. The runes are visited as by a `range` loop: the list is walked byte by
byte, `skip` counts the bytes of the current rune that remain to be passed, `i` is the
index of the byte at the head. -/
def indexFunc (f : Nat → Bool) (truth : Bool) : GoString → Nat → Nat → Option Nat
  | [], _, _ => none
  | _ :: rest, skip + 1, i => indexFunc f truth rest skip (i + 1)
  | b :: rest, 0, i =>
    if f (utf8.DecodeRune (b :: rest)).1 = truth then some i
    else indexFunc f truth rest ((utf8.DecodeRune (b :: rest)).2 - 1) (i + 1)

/-- Go `strings.lastIndexFunc`, from the index `i` down; `none` stands for -1. -/
def lastIndexFunc (f : Nat → Bool) (truth : Bool) (s : GoString) : Nat → Nat → Option Nat
  | 0, _ => none
  | fuel + 1, i =>
    if i > 0 then
      let d := utf8.DecodeLastRune (s.take i)
      if f d.1 = truth then some (i - d.2) else lastIndexFunc f truth s fuel (i - d.2)
    else none

/-- Go `strings.TrimLeftFunc`. -/
def TrimLeftFunc (s : GoString) (f : Nat → Bool) : GoString :=
  match indexFunc f false s 0 0 with
  | none => []
  | some i => s.drop i

/-- Go `strings.TrimRightFunc`. -/
def TrimRightFunc (s : GoString) (f : Nat → Bool) : GoString :=
  match lastIndexFunc f false s s.length s.length with
  | some i =>
    if s.getD i 0 ≥ utf8.RuneSelf then s.take (i + (utf8.DecodeRune (s.drop i)).2)
    else s.take (i + 1)
  | none => s.take 0

/-- Go `strings.TrimFunc`. -/
def TrimFunc (s : GoString) (f : Nat → Bool) : GoString :=
  TrimRightFunc (TrimLeftFunc s f) f

/-- Go `strings.TrimSpace`: `TrimFunc(s, unicode.IsSpace)` (the library adds a fast path
for ASCII text with the same result). -/
def TrimSpace (s : GoString) : GoString := TrimFunc s unicode.IsSpace

end strings

namespace cli

/-- What a call of `parseCmdStr` does: it returns a token list and no error, or no token
and the error "Invalid command syntax.", or it stops on an index out of range. -/
inductive Outcome
  /-- The return `args, nil`. -/
  | tokens (args : List GoString)
  /-- The return `nil, fmt.Errorf("Invalid command syntax.")`. -/
  | syntaxError
  /-- A run-time panic of an index expression. -/
  | indexOutOfRange
  deriving DecidableEq, Repr

/-- The local variables of `parseCmdStr` that the loop updates. The slice `current` is
`nil` exactly when it is empty (it is only ever set to `nil`, appended to, or
overwritten in place), so it is kept as a list. -/
structure LoopState where
  /-- The bytes of the token being accumulated. -/
  current : List Nat
  /-- The tokens found so far. -/
  args : List GoString
  /-- Whether the loop is in the midst of a quoted span. -/
  parsingQuotedArg : Bool
  /-- Whether a backslash was parsed immediately before and already consumed. -/
  doubleBackSlash : Bool
  deriving DecidableEq, Repr

/-- The assignment `current[len(current) - 1] = b`; `none` when the slice is empty. -/
def setLast (current : List Nat) (b : Nat) : Option (List Nat) :=
  if current = [] then none else some (current.dropLast ++ [b])

/-- The body of the loop of `parseCmdStr` (cli.go 167-201) for the rune `char` at index
`i`; `prev` is the byte `cmdStr[i - 1]`, `none` when `i` is 0. The conversion
`byte(char)` keeps the low eight bits. The result is `none` when an index expression
panics. -/
def body (prev : Option Nat) (char : Nat) (s : LoopState) : Option LoopState :=
  if s.parsingQuotedArg then
    if char = 34 then
      match prev with
      | none => none
      | some p =>
        if p = 92 ∧ s.doubleBackSlash = false then
          match setLast s.current (char % 256) with
          | none => none
          | some c => some { s with current := c }
        else
          some { current := [], args := s.args ++ [s.current], parsingQuotedArg := false,
                 doubleBackSlash := false }
    else if char = 92 then
      match prev with
      | none => none
      | some p =>
        if p = 92 ∧ s.doubleBackSlash = false then
          match setLast s.current (char % 256) with
          | none => none
          | some c => some { s with current := c, doubleBackSlash := true }
        else some { s with current := s.current ++ [char % 256], doubleBackSlash := false }
    else some { s with current := s.current ++ [char % 256], doubleBackSlash := false }
  else
    if char = 34 then some { s with parsingQuotedArg := true }
    else if unicode.IsSpace char then
      if s.current ≠ [] then some { s with args := s.args ++ [s.current], current := [] }
      else some s
    else some { s with current := s.current ++ [char % 256] }

/-- The loop `for i, char := range cmdStr` of `parseCmdStr`, walked byte by byte: `skip`
counts the bytes of the current rune that remain to be passed, `prev` is the byte before
the head. -/
def loop : GoString → Nat → Option Nat → LoopState → Option LoopState
  | [], _, _, s => some s
  | b :: rest, skip + 1, _, s => loop rest skip (some b) s
  | b :: rest, 0, prev, s =>
    match body prev (utf8.DecodeRune (b :: rest)).1 s with
    | none => none
    | some s1 => loop rest ((utf8.DecodeRune (b :: rest)).2 - 1) (some b) s1

/-- Go `parseCmdStr(input string) ([]string, error)` (cli.go 161-213). -/
def parseCmdStr (input : GoString) : Outcome :=
  let cmdStr := strings.TrimSpace input
  match loop cmdStr 0 none
      { current := [], args := [], parsingQuotedArg := false, doubleBackSlash := false } with
  | none => .indexOutOfRange
  | some s =>
    let args := if s.current.length ≠ 0 then s.args ++ [s.current] else s.args
    if s.parsingQuotedArg then .syntaxError else .tokens args

/-- A byte that white space can consist of: an ASCII white space character, or a byte
that is not ASCII. -/
def SpaceByte (b : Nat) : Prop := unicode.IsSpace b = true ∨ 128 ≤ b

/-- The maximal runs of non-whitespace bytes of a line, in order: the line is split at
every whitespace byte and the empty pieces are left out. -/
def fields (line : GoString) : List GoString :=
  (line.splitOnP unicode.IsSpace).filter (fun t => !t.isEmpty)

end cli

/-- Go `io.ByteReader` as these packages use it: `data` is the sequence of bytes that the
calls of `ReadByte` deliver, one per call, and `err` is the text of the error that
`ReadByte` returns once they are exhausted. A reader that fails in mid-stream is a reader
whose data ends there. -/
structure ByteReader where
  /-- The bytes not yet read. -/
  data : List Nat
  /-- The text of the error returned at the end of the data. -/
  err : GoString
  deriving DecidableEq, Repr

/-- Go `bytes.NewReader(b)`: `ReadByte` returns `io.EOF` at the end of the slice. -/
def bytesNewReader (b : List Nat) : ByteReader := ⟨b, str "EOF"⟩

namespace leb128

/-- The errors returned by the package. -/
inductive Error
  /-- Go `fmt.Errorf("Error reading signed LEB128.\n%s", err.Error())`. -/
  | readingSigned (text : GoString)
  /-- Go `fmt.Errorf("Error reading unsigned LEB128.\n%s", err.Error())`. -/
  | readingUnsigned (text : GoString)
  /-- The error of the reader, returned as it is. -/
  | reader (text : GoString)
  /-- Go `fmt.Errorf("Cannot encode value into an LEB128 number.")`. -/
  | cannotEncode
  deriving DecidableEq, Repr

/-- The shift `x << shift` of a `uint64`: the bits moved to position 64 and above are
lost, and a shift count of 64 or more gives 0. -/
def shl64 (x shift : Nat) : Nat := if shift < 64 then (x <<< shift) % 2 ^ 64 else 0

/-- The width of the Go type `uint`, which depends on the platform the package is built
for: 32 bits (as on 386 or arm) or 64 bits (as on amd64 or arm64). -/
inductive UintSize
  /-- A platform on which `uint` has 32 bits. -/
  | bits32
  /-- A platform on which `uint` has 64 bits. -/
  | bits64
  deriving DecidableEq, Repr

/-- The number of bits of `uint`. -/
def UintSize.bits : UintSize → Nat
  | .bits32 => 32
  | .bits64 => 64

/-- The statement `shift += 7` on the variable `shift` of type `uint`: the sum wraps
around at `2 ^ 32` or `2 ^ 64`, according to the width `w` of `uint`. -/
def addShift (w : UintSize) (shift : Nat) : Nat := (shift + 7) % 2 ^ w.bits

/-- The loop of `ReadSigned` (leb128.go 33-47) and the statements after it, on the bytes
`data` not yet read, with the current values of `res` and `shift`: the two values
returned and the bytes left in the reader. -/
def readSignedLoop (err : GoString) (w : UintSize) :
    List Nat → Nat → Nat → (Int × Option Error) × ByteReader
  | [], _, _ => ((0, some (.readingSigned err)), ⟨[], err⟩)
  | b :: rest, res, shift =>
    let res1 := res ||| shl64 (b &&& 0x7f) shift
    let shift1 := addShift w shift
    if 0x80 &&& b = 0 then
      let res2 :=
        if shift1 < 64 ∧ b &&& 0x40 ≠ 0 then res1 ||| shl64 0xFFFFFFFFFFFFFFFF shift1
        else res1
      ((strconv.toInt64 res2, none), ⟨rest, err⟩)
    else readSignedLoop err w rest res1 shift1

/-- Go `ReadSigned(r io.ByteReader) (int64, error)`, with the reader left behind. -/
def ReadSigned (w : UintSize) (r : ByteReader) : (Int × Option Error) × ByteReader :=
  readSignedLoop r.err w r.data 0 0

/-- The loop of `ReadUnsigned` (leb128.go 60-73). -/
def readUnsignedLoop (err : GoString) (w : UintSize) :
    List Nat → Nat → Nat → (Nat × Option Error) × ByteReader
  | [], _, _ => ((0, some (.readingUnsigned err)), ⟨[], err⟩)
  | b :: rest, res, shift =>
    let res1 := res ||| shl64 (b &&& 0x7f) shift
    if 0x80 &&& b = 0 then ((res1, none), ⟨rest, err⟩)
    else readUnsignedLoop err w rest res1 (addShift w shift)

/-- Go `ReadUnsigned(r io.ByteReader) (uint64, error)`, with the reader left behind. -/
def ReadUnsigned (w : UintSize) (r : ByteReader) : (Nat × Option Error) × ByteReader :=
  readUnsignedLoop r.err w r.data 0 0

/-- The loop of `Read` (leb128.go 81-92); `n` holds the bytes appended so far. On an
error of the reader the result is `LEB128(nil)`. -/
def readLoop (err : GoString) : List Nat → List Nat → (List Nat × Option Error) × ByteReader
  | [], _ => (([], some (.reader err)), ⟨[], err⟩)
  | b :: rest, n =>
    if b &&& 0x80 = 0 then ((n ++ [b], none), ⟨rest, err⟩)
    else readLoop err rest (n ++ [b])

/-- Go `Read(r io.ByteReader) (LEB128, error)`, with the reader left behind. -/
def Read (r : ByteReader) : (List Nat × Option Error) × ByteReader :=
  readLoop r.err r.data []

/-- Go `(n LEB128) AsSigned() (int64, error)`. -/
def AsSigned (w : UintSize) (n : List Nat) : Int × Option Error :=
  (ReadSigned w (bytesNewReader n)).1

/-- Go `(n LEB128) AsUnsigned() (uint64, error)`. -/
def AsUnsigned (w : UintSize) (n : List Nat) : Nat × Option Error :=
  (ReadUnsigned w (bytesNewReader n)).1

/-- The dynamic type and the value of the argument `v interface{}` of `Encode`. -/
inductive Arg
  /-- An `int8`. -/
  | int8 (v : Int)
  /-- A `uint8`. -/
  | uint8 (v : Nat)
  /-- An `int16`. -/
  | int16 (v : Int)
  /-- A `uint16`. -/
  | uint16 (v : Nat)
  /-- An `int32`. -/
  | int32 (v : Int)
  /-- A `uint32`. -/
  | uint32 (v : Nat)
  /-- An `int64`. -/
  | int64 (v : Int)
  /-- A `uint64`. -/
  | uint64 (v : Nat)
  /-- A value of any other type. -/
  | other
  deriving DecidableEq, Repr

/-- The conversion `uint64(int64(v))` of a signed value. -/
def toUint64 (v : Int) : Nat := (v % 2 ^ 64).toNat

/-- The loop of `Encode` (leb128.go 146-159) with `remaining` iterations to go: the
counter `k` is `n - remaining + 1`, and the result is the list of the bytes appended to
`out` from this iteration on. -/
def encodeLoop (n : Nat) (s : Bool) : Nat → Nat → List Nat
  | 0, _ => []
  | remaining + 1, valU64 =>
    let k := n - remaining
    let b := valU64 &&& 0x7F
    let b := if k ≠ n then b ||| 0x80 else b
    let b := if k = 10 ∧ s = true ∧ b = 1 then b ||| 0x7F else b
    b :: encodeLoop n s remaining (valU64 >>> 7)

/-- Go `Encode(v interface{}) (LEB128, error)`. -/
def Encode : Arg → List Nat × Option Error
  | .int8 v => (encodeLoop 2 true 2 (toUint64 v), none)
  | .uint8 v => (encodeLoop 2 false 2 (v % 2 ^ 64), none)
  | .int16 v => (encodeLoop 3 true 3 (toUint64 v), none)
  | .uint16 v => (encodeLoop 3 false 3 (v % 2 ^ 64), none)
  | .int32 v => (encodeLoop 5 true 5 (toUint64 v), none)
  | .uint32 v => (encodeLoop 5 false 5 (v % 2 ^ 64), none)
  | .int64 v => (encodeLoop 10 true 10 (toUint64 v), none)
  | .uint64 v => (encodeLoop 10 false 10 (v % 2 ^ 64), none)
  | .other => ([], some .cannotEncode)

/-- The number that the low seven bits of the bytes denote, the first byte holding the
least significant group: the sum over `i` of `(b_i mod 128) * 2 ^ (7 * i)`. -/
def groupSum (bs : List Nat) : Nat :=
  ((List.range bs.length).map (fun i => bs.getD i 0 % 128 * 2 ^ (7 * i))).sum

/-- The value of the two's-complement number of `bits` bits whose bit pattern is the low
`bits` bits of `u`. -/
def twosComplement (bits u : Nat) : Int :=
  if u % 2 ^ bits < 2 ^ (bits - 1) then ((u % 2 ^ bits : Nat) : Int)
  else ((u % 2 ^ bits : Nat) : Int) - 2 ^ bits

/-- A number of bytes at which the counter `shift` of the readers has wrapped around
when `uint` has 64 bits: `7 * wrapLength` is `2 ^ 64 + 5`. -/
def wrapLength : Nat := 2635249153387078803

/-- A number of bytes at which the counter `shift` of the readers has wrapped around
when `uint` has 32 bits: `7 * wrapLength32` is `2 ^ 32 + 3`. -/
def wrapLength32 : Nat := 613566757

end leb128

namespace ucon

/-- Modelled from the spec: the constant `ASCIINull` of the package `guts/ucon`, which
`ruts` imports and which is not part of the sources; the delimiter of a C string is the
byte 0. -/
def ASCIINull : Nat := 0

end ucon

namespace ruts

/-- The loop of `ReadUntil` (ruts.go 33-43); `s` holds the bytes appended so far. -/
def readUntilLoop (err : GoString) (delim : Nat) :
    List Nat → List Nat → (List Nat × Option GoString) × ByteReader
  | [], _ => (([], some err), ⟨[], err⟩)
  | c :: rest, s =>
    if c = delim then ((s, none), ⟨rest, err⟩)
    else readUntilLoop err delim rest (s ++ [c])

/-- Go `ReadUntil(r io.ByteReader, delim byte) ([]byte, error)`, with the reader left
behind. -/
def ReadUntil (r : ByteReader) (delim : Nat) : (List Nat × Option GoString) × ByteReader :=
  readUntilLoop r.err delim r.data []

/-- The loop of `ReadBytes` (ruts.go 53-64). -/
def readBytesLoop (err : GoString) (delim : Nat) :
    List Nat → List Nat → (List Nat × Option GoString) × ByteReader
  | [], _ => (([], some err), ⟨[], err⟩)
  | c :: rest, s =>
    if c = delim then ((s ++ [c], none), ⟨rest, err⟩)
    else readBytesLoop err delim rest (s ++ [c])

/-- Go `ReadBytes(r io.ByteReader, delim byte) ([]byte, error)`, with the reader left
behind. -/
def ReadBytes (r : ByteReader) (delim : Nat) : (List Nat × Option GoString) × ByteReader :=
  readBytesLoop r.err delim r.data []

/-- Go `ReadCString(r io.ByteReader) (string, error)`: the conversion `string(b)` keeps
the bytes. -/
def ReadCString (r : ByteReader) : (GoString × Option GoString) × ByteReader :=
  ReadUntil r ucon.ASCIINull

end ruts

namespace xml

/-- Go `xml.Name`. -/
structure Name where
  /-- The name space. -/
  Space : GoString
  /-- The local name. -/
  Local : GoString
  deriving DecidableEq, Repr

/-- Go `xml.Attr`. -/
structure Attr where
  /-- The name of the attribute. -/
  Name : Name
  /-- The value of the attribute. -/
  Value : GoString
  deriving DecidableEq, Repr

/-- A Go `[]byte` value: a view of the first `len` bytes of the array `array`. Copying
the value (an assignment, a conversion such as `Comment(t.(xml.Comment))`, storing it in
an interface) copies the view, not the bytes. The nil slice is `⟨0, 0⟩`. -/
structure ByteSlice where
  /-- The array that the slice points into. -/
  array : Nat
  /-- The length of the slice. -/
  len : Nat
  deriving DecidableEq, Repr

/-- The contents of the byte arrays, by array. -/
abbrev Memory := Nat → List Nat

/-- The bytes `b` are stored at the start of the array `a`; the bytes of the array beyond
them stay as they are. -/
def Memory.write (m : Memory) (a : Nat) (b : List Nat) : Memory :=
  fun i => if i = a then b ++ (m i).drop b.length else m i

/-- The bytes that a slice shows when the memory is `m`. -/
def ByteSlice.bytes (m : Memory) (s : ByteSlice) : List Nat :=
  (m s.array).take s.len

/-- Go `xml.Token`: the values that `(*xml.Decoder).Token` returns with a nil error.
Names, attribute values and the target of a processing instruction are Go strings
(immutable); `CharData`, `Comment`, `Directive` and the field `Inst` of a `ProcInst` are
byte slices. -/
inductive Token
  /-- Go `xml.StartElement`. -/
  | StartElement (name : Name) (attr : List Attr)
  /-- Go `xml.EndElement`. -/
  | EndElement (name : Name)
  /-- Go `xml.CharData`. -/
  | CharData (b : ByteSlice)
  /-- Go `xml.Comment`. -/
  | Comment (b : ByteSlice)
  /-- Go `xml.Directive`. -/
  | Directive (b : ByteSlice)
  /-- Go `xml.ProcInst`. -/
  | ProcInst (target : GoString) (inst : ByteSlice)
  deriving DecidableEq, Repr

/-- A store of bytes that a call of `(*xml.Decoder).Token` makes: `bytes` are put at the
start of the array `array`. -/
structure Write where
  /-- The array written to. -/
  array : Nat
  /-- The bytes stored from offset 0. -/
  bytes : GoString
  deriving DecidableEq, Repr

/-- A call of `(*xml.Decoder).Token` that returns a token: the stores that the call
makes, in order, and the token that it returns. -/
structure Step where
  /-- The stores of the call. -/
  writes : List Write
  /-- The token returned. -/
  token : Token
  deriving DecidableEq, Repr

/-- The memory after the stores `ws`. -/
def Memory.writeAll (m : Memory) (ws : List Write) : Memory :=
  ws.foldl (fun m1 w => m1.write w.array w.bytes) m

/-- Go `*xml.Decoder` as `xet` sees it: the calls of `Token` that will return a token,
and the contents of the byte arrays. The decoder accumulates names, text, comments,
directives and instructions in its buffer `d.buf` (a `bytes.Buffer`), which it resets
before each of them (`d.buf.Reset()` in `name`, `text` and `rawToken`), so that each is
stored from the start of the same array; the byte slices of the tokens are
`d.buf.Bytes()`, views of that array ("Slices of bytes in the returned token data refer
to the parser's internal buffer and remain valid only until the next call to Token. To
acquire a copy of the bytes, call CopyToken"). -/
structure Decoder where
  /-- The calls of `Token` to come that return a token. -/
  steps : List Step
  /-- The contents of the byte arrays. -/
  mem : Memory

/-- Go `(*xml.Decoder).Token`: the token of the next step, after its stores; at the end
of the steps a nil token (with an error: `io.EOF` or a syntax error). -/
def Decoder.Token (d : Decoder) : Option Token × Decoder :=
  match d.steps with
  | [] => (none, d)
  | s :: rest => (some s.token, ⟨rest, d.mem.writeAll s.writes⟩)

end xml

namespace xet

/-- Go `type NodeType uint8`. -/
abbrev NodeType := Nat

/-- Go `TypeElement = NodeType(1)`. -/
def TypeElement : NodeType := 1

/-- Go `TypeComment = NodeType(2)`. -/
def TypeComment : NodeType := 2

/-- Go `TypeDirective = NodeType(3)`. -/
def TypeDirective : NodeType := 3

/-- Go `TypeProcInst = NodeType(4)`. -/
def TypeProcInst : NodeType := 4

mutual
/-- Go `type Node struct`. -/
inductive Node
  /-- The fields `Name`, `Attr`, `CharData` and `Children`. -/
  | mk (Name : xml.Name) (Attr : List xml.Attr) (CharData : xml.ByteSlice)
      (Children : List TreeNode)
/-- The values of the interface `TreeNode` that the package makes: a `*Node` (a pointer,
`none` when nil), a `Comment`, a `Directive` or a `ProcInst`. -/
inductive TreeNode
  /-- A `*Node`. -/
  | element (e : Option Node)
  /-- A `Comment`: the slice of the token. -/
  | comment (c : xml.ByteSlice)
  /-- A `Directive`: the slice of the token. -/
  | directive (d : xml.ByteSlice)
  /-- A `ProcInst`: the target and the slice of the token. -/
  | procInst (target : GoString) (inst : xml.ByteSlice)
end

/-- The field `Name`. -/
def Node.Name : Node → xml.Name
  | .mk name _ _ _ => name

/-- The field `Attr`. -/
def Node.Attr : Node → List xml.Attr
  | .mk _ attr _ _ => attr

/-- The field `CharData`. -/
def Node.CharData : Node → xml.ByteSlice
  | .mk _ _ charData _ => charData

/-- The field `Children`. -/
def Node.Children : Node → List TreeNode
  | .mk _ _ _ children => children

/-- The methods `Type()` of `*Node`, `Comment`, `Directive` and `ProcInst`. -/
def TreeNode.Type : TreeNode → NodeType
  | .element _ => TypeElement
  | .comment _ => TypeComment
  | .directive _ => TypeDirective
  | .procInst _ _ => TypeProcInst

/-- The assignment `p.CharData = b`. -/
def Node.setCharData : Node → xml.ByteSlice → Node
  | .mk name attr _ children, b => .mk name attr b children

/-- The assignment `p.Children = append(p.Children, c)`. -/
def Node.appendChild : Node → TreeNode → Node
  | .mk name attr charData children, c => .mk name attr charData (children ++ [c])

/-- Go `new(Node)` with the assignments `e.Name = se.Name` and `e.Attr = se.Attr`: the
character data is the nil slice and there are no children. -/
def newNode (name : xml.Name) (attr : List xml.Attr) : Node :=
  .mk name attr ⟨0, 0⟩ []

/-- What a call of `readInternal` or `Read` does. -/
inductive Outcome
  /-- The return `p, nil`, with the decoder as the call leaves it. -/
  | ok (p : Option Node) (d : xml.Decoder)
  /-- A run-time panic: a field of `p` is used while `p` is nil. -/
  | nilDereference

/-- Go `readInternal(d *xml.Decoder, p *Node) (*Node, error)` (xet.go 76-120). Each
iteration calls `d.Token()`; on a nil token (which comes with an error, `io.EOF` or a
syntax error) the loop breaks. The decoder returns a nil token with every error, so the
statement `return nil, err` is not reached. The slices of the tokens are stored in the
nodes as they are: the code does not copy the bytes. The first argument bounds the
number of iterations and nested calls; the result is `none` when it is used up. -/
def readInternal : Nat → xml.Decoder → Option Node → Option Outcome
  | 0, _, _ => none
  | fuel + 1, d, p =>
    match d.Token with
    | (none, d1) => some (.ok p d1)
    | (some (.StartElement name attr), d1) =>
      match readInternal fuel d1 (some (newNode name attr)) with
      | none => none
      | some .nilDereference => some .nilDereference
      | some (.ok e d2) =>
        match p with
        | none => readInternal fuel d2 e
        | some q => readInternal fuel d2 (some (q.appendChild (.element e)))
    | (some (.EndElement _), d1) => some (.ok p d1)
    | (some (.CharData b), d1) =>
      match p with
      | none => some .nilDereference
      | some q => readInternal fuel d1 (some (q.setCharData b))
    | (some (.Comment b), d1) =>
      match p with
      | none => some .nilDereference
      | some q => readInternal fuel d1 (some (q.appendChild (.comment b)))
    | (some (.Directive b), d1) =>
      match p with
      | none => some .nilDereference
      | some q => readInternal fuel d1 (some (q.appendChild (.directive b)))
    | (some (.ProcInst target inst), d1) =>
      match p with
      | none => some .nilDereference
      | some q => readInternal fuel d1 (some (q.appendChild (.procInst target inst)))

/-- Go `Read(r io.Reader) (*Node, error)`, on the decoder that `xml.NewDecoder` makes
from `r`, which is not nil. The bound on the iterations is the number of steps of the
decoder plus one, which is never used up. -/
def Read (d : xml.Decoder) : Option Outcome :=
  readInternal (d.steps.length + 1) d none

mutual
/-- An element of a document: its name, its attributes and its content. -/
inductive Element
  /-- The start tag `name attr`, the content, and the matching end tag. -/
  | mk (name : xml.Name) (attr : List xml.Attr) (content : List Content)
/-- An item of the content of an element. -/
inductive Content
  /-- A child element. -/
  | element (e : Element)
  /-- Character data. -/
  | text (b : GoString)
  /-- A comment. -/
  | comment (c : GoString)
  /-- A directive. -/
  | directive (d : GoString)
  /-- A processing instruction. -/
  | procInst (target inst : GoString)
end

/-- The stores that the decoder makes for the attributes of a start tag: for each
attribute the name (`d.nsname()`), then the value (`d.attrval()`, which reads it with
`d.text`). -/
def attrWrites (buf : Nat) : List xml.Attr → List xml.Write
  | [] => []
  | a :: rest => ⟨buf, a.Name.Local⟩ :: ⟨buf, a.Value⟩ :: attrWrites buf rest

mutual
/-- The calls of `Token` on a well-nested element: start tag, content, matching end tag.
`buf` is the array of the buffer `d.buf`. For a start tag the decoder stores the name,
then the names and values of the attributes; for an end tag the name. The stores are
those of `encoding/xml` on a document whose names have no prefix, whose text has no
entity, carriage return or `CDATA` section, whose directives hold no comment, and where
no store exceeds the 64 bytes that a `bytes.Buffer` allocates at first (beyond its
capacity the buffer moves to a new array). -/
def Element.steps (buf : Nat) : Element → List xml.Step
  | .mk name attr content =>
    ⟨⟨buf, name.Local⟩ :: attrWrites buf attr, .StartElement name attr⟩ ::
      (Content.stepsOfList buf content ++ [⟨[⟨buf, name.Local⟩], .EndElement name⟩])
/-- The calls of `Token` on the content of an element, in document order. Text is stored
as it is and the token is the buffer in full; a comment is stored with its terminator
`-->` and the token is the buffer without the last 3 bytes; a directive is stored as it
is; for a processing instruction the target is stored, then the instruction with its
terminator `?>`, and the token is the buffer without the last 2 bytes. -/
def Content.stepsOfList (buf : Nat) : List Content → List xml.Step
  | [] => []
  | .element e :: rest => e.steps buf ++ Content.stepsOfList buf rest
  | .text b :: rest =>
    ⟨[⟨buf, b⟩], .CharData ⟨buf, b.length⟩⟩ :: Content.stepsOfList buf rest
  | .comment c :: rest =>
    ⟨[⟨buf, c ++ str "-->"⟩], .Comment ⟨buf, c.length⟩⟩ :: Content.stepsOfList buf rest
  | .directive d :: rest =>
    ⟨[⟨buf, d⟩], .Directive ⟨buf, d.length⟩⟩ :: Content.stepsOfList buf rest
  | .procInst target inst :: rest =>
    ⟨[⟨buf, target⟩, ⟨buf, inst ++ str "?>"⟩], .ProcInst target ⟨buf, inst.length⟩⟩ ::
      Content.stepsOfList buf rest
end

/-- The decoder that `xml.NewDecoder` makes from a document that consists of the element
`e` and nothing else, with the buffer in the array `buf` and the memory `mem`. -/
def Element.decoder (buf : Nat) (mem : xml.Memory) (e : Element) : xml.Decoder :=
  ⟨e.steps buf, mem⟩

/-- The stores of a list of steps, in order. -/
def stepWrites (steps : List xml.Step) : List xml.Write :=
  (steps.map (fun s => s.writes)).flatten

/-- The slice that a node holds as character data after the content: that of the last
text item, or `dflt` if there is none. -/
def Content.lastText (buf : Nat) (dflt : xml.ByteSlice) : List Content → xml.ByteSlice
  | [] => dflt
  | .text b :: rest => Content.lastText buf ⟨buf, b.length⟩ rest
  | _ :: rest => Content.lastText buf dflt rest

mutual
/-- The node of an element: its name and attributes, and as children, in document order,
the nodes of its child elements together with its comments, directives and processing
instructions, each of these as the slice of its token. -/
def Element.node (buf : Nat) : Element → Node
  | .mk name attr content =>
    .mk name attr (Content.lastText buf ⟨0, 0⟩ content) (Content.children buf content)
/-- The children that the content of an element gives. -/
def Content.children (buf : Nat) : List Content → List TreeNode
  | [] => []
  | .element e :: rest => .element (some (e.node buf)) :: Content.children buf rest
  | .text _ :: rest => Content.children buf rest
  | .comment c :: rest => .comment ⟨buf, c.length⟩ :: Content.children buf rest
  | .directive d :: rest => .directive ⟨buf, d.length⟩ :: Content.children buf rest
  | .procInst target inst :: rest =>
    .procInst target ⟨buf, inst.length⟩ :: Content.children buf rest
end

/-- The memory when the decoder of the element `e` has delivered all its tokens. -/
def Element.memory (buf : Nat) (mem : xml.Memory) (e : Element) : xml.Memory :=
  mem.writeAll (stepWrites (e.steps buf))

/-- The bytes that the comments among the children of a node show when the memory is
`m`, in order. -/
def commentBytes (m : xml.Memory) : List TreeNode → List GoString
  | [] => []
  | .comment c :: rest => c.bytes m :: commentBytes m rest
  | _ :: rest => commentBytes m rest

/-- Modelled from the spec: the document that `TestRead` reads (`test_data/simple.xml`
is not part of the sources), a root `phonebook` with the attribute `user` = `sivachandra`
and three elements `contact`; white space is put between the elements. -/
def phonebook : Element :=
  .mk ⟨[], str "phonebook"⟩ [⟨⟨[], str "user"⟩, str "sivachandra"⟩]
    [.text (str "\n  "),
     .element (.mk ⟨[], str "contact"⟩ [] [.element (.mk ⟨[], str "name"⟩ [] [.text (str "A")])]),
     .text (str "\n  "),
     .element (.mk ⟨[], str "contact"⟩ [] [.text (str "B")]),
     .text (str "\n  "),
     .element (.mk ⟨[], str "contact"⟩ [] []),
     .text (str "\n")]

/-- The document `<a><!--hello--></a>`. -/
def commentDocument : Element :=
  .mk ⟨[], str "a"⟩ [] [.comment (str "hello")]

/-- The document `<a>hello</a>`. -/
def textDocument : Element :=
  .mk ⟨[], str "a"⟩ [] [.text (str "hello")]

/-- The document `<a><!--one--><!--two--></a>`. -/
def twoCommentsDocument : Element :=
  .mk ⟨[], str "a"⟩ [] [.comment (str "one"), .comment (str "two")]

/-- The memory of a program that has stored nothing yet. -/
def emptyMemory : xml.Memory := fun _ => []

end xet

namespace fmt

/-- The quotient of `n` by `2 ^ k`, rounded to the nearest integer, halfway cases to the
even one. -/
def roundShift (n k : Nat) : Nat :=
  let q := n / 2 ^ k
  let r := n % 2 ^ k
  if 2 * r > 2 ^ k ∨ (2 * r = 2 ^ k ∧ q % 2 = 1) then q + 1 else q

/-- Go `fmt.Sprintf("%f", x)` for the `float64` with the bit pattern `b` (sign bit, 11
bits of exponent, 52 bits of fraction): the decimal expansion of the exact value of `x`
rounded to six digits after the point, halfway cases to the even digit; `NaN`, `+Inf`
and `-Inf` for the special values. -/
def Sprintf_f (b : Nat) : GoString :=
  let sign := b / 2 ^ 63 % 2
  let e := b / 2 ^ 52 % 2 ^ 11
  let frac := b % 2 ^ 52
  if e = 2047 then
    if frac ≠ 0 then str "NaN" else if sign = 1 then str "-Inf" else str "+Inf"
  else
    let m := if e = 0 then frac else 2 ^ 52 + frac
    let e2 := if e = 0 then 1 else e
    let scaled :=
      if 1075 ≤ e2 then m * 10 ^ 6 * 2 ^ (e2 - 1075) else roundShift (m * 10 ^ 6) (1075 - e2)
    (if sign = 1 then [45] else []) ++ strconv.FormatUint (scaled / 10 ^ 6) ++ [46] ++
      (strconv.FormatUint (10 ^ 6 + scaled % 10 ^ 6)).drop 1

end fmt

namespace clap

/-- The command after the assignment `if arg.required { arg.set = true }`. -/
def Cmd.supplied (cmd : Cmd) (i : Nat) (arg : NamedArg) : Cmd :=
  if arg.required then cmd.markSet i arg else cmd

/-- The token lists of `TestShortArgs` and `TestArgs`. -/
def shortArgs : List GoString :=
  [str "-i", str "10", str "-l", str "20", str "-u", str "30", str "-x", str "40", str "-b",
    str "-f", str "1.23", str "-s", str "hello"]

/-- The token list of `TestArgs`. -/
def longArgs : List GoString :=
  [str "-int", str "10", str "-int64", str "20", str "-uint", str "30", str "-uint64", str "40",
    str "-bool", str "-float64", str "1.23", str "-string", str "hello"]

/-- The facts checked by `TestShortArgs` and `TestArgs` after `Parse`. -/
def TestArgsHold (r : ParseResult) : Prop :=
  r.chain = [str "command"] ∧ r.err = none ∧ r.store.int 0 = 10 ∧ r.store.int64 0 = 20 ∧
    r.store.uint 0 = 30 ∧ r.store.uint64 0 = 40 ∧ r.store.bool 0 = true ∧
    r.store.string 0 = str "hello" ∧ r.store.int 1 = 54321

/-- The map `namedArgMap` of the test command, the keys written as bytes: `help`, `h`,
`int`, `i`, `dint`, `d`, `int64`, `l`, `uint`, `u`, `uint64`, `x`, `bool`, `b`,
`float64`, `f`, `string`, `s`. -/
def testNamedArgMap : List (GoString × Nat) :=
  [([104, 101, 108, 112], 0),
    ([104], 0),
    ([105, 110, 116], 1),
    ([105], 1),
    ([100, 105, 110, 116], 2),
    ([100], 2),
    ([105, 110, 116, 54, 52], 3),
    ([108], 3),
    ([117, 105, 110, 116], 4),
    ([117], 4),
    ([117, 105, 110, 116, 54, 52], 5),
    ([120], 5),
    ([98, 111, 111, 108], 6),
    ([98], 6),
    ([102, 108, 111, 97, 116, 54, 52], 7),
    ([102], 7),
    ([115, 116, 114, 105, 110, 103], 8),
    ([115], 8)]

/-- The list `namedArgList` of the test command, with the given values of the fields
`set` of the eight registered specifications. -/
def testNamedArgList (lib : FloatLib) (s1 s2 s3 s4 s5 s6 s7 s8 : Bool) : List NamedArg :=
  [⟨str "help", str "h", str "Print '" ++ str "command" ++ str "' usage information.",
      [102, 97, 108, 115, 101], .bool .shouldRenderHelp, false, false⟩,
    ⟨str "int", str "i", str "An int argument.", [48], .int 0, true, s1⟩,
    ⟨str "dint", str "d", str "A default int argument.", [53, 52, 51, 50, 49], .int 1, false, s2⟩,
    ⟨str "int64", str "l", str "An int64 argument.", [48], .int64 0, true, s3⟩,
    ⟨str "uint", str "u", str "A uint argument.", [48], .uint 0, true, s4⟩,
    ⟨str "uint64", str "x", str "A uint64 argument.", [48], .uint64 0, true, s5⟩,
    ⟨str "bool", str "b", str "A bool argument.", [102, 97, 108, 115, 101], .bool (.var 0), true,
      s6⟩,
    ⟨str "float64", str "f", str "A float64 argument.", lib.FormatFloat 0, .float64 0, true, s7⟩,
    ⟨str "string", str "s", str "A string argument.", [101, 109, 112, 116, 121], .string 0, true,
      s8⟩]

/-- The test command with the given positionals, help flag and fields `set`. -/
def testCmdNF (lib : FloatLib) (argList : List GoString) (help : Bool)
    (s1 s2 s3 s4 s5 s6 s7 s8 : Bool) : Cmd :=
  { name := str "command", subCmds := [], description := str "A test command.",
    namedArgMap := testNamedArgMap, namedArgList := testNamedArgList lib s1 s2 s3 s4 s5 s6 s7 s8,
    argList := argList, shouldRenderHelp := help, parsed := false }

/-- A library used to instantiate the theorems: its `ParseFloat` accepts the text
`1.23` only, and its `FormatFloat` prints `0.000000`. -/
def sampleLib : FloatLib :=
  ⟨fun s => if s = str "1.23" then (0x3FF3AE147AE147AE, none)
    else (0, some ⟨str "ParseFloat", s, .ErrSyntax⟩), fun _ => str "0.000000"⟩

/-- The store in which the test variable `boolArg` (`bool` 0) has been set to true. -/
def boolArgSet (st : Store) : Store := { st with bool := upd st.bool 0 true }

/-- The index in `namedArgList` of the specification that the token `argument` resolves
to, when it is a named-argument token that resolves. -/
def matchOf (cmd : Cmd) (argument : GoString) (rest : List GoString) : Option Nat :=
  if strings.HasPrefix argument (str "-") then
    match resolve cmd argument rest with
    | .ok i _ _ _ => some i
    | .fail _ => none
  else none

/-- The indices in `namedArgList` of the specifications matched by the tokens that the
loop of `Cmd.Parse` processes, up to the iteration that returns an error if there is
one. -/
def matchedBy (lib : FloatLib) : Cmd → Store → List GoString → List Nat
  | _, _, [] => []
  | cmd, st, [argument] =>
    match step lib cmd st argument [] with
    | .fail _ _ _ => []
    | .next _ _ _ => (matchOf cmd argument []).toList
  | cmd, st, argument :: nextArg :: rest =>
    match step lib cmd st argument (nextArg :: rest) with
    | .fail _ _ _ => []
    | .next cmd1 st1 true =>
      (matchOf cmd argument (nextArg :: rest)).toList ++ matchedBy lib cmd1 st1 rest
    | .next cmd1 st1 false =>
      (matchOf cmd argument (nextArg :: rest)).toList ++ matchedBy lib cmd1 st1 (nextArg :: rest)

/-- The first specification, in registration order, that is required and whose index
(counted from `j`) is not among `matched`. -/
def firstUnmatched (matched : List Nat) : Nat → List NamedArg → Option NamedArg
  | _, [] => none
  | j, arg :: rest =>
    if arg.required = true ∧ j ∉ matched then some arg else firstUnmatched matched (j + 1) rest

/-- The list of specifications after `if arg.required { arg.set = true }` for the
specification at the index `o`, if any. -/
def markAt (l : List NamedArg) (o : Option Nat) : List NamedArg :=
  match o with
  | none => l
  | some i =>
    match l.get? i with
    | none => l
    | some arg => if arg.required then l.set i { arg with set := true } else l

/-- The list `l1` is the list `l0` in which the specifications that are required and
whose index is among `matched` have been marked as set. -/
def Marked (matched : List Nat) (l0 l1 : List NamedArg) : Prop :=
  ∀ j, l1.get? j =
    (l0.get? j).map (fun a => { a with set := a.set || (a.required && decide (j ∈ matched)) })

/-- The command that scans the tokens of a call of `Parse`, and the tokens it scans:
the sub-commands named by the leading tokens are entered one after the other
(clap.go 254-260). -/
def dispatch : Cmd → List GoString → Cmd × List GoString
  | cmd, [] => (cmd, [])
  | cmd, first :: rest =>
    match mapGet cmd.subCmds first with
    | some subCmd => dispatch subCmd rest
    | none => (cmd, first :: rest)

/-- A call of one of the seven registration methods of a command, with its operands;
a destination is the address of a caller-owned variable of the type of the method. -/
inductive Registration
  /-- A call of `AddIntArg`. -/
  | int (name short : GoString) (dest : Nat) (dflt : Int) (required : Bool) (help : GoString)
  /-- A call of `AddInt64Arg`. -/
  | int64 (name short : GoString) (dest : Nat) (dflt : Int) (required : Bool) (help : GoString)
  /-- A call of `AddUIntArg`. -/
  | uint (name short : GoString) (dest : Nat) (dflt : Nat) (required : Bool) (help : GoString)
  /-- A call of `AddUInt64Arg`. -/
  | uint64 (name short : GoString) (dest : Nat) (dflt : Nat) (required : Bool) (help : GoString)
  /-- A call of `AddFloat64Arg`. -/
  | float64 (name short : GoString) (dest : Nat) (dflt : Nat) (required : Bool) (help : GoString)
  /-- A call of `AddBoolArg`. -/
  | bool (name short : GoString) (dest : Nat) (dflt : Bool) (required : Bool) (help : GoString)
  /-- A call of `AddStringArg`. -/
  | string (name short : GoString) (dest : Nat) (dflt : GoString) (required : Bool)
      (help : GoString)

/-- The name passed to the registration method. -/
def Registration.name : Registration → GoString
  | .int n _ _ _ _ _ => n
  | .int64 n _ _ _ _ _ => n
  | .uint n _ _ _ _ _ => n
  | .uint64 n _ _ _ _ _ => n
  | .float64 n _ _ _ _ _ => n
  | .bool n _ _ _ _ _ => n
  | .string n _ _ _ _ _ => n

/-- The alias passed to the registration method. -/
def Registration.short : Registration → GoString
  | .int _ s _ _ _ _ => s
  | .int64 _ s _ _ _ _ => s
  | .uint _ s _ _ _ _ => s
  | .uint64 _ s _ _ _ _ => s
  | .float64 _ s _ _ _ _ => s
  | .bool _ s _ _ _ _ => s
  | .string _ s _ _ _ _ => s

/-- The call of the registration method on a command and a store. -/
def register (lib : FloatLib) (cs : Cmd × Store) : Registration → Cmd × Store
  | .int n s d v r h => cs.1.AddIntArg cs.2 n s d v r h
  | .int64 n s d v r h => cs.1.AddInt64Arg cs.2 n s d v r h
  | .uint n s d v r h => cs.1.AddUIntArg cs.2 n s d v r h
  | .uint64 n s d v r h => cs.1.AddUInt64Arg cs.2 n s d v r h
  | .float64 n s d v r h => Cmd.AddFloat64Arg lib cs.1 cs.2 n s d v r h
  | .bool n s d v r h => cs.1.AddBoolArg cs.2 n s (.var d) v r h
  | .string n s d v r h => cs.1.AddStringArg cs.2 n s d v r h

/-- A sequence of calls of registration methods, in order. -/
def registerAll (lib : FloatLib) (cs : Cmd × Store) (regs : List Registration) : Cmd × Store :=
  regs.foldl (register lib) cs

/-- The keys `h` and `help` of the command named `name` are mapped to the first
specification of the list, which is bound to the help flag of the command; the command
has no sub-command. -/
def HelpBound (name : GoString) (cmd : Cmd) : Prop :=
  cmd.name = name ∧ cmd.subCmds = [] ∧ mapGet cmd.namedArgMap (str "h") = some 0 ∧
    mapGet cmd.namedArgMap (str "help") = some 0 ∧
    ∃ arg, cmd.namedArgList.get? 0 = some arg ∧ arg.dest = .bool .shouldRenderHelp

/-- Whether the named-argument token `t` takes the next token `nxt` as its value: its
stripped text has no `=` and is the key of a specification that is not boolean, or is
boolean while `nxt` is a boolean literal. -/
def takesNext (cmd : Cmd) (t nxt : GoString) : Bool :=
  match strings.IndexByte (stripDashes t) 61 with
  | some _ => false
  | none =>
    match cmd.lookupArg (stripDashes t) with
    | none => false
    | some (_, arg) =>
      if arg.dest.isBool then decide ((strconv.ParseBool nxt).2 = none) else true

/-- The tokens of a list that do not begin with `-` and are not taken as the value of
the named-argument token before them, in their order of appearance. -/
def positionalsOf (cmd : Cmd) : List GoString → List GoString
  | [] => []
  | [t] => if strings.HasPrefix t (str "-") then [] else [t]
  | t :: nxt :: rest =>
    if strings.HasPrefix t (str "-") then
      if takesNext cmd t nxt then positionalsOf cmd rest else positionalsOf cmd (nxt :: rest)
    else t :: positionalsOf cmd (nxt :: rest)

/-- The commands `cmd` and `cmd1` have the same lookup and, index by index, the same
destinations. -/
def SameSpecs (cmd cmd1 : Cmd) : Prop :=
  cmd1.namedArgMap = cmd.namedArgMap ∧
    ∀ j, (cmd1.namedArgList.get? j).map (fun a => a.dest) =
      (cmd.namedArgList.get? j).map (fun a => a.dest)

/-- The content of a variable that a destination points to. -/
inductive Value
  /-- An `int`. -/
  | int (v : Int)
  /-- A `uint`. -/
  | uint (v : Nat)
  /-- An `int64`. -/
  | int64 (v : Int)
  /-- A `uint64`. -/
  | uint64 (v : Nat)
  /-- A `float64` (bit pattern). -/
  | float64 (v : Nat)
  /-- A `bool`. -/
  | bool (v : Bool)
  /-- A `string`. -/
  | string (v : GoString)
  /-- No variable (a destination of another dynamic type). -/
  | none
  deriving DecidableEq, Repr

/-- The value `*dest` of the binding of a specification of the command `cmd`. -/
def readDest (cmd : Cmd) (st : Store) : Dest → Value
  | .int p => .int (st.int p)
  | .uint p => .uint (st.uint p)
  | .int64 p => .int64 (st.int64 p)
  | .uint64 p => .uint64 (st.uint64 p)
  | .float64 p => .float64 (st.float64 p)
  | .bool p => .bool (readBool cmd st p)
  | .string p => .string (st.string p)
  | .other => .none

/-- The value obtained by parsing the text `text` for the kind of the destination. -/
def parsedValue (lib : FloatLib) : Dest → GoString → Value
  | .int _, text => .int (strconv.ParseInt text 0 0).1
  | .uint _, text => .uint (strconv.ParseUint text 0 0).1
  | .int64 _, text => .int64 (strconv.ParseInt text 0 64).1
  | .uint64 _, text => .uint64 (strconv.ParseUint text 0 64).1
  | .float64 _, text => .float64 (lib.ParseFloat text).1
  | .bool _, text => .bool (strconv.ParseBool text).1
  | .string _, text => .string text
  | .other, _ => .none

/-- Whether a destination points to a caller-owned variable. -/
def Dest.isVar : Dest → Bool
  | .bool .shouldRenderHelp => false
  | .other => false
  | _ => true

mutual
/-- The destinations of the specifications of a command and of its sub-commands that
point to caller-owned variables. -/
def varDests : Cmd → List Dest
  | ⟨_, subCmds, _, _, namedArgList, _, _, _⟩ =>
    (namedArgList.map (fun a => a.dest)).filter Dest.isVar ++ varDestsSubs subCmds
/-- The destinations of the specifications of a list of sub-commands that point to
caller-owned variables. -/
def varDestsSubs : List (GoString × Cmd) → List Dest
  | [] => []
  | (_, subCmd) :: rest => varDests subCmd ++ varDestsSubs rest
end

mutual
/-- In the command and in each of its sub-commands, no two specifications have the
same destination. -/
def OwnDestsDistinct : Cmd → Prop
  | ⟨_, subCmds, _, _, namedArgList, _, _, _⟩ =>
    (namedArgList.map (fun a => a.dest)).Nodup ∧ OwnDestsDistinctSubs subCmds
/-- The same for a list of sub-commands. -/
def OwnDestsDistinctSubs : List (GoString × Cmd) → Prop
  | [] => True
  | (_, subCmd) :: rest => OwnDestsDistinct subCmd ∧ OwnDestsDistinctSubs rest
end

/-- No two specifications of the command tree are bound to the same storage. -/
def NoSharedStorage (cmd : Cmd) : Prop :=
  OwnDestsDistinct cmd ∧ (varDests cmd).Nodup

/-- The postcondition of `Clear` for one command: `cmd0` and `st0` are the command and
the store before the call, `cmd1` and `st1` after it. -/
def ClearedOwn (lib : FloatLib) (st0 st1 : Store) (cmd0 cmd1 : Cmd) : Prop :=
  cmd1.Args = [] ∧
  cmd1.namedArgList = cmd0.namedArgList.map (fun a => { a with set := false }) ∧
  (∀ a ∈ cmd0.namedArgList, a.required = false →
    readDest cmd1 st1 a.dest = parsedValue lib a.dest a.defValStr) ∧
  (∀ a ∈ cmd0.namedArgList, a.required = true →
    readDest cmd1 st1 a.dest = readDest cmd0 st0 a.dest)

mutual
/-- The postcondition of `Clear` for a command and, recursively, its sub-commands. -/
def Cleared (lib : FloatLib) (st0 st1 : Store) : Cmd → Cmd → Prop
  | ⟨name, subCmds, description, namedArgMap, namedArgList, argList, shouldRenderHelp, parsed⟩,
    cmd1 =>
    ClearedOwn lib st0 st1
      ⟨name, subCmds, description, namedArgMap, namedArgList, argList, shouldRenderHelp, parsed⟩
      cmd1 ∧
    ClearedSubs lib st0 st1 subCmds cmd1.subCmds
/-- The postcondition of `Clear` for the sub-commands of a command, one by one. -/
def ClearedSubs (lib : FloatLib) (st0 st1 : Store) :
    List (GoString × Cmd) → List (GoString × Cmd) → Prop
  | [], l1 => l1 = []
  | (key, subCmd) :: rest, l1 =>
    ∃ subCmd1 rest1, l1 = (key, subCmd1) :: rest1 ∧ Cleared lib st0 st1 subCmd subCmd1 ∧
      ClearedSubs lib st0 st1 rest rest1
end

/-- The token list of `TestCommandClearing`. -/
def clearingArgs : List GoString :=
  [str "-i=10", str "-d=12345", str "-l=20", str "-u=30", str "-x=40", str "-b=true",
    str "-f=1.23", str "-s=hello"]

/-- The facts of `TestCommandClearing`: the first `Parse` succeeds; `Clear` returns no
error, restores `dint` to 54321, leaves `int` at 10 and empties the positionals; the
second `Parse` of the same list succeeds with the bindings of the first. -/
def TestClearingHolds (lib : FloatLib) (st0 : Store) : Prop :=
  let c := createTestCmd lib st0
  let r1 := Cmd.Parse lib c.1 c.2 clearingArgs
  let k := Cmd.Clear lib r1.cmd r1.store
  let r2 := Cmd.Parse lib k.2.1 k.2.2 clearingArgs
  r1.err = none ∧ r1.store.int 1 = 12345 ∧ k.1 = none ∧ k.2.2.int 1 = 54321 ∧ k.2.2.int 0 = 10 ∧
    k.2.1.Args = [] ∧ r2.err = none ∧ r2.chain = [str "command"] ∧ r2.store.int 0 = 10 ∧
    r2.store.int 1 = 12345 ∧ r2.store.int64 0 = 20 ∧ r2.store.uint 0 = 30 ∧
    r2.store.uint64 0 = 40 ∧ r2.store.bool 0 = true ∧ r2.store.string 0 = str "hello" ∧
    r2.store.float64 0 = r1.store.float64 0

/-- The writes of `Parse` on `clearingArgs`, `x` being the float parsed from `1.23`. -/
def clearingWrites (x : Nat) (st : Store) : Store :=
  { int := upd (upd st.int 0 10) 1 12345, uint := upd st.uint 0 30, int64 := upd st.int64 0 20,
    uint64 := upd st.uint64 0 40, float64 := upd st.float64 0 x, bool := upd st.bool 0 true,
    string := upd st.string 0 [104, 101, 108, 108, 111] }

/-- The first specification of the command is the help flag registered by `NewCmd`:
bound to the field `shouldRenderHelp`, not required, with the default text `false`. -/
def HelpFirst (cmd : Cmd) : Prop :=
  ∃ a, cmd.namedArgList.head? = some a ∧ a.dest = .bool .shouldRenderHelp ∧
    a.required = false ∧ a.defValStr = str "false"

/-- The destination that the registration method stores in the specification. -/
def Registration.dest : Registration → Dest
  | .int _ _ d _ _ _ => .int d
  | .int64 _ _ d _ _ _ => .int64 d
  | .uint _ _ d _ _ _ => .uint d
  | .uint64 _ _ d _ _ _ => .uint64 d
  | .float64 _ _ d _ _ _ => .float64 d
  | .bool _ _ d _ _ _ => .bool (.var d)
  | .string _ _ d _ _ _ => .string d

/-- The default passed to the registration method, as the content of a variable. -/
def Registration.value : Registration → Value
  | .int _ _ _ v _ _ => .int v
  | .int64 _ _ _ v _ _ => .int64 v
  | .uint _ _ _ v _ _ => .uint v
  | .uint64 _ _ _ v _ _ => .uint64 v
  | .float64 _ _ _ v _ _ => .float64 v
  | .bool _ _ _ v _ _ => .bool v
  | .string _ _ _ v _ _ => .string v

/-- The operand `required` of the registration method. -/
def Registration.required : Registration → Bool
  | .int _ _ _ _ r _ => r
  | .int64 _ _ _ _ r _ => r
  | .uint _ _ _ _ r _ => r
  | .uint64 _ _ _ _ r _ => r
  | .float64 _ _ _ _ r _ => r
  | .bool _ _ _ _ r _ => r
  | .string _ _ _ _ r _ => r

/-- The registration is of one of the kinds `int`, `int64`, `uint`, `uint64`, `bool`,
`string`, and its default is a value of the Go type: a signed integer lies between
`-2^63` and `2^63 - 1`, an unsigned one is below `2^64` (`int` and `uint` have 64
bits). -/
def Registration.Exact : Registration → Prop
  | .int _ _ _ v _ _ => -(2 ^ 63) ≤ v ∧ v < 2 ^ 63
  | .int64 _ _ _ v _ _ => -(2 ^ 63) ≤ v ∧ v < 2 ^ 63
  | .uint _ _ _ v _ _ => v < 2 ^ 64
  | .uint64 _ _ _ v _ _ => v < 2 ^ 64
  | .float64 _ _ _ _ _ _ => False
  | .bool _ _ _ _ _ _ => True
  | .string _ _ _ _ _ _ => True

/-- The conversion of the default text of the specification, when it is not required,
succeeds in every state. -/
def Resettable (lib : FloatLib) (a : NamedArg) : Prop :=
  a.required = false → ∀ (cmd : Cmd) (st : Store),
    ∃ cmd1 st1, coerce lib cmd st a.dest a.defValStr = .done cmd1 st1 none

/-- The text with every ASCII capital letter replaced by the small letter. -/
def toLowerASCII (s : GoString) : GoString :=
  s.map (fun c => if 65 ≤ c ∧ c ≤ 90 then c + 32 else c)

/-- The boolean literals in the words of the specification: a text that, compared
without regard to case, is one of `true`, `false`, `1`, `0`, `t`, `f`. -/
def isBoolLiteralFold (s : GoString) : Bool :=
  decide (toLowerASCII s ∈ [str "true", str "false", str "1", str "0", str "t", str "f"])

/-- The twelve spellings that `strconv.ParseBool` accepts. -/
def boolSpellings : List GoString :=
  [str "1", str "t", str "T", str "TRUE", str "true", str "True", str "0", str "f", str "F",
    str "FALSE", str "false", str "False"]

/-- The default passed to the registration method is a value of its Go type: a signed
integer lies between `-2^63` and `2^63 - 1`, an unsigned one is below `2^64` (`int` and
`uint` have 64 bits). A `float64`, a `bool` and a `string` are any. -/
def Registration.InRange : Registration → Prop
  | .int _ _ _ v _ _ => -(2 ^ 63) ≤ v ∧ v < 2 ^ 63
  | .int64 _ _ _ v _ _ => -(2 ^ 63) ≤ v ∧ v < 2 ^ 63
  | .uint _ _ _ v _ _ => v < 2 ^ 64
  | .uint64 _ _ _ v _ _ => v < 2 ^ 64
  | .float64 _ _ _ _ _ _ => True
  | .bool _ _ _ _ _ _ => True
  | .string _ _ _ _ _ _ => True

/-- A property of the Go library: `strconv.ParseFloat` returns no error on the text that
`fmt.Sprintf("%f", x)` makes, whatever the `float64` `x` (the text is a decimal numeral,
or one of `NaN`, `+Inf`, `-Inf`). -/
def FloatLib.AcceptsFormatted (lib : FloatLib) : Prop :=
  ∀ x : Nat, (lib.ParseFloat (lib.FormatFloat x)).2 = none

mutual
/-- In the command and in each command below it, the default text of every
specification that is not required converts without error. -/
def AllResettable (lib : FloatLib) : Cmd → Prop
  | ⟨_, subCmds, _, _, namedArgList, _, _, _⟩ =>
    (∀ a ∈ namedArgList, Resettable lib a) ∧ AllResettableSubs lib subCmds
/-- The same for a list of sub-commands. -/
def AllResettableSubs (lib : FloatLib) : List (GoString × Cmd) → Prop
  | [] => True
  | (_, subCmd) :: rest => AllResettable lib subCmd ∧ AllResettableSubs lib rest
end

/-- The command trees that the exported functions build: `NewCmd`, then calls of the
seven registration methods with defaults of their Go types and calls of `AddSubCmd`
that return no error, each sub-command built in the same way. -/
inductive Built (lib : FloatLib) : Cmd → Prop
  /-- The command `NewCmd(name, description)`. -/
  | newCmd (name description : GoString) : Built lib (NewCmd name description)
  /-- A call of a registration method. -/
  | register (c : Cmd) (st : Store) (r : Registration) :
    Built lib c → r.InRange → Built lib (register lib (c, st) r).1
  /-- A call of `AddSubCmd` that returns no error. -/
  | addSubCmd (c s c1 : Cmd) :
    Built lib c → Built lib s → c.AddSubCmd s = (none, c1) → Built lib c1

/-- A library used to instantiate the theorems: its `FormatFloat` prints `0.000000` and
its `ParseFloat` accepts this text only. -/
def zeroLib : FloatLib :=
  ⟨fun s => if s = str "0.000000" then (0, none)
    else (0, some ⟨str "ParseFloat", s, .ErrSyntax⟩), fun _ => str "0.000000"⟩

/-! ### Commands as objects

`Cmd.Parse`, `Cmd.Clear` and `Cmd.AddSubCmd` above take a command as a value that owns
its sub-commands. In the Go code a command is used through a `*Cmd` and the map
`subCmds` holds pointers (clap.go 136, 197, 255-258): a sub-command can be changed after
it has been attached, and a command can be attached to several commands, or to itself.
The definitions below keep the commands in a heap. -/

/-- The object that a `*Cmd` points to. The field `subCmds map[string]*Cmd` holds the
addresses of the sub-commands; the other fields of the Go struct are those of `own`
(whose own field `subCmds` is not used). -/
structure CmdObject where
  /-- The fields other than `subCmds`. -/
  own : Cmd
  /-- The field `subCmds`: for a key, the address of the sub-command. -/
  subCmds : List (GoString × Nat)

/-- The commands of a program, by address; a `*Cmd` is an address. -/
abbrev Heap := Nat → CmdObject

/-- The result of `Parse` on a command of the heap: the two values returned and the state
left behind. -/
structure HeapResult where
  /-- The chain of command names. -/
  chain : List GoString
  /-- The error. -/
  err : Option Error
  /-- The heap after the call. -/
  heap : Heap
  /-- The store after the call. -/
  store : Store

/-- The part of `Cmd.Parse` after the dispatch on a sub-command (clap.go 262-424), run
on the command at the address `cmd`. -/
def Heap.parseOwn (lib : FloatLib) (h : Heap) (st : Store) (cmd : Nat)
    (arguments : List GoString) : HeapResult :=
  let r := clap.parseOwn lib (h cmd).own st arguments
  ⟨r.chain, r.err, upd h cmd { h cmd with own := r.cmd }, r.store⟩

/-- Go `(cmd *Cmd) Parse(arguments []string) ([]string, error)`, `cmd` being an address
of the heap: if the first token is a key of `cmd.subCmds`, the call is passed on to the
command that the map points to, with the remaining tokens (clap.go 255-260). -/
def Heap.Parse (lib : FloatLib) : Heap → Store → Nat → List GoString → HeapResult
  | h, st, cmd, [] => Heap.parseOwn lib h st cmd []
  | h, st, cmd, first :: rest =>
    match mapGet (h cmd).subCmds first with
    | some subCmd =>
      let r := Heap.Parse lib h st subCmd rest
      ⟨(h cmd).own.name :: r.chain, r.err, r.heap, r.store⟩
    | none => Heap.parseOwn lib h st cmd (first :: rest)

/-- Go `NewCmd(name, description)`, the new command being put at the address `cmd`, which
stands for the fresh address that `new(Cmd)` returns; its map `subCmds` is empty. -/
def Heap.NewCmd (h : Heap) (cmd : Nat) (name description : GoString) : Heap :=
  upd h cmd ⟨clap.NewCmd name description, []⟩

/-- Go `(cmd *Cmd) AddSubCmd(subCmd *Cmd) error`, `cmd` and `subCmd` being addresses of
the heap: the map of `cmd` is given the address `subCmd` (clap.go 197). -/
def Heap.AddSubCmd (h : Heap) (cmd subCmd : Nat) : Option Error × Heap :=
  let subCmdName := (h subCmd).own.Name
  match mapGet (h cmd).subCmds subCmdName with
  | some _ => (some (.subCmdRegistered subCmdName (h cmd).own.name), h)
  | none =>
    (none, upd h cmd { h cmd with subCmds := mapSet (h cmd).subCmds subCmdName subCmd })

/-- A call of one of the seven registration methods on the command at the address
`cmd`. -/
def Heap.register (lib : FloatLib) (h : Heap) (st : Store) (cmd : Nat) (r : Registration) :
    Heap × Store :=
  let cs := clap.register lib ((h cmd).own, st) r
  (upd h cmd { h cmd with own := cs.1 }, cs.2)

/-- Go `(cmd *Cmd) Args() []Arg`, `cmd` being an address of the heap. -/
def Heap.Args (h : Heap) (cmd : Nat) : List GoString := (h cmd).own.Args

/-- The command that the calls of `Parse` lead to from the command at `cmd` with the
tokens given: the one that scans the tokens that are left. -/
def Heap.target : Heap → Nat → List GoString → Nat
  | _, cmd, [] => cmd
  | h, cmd, first :: rest =>
    match mapGet (h cmd).subCmds first with
    | some subCmd => Heap.target h subCmd rest
    | none => cmd

/-- The tokens that the command `Heap.target` scans. -/
def Heap.remaining : Heap → Nat → List GoString → List GoString
  | _, _, [] => []
  | h, cmd, first :: rest =>
    match mapGet (h cmd).subCmds first with
    | some subCmd => Heap.remaining h subCmd rest
    | none => first :: rest

/-- A heap in which every field of every command has the zero value of its type. -/
def emptyHeap : Heap :=
  fun _ => ⟨⟨[], [], [], [], [], [], false, false⟩, []⟩

/-- The commands of `TestSubCommand` of `clap_test.go` in a heap: the command of
`createTestCmd` at address 0, the sub-command of `addSubCmd` at address 1, attached to
it. -/
def testHeap (lib : FloatLib) (st : Store) : Option Error × Heap × Store :=
  let c := createTestCmd lib st
  let h0 : Heap := upd emptyHeap 0 ⟨c.1, []⟩
  let h1 := Heap.NewCmd h0 1 (str "subcmd") (str "A test sub-command.")
  let r := Heap.register lib h1 c.2 1
    (.int (str "int") (str "i") 2 0 true (str "An int argument."))
  let r := Heap.register lib r.1 r.2 1
    (.int64 (str "int64") (str "l") 1 0 true (str "An int64 argument."))
  let a := Heap.AddSubCmd r.1 0 1
  (a.1, a.2, r.2)

/-- A command `c` that is attached to itself: `c := NewCmd("c", "")` at address 0, then
`c.AddSubCmd(c)`. -/
def selfAttached : Option Error × Heap :=
  Heap.AddSubCmd (Heap.NewCmd emptyHeap 0 (str "c") []) 0 0

/-- A sub-command that gets an argument after it has been attached: `c := NewCmd("c",
"")` at address 0, `s := NewCmd("s", "")` at address 1, `c.AddSubCmd(s)`, and then
`s.AddIntArg("n", "n", &n, 0, false, "")` with `n` the `int` variable 0. -/
def lateRegistration (lib : FloatLib) (st : Store) : Option Error × Heap × Store :=
  let h := Heap.NewCmd (Heap.NewCmd emptyHeap 0 (str "c") []) 1 (str "s") []
  let a := Heap.AddSubCmd h 0 1
  let r := Heap.register lib a.2 st 1 (.int (str "n") (str "n") 0 0 false [])
  (a.1, r.1, r.2)

/-- No command of the heap is reachable from itself through the maps `subCmds`: the
commands can be ranked so that every sub-command ranks below the command whose map
holds it. -/
def Heap.Ranked (h : Heap) (rank : Nat → Nat) : Prop :=
  ∀ (a : Nat) (k : GoString) (s : Nat), mapGet (h a).subCmds k = some s → rank s < rank a

/-- The command with the value `s` in the field `subCmds`. -/
def Cmd.withSubCmds (cmd : Cmd) (s : List (GoString × Cmd)) : Cmd :=
  { cmd with subCmds := s }

mutual
/-- The commands of the heap that are reached from the address `a` form the tree `c`:
the command at `a` has the fields of `c`, and its map `subCmds` has the keys of
`c.subCmds`, in the same order, each with the address of a command from which the
sub-command of `c` is formed in the same way. -/
def Represents (h : Heap) : Nat → Cmd → Prop
  | a, ⟨name, subCmds, description, namedArgMap, namedArgList, argList, shouldRenderHelp,
      parsed⟩ =>
    (h a).own =
      ⟨name, [], description, namedArgMap, namedArgList, argList, shouldRenderHelp, parsed⟩ ∧
    RepresentsSubs h (h a).subCmds subCmds
/-- The same for the map `subCmds`. -/
def RepresentsSubs (h : Heap) : List (GoString × Nat) → List (GoString × Cmd) → Prop
  | l, [] => l = []
  | l, (key, subCmd) :: rest =>
    ∃ a l1, l = (key, a) :: l1 ∧ Represents h a subCmd ∧ RepresentsSubs h l1 rest
end

/-! ## Theorems -/

/-! ### Basic facts about the string operations -/

theorem str_dash : str "-" = [45] := by decide

theorem str_true : str "true" = [116, 114, 117, 101] := by decide

theorem hasPrefix_dash_cons (c : Nat) (s : GoString) :
    strings.HasPrefix (c :: s) (str "-") = decide (c = 45) := by
  rw [str_dash]
  by_cases h : c = 45
  · subst h; simp [strings.HasPrefix, List.isPrefixOf]
  · have h2 : ¬ (45 = c) := fun e => h e.symm
    simp [strings.HasPrefix, List.isPrefixOf, h, h2]

theorem hasPrefix_dash_nil : strings.HasPrefix [] (str "-") = false := by decide

theorem indexByte_append (k v : GoString) (b : Nat) (h : strings.IndexByte k b = none) :
    strings.IndexByte (k ++ b :: v) b = some k.length := by
  induction k with
  | nil => simp [strings.IndexByte]
  | cons c cs ih =>
    simp only [strings.IndexByte] at h
    by_cases hc : c = b
    · simp [hc] at h
    · simp only [hc, if_false, Option.map_eq_none'] at h
      simp [strings.IndexByte, hc, ih h]

theorem hasPrefix_dash_append (k v : GoString) (h : k ≠ []) :
    strings.HasPrefix (k ++ v) (str "-") = strings.HasPrefix k (str "-") := by
  cases k with
  | nil => exact absurd rfl h
  | cons c cs => simp [hasPrefix_dash_cons]

/-! ### The iteration of the loop on a named-argument token -/

theorem parseLoop_cons (lib : FloatLib) (cmd : Cmd) (st : Store) (argument : GoString)
    (rest : List GoString) :
    parseLoop lib cmd st (argument :: rest) =
      match step lib cmd st argument rest with
      | .fail err cmd1 st1 => (some err, cmd1, st1)
      | .next cmd1 st1 consumed => parseLoop lib cmd1 st1 (if consumed then rest.tail else rest) := by
  cases rest with
  | nil =>
    simp only [parseLoop]
    cases step lib cmd st argument [] <;> simp [parseLoop]
  | cons nextArg rest1 =>
    simp only [parseLoop]
    cases step lib cmd st argument (nextArg :: rest1) with
    | fail err cmd1 st1 => rfl
    | next cmd1 st1 consumed => cases consumed <;> simp

/-- The resolution of the token `-k` followed by the tokens `rest`. -/
theorem resolve_dash (cmd : Cmd) (k : GoString) (rest : List GoString)
    (hk2 : strings.IndexByte k 61 = none) (hk3 : strings.HasPrefix k (str "-") = false) :
    resolve cmd (45 :: k) rest =
      match cmd.lookupArg k with
      | none => .fail (.unknownArgument k)
      | some (i, arg) =>
        if arg.dest.isBool then
          match rest with
          | [] => .ok i arg (str "true") false
          | nextArgStr :: _ =>
            if (strconv.ParseBool nextArgStr).2 = none then .ok i arg nextArgStr true
            else .ok i arg (str "true") false
        else
          match rest with
          | [] => .fail (.missingValue k)
          | valStr :: _ => .ok i arg valStr true := by
  simp only [resolve, stripDashes, List.drop_succ_cons, List.drop_zero, hk3, Bool.false_eq_true,
    if_false, hk2]

/-- The token `--s` is resolved as the token `-s`, unless `s` begins with `=`. -/
theorem resolve_dash_dash (cmd : Cmd) (s : GoString) (rest : List GoString)
    (h3 : strings.HasPrefix s (str "-") = false) (h0 : strings.IndexByte s 61 ≠ some 0) :
    resolve cmd (45 :: 45 :: s) rest = resolve cmd (45 :: s) rest := by
  simp only [resolve, stripDashes, List.drop_succ_cons, List.drop_zero, hasPrefix_dash_cons,
    decide_True, if_true, h3, Bool.false_eq_true, if_false]
  cases h : strings.IndexByte s 61 with
  | none => rfl
  | some n =>
    cases n with
    | zero => exact absurd h h0
    | succ m => rfl

/-- The resolution of the token `-k=v`. -/
theorem resolve_dash_eq (cmd : Cmd) (k v : GoString) (rest : List GoString)
    (hk1 : k ≠ []) (hk2 : strings.IndexByte k 61 = none)
    (hk3 : strings.HasPrefix k (str "-") = false) :
    resolve cmd (45 :: (k ++ 61 :: v)) rest =
      match cmd.lookupArg k with
      | none => .fail (.unknownArgument k)
      | some (i, arg) => .ok i arg v false := by
  obtain ⟨n, hn⟩ : ∃ n, k.length = n + 1 := by
    cases k with
    | nil => exact absurd rfl hk1
    | cons c cs => exact ⟨cs.length, rfl⟩
  have h1 : strings.HasPrefix (k ++ 61 :: v) (str "-") = false := by
    rw [hasPrefix_dash_append _ _ hk1]; exact hk3
  have h2 : strings.IndexByte (k ++ 61 :: v) 61 = some (n + 1) := by
    rw [indexByte_append k v 61 hk2, hn]
  have h3 : List.take (n + 1) (k ++ 61 :: v) = k := by
    rw [← hn]; simp
  have h4 : List.drop (n + 2) (k ++ 61 :: v) = v := by
    have : n + 2 = k.length + 1 := by omega
    rw [this]; simp
  simp only [resolve, stripDashes, List.drop_succ_cons, List.drop_zero, h1, Bool.false_eq_true,
    if_false, h2, h3, h4]

/-- One iteration on a named-argument token in terms of its resolution. -/
theorem step_dash (lib : FloatLib) (cmd : Cmd) (st : Store) (s : GoString)
    (rest : List GoString) :
    step lib cmd st (45 :: s) rest =
      match resolve cmd (45 :: s) rest with
      | .fail err => .fail err cmd st
      | .ok i arg valStr consumed =>
        match coerce lib cmd st arg.dest valStr with
        | .unexpectedType => .fail .unexpectedTypeParsing cmd st
        | .done cmd1 st1 (some e) => .fail (.valueError e) cmd1 st1
        | .done cmd1 st1 none => .next (cmd1.supplied i arg) st1 consumed := by
  simp only [step, hasPrefix_dash_cons, decide_True, if_true, Cmd.supplied]
  cases resolve cmd (45 :: s) rest with
  | fail err => rfl
  | ok i arg valStr consumed =>
    simp only []
    cases coerce lib cmd st arg.dest valStr with
    | unexpectedType => rfl
    | done cmd1 st1 err =>
      cases err with
      | some e => rfl
      | none => cases arg.required <;> simp

/-- One iteration on a token that resolves and whose value converts. -/
theorem parseLoop_ok (lib : FloatLib) (cmd : Cmd) (st : Store) (s : GoString)
    (rest : List GoString) (i : Nat) (arg : NamedArg) (valStr : GoString) (consumed : Bool)
    (cmd1 : Cmd) (st1 : Store)
    (hr : resolve cmd (45 :: s) rest = .ok i arg valStr consumed)
    (hc : coerce lib cmd st arg.dest valStr = .done cmd1 st1 none) :
    parseLoop lib cmd st ((45 :: s) :: rest) =
      parseLoop lib (cmd1.supplied i arg) st1 (if consumed then rest.tail else rest) := by
  rw [parseLoop_cons, step_dash, hr]
  simp only [hc]

/-- A library whose `ParseFloat` accepts the text `1.23` is, as a function, one that
accepts it by a test on the text. -/
theorem floatLib_accepts (lib : FloatLib) (t : GoString) (h : (lib.ParseFloat t).2 = none) :
    lib = ⟨fun s => if s = t then ((lib.ParseFloat t).1, none) else lib.ParseFloat s,
      lib.FormatFloat⟩ := by
  cases lib with
  | mk pf ff =>
    simp only [FloatLib.mk.injEq, and_true]
    funext s
    by_cases hs : s = t
    · subst hs
      simp only [if_true]
      simp only at h
      rw [← h]
    · simp [hs]

/-! ### The test command in evaluated form -/

theorem createTestCmd_fst (lib : FloatLib) (st : Store) :
    (createTestCmd lib st).1 =
      testCmdNF lib [] false false false false false false false false false := by
  rfl

theorem shortArgs_eq : shortArgs =
    [[45, 105], [49, 48], [45, 108], [50, 48], [45, 117], [51, 48], [45, 120], [52, 48], [45, 98], [45, 102], [49, 46, 50, 51], [45, 115], [104, 101, 108, 108, 111]] := by
  decide

theorem longArgs_eq : longArgs =
    [[45, 105, 110, 116], [49, 48], [45, 105, 110, 116, 54, 52], [50, 48], [45, 117, 105, 110, 116], [51, 48], [45, 117, 105, 110, 116, 54, 52], [52, 48], [45, 98, 111, 111, 108], [45, 102, 108, 111, 97, 116, 54, 52], [49, 46, 50, 51], [45, 115, 116, 114, 105, 110, 103], [104, 101, 108, 108, 111]] := by
  decide

theorem str_1_23 : str "1.23" = [49, 46, 50, 51] := by decide

theorem str_hello : str "hello" = [104, 101, 108, 108, 111] := by decide

theorem testArgs_eval (x : Nat) (pf : GoString → Nat × Option strconv.NumError)
    (ff : Nat → GoString) (st0 : Store) (lib : FloatLib)
    (hlib : lib = ⟨fun s => if s = [49, 46, 50, 51] then (x, none) else pf s, ff⟩) :
    TestArgsHold (Cmd.Parse lib (createTestCmd lib st0).1 (createTestCmd lib st0).2 shortArgs) ∧
    TestArgsHold (Cmd.Parse lib (createTestCmd lib st0).1 (createTestCmd lib st0).2 longArgs) := by
  subst hlib
  rw [createTestCmd_fst, shortArgs_eq, longArgs_eq]
  unfold TestArgsHold
  rw [str_hello]
  exact ⟨⟨rfl, rfl, rfl, rfl, rfl, rfl, rfl, rfl, rfl⟩, ⟨rfl, rfl, rfl, rfl, rfl, rfl, rfl, rfl, rfl⟩⟩

/-- The resolution of `-k v` for a key bound to a destination that is not a `*bool`. -/
theorem resolve_value (cmd : Cmd) (k v : GoString) (rest : List GoString) (i : Nat)
    (arg : NamedArg) (hk2 : strings.IndexByte k 61 = none)
    (hk3 : strings.HasPrefix k (str "-") = false) (hl : cmd.lookupArg k = some (i, arg))
    (hb : arg.dest.isBool = false) :
    resolve cmd (45 :: k) (v :: rest) = .ok i arg v true := by
  rw [resolve_dash cmd k (v :: rest) hk2 hk3, hl]
  simp [hb]

/-- C1. `Cmd.Parse` binds named values. First part: in every state of the loop of
`Parse` (that is, whenever the tokens `-k`, `v` are reached without an earlier error),
if the key `k` (non-empty, without `=` (byte 61), not starting with `-` (byte 45)) is
mapped by the lookup to a specification of kind `*int`, `*int64`, `*uint`, `*uint64`
or `*string` and `v` converts to that kind, the iteration writes the converted value
through the binding of that specification, marks it supplied when required, and goes on
with the tokens after `v`. Second part: on the test command the token lists of
`TestShortArgs` and `TestArgs` give the chain `[command]`, no error, and int=10,
int64=20, uint=30, uint64=40, bool=true, string=hello, dint=54321 (the library accepting
the text `1.23` as a float). -/
theorem parse_binds_named_values :
    (∀ (lib : FloatLib) (cmd : Cmd) (st : Store) (k v : GoString) (rest : List GoString)
      (i : Nat) (arg : NamedArg),
      k ≠ [] → strings.IndexByte k 61 = none → strings.HasPrefix k (str "-") = false →
      cmd.lookupArg k = some (i, arg) →
      (∀ p, arg.dest = .int p → (strconv.ParseInt v 0 0).2 = none →
        parseLoop lib cmd st ((45 :: k) :: v :: rest) =
          parseLoop lib (cmd.supplied i arg)
            { st with int := upd st.int p (strconv.ParseInt v 0 0).1 } rest) ∧
      (∀ p, arg.dest = .int64 p → (strconv.ParseInt v 0 64).2 = none →
        parseLoop lib cmd st ((45 :: k) :: v :: rest) =
          parseLoop lib (cmd.supplied i arg)
            { st with int64 := upd st.int64 p (strconv.ParseInt v 0 64).1 } rest) ∧
      (∀ p, arg.dest = .uint p → (strconv.ParseUint v 0 0).2 = none →
        parseLoop lib cmd st ((45 :: k) :: v :: rest) =
          parseLoop lib (cmd.supplied i arg)
            { st with uint := upd st.uint p (strconv.ParseUint v 0 0).1 } rest) ∧
      (∀ p, arg.dest = .uint64 p → (strconv.ParseUint v 0 64).2 = none →
        parseLoop lib cmd st ((45 :: k) :: v :: rest) =
          parseLoop lib (cmd.supplied i arg)
            { st with uint64 := upd st.uint64 p (strconv.ParseUint v 0 64).1 } rest) ∧
      (∀ p, arg.dest = .string p →
        parseLoop lib cmd st ((45 :: k) :: v :: rest) =
          parseLoop lib (cmd.supplied i arg) { st with string := upd st.string p v } rest)) ∧
    (∀ (lib : FloatLib) (st0 : Store), (lib.ParseFloat (str "1.23")).2 = none →
      TestArgsHold (Cmd.Parse lib (createTestCmd lib st0).1 (createTestCmd lib st0).2 shortArgs) ∧
      TestArgsHold (Cmd.Parse lib (createTestCmd lib st0).1 (createTestCmd lib st0).2 longArgs)) := by
  refine ⟨?_, ?_⟩
  · intro lib cmd st k v rest i arg _ hk2 hk3 hl
    refine ⟨?_, ?_, ?_, ?_, ?_⟩
    · intro p hd hv
      have hr := resolve_value cmd k v rest i arg hk2 hk3 hl (by rw [hd]; rfl)
      have hc : coerce lib cmd st arg.dest v =
          .done cmd { st with int := upd st.int p (strconv.ParseInt v 0 0).1 } none := by
        rw [hd]; simp only [coerce, hv, if_true]
      rw [parseLoop_ok lib cmd st k (v :: rest) i arg v true cmd _ hr hc]
      rfl
    · intro p hd hv
      have hr := resolve_value cmd k v rest i arg hk2 hk3 hl (by rw [hd]; rfl)
      have hc : coerce lib cmd st arg.dest v =
          .done cmd { st with int64 := upd st.int64 p (strconv.ParseInt v 0 64).1 } none := by
        rw [hd]; simp only [coerce, hv]
      rw [parseLoop_ok lib cmd st k (v :: rest) i arg v true cmd _ hr hc]
      rfl
    · intro p hd hv
      have hr := resolve_value cmd k v rest i arg hk2 hk3 hl (by rw [hd]; rfl)
      have hc : coerce lib cmd st arg.dest v =
          .done cmd { st with uint := upd st.uint p (strconv.ParseUint v 0 0).1 } none := by
        rw [hd]; simp only [coerce, hv, if_true]
      rw [parseLoop_ok lib cmd st k (v :: rest) i arg v true cmd _ hr hc]
      rfl
    · intro p hd hv
      have hr := resolve_value cmd k v rest i arg hk2 hk3 hl (by rw [hd]; rfl)
      have hc : coerce lib cmd st arg.dest v =
          .done cmd { st with uint64 := upd st.uint64 p (strconv.ParseUint v 0 64).1 } none := by
        rw [hd]; simp only [coerce, hv]
      rw [parseLoop_ok lib cmd st k (v :: rest) i arg v true cmd _ hr hc]
      rfl
    · intro p hd
      have hr := resolve_value cmd k v rest i arg hk2 hk3 hl (by rw [hd]; rfl)
      have hc : coerce lib cmd st arg.dest v =
          .done cmd { st with string := upd st.string p v } none := by
        rw [hd]; simp only [coerce]
      rw [parseLoop_ok lib cmd st k (v :: rest) i arg v true cmd _ hr hc]
      rfl
  · intro lib st0 hf
    rw [str_1_23] at hf
    exact testArgs_eval (lib.ParseFloat [49, 46, 50, 51]).1 lib.ParseFloat lib.FormatFloat st0 lib
      (floatLib_accepts lib _ hf)

/-- Witness for C1: the first part at the test command, the key `i` and the value `10`;
the second part at `sampleLib`. -/
theorem parse_binds_named_values_witness :
    (parseLoop sampleLib (createTestCmd sampleLib Store.zero).1 Store.zero
        [45 :: str "i", str "10"] =
      parseLoop sampleLib
        ((createTestCmd sampleLib Store.zero).1.supplied 1
          ⟨str "int", str "i", str "An int argument.", str "0", .int 0, true, false⟩)
        { Store.zero with int := upd Store.zero.int 0 (strconv.ParseInt (str "10") 0 0).1 } []) ∧
    TestArgsHold (Cmd.Parse sampleLib (createTestCmd sampleLib Store.zero).1
      (createTestCmd sampleLib Store.zero).2 shortArgs) :=
  ⟨(parse_binds_named_values.1 sampleLib (createTestCmd sampleLib Store.zero).1 Store.zero
      (str "i") (str "10") [] 1
      ⟨str "int", str "i", str "An int argument.", str "0", .int 0, true, false⟩
      (by decide) (by decide) (by decide) (by decide)).1 0 rfl (by decide),
    (parse_binds_named_values.2 sampleLib Store.zero (by decide)).1⟩

/-! ### The four spellings of a named argument -/

theorem mapGet_eq_none {α : Type} (m : List (GoString × α)) (k : GoString)
    (h : ∀ p ∈ m, p.1 ≠ k) : mapGet m k = none := by
  induction m with
  | nil => rfl
  | cons p rest ih =>
    obtain ⟨k1, v⟩ := p
    have h1 : k1 ≠ k := h (k1, v) (List.mem_cons_self _ _)
    simp only [mapGet, h1, if_false]
    exact ih (fun q hq => h q (List.mem_cons_of_mem _ hq))

/-- The loop treats `--s` as `-s`, unless `s` begins with `=`. -/
theorem parseLoop_dash_dash (lib : FloatLib) (cmd : Cmd) (st : Store) (s : GoString)
    (rest : List GoString) (h3 : strings.HasPrefix s (str "-") = false)
    (h0 : strings.IndexByte s 61 ≠ some 0) :
    parseLoop lib cmd st ((45 :: 45 :: s) :: rest) = parseLoop lib cmd st ((45 :: s) :: rest) := by
  rw [parseLoop_cons, parseLoop_cons, step_dash, step_dash, resolve_dash_dash cmd s rest h3 h0]

/-- The loop treats `-k=v` as `-k` followed by `v`, when a key bound to a `*bool` is
given a boolean literal. -/
theorem parseLoop_dash_eq (lib : FloatLib) (cmd : Cmd) (st : Store) (k v : GoString)
    (post : List GoString) (hk1 : k ≠ []) (hk2 : strings.IndexByte k 61 = none)
    (hk3 : strings.HasPrefix k (str "-") = false)
    (hb : ∀ i arg, cmd.lookupArg k = some (i, arg) → arg.dest.isBool = true →
      (strconv.ParseBool v).2 = none) :
    parseLoop lib cmd st ((45 :: (k ++ 61 :: v)) :: post) =
      parseLoop lib cmd st ((45 :: k) :: v :: post) := by
  rw [parseLoop_cons, parseLoop_cons, step_dash, step_dash, resolve_dash_eq cmd k v post hk1 hk2 hk3,
    resolve_dash cmd k (v :: post) hk2 hk3]
  cases hl : cmd.lookupArg k with
  | none => rfl
  | some q =>
    obtain ⟨i, arg⟩ := q
    simp only []
    cases hbool : arg.dest.isBool with
    | false =>
      simp only [Bool.false_eq_true, if_false]
      cases coerce lib cmd st arg.dest v with
      | unexpectedType => rfl
      | done cmd1 st1 err => cases err <;> simp
    | true =>
      simp only [if_true, hb i arg hl hbool]
      cases coerce lib cmd st arg.dest v with
      | unexpectedType => rfl
      | done cmd1 st1 err => cases err <;> simp

theorem parse_eq_parseOwn (lib : FloatLib) (cmd : Cmd) (st : Store) (arguments : List GoString)
    (h : ∀ first rest, arguments = first :: rest → mapGet cmd.subCmds first = none) :
    Cmd.Parse lib cmd st arguments = parseOwn lib cmd st arguments := by
  cases arguments with
  | nil => simp [Cmd.Parse]
  | cons first rest => simp [Cmd.Parse, h first rest rfl]

/-- Counterexample to C2 as stated: on the test command the key `i` is registered and
there is no sub-command, yet with the token `-s` in front the spellings `-i 10` and
`-i=10` leave different bindings (`string` is `-i`, resp. `-i=10`) and different
positionals (`10`, resp. none): the value-taking flag `-s` takes the first token of the
spelling as its value. -/
theorem spellings_differ_after_value_flag :
    (createTestCmd sampleLib Store.zero).1.subCmds.isEmpty = true ∧
    ((createTestCmd sampleLib Store.zero).1.lookupArg (str "i")).isSome = true ∧
    (Cmd.Parse sampleLib (createTestCmd sampleLib Store.zero).1
        (createTestCmd sampleLib Store.zero).2 [str "-s", str "-i", str "10"]).store.string 0
      = str "-i" ∧
    (Cmd.Parse sampleLib (createTestCmd sampleLib Store.zero).1
        (createTestCmd sampleLib Store.zero).2 [str "-s", str "-i=10"]).store.string 0
      = str "-i=10" ∧
    (Cmd.Parse sampleLib (createTestCmd sampleLib Store.zero).1
        (createTestCmd sampleLib Store.zero).2 [str "-s", str "-i", str "10"]).cmd.Args
      = [str "10"] ∧
    (Cmd.Parse sampleLib (createTestCmd sampleLib Store.zero).1
        (createTestCmd sampleLib Store.zero).2 [str "-s", str "-i=10"]).cmd.Args = [] := by
  decide

/-- C2 (amended). The four spellings `-k v`, `--k v`, `-k=v`, `--k=v` of a named
argument are equivalent whenever the first token of the spelling is itself scanned by
the loop of `Parse`: in every state of the loop (every command, store and tokens
`post` after the spelling) the four token lists give the same error or success and the
same final command and store; and at the start of the token list of `Parse`, when no
sub-command name starts with `-`, the four give the same returned chain, error, final
command (positionals and supplied flags) and store. Here `k` is non-empty, without
`=`, not starting with `-`, and when `k` is bound to a `*bool` the value `v` is a
boolean literal. -/
theorem spellings_equivalent (lib : FloatLib) (cmd : Cmd) (st : Store) (k v : GoString)
    (post : List GoString) (hk1 : k ≠ []) (hk2 : strings.IndexByte k 61 = none)
    (hk3 : strings.HasPrefix k (str "-") = false)
    (hb : ∀ i arg, cmd.lookupArg k = some (i, arg) → arg.dest.isBool = true →
      (strconv.ParseBool v).2 = none) :
    (parseLoop lib cmd st ((45 :: 45 :: k) :: v :: post) =
        parseLoop lib cmd st ((45 :: k) :: v :: post) ∧
      parseLoop lib cmd st ((45 :: (k ++ 61 :: v)) :: post) =
        parseLoop lib cmd st ((45 :: k) :: v :: post) ∧
      parseLoop lib cmd st ((45 :: 45 :: (k ++ 61 :: v)) :: post) =
        parseLoop lib cmd st ((45 :: k) :: v :: post)) ∧
    ((∀ p ∈ cmd.subCmds, strings.HasPrefix p.1 (str "-") = false) →
      Cmd.Parse lib cmd st ((45 :: 45 :: k) :: v :: post) =
        Cmd.Parse lib cmd st ((45 :: k) :: v :: post) ∧
      Cmd.Parse lib cmd st ((45 :: (k ++ 61 :: v)) :: post) =
        Cmd.Parse lib cmd st ((45 :: k) :: v :: post) ∧
      Cmd.Parse lib cmd st ((45 :: 45 :: (k ++ 61 :: v)) :: post) =
        Cmd.Parse lib cmd st ((45 :: k) :: v :: post)) := by
  have h1 : parseLoop lib cmd st ((45 :: 45 :: k) :: v :: post) =
      parseLoop lib cmd st ((45 :: k) :: v :: post) :=
    parseLoop_dash_dash lib cmd st k (v :: post) hk3 (by rw [hk2]; simp)
  have h2 := parseLoop_dash_eq lib cmd st k v post hk1 hk2 hk3 hb
  have h3 : parseLoop lib cmd st ((45 :: 45 :: (k ++ 61 :: v)) :: post) =
      parseLoop lib cmd st ((45 :: k) :: v :: post) := by
    rw [parseLoop_dash_dash lib cmd st (k ++ 61 :: v) post
      (by rw [hasPrefix_dash_append _ _ hk1]; exact hk3)
      (by
        rw [indexByte_append k v 61 hk2]
        cases k with
        | nil => exact absurd rfl hk1
        | cons c cs => simp)]
    exact h2
  refine ⟨⟨h1, h2, h3⟩, ?_⟩
  intro hsub
  have hnone : ∀ s : GoString, mapGet cmd.subCmds (45 :: s) = none := by
    intro s
    apply mapGet_eq_none
    intro p hp e
    have := hsub p hp
    rw [e, hasPrefix_dash_cons] at this
    simp at this
  have hP : ∀ (s : GoString) (rest : List GoString),
      Cmd.Parse lib cmd st ((45 :: s) :: rest) = parseOwn lib cmd st ((45 :: s) :: rest) := by
    intro s rest
    apply parse_eq_parseOwn
    intro first rest1 e
    cases e
    exact hnone s
  rw [hP, hP, hP, hP]
  simp only [parseOwn, h1, h2, h3, and_self]

/-- Witness for C2 (amended): the test command, the key `i` and the value `10`. -/
theorem spellings_equivalent_witness :
    parseLoop sampleLib (createTestCmd sampleLib Store.zero).1 Store.zero
        [45 :: 45 :: str "i", str "10"] =
      parseLoop sampleLib (createTestCmd sampleLib Store.zero).1 Store.zero
        [45 :: str "i", str "10"] :=
  (spellings_equivalent sampleLib (createTestCmd sampleLib Store.zero).1 Store.zero (str "i")
    (str "10") [] (by decide) (by decide) (by decide)
    (by
      intro i arg h hbool
      have h1 : (createTestCmd sampleLib Store.zero).1.lookupArg (str "i") =
          some (1, ⟨str "int", str "i", str "An int argument.", str "0", .int 0, true, false⟩) := by
        decide
      rw [h1] at h
      cases h
      cases hbool)).1.1

/-! ### The boolean look-ahead -/

theorem hasPrefix_dash_true (t : GoString) (h : strings.HasPrefix t (str "-") = true) :
    ∃ s, t = 45 :: s := by
  cases t with
  | nil => simp [hasPrefix_dash_nil] at h
  | cons c s =>
    rw [hasPrefix_dash_cons] at h
    exact ⟨s, by simp at h; rw [h]⟩

theorem parseBool_true : strconv.ParseBool (str "true") = (true, none) := by decide

/-- The resolution of a token without `=` whose key is bound to a `*bool`. -/
theorem resolve_bool (cmd : Cmd) (t : GoString) (rest : List GoString) (i : Nat)
    (arg : NamedArg) (hidx : strings.IndexByte (stripDashes t) 61 = none)
    (hl : cmd.lookupArg (stripDashes t) = some (i, arg)) (hb : arg.dest.isBool = true) :
    resolve cmd t rest =
      match rest with
      | [] => .ok i arg (str "true") false
      | nextArgStr :: _ =>
        if (strconv.ParseBool nextArgStr).2 = none then .ok i arg nextArgStr true
        else .ok i arg (str "true") false := by
  simp only [resolve, hidx, hl, hb, if_true]

/-- C3. Boolean look-ahead in `Cmd.Parse`. First part: in every state of the loop, for
a named-argument token `t` whose stripped text has no `=` and is mapped by the lookup
to a specification bound to a `*bool`: if the next token is a boolean literal, it is
consumed and its value is written through the binding; if there is no next token, or
the next token is not a boolean literal, `true` is written and the next token is left
to be processed as an ordinary token. Second part: on the test command
`[-b, nextpositional]` sets `boolArg` to true and leaves the positionals
`[nextpositional]`, and `[-b, false]` sets `boolArg` to false (also when it was true
before) and leaves no positional. -/
theorem boolean_look_ahead :
    (∀ (lib : FloatLib) (cmd : Cmd) (st : Store) (t : GoString) (i : Nat) (arg : NamedArg)
      (p : BoolPtr),
      strings.HasPrefix t (str "-") = true → strings.IndexByte (stripDashes t) 61 = none →
      cmd.lookupArg (stripDashes t) = some (i, arg) → arg.dest = .bool p →
      (∀ nxt rest, (strconv.ParseBool nxt).2 = none →
        parseLoop lib cmd st (t :: nxt :: rest) =
          parseLoop lib ((writeBool cmd st p (strconv.ParseBool nxt).1).1.supplied i arg)
            (writeBool cmd st p (strconv.ParseBool nxt).1).2 rest) ∧
      parseLoop lib cmd st [t] =
        (none, (writeBool cmd st p true).1.supplied i arg, (writeBool cmd st p true).2) ∧
      (∀ nxt rest, (strconv.ParseBool nxt).2 ≠ none →
        parseLoop lib cmd st (t :: nxt :: rest) =
          parseLoop lib ((writeBool cmd st p true).1.supplied i arg) (writeBool cmd st p true).2
            (nxt :: rest))) ∧
    (∀ (lib : FloatLib) (st0 : Store),
      (Cmd.Parse lib (createTestCmd lib st0).1 (createTestCmd lib st0).2
          [str "-b", str "nextpositional"]).store.bool 0 = true ∧
      (Cmd.Parse lib (createTestCmd lib st0).1 (createTestCmd lib st0).2
          [str "-b", str "nextpositional"]).cmd.Args = [str "nextpositional"] ∧
      (Cmd.Parse lib (createTestCmd lib st0).1 (createTestCmd lib st0).2
          [str "-b", str "false"]).store.bool 0 = false ∧
      (Cmd.Parse lib (createTestCmd lib st0).1 (createTestCmd lib st0).2
          [str "-b", str "false"]).cmd.Args = [] ∧
      (Cmd.Parse lib (createTestCmd lib st0).1 (boolArgSet (createTestCmd lib st0).2)
          [str "-b", str "false"]).store.bool 0 = false) := by
  refine ⟨?_, ?_⟩
  · intro lib cmd st t i arg p hpre hidx hl hd
    obtain ⟨s, rfl⟩ := hasPrefix_dash_true t hpre
    have hb : arg.dest.isBool = true := by rw [hd]; rfl
    have hc : ∀ v, coerce lib cmd st arg.dest v =
        .done (writeBool cmd st p (strconv.ParseBool v).1).1
          (writeBool cmd st p (strconv.ParseBool v).1).2 (strconv.ParseBool v).2 := by
      intro v; rw [hd]; rfl
    refine ⟨?_, ?_, ?_⟩
    · intro nxt rest hn
      have hr : resolve cmd (45 :: s) (nxt :: rest) = .ok i arg nxt true := by
        rw [resolve_bool cmd _ _ i arg hidx hl hb]; simp only [hn, if_true]
      rw [parseLoop_ok lib cmd st s (nxt :: rest) i arg nxt true _ _ hr (by rw [hc, hn])]
      rfl
    · have hr : resolve cmd (45 :: s) [] = .ok i arg (str "true") false := by
        rw [resolve_bool cmd _ _ i arg hidx hl hb]
      rw [parseLoop_ok lib cmd st s [] i arg (str "true") false _ _ hr
        (by rw [hc, parseBool_true])]
      rfl
    · intro nxt rest hn
      have hr : resolve cmd (45 :: s) (nxt :: rest) = .ok i arg (str "true") false := by
        rw [resolve_bool cmd _ _ i arg hidx hl hb]; simp only [hn, if_false]
      rw [parseLoop_ok lib cmd st s (nxt :: rest) i arg (str "true") false _ _ hr
        (by rw [hc, parseBool_true])]
      rfl
  · intro lib st0
    rw [createTestCmd_fst]
    have e1 : [str "-b", str "nextpositional"] =
        [[45, 98], [110, 101, 120, 116, 112, 111, 115, 105, 116, 105, 111, 110, 97, 108]] := by
      decide
    have e2 : [str "-b", str "false"] = [[45, 98], [102, 97, 108, 115, 101]] := by decide
    have e3 : str "nextpositional" =
        [110, 101, 120, 116, 112, 111, 115, 105, 116, 105, 111, 110, 97, 108] := by decide
    rw [e1, e2, e3]
    exact ⟨rfl, rfl, rfl, rfl, rfl⟩

/-- Witness for C3: the test command and the token `-b`. -/
theorem boolean_look_ahead_witness :
    parseLoop sampleLib (createTestCmd sampleLib Store.zero).1 Store.zero [str "-b"] =
      (none,
        (writeBool (createTestCmd sampleLib Store.zero).1 Store.zero (.var 0) true).1.supplied 6
          ⟨str "bool", str "b", str "A bool argument.", str "false", .bool (.var 0), true, false⟩,
        (writeBool (createTestCmd sampleLib Store.zero).1 Store.zero (.var 0) true).2) :=
  (boolean_look_ahead.1 sampleLib (createTestCmd sampleLib Store.zero).1 Store.zero (str "-b") 6
    ⟨str "bool", str "b", str "A bool argument.", str "false", .bool (.var 0), true, false⟩
    (.var 0) (by decide) (by decide) (by decide) rfl).2.1

/-! ### The validation of the required arguments -/

theorem lookupArg_get (cmd : Cmd) (k : GoString) (i : Nat) (arg : NamedArg)
    (h : cmd.lookupArg k = some (i, arg)) : cmd.namedArgList.get? i = some arg := by
  unfold Cmd.lookupArg at h
  cases hm : mapGet cmd.namedArgMap k with
  | none => rw [hm] at h; simp at h
  | some j =>
    rw [hm] at h
    simp only at h
    cases hg : cmd.namedArgList.get? j with
    | none => rw [hg] at h; simp at h
    | some a =>
      rw [hg] at h
      simp only [Option.some.injEq, Prod.mk.injEq] at h
      obtain ⟨rfl, rfl⟩ := h
      exact hg

theorem resolve_get (cmd : Cmd) (t : GoString) (rest : List GoString) (i : Nat) (arg : NamedArg)
    (v : GoString) (c : Bool) (h : resolve cmd t rest = .ok i arg v c) :
    cmd.namedArgList.get? i = some arg := by
  unfold resolve at h
  simp only at h
  split at h
  · split at h
    · cases h
    · rename_i i1 arg1 hl
      have hg := lookupArg_get cmd _ _ _ hl
      split at h
      · split at h
        · cases h; exact hg
        · split at h <;> (cases h; exact hg)
      · split at h
        · cases h
        · cases h; exact hg
  · cases h
  · split at h
    · cases h
    · rename_i i1 arg1 hl
      cases h
      exact lookupArg_get cmd _ _ _ hl

/-- The type switch changes nothing of the command but, possibly, the help flag. -/
theorem coerce_cmd (lib : FloatLib) (cmd : Cmd) (st : Store) (d : Dest) (v : GoString)
    (cmd1 : Cmd) (st1 : Store) (e : Option strconv.NumError)
    (h : coerce lib cmd st d v = .done cmd1 st1 e) :
    ∃ b, cmd1 = { cmd with shouldRenderHelp := b } := by
  have eta : cmd = { cmd with shouldRenderHelp := cmd.shouldRenderHelp } := by cases cmd; rfl
  cases d with
  | int p =>
    simp only [coerce] at h
    split at h <;> (cases h; exact ⟨cmd.shouldRenderHelp, eta⟩)
  | uint p =>
    simp only [coerce] at h
    split at h <;> (cases h; exact ⟨cmd.shouldRenderHelp, eta⟩)
  | int64 p => simp only [coerce] at h; cases h; exact ⟨cmd.shouldRenderHelp, eta⟩
  | uint64 p => simp only [coerce] at h; cases h; exact ⟨cmd.shouldRenderHelp, eta⟩
  | float64 p => simp only [coerce] at h; cases h; exact ⟨cmd.shouldRenderHelp, eta⟩
  | bool p =>
    simp only [coerce] at h
    cases h
    cases p with
    | var q => exact ⟨cmd.shouldRenderHelp, eta⟩
    | shouldRenderHelp => exact ⟨_, rfl⟩
  | string p => simp only [coerce] at h; cases h; exact ⟨cmd.shouldRenderHelp, eta⟩
  | other => simp [coerce] at h

/-- The effect of one completed iteration on the list of specifications. -/
theorem step_next_list (lib : FloatLib) (cmd : Cmd) (st : Store) (a : GoString)
    (rest : List GoString) (cmd1 : Cmd) (st1 : Store) (c : Bool)
    (h : step lib cmd st a rest = .next cmd1 st1 c) :
    cmd1.namedArgList = markAt cmd.namedArgList (matchOf cmd a rest) := by
  unfold step at h
  unfold matchOf
  split at h
  · rename_i hp
    simp only [hp, if_true]
    cases hr : resolve cmd a rest with
    | fail err => rw [hr] at h; cases h
    | ok i arg v c1 =>
      rw [hr] at h
      simp only at h
      have hg := resolve_get cmd a rest i arg v c1 hr
      cases hc : coerce lib cmd st arg.dest v with
      | unexpectedType => rw [hc] at h; cases h
      | done cmd2 st2 e =>
        rw [hc] at h
        obtain ⟨b, rfl⟩ := coerce_cmd lib cmd st arg.dest v cmd2 st2 e hc
        cases e with
        | some e1 => cases h
        | none =>
          simp only at h
          simp only [markAt, hg]
          split at h
          · rename_i hreq
            cases h
            simp [Cmd.markSet, hreq]
          · rename_i hreq
            cases h
            simp [hreq]
  · rename_i hp
    cases h
    simp [hp, markAt]
theorem matchedBy_cons (lib : FloatLib) (cmd : Cmd) (st : Store) (a : GoString)
    (rest : List GoString) :
    matchedBy lib cmd st (a :: rest) =
      match step lib cmd st a rest with
      | .fail _ _ _ => []
      | .next cmd1 st1 c =>
        (matchOf cmd a rest).toList ++ matchedBy lib cmd1 st1 (if c then rest.tail else rest) := by
  cases rest with
  | nil =>
    simp only [matchedBy]
    cases step lib cmd st a [] <;> simp [matchedBy]
  | cons nextArg rest1 =>
    simp only [matchedBy]
    cases step lib cmd st a (nextArg :: rest1) with
    | fail err cmd1 st1 => rfl
    | next cmd1 st1 c => cases c <;> simp

theorem marked_nil (l : List NamedArg) : Marked [] l l := by
  intro j
  cases h : l.get? j with
  | none => rfl
  | some a => simp

theorem marked_step (M : List Nat) (l0 l1 : List NamedArg) (o : Option Nat)
    (h : Marked M (markAt l0 o) l1) : Marked (o.toList ++ M) l0 l1 := by
  intro j
  have hj := h j
  cases o with
  | none => simpa [markAt] using hj
  | some i =>
    simp only [markAt] at hj
    simp only [Option.toList, List.singleton_append, List.mem_cons]
    cases hg : l0.get? i with
    | none =>
      rw [hg] at hj
      simp only at hj
      rw [hj]
      cases hgj : l0.get? j with
      | none => rfl
      | some a =>
        have hne : j ≠ i := by
          intro e; rw [e, hg] at hgj; cases hgj
        simp [hne]
    | some arg =>
      rw [hg] at hj
      simp only at hj
      cases hreq : arg.required with
      | false =>
        rw [hreq] at hj
        simp only [Bool.false_eq_true, if_false] at hj
        rw [hj]
        cases hgj : l0.get? j with
        | none => rfl
        | some a =>
          by_cases hji : j = i
          · subst hji
            rw [hg] at hgj
            cases hgj
            simp [hreq]
          · simp [hji]
      | true =>
        rw [hreq] at hj
        simp only [if_true] at hj
        rw [hj]
        by_cases hji : j = i
        · subst hji
          have hlt : j < l0.length := by
            rcases Nat.lt_or_ge j l0.length with h1 | h1
            · exact h1
            · rw [List.get?_eq_none.mpr h1] at hg; cases hg
          have hs : ∀ x : NamedArg, (l0.set j x).get? j = some x := by
            intro x; simp [hlt]
          rw [hs, hg]
          simp [hreq]
        · have hne : i ≠ j := fun e => hji e.symm
          simp [List.getElem?_set_ne hne, hji]
/-- After a loop that ends without error, the specifications are those of the start,
the required ones that a token matched being marked as set. -/
theorem loop_marked (lib : FloatLib) :
    ∀ (n : Nat) (args : List GoString), args.length ≤ n → ∀ (cmd : Cmd) (st : Store)
      (cmd1 : Cmd) (st1 : Store), parseLoop lib cmd st args = (none, cmd1, st1) →
      Marked (matchedBy lib cmd st args) cmd.namedArgList cmd1.namedArgList := by
  intro n
  induction n with
  | zero =>
    intro args hlen cmd st cmd1 st1 h
    cases args with
    | nil =>
      simp only [parseLoop, Prod.mk.injEq, true_and] at h
      obtain ⟨rfl, _⟩ := h
      exact marked_nil _
    | cons a rest => simp at hlen
  | succ n ih =>
    intro args hlen cmd st cmd1 st1 h
    cases args with
    | nil =>
      simp only [parseLoop, Prod.mk.injEq, true_and] at h
      obtain ⟨rfl, _⟩ := h
      exact marked_nil _
    | cons a rest =>
      rw [parseLoop_cons] at h
      rw [matchedBy_cons]
      cases hs : step lib cmd st a rest with
      | fail e cmd2 st2 => rw [hs] at h; simp at h
      | next cmd2 st2 c =>
        rw [hs] at h
        simp only at h ⊢
        apply marked_step
        rw [← step_next_list lib cmd st a rest cmd2 st2 c hs]
        apply ih _ _ cmd2 st2 cmd1 st1 h
        have h1 : rest.length ≤ n := by simpa using hlen
        cases c with
        | false => simpa using h1
        | true =>
          have h2 : rest.tail.length ≤ rest.length := by simp
          simpa using le_trans h2 h1

theorem firstMissing_marked (M : List Nat) :
    ∀ (l0 l1 : List NamedArg) (k : Nat), (∀ a ∈ l0, a.set = false) →
      (∀ j, l1.get? j = (l0.get? j).map
        (fun a => { a with set := a.set || (a.required && decide (j + k ∈ M)) })) →
      (firstMissing l1).map (fun a => a.name) = (firstUnmatched M k l0).map (fun a => a.name) := by
  intro l0
  induction l0 with
  | nil =>
    intro l1 k _ h
    have h0 := h 0
    cases l1 with
    | nil => rfl
    | cons b r => simp at h0
  | cons a r ih =>
    intro l1 k hset h
    have h0 := h 0
    cases l1 with
    | nil => simp at h0
    | cons b r1 =>
      simp only [List.get?_cons_zero, Option.map_some', Option.some.injEq, Nat.zero_add] at h0
      have hr : ∀ j, r1.get? j = (r.get? j).map
          (fun a => { a with set := a.set || (a.required && decide (j + (k + 1) ∈ M)) }) := by
        intro j
        have := h (j + 1)
        simp only [List.get?_cons_succ] at this
        rw [this]
        have e : j + 1 + k = j + (k + 1) := by omega
        rw [e]
      have ih1 := ih r1 (k + 1) (fun x hx => hset x (List.mem_cons_of_mem _ hx)) hr
      have ha : a.set = false := hset a (List.mem_cons_self _ _)
      subst h0
      simp only [firstMissing, firstUnmatched, ha, Bool.false_or]
      by_cases h1 : a.required = true ∧ k ∉ M
      · simp [h1.1, h1.2]
      · rw [if_neg h1]
        have h2 : ¬ (a.required = true ∧ (a.required && decide (k ∈ M)) = false) := by
          intro hh
          apply h1
          refine ⟨hh.1, ?_⟩
          have := hh.2
          simp [hh.1] at this
          exact this
        rw [if_neg h2]
        exact ih1

theorem firstUnmatched_eq_none (M : List Nat) :
    ∀ (l : List NamedArg) (k : Nat), firstUnmatched M k l = none ↔
      ∀ j a, l.get? j = some a → a.required = true → j + k ∈ M := by
  intro l
  induction l with
  | nil => intro k; simp [firstUnmatched]
  | cons b r ih =>
    intro k
    simp only [firstUnmatched]
    constructor
    · intro h j a hg hreq
      by_cases h1 : b.required = true ∧ k ∉ M
      · rw [if_pos h1] at h; cases h
      · rw [if_neg h1] at h
        cases j with
        | zero =>
          simp only [List.get?_cons_zero, Option.some.injEq] at hg
          subst hg
          by_contra hc
          exact h1 ⟨hreq, by simpa using hc⟩
        | succ j1 =>
          simp only [List.get?_cons_succ] at hg
          have := (ih (k + 1)).mp h j1 a hg hreq
          have e : j1 + 1 + k = j1 + (k + 1) := by omega
          rw [e]; exact this
    · intro h
      have h1 : ¬ (b.required = true ∧ k ∉ M) := by
        intro hh
        have := h 0 b rfl hh.1
        simp at this
        exact hh.2 this
      rw [if_neg h1]
      apply (ih (k + 1)).mpr
      intro j a hg hreq
      have := h (j + 1) a (by simpa using hg) hreq
      have e : j + 1 + k = j + (k + 1) := by omega
      rw [← e]; exact this

theorem firstUnmatched_eq_some (M : List Nat) :
    ∀ (l : List NamedArg) (k j : Nat) (a : NamedArg), l.get? j = some a → a.required = true →
      j + k ∉ M → (∀ j1 a1, j1 < j → l.get? j1 = some a1 → a1.required = true → j1 + k ∈ M) →
      firstUnmatched M k l = some a := by
  intro l
  induction l with
  | nil => intro k j a hg; simp at hg
  | cons b r ih =>
    intro k j a hg hreq hj hbefore
    simp only [firstUnmatched]
    cases j with
    | zero =>
      simp only [List.get?_cons_zero, Option.some.injEq] at hg
      subst hg
      have : b.required = true ∧ k ∉ M := ⟨hreq, by simpa using hj⟩
      rw [if_pos this]
    | succ j1 =>
      simp only [List.get?_cons_succ] at hg
      have h1 : ¬ (b.required = true ∧ k ∉ M) := by
        intro hh
        have := hbefore 0 b (Nat.succ_pos _) rfl hh.1
        simp at this
        exact hh.2 this
      rw [if_neg h1]
      apply ih (k + 1) j1 a hg hreq
      · have e : j1 + 1 + k = j1 + (k + 1) := by omega
        rw [← e]; exact hj
      · intro j2 a2 hlt hg2 hreq2
        have := hbefore (j2 + 1) a2 (by omega) (by simpa using hg2) hreq2
        have e : j2 + 1 + k = j2 + (k + 1) := by omega
        rw [← e]; exact this
theorem resolve_fail_kind (cmd : Cmd) (t : GoString) (rest : List GoString) (e : Error)
    (h : resolve cmd t rest = .fail e) : ∀ n, e ≠ .requiredNotSpecified n := by
  intro n hn
  subst hn
  unfold resolve at h
  simp only at h
  split at h
  · split at h
    · cases h
    · split at h
      · split at h
        · cases h
        · split at h <;> cases h
      · split at h <;> cases h
  · cases h
  · split at h <;> cases h

theorem step_fail_kind (lib : FloatLib) (cmd : Cmd) (st : Store) (a : GoString)
    (rest : List GoString) (e : Error) (cmd1 : Cmd) (st1 : Store)
    (h : step lib cmd st a rest = .fail e cmd1 st1) : ∀ n, e ≠ .requiredNotSpecified n := by
  intro n hn
  subst hn
  unfold step at h
  split at h
  · cases hr : resolve cmd a rest with
    | fail err =>
      rw [hr] at h
      simp only [Step.fail.injEq] at h
      exact resolve_fail_kind cmd a rest err hr n h.1
    | ok i arg v c1 =>
      rw [hr] at h
      simp only at h
      cases hc : coerce lib cmd st arg.dest v with
      | unexpectedType => rw [hc] at h; cases h
      | done cmd2 st2 e1 =>
        rw [hc] at h
        cases e1 with
        | some e2 => cases h
        | none => simp only at h; split at h <;> cases h
  · cases h

/-- An error returned by an iteration of the loop is never the error of the validation
of the required arguments. -/
theorem parseLoop_err_kind (lib : FloatLib) :
    ∀ (n : Nat) (args : List GoString), args.length ≤ n → ∀ (cmd : Cmd) (st : Store) (e : Error)
      (cmd1 : Cmd) (st1 : Store), parseLoop lib cmd st args = (some e, cmd1, st1) →
      ∀ m, e ≠ .requiredNotSpecified m := by
  intro n
  induction n with
  | zero =>
    intro args hlen cmd st e cmd1 st1 h
    cases args with
    | nil => simp [parseLoop] at h
    | cons a rest => simp at hlen
  | succ n ih =>
    intro args hlen cmd st e cmd1 st1 h
    cases args with
    | nil => simp [parseLoop] at h
    | cons a rest =>
      rw [parseLoop_cons] at h
      cases hs : step lib cmd st a rest with
      | fail e2 cmd2 st2 =>
        rw [hs] at h
        simp only [Prod.mk.injEq, Option.some.injEq] at h
        rw [← h.1]
        exact step_fail_kind lib cmd st a rest e2 cmd2 st2 hs
      | next cmd2 st2 c =>
        rw [hs] at h
        simp only at h
        apply ih _ _ cmd2 st2 e cmd1 st1 h
        have h1 : rest.length ≤ n := by simpa using hlen
        cases c with
        | false => simpa using h1
        | true =>
          have h2 : rest.tail.length ≤ rest.length := by simp
          simpa using le_trans h2 h1

/-- C4. Required-argument validation in `Cmd.Parse`. On a command none of whose
specifications is marked as set (freshly constructed or cleared) and for a token list
that does not start with a sub-command name: if the loop processes all tokens without
error and the help flag is false afterwards, then `Parse` returns the error
"Required argument ... not specified" for the first specification, in registration
order, that is required and was matched by no token, and no error if there is none
(so it fails if and only if some required specification was not matched); if a token
produces an error, `Parse` returns that error, which is not the required-argument
error. -/
theorem required_argument_validation (lib : FloatLib) (cmd : Cmd) (st : Store)
    (args : List GoString) (hfresh : ∀ a ∈ cmd.namedArgList, a.set = false)
    (hsub : ∀ first rest, args = first :: rest → mapGet cmd.subCmds first = none) :
    (∀ cmd1 st1, parseLoop lib cmd st args = (none, cmd1, st1) → cmd1.shouldRenderHelp = false →
      (Cmd.Parse lib cmd st args).err =
        (firstUnmatched (matchedBy lib cmd st args) 0 cmd.namedArgList).map
          (fun a => Error.requiredNotSpecified a.name) ∧
      ((Cmd.Parse lib cmd st args).err ≠ none ↔
        ∃ j a, cmd.namedArgList.get? j = some a ∧ a.required = true ∧
          j ∉ matchedBy lib cmd st args) ∧
      (∀ j a, cmd.namedArgList.get? j = some a → a.required = true →
        j ∉ matchedBy lib cmd st args →
        (∀ j1 a1, j1 < j → cmd.namedArgList.get? j1 = some a1 → a1.required = true →
          j1 ∈ matchedBy lib cmd st args) →
        (Cmd.Parse lib cmd st args).err = some (.requiredNotSpecified a.name))) ∧
    (∀ e cmd1 st1, parseLoop lib cmd st args = (some e, cmd1, st1) →
      (Cmd.Parse lib cmd st args).err = some e ∧ ∀ n, e ≠ .requiredNotSpecified n) := by
  rw [parse_eq_parseOwn lib cmd st args hsub]
  refine ⟨?_, ?_⟩
  · intro cmd1 st1 hloop hhelp
    have hm := loop_marked lib args.length args (le_refl _) cmd st cmd1 st1 hloop
    have hfm := firstMissing_marked (matchedBy lib cmd st args) cmd.namedArgList
      cmd1.namedArgList 0 hfresh (by intro j; simpa using hm j)
    have herr : (parseOwn lib cmd st args).err =
        (firstUnmatched (matchedBy lib cmd st args) 0 cmd.namedArgList).map
          (fun a => Error.requiredNotSpecified a.name) := by
      simp only [parseOwn, hloop, hhelp, if_true]
      cases h1 : firstMissing cmd1.namedArgList with
      | none =>
        rw [h1] at hfm
        cases h2 : firstUnmatched (matchedBy lib cmd st args) 0 cmd.namedArgList with
        | none => rfl
        | some b => rw [h2] at hfm; simp at hfm
      | some b =>
        rw [h1] at hfm
        cases h2 : firstUnmatched (matchedBy lib cmd st args) 0 cmd.namedArgList with
        | none => rw [h2] at hfm; simp at hfm
        | some b2 =>
          rw [h2] at hfm
          simp only [Option.map_some', Option.some.injEq] at hfm
          simp [hfm]
    refine ⟨herr, ?_, ?_⟩
    · rw [herr]
      have hn := firstUnmatched_eq_none (matchedBy lib cmd st args) cmd.namedArgList 0
      constructor
      · intro h
        by_contra hc
        apply h
        have : firstUnmatched (matchedBy lib cmd st args) 0 cmd.namedArgList = none := by
          apply hn.mpr
          intro j a hg hreq
          by_contra hj
          exact hc ⟨j, a, hg, hreq, by simpa using hj⟩
        rw [this]; rfl
      · rintro ⟨j, a, hg, hreq, hj⟩ h
        have h2 : firstUnmatched (matchedBy lib cmd st args) 0 cmd.namedArgList = none := by
          cases h3 : firstUnmatched (matchedBy lib cmd st args) 0 cmd.namedArgList with
          | none => rfl
          | some b => rw [h3] at h; simp at h
        exact hj (by simpa using hn.mp h2 j a hg hreq)
    · intro j a hg hreq hj hbefore
      rw [herr, firstUnmatched_eq_some (matchedBy lib cmd st args) cmd.namedArgList 0 j a hg hreq
        (by simpa using hj) (by intro j1 a1 hlt hg1 hr1; simpa using hbefore j1 a1 hlt hg1 hr1)]
      rfl
  · intro e cmd1 st1 hloop
    refine ⟨by simp only [parseOwn, hloop], ?_⟩
    exact parseLoop_err_kind lib args.length args (le_refl _) cmd st e cmd1 st1 hloop

/-- Witness for C4: the test command and the tokens `-i 10`; the first required
specification that is not matched is `int64`. -/
theorem required_argument_validation_witness :
    (Cmd.Parse sampleLib (createTestCmd sampleLib Store.zero).1 Store.zero
        [str "-i", str "10"]).err =
      (firstUnmatched
          (matchedBy sampleLib (createTestCmd sampleLib Store.zero).1 Store.zero
            [str "-i", str "10"]) 0
          (createTestCmd sampleLib Store.zero).1.namedArgList).map
        (fun a => Error.requiredNotSpecified a.name) :=
  ((required_argument_validation sampleLib (createTestCmd sampleLib Store.zero).1 Store.zero
      [str "-i", str "10"] (by decide) (by intro first rest h; rfl)).1
    (parseLoop sampleLib (createTestCmd sampleLib Store.zero).1 Store.zero
      [str "-i", str "10"]).2.1
    (parseLoop sampleLib (createTestCmd sampleLib Store.zero).1 Store.zero
      [str "-i", str "10"]).2.2
    (Prod.ext (by decide) rfl) (by decide)).1

/-! ### Help requests -/

/-- The error of `Parse` is the error found by the command that scans the tokens. -/
theorem parse_err_dispatch (lib : FloatLib) (st : Store) :
    ∀ (args : List GoString) (cmd : Cmd), (Cmd.Parse lib cmd st args).err =
      (parseOwn lib (dispatch cmd args).1 st (dispatch cmd args).2).err := by
  intro args
  induction args with
  | nil => intro cmd; simp [Cmd.Parse, dispatch]
  | cons first rest ih =>
    intro cmd
    simp only [Cmd.Parse, dispatch]
    cases h : mapGet cmd.subCmds first with
    | none => rfl
    | some subCmd => simp only []; exact ih subCmd

theorem mapGet_mapSet_ne {α : Type} (m : List (GoString × α)) (k k1 : GoString) (v : α)
    (h : k ≠ k1) : mapGet (mapSet m k v) k1 = mapGet m k1 := by
  induction m with
  | nil => simp [mapSet, mapGet, h]
  | cons p rest ih =>
    obtain ⟨k2, v2⟩ := p
    simp only [mapSet]
    by_cases h2 : k2 = k
    · subst h2
      simp [mapGet, h]
    · simp only [h2, if_false, mapGet]
      by_cases h3 : k2 = k1
      · simp [h3]
      · simp [h3, ih]

/-- A call of `Parse` on one token that names a specification bound to the help flag
of the command. -/
theorem parse_help_token (lib : FloatLib) (cmd : Cmd) (st : Store) (t : GoString) (i : Nat)
    (arg : NamedArg) (hpre : strings.HasPrefix t (str "-") = true)
    (hidx : strings.IndexByte (stripDashes t) 61 = none)
    (hl : cmd.lookupArg (stripDashes t) = some (i, arg))
    (hd : arg.dest = .bool .shouldRenderHelp) (hsub : mapGet cmd.subCmds t = none) :
    (Cmd.Parse lib cmd st [t]).chain = [cmd.name] ∧ (Cmd.Parse lib cmd st [t]).err = none ∧
      (Cmd.Parse lib cmd st [t]).cmd.ShouldRenderHelp = true := by
  obtain ⟨s, rfl⟩ := hasPrefix_dash_true t hpre
  have hr : resolve cmd (45 :: s) [] = .ok i arg (str "true") false := by
    rw [resolve_bool cmd _ _ i arg hidx hl (by rw [hd]; rfl)]
  have hc : coerce lib cmd st arg.dest (str "true") =
      .done { cmd with shouldRenderHelp := true } st none := by
    rw [hd]; simp only [coerce, parseBool_true, writeBool]
  have hloop := parseLoop_ok lib cmd st s [] i arg (str "true") false _ _ hr hc
  have hP : Cmd.Parse lib cmd st [45 :: s] = parseOwn lib cmd st [45 :: s] := by
    apply parse_eq_parseOwn
    intro first rest e
    cases e
    exact hsub
  rw [hP]
  unfold parseOwn
  rw [hloop]
  simp only [Bool.false_eq_true, if_false, parseLoop]
  have hh : (Cmd.supplied { cmd with shouldRenderHelp := true } i arg).shouldRenderHelp = true := by
    unfold Cmd.supplied Cmd.markSet
    split <;> rfl
  simp [hh, Cmd.ShouldRenderHelp]

theorem helpBound_newCmd (name description : GoString) :
    HelpBound name (NewCmd name description) :=
  ⟨rfl, rfl, rfl, rfl, ⟨_, rfl, rfl⟩⟩

theorem helpBound_addNamedArg (name : GoString) (cmd : Cmd) (n s h dv : GoString) (d : Dest)
    (r : Bool) (hn : n ≠ str "h" ∧ n ≠ str "help" ∧ s ≠ str "h" ∧ s ≠ str "help")
    (hb : HelpBound name cmd) : HelpBound name (cmd.addNamedArg n s h dv d r) := by
  obtain ⟨h1, h2, h3, h4, arg, h5, h6⟩ := hb
  refine ⟨h1, h2, ?_, ?_, arg, ?_, h6⟩
  · simp only [Cmd.addNamedArg]
    rw [mapGet_mapSet_ne _ _ _ _ hn.2.2.1, mapGet_mapSet_ne _ _ _ _ hn.1]
    exact h3
  · simp only [Cmd.addNamedArg]
    rw [mapGet_mapSet_ne _ _ _ _ hn.2.2.2, mapGet_mapSet_ne _ _ _ _ hn.2.1]
    exact h4
  · simp only [Cmd.addNamedArg]
    cases hl : cmd.namedArgList with
    | nil => rw [hl] at h5; simp at h5
    | cons a rest => rw [hl] at h5; simpa using h5

theorem helpBound_register (lib : FloatLib) (name : GoString) (cs : Cmd × Store)
    (r : Registration)
    (hn : r.name ≠ str "h" ∧ r.name ≠ str "help" ∧ r.short ≠ str "h" ∧ r.short ≠ str "help")
    (hb : HelpBound name cs.1) : HelpBound name (register lib cs r).1 := by
  cases r <;> exact helpBound_addNamedArg name cs.1 _ _ _ _ _ _ hn hb

theorem helpBound_registerAll (lib : FloatLib) (name : GoString) :
    ∀ (regs : List Registration) (cs : Cmd × Store),
      (∀ r ∈ regs, r.name ≠ str "h" ∧ r.name ≠ str "help" ∧ r.short ≠ str "h" ∧
        r.short ≠ str "help") →
      HelpBound name cs.1 → HelpBound name (registerAll lib cs regs).1 := by
  intro regs
  induction regs with
  | nil => intro cs _ hb; exact hb
  | cons r rest ih =>
    intro cs hn hb
    simp only [registerAll, List.foldl_cons]
    exact ih (register lib cs r) (fun x hx => hn x (List.mem_cons_of_mem _ hx))
      (helpBound_register lib name cs r (hn r (List.mem_cons_self _ _)) hb)

theorem lookupArg_helpBound (name : GoString) (cmd : Cmd) (hb : HelpBound name cmd) :
    ∃ arg, cmd.lookupArg (str "h") = some (0, arg) ∧ cmd.lookupArg (str "help") = some (0, arg) ∧
      arg.dest = .bool .shouldRenderHelp := by
  obtain ⟨_, _, h3, h4, arg, h5, h6⟩ := hb
  exact ⟨arg, by simp only [Cmd.lookupArg, h3, h5], by simp only [Cmd.lookupArg, h4, h5], h6⟩

/-- Counterexample to C5 as stated: a fresh command with one required argument
registered under the alias `h` (`AddStringArg("host", "h", ...)`) does not accept
`-h` as a help request: `Parse` returns "Missing value for argument 'h'". -/
theorem help_alias_taken :
    (Cmd.Parse sampleLib
        ((NewCmd (str "c") []).AddStringArg Store.zero (str "host") (str "h") 0 [] true []).1
        ((NewCmd (str "c") []).AddStringArg Store.zero (str "host") (str "h") 0 [] true []).2
        [str "-h"]).err = some (.missingValue (str "h")) := by
  decide

/-- C5 (amended). A help request always succeeds: if the help flag of the command that
scans the tokens is true after the loop has processed all tokens without error,
`Cmd.Parse` returns no error, whatever required arguments are missing. In particular, on
a fresh command built by `NewCmd` and any sequence of registrations (required or not)
none of which uses the name or alias `h` or `help`, `Parse(["-h"])` and
`Parse(["--help"])` return the chain `[name]` and no error, and `ShouldRenderHelp()` is
true afterwards. -/
theorem help_request_succeeds :
    (∀ (lib : FloatLib) (cmd : Cmd) (st : Store) (args : List GoString) (c1 : Cmd) (st1 : Store),
      parseLoop lib (dispatch cmd args).1 st (dispatch cmd args).2 = (none, c1, st1) →
      c1.shouldRenderHelp = true → (Cmd.Parse lib cmd st args).err = none) ∧
    (∀ (lib : FloatLib) (name description : GoString) (st0 : Store) (regs : List Registration),
      (∀ r ∈ regs, r.name ≠ str "h" ∧ r.name ≠ str "help" ∧ r.short ≠ str "h" ∧
        r.short ≠ str "help") →
      ∀ t, t = str "-h" ∨ t = str "--help" →
        (Cmd.Parse lib (registerAll lib (NewCmd name description, st0) regs).1
            (registerAll lib (NewCmd name description, st0) regs).2 [t]).chain = [name] ∧
        (Cmd.Parse lib (registerAll lib (NewCmd name description, st0) regs).1
            (registerAll lib (NewCmd name description, st0) regs).2 [t]).err = none ∧
        (Cmd.Parse lib (registerAll lib (NewCmd name description, st0) regs).1
            (registerAll lib (NewCmd name description, st0) regs).2 [t]).cmd.ShouldRenderHelp
          = true) := by
  refine ⟨?_, ?_⟩
  · intro lib cmd st args c1 st1 hloop hhelp
    rw [parse_err_dispatch]
    simp only [parseOwn, hloop, hhelp]
    rfl
  · intro lib name description st0 regs hn t ht
    have hb := helpBound_registerAll lib name regs (NewCmd name description, st0) hn
      (helpBound_newCmd name description)
    obtain ⟨arg, hl1, hl2, hd⟩ := lookupArg_helpBound name _ hb
    have hsub : mapGet (registerAll lib (NewCmd name description, st0) regs).1.subCmds t = none := by
      rw [hb.2.1]; rfl
    have hname := hb.1
    rcases ht with rfl | rfl
    · have := parse_help_token lib _ (registerAll lib (NewCmd name description, st0) regs).2
        (str "-h") 0 arg (by decide) (by decide) hl1 hd hsub
      rw [hname] at this
      exact this
    · have := parse_help_token lib _ (registerAll lib (NewCmd name description, st0) regs).2
        (str "--help") 0 arg (by decide) (by decide) hl2 hd hsub
      rw [hname] at this
      exact this

/-- Witness for C5 (amended): a command with the required argument `int`, alias `i`. -/
theorem help_request_succeeds_witness :
    (Cmd.Parse sampleLib
        (registerAll sampleLib (NewCmd (str "c") [], Store.zero)
          [.int (str "int") (str "i") 0 0 true []]).1
        (registerAll sampleLib (NewCmd (str "c") [], Store.zero)
          [.int (str "int") (str "i") 0 0 true []]).2 [str "-h"]).err = none :=
  (help_request_succeeds.2 sampleLib (str "c") [] Store.zero
    [.int (str "int") (str "i") 0 0 true []] (by decide) (str "-h") (Or.inl rfl)).2.1

/-! ### Dispatch on a sub-command -/

theorem parse_chain_head (lib : FloatLib) (cmd : Cmd) (st : Store) (args : List GoString) :
    ∃ tail, (Cmd.Parse lib cmd st args).chain = cmd.name :: tail := by
  have own : ∀ a, ∃ tail, (parseOwn lib cmd st a).chain = cmd.name :: tail := by
    intro a
    refine ⟨[], ?_⟩
    unfold parseOwn
    split
    · rfl
    · split
      · split <;> rfl
      · rfl
  cases args with
  | nil => simpa [Cmd.Parse] using own []
  | cons first rest =>
    simp only [Cmd.Parse]
    cases h : mapGet cmd.subCmds first with
    | none => exact own _
    | some subCmd => exact ⟨_, rfl⟩

theorem parseOwn_chain (lib : FloatLib) (cmd : Cmd) (st : Store) (args : List GoString) :
    (parseOwn lib cmd st args).chain = [cmd.name] := by
  unfold parseOwn
  split
  · rfl
  · split
    · split <;> rfl
    · rfl

/-- One iteration of the loop leaves the sub-commands of the command alone. -/
theorem step_subCmds (lib : FloatLib) (cmd : Cmd) (st : Store) (a : GoString)
    (rest : List GoString) (cmd1 : Cmd) (st1 : Store) :
    (∀ e, step lib cmd st a rest = .fail e cmd1 st1 → cmd1.subCmds = cmd.subCmds) ∧
    (∀ c, step lib cmd st a rest = .next cmd1 st1 c → cmd1.subCmds = cmd.subCmds) := by
  have key : ∀ r, step lib cmd st a rest = r →
      match r with
      | .fail _ c1 _ => c1.subCmds = cmd.subCmds
      | .next c1 _ _ => c1.subCmds = cmd.subCmds := by
    intro r hr
    subst hr
    unfold step
    by_cases hp : strings.HasPrefix a (str "-") = true
    · simp only [hp, if_true]
      cases hres : resolve cmd a rest with
      | fail err => rfl
      | ok i arg v c1 =>
        simp only
        cases hc : coerce lib cmd st arg.dest v with
        | unexpectedType => rfl
        | done cmd2 st2 e =>
          obtain ⟨b, rfl⟩ := coerce_cmd lib cmd st arg.dest v cmd2 st2 e hc
          cases e with
          | some e1 => rfl
          | none =>
            simp only
            cases arg.required <;> rfl
    · simp only [hp]
      rfl
  exact ⟨fun e h => key _ h, fun c h => key _ h⟩

theorem parseLoop_subCmds (lib : FloatLib) :
    ∀ (n : Nat) (args : List GoString), args.length ≤ n → ∀ (cmd : Cmd) (st : Store),
      (parseLoop lib cmd st args).2.1.subCmds = cmd.subCmds := by
  intro n
  induction n with
  | zero =>
    intro args hlen cmd st
    cases args with
    | nil => rfl
    | cons a rest => simp at hlen
  | succ n ih =>
    intro args hlen cmd st
    cases args with
    | nil => rfl
    | cons a rest =>
      rw [parseLoop_cons]
      cases hstep : step lib cmd st a rest with
      | fail e cmd2 st2 => exact (step_subCmds lib cmd st a rest cmd2 st2).1 e hstep
      | next cmd2 st2 c =>
        simp only
        rw [ih _ _ cmd2 st2, (step_subCmds lib cmd st a rest cmd2 st2).2 c hstep]
        have h1 : rest.length ≤ n := by simpa using hlen
        cases c with
        | false => simpa using h1
        | true =>
          have h2 : rest.tail.length ≤ rest.length := by simp
          simpa using le_trans h2 h1

theorem parseOwn_subCmds (lib : FloatLib) (cmd : Cmd) (st : Store) (args : List GoString) :
    (parseOwn lib cmd st args).cmd.subCmds = cmd.subCmds := by
  have h := parseLoop_subCmds lib args.length args (le_refl _) cmd st
  unfold parseOwn
  split
  · rename_i e c1 s1 heq; rw [heq] at h; exact h
  · rename_i c1 s1 heq
    rw [heq] at h
    split
    · split <;> exact h
    · exact h

/-! ### Sub-commands in the heap -/

/-- The call of `Parse` on a command whose map has the first token as a key. -/
theorem heapParse_dispatch (lib : FloatLib) (h : Heap) (st : Store) (cmd : Nat)
    (first : GoString) (rest : List GoString) (subCmd : Nat)
    (hk : mapGet (h cmd).subCmds first = some subCmd) :
    Heap.Parse lib h st cmd (first :: rest) =
      ⟨(h cmd).own.name :: (Heap.Parse lib h st subCmd rest).chain,
        (Heap.Parse lib h st subCmd rest).err, (Heap.Parse lib h st subCmd rest).heap,
        (Heap.Parse lib h st subCmd rest).store⟩ := by
  simp only [Heap.Parse, hk]

/-- The same, the arguments in the order of the statement of the dispatch. -/
theorem heapParse_dispatch_all (lib : FloatLib) (h : Heap) (st : Store) (cmd subCmd : Nat)
    (key : GoString) (rest : List GoString) (hk : mapGet (h cmd).subCmds key = some subCmd) :
    Heap.Parse lib h st cmd (key :: rest) =
      ⟨(h cmd).own.name :: (Heap.Parse lib h st subCmd rest).chain,
        (Heap.Parse lib h st subCmd rest).err, (Heap.Parse lib h st subCmd rest).heap,
        (Heap.Parse lib h st subCmd rest).store⟩ :=
  heapParse_dispatch lib h st cmd key rest subCmd hk

/-- The call of `Parse` on a command whose map does not have the first token as a
key. -/
theorem heapParse_own (lib : FloatLib) (h : Heap) (st : Store) (cmd : Nat)
    (first : GoString) (rest : List GoString) (hk : mapGet (h cmd).subCmds first = none) :
    Heap.Parse lib h st cmd (first :: rest) = Heap.parseOwn lib h st cmd (first :: rest) := by
  simp only [Heap.Parse, hk]

/-- The chain that `Parse` returns begins with the name of the command. -/
theorem heapParse_chain_head (lib : FloatLib) :
    ∀ (args : List GoString) (h : Heap) (st : Store) (cmd : Nat),
      ∃ tail, (Heap.Parse lib h st cmd args).chain = (h cmd).own.name :: tail := by
  intro args
  induction args with
  | nil =>
    intro h st cmd
    exact ⟨[], parseOwn_chain lib (h cmd).own st []⟩
  | cons first rest ih =>
    intro h st cmd
    cases hk : mapGet (h cmd).subCmds first with
    | some subCmd =>
      rw [heapParse_dispatch lib h st cmd first rest subCmd hk]
      exact ⟨_, rfl⟩
    | none =>
      rw [heapParse_own lib h st cmd first rest hk]
      exact ⟨[], parseOwn_chain lib (h cmd).own st _⟩

/-- The call of `Parse` changes one command of the heap only, the one that scans the
tokens: its fields other than `subCmds` are those that its own scan of the remaining
tokens leaves; the error and the store are those of that scan. -/
theorem heapParse_target (lib : FloatLib) :
    ∀ (args : List GoString) (h : Heap) (st : Store) (cmd : Nat),
      (Heap.Parse lib h st cmd args).heap =
        upd h (Heap.target h cmd args)
          { h (Heap.target h cmd args) with
            own := (parseOwn lib (h (Heap.target h cmd args)).own st
              (Heap.remaining h cmd args)).cmd } ∧
      (Heap.Parse lib h st cmd args).err =
        (parseOwn lib (h (Heap.target h cmd args)).own st (Heap.remaining h cmd args)).err ∧
      (Heap.Parse lib h st cmd args).store =
        (parseOwn lib (h (Heap.target h cmd args)).own st (Heap.remaining h cmd args)).store := by
  intro args
  induction args with
  | nil =>
    intro h st cmd
    exact ⟨rfl, rfl, rfl⟩
  | cons first rest ih =>
    intro h st cmd
    cases hk : mapGet (h cmd).subCmds first with
    | some subCmd =>
      rw [heapParse_dispatch lib h st cmd first rest subCmd hk]
      simp only [Heap.target, Heap.remaining, hk]
      exact ih h st subCmd
    | none =>
      rw [heapParse_own lib h st cmd first rest hk]
      simp only [Heap.target, Heap.remaining, hk]
      exact ⟨rfl, rfl, rfl⟩

/-- The call of `Parse` leaves every command other than the one that scans the tokens as
it was, and the map `subCmds` of every command. -/
theorem heapParse_frame (lib : FloatLib) (args : List GoString) (h : Heap) (st : Store)
    (cmd : Nat) :
    (∀ a, a ≠ Heap.target h cmd args → (Heap.Parse lib h st cmd args).heap a = h a) ∧
    (∀ a, ((Heap.Parse lib h st cmd args).heap a).subCmds = (h a).subCmds) := by
  rw [(heapParse_target lib args h st cmd).1]
  constructor
  · intro a ha
    simp only [upd, if_neg ha]
  · intro a
    by_cases ha : a = Heap.target h cmd args
    · simp only [upd, if_pos ha]
      rw [ha]
    · simp only [upd, if_neg ha]

/-! ### Trees of commands and the heap -/

/-- The type switch does not look at the field `subCmds`. -/
theorem coerce_withSubCmds (lib : FloatLib) (cmd : Cmd) (s : List (GoString × Cmd))
    (st : Store) (d : Dest) (v : GoString) :
    coerce lib (cmd.withSubCmds s) st d v =
      match coerce lib cmd st d v with
      | .unexpectedType => .unexpectedType
      | .done cmd1 st1 e => .done (cmd1.withSubCmds s) st1 e := by
  cases d with
  | int p =>
    simp only [coerce]
    split <;> rfl
  | uint p =>
    simp only [coerce]
    split <;> rfl
  | int64 p => rfl
  | uint64 p => rfl
  | float64 p => rfl
  | bool p => cases p <;> rfl
  | string p => rfl
  | other => rfl

/-- An iteration of the loop of `Parse` does not look at the field `subCmds`. -/
theorem step_withSubCmds (lib : FloatLib) (cmd : Cmd) (s : List (GoString × Cmd))
    (st : Store) (a : GoString) (rest : List GoString) :
    step lib (cmd.withSubCmds s) st a rest =
      match step lib cmd st a rest with
      | .fail e cmd1 st1 => .fail e (cmd1.withSubCmds s) st1
      | .next cmd1 st1 c => .next (cmd1.withSubCmds s) st1 c := by
  unfold step
  by_cases hp : strings.HasPrefix a (str "-") = true
  · simp only [hp, if_true]
    have hr : resolve (cmd.withSubCmds s) a rest = resolve cmd a rest := rfl
    rw [hr]
    cases resolve cmd a rest with
    | fail e => rfl
    | ok i arg v consumed =>
      simp only
      rw [coerce_withSubCmds]
      cases coerce lib cmd st arg.dest v with
      | unexpectedType => rfl
      | done cmd1 st1 e =>
        cases e with
        | some e1 => rfl
        | none =>
          simp only
          cases arg.required <;> rfl
  · simp only [hp]
    rfl

/-- The loop of `Parse` does not look at the field `subCmds`. -/
theorem parseLoop_withSubCmds (lib : FloatLib) (s : List (GoString × Cmd)) :
    ∀ (n : Nat) (args : List GoString), args.length ≤ n → ∀ (cmd : Cmd) (st : Store),
      parseLoop lib (cmd.withSubCmds s) st args =
        ((parseLoop lib cmd st args).1, (parseLoop lib cmd st args).2.1.withSubCmds s,
          (parseLoop lib cmd st args).2.2) := by
  intro n
  induction n with
  | zero =>
    intro args hlen cmd st
    cases args with
    | nil => rfl
    | cons a rest => simp at hlen
  | succ n ih =>
    intro args hlen cmd st
    cases args with
    | nil => rfl
    | cons a rest =>
      rw [parseLoop_cons, parseLoop_cons, step_withSubCmds]
      have h1 : rest.length ≤ n := by simpa using hlen
      cases step lib cmd st a rest with
      | fail e cmd2 st2 => rfl
      | next cmd2 st2 c =>
        simp only
        apply ih
        cases c with
        | false => simpa using h1
        | true =>
          have h2 : rest.tail.length ≤ rest.length := by simp
          simpa using le_trans h2 h1

/-- The scan of the tokens by a command does not look at the field `subCmds`. -/
theorem parseOwn_withSubCmds (lib : FloatLib) (cmd : Cmd) (s : List (GoString × Cmd))
    (st : Store) (args : List GoString) :
    parseOwn lib (cmd.withSubCmds s) st args =
      ⟨(parseOwn lib cmd st args).chain, (parseOwn lib cmd st args).err,
        (parseOwn lib cmd st args).cmd.withSubCmds s, (parseOwn lib cmd st args).store⟩ := by
  unfold parseOwn
  rw [parseLoop_withSubCmds lib s args.length args (Nat.le_refl _) cmd st]
  cases parseLoop lib cmd st args with
  | mk e p =>
    obtain ⟨cmd1, st1⟩ := p
    cases e with
    | some e1 => rfl
    | none =>
      simp only
      have hh : (cmd1.withSubCmds s).shouldRenderHelp = cmd1.shouldRenderHelp := rfl
      have hl : (cmd1.withSubCmds s).namedArgList = cmd1.namedArgList := rfl
      rw [hh, hl]
      by_cases hs : cmd1.shouldRenderHelp = false
      · simp only [hs, if_true]
        cases firstMissing cmd1.namedArgList <;> rfl
      · simp only [hs, if_false]
        rfl

/-- The two parts of `Represents`. -/
theorem represents_eq (h : Heap) (a : Nat) (c : Cmd) :
    Represents h a c ↔ (h a).own = c.withSubCmds [] ∧ RepresentsSubs h (h a).subCmds c.subCmds := by
  cases c
  simp [Represents, Cmd.withSubCmds]

/-- The lookup in the map of a command of the heap and in the map of its tree. -/
theorem representsSubs_mapGet (h : Heap) (k : GoString) :
    ∀ (subs : List (GoString × Cmd)) (l : List (GoString × Nat)), RepresentsSubs h l subs →
      (mapGet subs k = none → mapGet l k = none) ∧
      (∀ c, mapGet subs k = some c → ∃ a, mapGet l k = some a ∧ Represents h a c) := by
  intro subs
  induction subs with
  | nil =>
    intro l hl
    simp only [RepresentsSubs] at hl
    subst hl
    exact ⟨fun _ => rfl, fun c hc => by cases hc⟩
  | cons x rest ih =>
    intro l hl
    obtain ⟨key, subCmd⟩ := x
    simp only [RepresentsSubs] at hl
    obtain ⟨a, l1, rfl, ha, hrest⟩ := hl
    simp only [mapGet]
    by_cases hk : key = k
    · rw [if_pos hk, if_pos hk]
      exact ⟨fun hc => Option.noConfusion hc,
        fun c hc => ⟨a, rfl, by rw [← Option.some.inj hc]; exact ha⟩⟩
    · rw [if_neg hk, if_neg hk]
      exact ih l1 hrest

/-- On commands of the heap that form a tree, `Parse` returns what `Cmd.Parse` returns on
the tree, and leaves the same store. -/
theorem heapParse_tree (lib : FloatLib) :
    ∀ (args : List GoString) (h : Heap) (st : Store) (a : Nat) (c : Cmd), Represents h a c →
      (Heap.Parse lib h st a args).chain = (Cmd.Parse lib c st args).chain ∧
      (Heap.Parse lib h st a args).err = (Cmd.Parse lib c st args).err ∧
      (Heap.Parse lib h st a args).store = (Cmd.Parse lib c st args).store := by
  have own : ∀ (args : List GoString) (h : Heap) (st : Store) (a : Nat) (c : Cmd),
      Represents h a c →
      (Heap.parseOwn lib h st a args).chain = (parseOwn lib c st args).chain ∧
      (Heap.parseOwn lib h st a args).err = (parseOwn lib c st args).err ∧
      (Heap.parseOwn lib h st a args).store = (parseOwn lib c st args).store := by
    intro args h st a c hr
    rw [represents_eq] at hr
    simp only [Heap.parseOwn]
    rw [hr.1, parseOwn_withSubCmds]
    exact ⟨rfl, rfl, rfl⟩
  intro args
  induction args with
  | nil =>
    intro h st a c hr
    exact own [] h st a c hr
  | cons first rest ih =>
    intro h st a c hr
    have hname : (h a).own.name = c.name := by
      rw [represents_eq] at hr
      rw [hr.1]
      rfl
    have hm := representsSubs_mapGet h first c.subCmds (h a).subCmds
      ((represents_eq h a c).mp hr).2
    cases hk : mapGet c.subCmds first with
    | none =>
      rw [heapParse_own lib h st a first rest (hm.1 hk)]
      have hP : Cmd.Parse lib c st (first :: rest) = parseOwn lib c st (first :: rest) := by
        simp only [Cmd.Parse, hk]
      rw [hP]
      exact own _ h st a c hr
    | some subCmd =>
      obtain ⟨b, hb, hrb⟩ := hm.2 subCmd hk
      rw [heapParse_dispatch lib h st a first rest b hb]
      have hP : Cmd.Parse lib c st (first :: rest) =
          ⟨c.name :: (Cmd.Parse lib subCmd st rest).chain, (Cmd.Parse lib subCmd st rest).err,
            { c with subCmds := mapSet c.subCmds first (Cmd.Parse lib subCmd st rest).cmd },
            (Cmd.Parse lib subCmd st rest).store⟩ := by
        simp only [Cmd.Parse, hk]
      rw [hP]
      obtain ⟨i1, i2, i3⟩ := ih h st b subCmd hrb
      exact ⟨by rw [hname, i1], i2, i3⟩

/-- A command without sub-commands is itself with an empty map. -/
theorem withSubCmds_self (c : Cmd) (h : c.subCmds = []) : c.withSubCmds [] = c := by
  cases c
  simp only [Cmd.withSubCmds]
  simp only at h
  rw [h]

/-- A call of `AddSubCmd` changes the field `subCmds` only. -/
theorem addSubCmd_withSubCmds (c s : Cmd) (t : List (GoString × Cmd)) :
    (c.AddSubCmd s).2.withSubCmds t = c.withSubCmds t := by
  unfold Cmd.AddSubCmd
  simp only
  split <;> rfl

/-- A command of the heap without sub-commands forms the tree of its fields. -/
theorem represents_leaf (h : Heap) (a : Nat) (c : Cmd) (h1 : (h a).own = c)
    (h2 : (h a).subCmds = []) (h3 : c.subCmds = []) : Represents h a c := by
  rw [represents_eq, h2, h3, h1, withSubCmds_self c h3]
  simp only [RepresentsSubs, and_self]

/-- The commands of `TestSubCommand` in the heap form the tree of the command of
`createTestCmd` with the sub-command of `addSubCmd`. -/
theorem testHeap_represents (lib : FloatLib) (st0 : Store) :
    Represents (testHeap lib st0).2.1 0
      (addSubCmd (createTestCmd lib st0).1 (createTestCmd lib st0).2).2.1 := by
  have e0 : ((testHeap lib st0).2.1 0).own = (createTestCmd lib st0).1 := rfl
  have e1 : ((testHeap lib st0).2.1 0).subCmds = [(str "subcmd", 1)] := rfl
  have e2 : ((testHeap lib st0).2.1 1).subCmds = [] := rfl
  have e3 : (createTestCmd lib st0).1.subCmds = [] := rfl
  have e4 : ∃ s, (addSubCmd (createTestCmd lib st0).1 (createTestCmd lib st0).2).2.1.subCmds =
      [(str "subcmd", s)] ∧ s.subCmds = [] ∧ ((testHeap lib st0).2.1 1).own = s :=
    ⟨_, rfl, rfl, rfl⟩
  obtain ⟨s, e5, e6, e7⟩ := e4
  rw [represents_eq, e0, e1, e5]
  constructor
  · unfold addSubCmd
    simp only
    rw [addSubCmd_withSubCmds, withSubCmds_self _ e3]
  · simp only [RepresentsSubs]
    exact ⟨1, [], rfl, represents_leaf _ 1 s e7 e2 e6, rfl⟩

/-- The command that scans the tokens does not rank above the command that `Parse` is
called on. -/
theorem target_rank (h : Heap) (rank : Nat → Nat) (hr : Heap.Ranked h rank) :
    ∀ (args : List GoString) (a : Nat), rank (Heap.target h a args) ≤ rank a := by
  intro args
  induction args with
  | nil => intro a; exact Nat.le_refl _
  | cons first rest ih =>
    intro a
    cases hk : mapGet (h a).subCmds first with
    | some s =>
      simp only [Heap.target, hk]
      exact Nat.le_trans (ih s) (Nat.le_of_lt (hr a first s hk))
    | none =>
      simp only [Heap.target, hk]
      exact Nat.le_refl _

/-- A call of `AddSubCmd` leaves the other commands as they were. -/
theorem addSubCmd_frame (h : Heap) (cmd subCmd a : Nat) (ha : a ≠ cmd) :
    (Heap.AddSubCmd h cmd subCmd).2 a = h a := by
  unfold Heap.AddSubCmd
  simp only
  split
  · rfl
  · simp only [upd, if_neg ha]

/-- A registration leaves the other commands as they were. -/
theorem register_frame (lib : FloatLib) (h : Heap) (st : Store) (cmd : Nat)
    (r : Registration) (a : Nat) (ha : a ≠ cmd) : (Heap.register lib h st cmd r).1 a = h a := by
  simp only [Heap.register, upd, if_neg ha]

/-- A call of `NewCmd` leaves the other commands as they were. -/
theorem newCmd_frame (h : Heap) (cmd : Nat) (name description : GoString) (a : Nat)
    (ha : a ≠ cmd) : Heap.NewCmd h cmd name description a = h a := by
  simp only [Heap.NewCmd, upd, if_neg ha]

/-- Counterexample to C6 as stated: the command `c` is attached to itself
(`c.AddSubCmd(c)` returns no error). On `[c, pos]` the first token is the name of a
registered sub-command, and the call is passed on to `c` itself with `[pos]`: the chain
is `[c, c]`, there is no error, and the positionals of `c`, empty before the call, are
`[pos]` after it. On `[c, -h]` the token `-h` is matched against the specifications of
`c`: its help flag is set. -/
theorem dispatch_to_itself :
    selfAttached.1 = none ∧
    mapGet (selfAttached.2 0).subCmds (str "c") = some 0 ∧
    Heap.Args selfAttached.2 0 = [] ∧
    (Heap.Parse sampleLib selfAttached.2 Store.zero 0 [str "c", str "pos"]).chain =
      [str "c", str "c"] ∧
    (Heap.Parse sampleLib selfAttached.2 Store.zero 0 [str "c", str "pos"]).err = none ∧
    Heap.Args (Heap.Parse sampleLib selfAttached.2 Store.zero 0 [str "c", str "pos"]).heap 0 =
      [str "pos"] ∧
    (selfAttached.2 0).own.ShouldRenderHelp = false ∧
    ((Heap.Parse sampleLib selfAttached.2 Store.zero 0 [str "c", str "-h"]).heap 0).own.ShouldRenderHelp
      = true := by
  decide

/-- C6 (amended). Sub-command dispatch in `Cmd.Parse`, the commands being objects that
the maps `subCmds` point to. If the first token is a key of the map of this command,
`Parse` returns the name of this command followed by the chain returned by the `Parse`
of the sub-command on the remaining tokens (so the chain starts with this name and the
name of the sub-command), with the error of that call, on success and on failure alike;
the store and the heap are those that that call leaves. One command is changed, the one
that the calls lead to and that scans the tokens left; when it is not this command, this
command is unchanged: its specifications with their supplied flags, its positionals and
its help flag, so that no token is matched against its own specifications and its
required arguments are not validated. It is not this command when no command is
reachable from itself through the maps. If the first token is no key, the tokens are
scanned by this command itself, whatever sub-command names come later: the chain is the
name of this command only, and no other command is changed. When the commands reached
from this command form a tree, `Parse` returns the chain and the error, and leaves the
store, that `Cmd.Parse` gives on the tree held by value. On the commands of
`TestSubCommand`, which form a tree, `[subcmd, -i=10, -l=20]` gives the chain
`[command, subcmd]`, no error, `intSubArg` 10 and `int64SubArg` 20, and leaves the
command as it was. -/
theorem subcommand_dispatch :
    (∀ (lib : FloatLib) (h : Heap) (st : Store) (cmd : Nat) (first : GoString)
      (rest : List GoString) (subCmd : Nat), mapGet (h cmd).subCmds first = some subCmd →
      (Heap.Parse lib h st cmd (first :: rest)).chain =
        (h cmd).own.name :: (Heap.Parse lib h st subCmd rest).chain ∧
      (∃ tail, (Heap.Parse lib h st cmd (first :: rest)).chain =
        (h cmd).own.name :: (h subCmd).own.name :: tail) ∧
      (Heap.Parse lib h st cmd (first :: rest)).err = (Heap.Parse lib h st subCmd rest).err ∧
      (Heap.Parse lib h st cmd (first :: rest)).store =
        (Heap.Parse lib h st subCmd rest).store ∧
      (Heap.Parse lib h st cmd (first :: rest)).heap = (Heap.Parse lib h st subCmd rest).heap ∧
      (∀ a, a ≠ Heap.target h subCmd rest →
        (Heap.Parse lib h st cmd (first :: rest)).heap a = h a) ∧
      (∀ a, ((Heap.Parse lib h st cmd (first :: rest)).heap a).subCmds = (h a).subCmds) ∧
      (Heap.target h subCmd rest ≠ cmd →
        (Heap.Parse lib h st cmd (first :: rest)).heap cmd = h cmd ∧
        ((Heap.Parse lib h st cmd (first :: rest)).heap cmd).own.namedArgList =
          (h cmd).own.namedArgList ∧
        Heap.Args (Heap.Parse lib h st cmd (first :: rest)).heap cmd = Heap.Args h cmd ∧
        ((Heap.Parse lib h st cmd (first :: rest)).heap cmd).own.shouldRenderHelp =
          (h cmd).own.shouldRenderHelp) ∧
      (∀ rank : Nat → Nat, Heap.Ranked h rank → Heap.target h subCmd rest ≠ cmd)) ∧
    (∀ (lib : FloatLib) (h : Heap) (st : Store) (cmd : Nat) (first : GoString)
      (rest : List GoString), mapGet (h cmd).subCmds first = none →
      Heap.Parse lib h st cmd (first :: rest) = Heap.parseOwn lib h st cmd (first :: rest) ∧
      (Heap.Parse lib h st cmd (first :: rest)).chain = [(h cmd).own.name] ∧
      (∀ a, a ≠ cmd → (Heap.Parse lib h st cmd (first :: rest)).heap a = h a) ∧
      (∀ a, ((Heap.Parse lib h st cmd (first :: rest)).heap a).subCmds = (h a).subCmds)) ∧
    (∀ (lib : FloatLib) (args : List GoString) (h : Heap) (st : Store) (a : Nat) (c : Cmd),
      Represents h a c →
      (Heap.Parse lib h st a args).chain = (Cmd.Parse lib c st args).chain ∧
      (Heap.Parse lib h st a args).err = (Cmd.Parse lib c st args).err ∧
      (Heap.Parse lib h st a args).store = (Cmd.Parse lib c st args).store) ∧
    (∀ (lib : FloatLib) (st0 : Store),
      Represents (testHeap lib st0).2.1 0
        (addSubCmd (createTestCmd lib st0).1 (createTestCmd lib st0).2).2.1) ∧
    (∀ (lib : FloatLib) (st0 : Store),
      (testHeap lib st0).1 = none ∧
      (Heap.Parse lib (testHeap lib st0).2.1 (testHeap lib st0).2.2 0
          [str "subcmd", str "-i=10", str "-l=20"]).chain = [str "command", str "subcmd"] ∧
      (Heap.Parse lib (testHeap lib st0).2.1 (testHeap lib st0).2.2 0
          [str "subcmd", str "-i=10", str "-l=20"]).err = none ∧
      (Heap.Parse lib (testHeap lib st0).2.1 (testHeap lib st0).2.2 0
          [str "subcmd", str "-i=10", str "-l=20"]).store.int 2 = 10 ∧
      (Heap.Parse lib (testHeap lib st0).2.1 (testHeap lib st0).2.2 0
          [str "subcmd", str "-i=10", str "-l=20"]).store.int64 1 = 20 ∧
      (Heap.Parse lib (testHeap lib st0).2.1 (testHeap lib st0).2.2 0
          [str "subcmd", str "-i=10", str "-l=20"]).heap 0 = (testHeap lib st0).2.1 0 ∧
      Heap.Ranked (testHeap lib st0).2.1 (fun a => if a = 0 then 1 else 0)) := by
  refine ⟨?_, ?_, heapParse_tree, testHeap_represents, ?_⟩
  · intro lib h st cmd first rest subCmd hk
    obtain ⟨tail, ht⟩ := heapParse_chain_head lib rest h st subCmd
    have hf := heapParse_frame lib rest h st subCmd
    rw [heapParse_dispatch lib h st cmd first rest subCmd hk]
    refine ⟨rfl, ⟨tail, by rw [ht]⟩, rfl, rfl, rfl, hf.1, hf.2, ?_, ?_⟩
    · intro hne
      have h1 := hf.1 cmd (fun e => hne e.symm)
      exact ⟨h1, by rw [h1], by unfold Heap.Args; rw [h1], by rw [h1]⟩
    · intro rank hr e
      have h1 := target_rank h rank hr rest subCmd
      have h2 := hr cmd first subCmd hk
      rw [e] at h1
      exact absurd h2 (Nat.not_lt.mpr h1)
  · intro lib h st cmd first rest hk
    rw [heapParse_own lib h st cmd first rest hk]
    refine ⟨rfl, parseOwn_chain lib (h cmd).own st _, ?_, ?_⟩
    · intro a ha
      simp only [Heap.parseOwn, upd, if_neg ha]
    · intro a
      by_cases ha : a = cmd
      · simp only [Heap.parseOwn, upd, if_pos ha]
        rw [ha]
      · simp only [Heap.parseOwn, upd, if_neg ha]
  · intro lib st0
    refine ⟨rfl, rfl, rfl, rfl, rfl, rfl, ?_⟩
    intro a k s hk
    by_cases ha : a = 0
    · subst ha
      have : s = 1 := by
        have e : ((testHeap lib st0).2.1 0).subCmds = [(str "subcmd", 1)] := rfl
        rw [e] at hk
        simp only [mapGet] at hk
        split at hk
        · exact (Option.some.inj hk).symm
        · cases hk
      subst this
      decide
    · exfalso
      by_cases ha1 : a = 1
      · subst ha1
        have e : ((testHeap lib st0).2.1 1).subCmds = [] := rfl
        rw [e] at hk
        cases hk
      · have e : (testHeap lib st0).2.1 a = emptyHeap a := by
          simp only [testHeap]
          rw [addSubCmd_frame _ 0 1 a ha, register_frame lib _ _ 1 _ a ha1,
            register_frame lib _ _ 1 _ a ha1, newCmd_frame _ 1 _ _ a ha1]
          simp only [upd, if_neg ha]
        rw [e] at hk
        cases hk

/-- Witness for C6 (amended): the commands of `TestSubCommand` and the tokens
`[subcmd, -i=10]`. -/
theorem subcommand_dispatch_witness :
    mapGet ((testHeap sampleLib Store.zero).2.1 0).subCmds (str "subcmd") = some 1 ∧
    (Heap.Parse sampleLib (testHeap sampleLib Store.zero).2.1 Store.zero 0
        [str "subcmd", str "-i=10"]).err =
      (Heap.Parse sampleLib (testHeap sampleLib Store.zero).2.1 Store.zero 1
        [str "-i=10"]).err ∧
    (Heap.Parse sampleLib (testHeap sampleLib Store.zero).2.1 Store.zero 0
        [str "subcmd", str "-i=10"]).heap 0 = (testHeap sampleLib Store.zero).2.1 0 :=
  ⟨rfl,
    (subcommand_dispatch.1 sampleLib (testHeap sampleLib Store.zero).2.1 Store.zero 0
      (str "subcmd") [str "-i=10"] 1 rfl).2.2.1,
    ((subcommand_dispatch.1 sampleLib (testHeap sampleLib Store.zero).2.1 Store.zero 0
      (str "subcmd") [str "-i=10"] 1 rfl).2.2.2.2.2.2.2.1 (by decide)).1⟩

/-! ### Positional arguments -/

theorem sameSpecs_refl (cmd : Cmd) : SameSpecs cmd cmd := ⟨rfl, fun _ => rfl⟩

theorem sameSpecs_trans (a b c : Cmd) (h1 : SameSpecs a b) (h2 : SameSpecs b c) :
    SameSpecs a c :=
  ⟨h2.1.trans h1.1, fun j => (h2.2 j).trans (h1.2 j)⟩

theorem markAt_dest (l : List NamedArg) (o : Option Nat) (j : Nat) :
    ((markAt l o).get? j).map (fun a => a.dest) = (l.get? j).map (fun a => a.dest) := by
  cases o with
  | none => rfl
  | some i =>
    simp only [markAt]
    cases hg : l.get? i with
    | none => rfl
    | some arg =>
      simp only
      cases arg.required with
      | false => rfl
      | true =>
        simp only [if_true]
        by_cases hji : j = i
        · subst hji
          have hlt : j < l.length := by
            rcases Nat.lt_or_ge j l.length with h1 | h1
            · exact h1
            · rw [List.get?_eq_none.mpr h1] at hg; cases hg
          have hs : ∀ x : NamedArg, (l.set j x).get? j = some x := by
            intro x; simp [hlt]
          rw [hs, hg]
          rfl
        · have hne : i ≠ j := fun e => hji e.symm
          simp [List.getElem?_set_ne hne]

/-- A completed iteration changes neither the lookup nor the destinations. -/
theorem step_sameSpecs (lib : FloatLib) (cmd : Cmd) (st : Store) (a : GoString)
    (rest : List GoString) (cmd1 : Cmd) (st1 : Store) (c : Bool)
    (h : step lib cmd st a rest = .next cmd1 st1 c) : SameSpecs cmd cmd1 := by
  refine ⟨?_, ?_⟩
  · unfold step at h
    split at h
    · cases hr : resolve cmd a rest with
      | fail err => rw [hr] at h; cases h
      | ok i arg v c1 =>
        rw [hr] at h
        simp only at h
        cases hc : coerce lib cmd st arg.dest v with
        | unexpectedType => rw [hc] at h; cases h
        | done cmd2 st2 e =>
          rw [hc] at h
          obtain ⟨b, rfl⟩ := coerce_cmd lib cmd st arg.dest v cmd2 st2 e hc
          cases e with
          | some e1 => cases h
          | none =>
            simp only at h
            split at h <;> (cases h; rfl)
    · cases h; rfl
  · intro j
    rw [step_next_list lib cmd st a rest cmd1 st1 c h]
    exact markAt_dest _ _ j

theorem lookupArg_sameSpecs (cmd cmd1 : Cmd) (h : SameSpecs cmd cmd1) (k : GoString) :
    (cmd1.lookupArg k).map (fun p => (p.1, p.2.dest)) =
      (cmd.lookupArg k).map (fun p => (p.1, p.2.dest)) := by
  unfold Cmd.lookupArg
  rw [h.1]
  cases mapGet cmd.namedArgMap k with
  | none => rfl
  | some i =>
    simp only
    have := h.2 i
    cases h1 : cmd1.namedArgList.get? i with
    | none =>
      rw [h1] at this
      cases h0 : cmd.namedArgList.get? i with
      | none => rfl
      | some a0 => rw [h0] at this; simp at this
    | some a1 =>
      rw [h1] at this
      cases h0 : cmd.namedArgList.get? i with
      | none => rw [h0] at this; simp at this
      | some a0 =>
        rw [h0] at this
        simp only [Option.map_some', Option.some.injEq] at this
        simp [this]

theorem takesNext_sameSpecs (cmd cmd1 : Cmd) (h : SameSpecs cmd cmd1) (t nxt : GoString) :
    takesNext cmd1 t nxt = takesNext cmd t nxt := by
  unfold takesNext
  cases strings.IndexByte (stripDashes t) 61 with
  | some n => rfl
  | none =>
    simp only
    have := lookupArg_sameSpecs cmd cmd1 h (stripDashes t)
    cases h1 : cmd1.lookupArg (stripDashes t) with
    | none =>
      rw [h1] at this
      cases h0 : cmd.lookupArg (stripDashes t) with
      | none => rfl
      | some p0 => rw [h0] at this; simp at this
    | some p1 =>
      rw [h1] at this
      cases h0 : cmd.lookupArg (stripDashes t) with
      | none => rw [h0] at this; simp at this
      | some p0 =>
        rw [h0] at this
        simp only [Option.map_some', Option.some.injEq, Prod.mk.injEq] at this
        obtain ⟨i1, a1⟩ := p1
        obtain ⟨i0, a0⟩ := p0
        simp only at this ⊢
        rw [this.2]

/-- What a completed iteration appends to the positionals, and whether it takes the
next token. -/
theorem step_next_args (lib : FloatLib) (cmd : Cmd) (st : Store) (a : GoString)
    (rest : List GoString) (cmd1 : Cmd) (st1 : Store) (c : Bool)
    (h : step lib cmd st a rest = .next cmd1 st1 c) :
    cmd1.argList = cmd.argList ++ (if strings.HasPrefix a (str "-") then [] else [a]) ∧
    (strings.HasPrefix a (str "-") = false → c = false) ∧
    (∀ nxt r, rest = nxt :: r → strings.HasPrefix a (str "-") = true →
      c = takesNext cmd a nxt) := by
  unfold step at h
  by_cases hp : strings.HasPrefix a (str "-") = true
  · simp only [hp, if_true] at h
    cases hr : resolve cmd a rest with
    | fail err => rw [hr] at h; cases h
    | ok i arg v c1 =>
      rw [hr] at h
      simp only at h
      cases hc : coerce lib cmd st arg.dest v with
      | unexpectedType => rw [hc] at h; cases h
      | done cmd2 st2 e =>
        rw [hc] at h
        obtain ⟨b, rfl⟩ := coerce_cmd lib cmd st arg.dest v cmd2 st2 e hc
        cases e with
        | some e1 => cases h
        | none =>
          simp only at h
          have hc1 : c = c1 ∧ cmd1.argList = cmd.argList := by
            split at h <;> (cases h; exact ⟨rfl, rfl⟩)
          refine ⟨by simp [hp, hc1.2], ?_, ?_⟩
          · intro hf
            rw [hp] at hf
            cases hf
          intro nxt r hrest _
          subst hrest
          rw [hc1.1]
          unfold resolve at hr
          unfold takesNext
          simp only at hr
          cases hidx : strings.IndexByte (stripDashes a) 61 with
          | none =>
            rw [hidx] at hr
            simp only at hr ⊢
            cases hl : cmd.lookupArg (stripDashes a) with
            | none => rw [hl] at hr; cases hr
            | some p =>
              obtain ⟨i0, a0⟩ := p
              rw [hl] at hr
              simp only at hr ⊢
              cases hb : a0.dest.isBool with
              | false =>
                rw [hb] at hr
                simp only [Bool.false_eq_true, if_false, Resolved.ok.injEq] at hr ⊢
                exact hr.2.2.2.symm
              | true =>
                rw [hb] at hr
                simp only [if_true] at hr ⊢
                by_cases hpb : (strconv.ParseBool nxt).2 = none
                · simp only [hpb, if_true, Resolved.ok.injEq] at hr
                  simp [hpb, hr.2.2.2.symm]
                · simp only [hpb, if_false, Resolved.ok.injEq] at hr
                  simp [hpb, hr.2.2.2.symm]
          | some n =>
            rw [hidx] at hr
            cases n with
            | zero => cases hr
            | succ m =>
              simp only at hr ⊢
              split at hr
              · cases hr
              · simp only [Resolved.ok.injEq] at hr
                exact hr.2.2.2.symm
  · simp only [hp] at h
    cases h
    simp [hp]
theorem positionalsOf_cons (cmd : Cmd) (t : GoString) (rest : List GoString) :
    positionalsOf cmd (t :: rest) =
      if strings.HasPrefix t (str "-") then
        positionalsOf cmd
          (if (match rest with
              | nxt :: _ => takesNext cmd t nxt
              | [] => false) then rest.tail else rest)
      else t :: positionalsOf cmd rest := by
  cases rest with
  | nil => cases h : strings.HasPrefix t (str "-") <;> simp [positionalsOf, h]
  | cons nxt r =>
    simp only [positionalsOf]
    cases h : strings.HasPrefix t (str "-") with
    | false => simp
    | true =>
      simp only [if_true]
      by_cases h2 : takesNext cmd t nxt = true
      · simp only [h2, if_true, List.tail_cons]
      · simp only [h2, Bool.false_eq_true, if_false]

/-- The positionals after a loop that ends without error. -/
theorem loop_positionals (lib : FloatLib) (cmd0 : Cmd) :
    ∀ (n : Nat) (args : List GoString), args.length ≤ n → ∀ (cmd : Cmd) (st : Store)
      (cmd1 : Cmd) (st1 : Store), SameSpecs cmd0 cmd →
      parseLoop lib cmd st args = (none, cmd1, st1) →
      cmd1.argList = cmd.argList ++ positionalsOf cmd0 args := by
  intro n
  induction n with
  | zero =>
    intro args hlen cmd st cmd1 st1 _ h
    cases args with
    | nil =>
      simp only [parseLoop, Prod.mk.injEq, true_and] at h
      obtain ⟨rfl, _⟩ := h
      simp [positionalsOf]
    | cons a rest => simp at hlen
  | succ n ih =>
    intro args hlen cmd st cmd1 st1 hsame h
    cases args with
    | nil =>
      simp only [parseLoop, Prod.mk.injEq, true_and] at h
      obtain ⟨rfl, _⟩ := h
      simp [positionalsOf]
    | cons a rest =>
      rw [parseLoop_cons] at h
      cases hs : step lib cmd st a rest with
      | fail e cmd2 st2 => rw [hs] at h; simp at h
      | next cmd2 st2 c =>
        rw [hs] at h
        simp only at h
        have hlen2 : (if c = true then rest.tail else rest).length ≤ n := by
          have h1 : rest.length ≤ n := by simpa using hlen
          cases c with
          | false => simpa using h1
          | true =>
            have h2 : rest.tail.length ≤ rest.length := by simp
            simpa using le_trans h2 h1
        have hsame2 := sameSpecs_trans cmd0 cmd cmd2 hsame
          (step_sameSpecs lib cmd st a rest cmd2 st2 c hs)
        have hih := ih _ hlen2 cmd2 st2 cmd1 st1 hsame2 h
        obtain ⟨ha, hc0, hc1⟩ := step_next_args lib cmd st a rest cmd2 st2 c hs
        rw [hih, ha, positionalsOf_cons]
        cases hp : strings.HasPrefix a (str "-") with
        | false =>
          rw [hc0 hp]
          simp
        | true =>
          simp only [if_true, List.append_nil]
          cases rest with
          | nil => cases c <;> simp
          | cons nxt r =>
            rw [hc1 nxt r rfl hp, takesNext_sameSpecs cmd0 cmd hsame]

theorem parseLoop_plain (lib : FloatLib) :
    ∀ (args : List GoString) (cmd : Cmd) (st : Store),
      (∀ t ∈ args, strings.HasPrefix t (str "-") = false) →
      parseLoop lib cmd st args = (none, { cmd with argList := cmd.argList ++ args }, st) := by
  intro args
  induction args with
  | nil =>
    intro cmd st _
    cases cmd
    simp [parseLoop]
  | cons a rest ih =>
    intro cmd st h
    have ha : strings.HasPrefix a (str "-") = false := h a (List.mem_cons_self _ _)
    rw [parseLoop_cons]
    simp only [step, ha, Bool.false_eq_true, if_false]
    rw [ih _ _ (fun t ht => h t (List.mem_cons_of_mem _ ht))]
    simp

theorem parseOwn_cmd (lib : FloatLib) (cmd : Cmd) (st : Store) (args : List GoString) :
    (parseOwn lib cmd st args).cmd = (parseLoop lib cmd st args).2.1 := by
  unfold parseOwn
  split
  · rename_i e c1 s1 heq; rw [heq]
  · rename_i c1 s1 heq
    rw [heq]
    split
    · split <;> rfl
    · rfl

/-- C7. Positional arguments in `Cmd.Parse`. When the loop processes a token list
without a token error, the positionals afterwards are the positionals the command
already held followed by the tokens that do not begin with `-` and are not taken as the
value of the named-argument token before them (`positionalsOf`), in their order, and
nothing else; this is the result of `Args()` after `Parse` on a token list that does
not start with a sub-command name. In particular, for a list none of whose tokens
begins with `-`, `Args()` afterwards is the previous positionals followed by the whole
list. -/
theorem positionals_appended :
    (∀ (lib : FloatLib) (cmd : Cmd) (st : Store) (args : List GoString) (cmd1 : Cmd)
      (st1 : Store), parseLoop lib cmd st args = (none, cmd1, st1) →
      cmd1.Args = cmd.Args ++ positionalsOf cmd args) ∧
    (∀ (lib : FloatLib) (cmd : Cmd) (st : Store) (args : List GoString),
      (∀ first rest, args = first :: rest → mapGet cmd.subCmds first = none) →
      (parseLoop lib cmd st args).1 = none →
      (Cmd.Parse lib cmd st args).cmd.Args = cmd.Args ++ positionalsOf cmd args) ∧
    (∀ (lib : FloatLib) (cmd : Cmd) (st : Store) (args : List GoString),
      (∀ first rest, args = first :: rest → mapGet cmd.subCmds first = none) →
      (∀ t ∈ args, strings.HasPrefix t (str "-") = false) →
      (Cmd.Parse lib cmd st args).cmd.Args = cmd.Args ++ args) := by
  refine ⟨?_, ?_, ?_⟩
  · intro lib cmd st args cmd1 st1 h
    exact loop_positionals lib cmd args.length args (le_refl _) cmd st cmd1 st1
      (sameSpecs_refl cmd) h
  · intro lib cmd st args hsub hok
    rw [parse_eq_parseOwn lib cmd st args hsub, parseOwn_cmd]
    apply loop_positionals lib cmd args.length args (le_refl _) cmd st _
      (parseLoop lib cmd st args).2.2 (sameSpecs_refl cmd)
    exact Prod.ext hok rfl
  · intro lib cmd st args hsub hplain
    rw [parse_eq_parseOwn lib cmd st args hsub, parseOwn_cmd, parseLoop_plain lib args cmd st hplain]
    rfl

/-- Witness for C7: the test command and the tokens `[-b, one, -i, 10, two]`. -/
theorem positionals_appended_witness :
    (Cmd.Parse sampleLib (createTestCmd sampleLib Store.zero).1 Store.zero
        [str "-b", str "one", str "-i", str "10", str "two"]).cmd.Args =
      (createTestCmd sampleLib Store.zero).1.Args ++
        positionalsOf (createTestCmd sampleLib Store.zero).1
          [str "-b", str "one", str "-i", str "10", str "two"] ∧
    positionalsOf (createTestCmd sampleLib Store.zero).1
        [str "-b", str "one", str "-i", str "10", str "two"] = [str "one", str "two"] :=
  ⟨positionals_appended.2.1 sampleLib (createTestCmd sampleLib Store.zero).1 Store.zero
      [str "-b", str "one", str "-i", str "10", str "two"] (by intro first rest h; rfl)
      (by decide),
    by decide⟩

/-! ### The postcondition of `Clear` -/

theorem varDests_eq (c : Cmd) :
    varDests c =
      (c.namedArgList.map (fun a => a.dest)).filter Dest.isVar ++ varDestsSubs c.subCmds := by
  cases c; simp [varDests]

theorem ownDestsDistinct_eq (c : Cmd) :
    OwnDestsDistinct c =
      ((c.namedArgList.map (fun a => a.dest)).Nodup ∧ OwnDestsDistinctSubs c.subCmds) := by
  cases c; simp [OwnDestsDistinct]

theorem cleared_eq (lib : FloatLib) (st0 st1 : Store) (c c1 : Cmd) :
    Cleared lib st0 st1 c c1 =
      (ClearedOwn lib st0 st1 c c1 ∧ ClearedSubs lib st0 st1 c.subCmds c1.subCmds) := by
  cases c; simp [Cleared]

theorem readDest_var (c c1 : Cmd) (st : Store) (d : Dest) (h : d.isVar = true) :
    readDest c st d = readDest c1 st d := by
  cases d with
  | bool p =>
    cases p with
    | var q => rfl
    | shouldRenderHelp => simp [Dest.isVar] at h
  | _ => rfl

/-- The type switch writes the parsed value through the destination and leaves every
other variable alone. -/
theorem coerce_spec (lib : FloatLib) (cmd : Cmd) (st : Store) (d : Dest) (v : GoString)
    (cmd1 : Cmd) (st1 : Store) (e : Option strconv.NumError)
    (h : coerce lib cmd st d v = .done cmd1 st1 e) :
    (e = none → readDest cmd1 st1 d = parsedValue lib d v) ∧
    (∀ d1, d1 ≠ d → readDest cmd1 st1 d1 = readDest cmd st d1) ∧
    (∀ d1, d1 ≠ d → ∀ c, readDest c st1 d1 = readDest c st d1) := by
  cases d with
  | int p =>
    simp only [coerce] at h
    split at h
    · cases h
      refine ⟨fun _ => by simp [readDest, parsedValue, upd], ?_, ?_⟩ <;>
      · intro d1 hd
        cases d1 <;> simp_all [readDest, upd, readBool]
    · rename_i hne
      cases h
      refine ⟨fun he => absurd he hne, fun _ _ => rfl, fun _ _ _ => rfl⟩
  | uint p =>
    simp only [coerce] at h
    split at h
    · cases h
      refine ⟨fun _ => by simp [readDest, parsedValue, upd], ?_, ?_⟩ <;>
      · intro d1 hd
        cases d1 <;> simp_all [readDest, upd, readBool]
    · rename_i hne
      cases h
      refine ⟨fun he => absurd he hne, fun _ _ => rfl, fun _ _ _ => rfl⟩
  | int64 p =>
    simp only [coerce] at h
    cases h
    refine ⟨fun _ => by simp [readDest, parsedValue, upd], ?_, ?_⟩ <;>
    · intro d1 hd
      cases d1 <;> simp_all [readDest, upd, readBool]
  | uint64 p =>
    simp only [coerce] at h
    cases h
    refine ⟨fun _ => by simp [readDest, parsedValue, upd], ?_, ?_⟩ <;>
    · intro d1 hd
      cases d1 <;> simp_all [readDest, upd, readBool]
  | float64 p =>
    simp only [coerce] at h
    cases h
    refine ⟨fun _ => by simp [readDest, parsedValue, upd], ?_, ?_⟩ <;>
    · intro d1 hd
      cases d1 <;> simp_all [readDest, upd, readBool]
  | bool p =>
    simp only [coerce] at h
    cases h
    cases p with
    | var q =>
      refine ⟨fun _ => by simp [readDest, parsedValue, upd, writeBool, readBool], ?_, ?_⟩
      · intro d1 hd
        cases d1 with
        | bool p1 => cases p1 <;> simp_all [readDest, upd, readBool, writeBool]
        | _ => simp_all [readDest, upd, readBool, writeBool]
      · intro d1 hd c
        cases d1 with
        | bool p1 => cases p1 <;> simp_all [readDest, upd, readBool, writeBool]
        | _ => simp_all [readDest, upd, readBool, writeBool]
    | shouldRenderHelp =>
      refine ⟨fun _ => by simp [readDest, parsedValue, writeBool, readBool], ?_, ?_⟩
      · intro d1 hd
        cases d1 with
        | bool p1 => cases p1 <;> simp_all [readDest, upd, readBool, writeBool]
        | _ => simp_all [readDest, upd, readBool, writeBool]
      · intro d1 hd c
        cases d1 with
        | bool p1 => cases p1 <;> simp_all [readDest, upd, readBool, writeBool]
        | _ => simp_all [readDest, upd, readBool, writeBool]
  | string p =>
    simp only [coerce] at h
    cases h
    refine ⟨fun _ => by simp [readDest, parsedValue, upd], ?_, ?_⟩ <;>
    · intro d1 hd
      cases d1 <;> simp_all [readDest, upd, readBool]
  | other => simp [coerce] at h

/-- The effect of `Reset` on the specification at index `i`. -/
theorem reset_spec (lib : FloatLib) (cmd : Cmd) (st : Store) (i : Nat) (a : NamedArg)
    (cmd1 : Cmd) (st1 : Store) (h : NamedArg.Reset lib cmd st i a = (none, cmd1, st1)) :
    cmd1.namedArgList = cmd.namedArgList.set i { a with set := false } ∧
    cmd1.subCmds = cmd.subCmds ∧ cmd1.argList = cmd.argList ∧
    (a.required = false → readDest cmd1 st1 a.dest = parsedValue lib a.dest a.defValStr) ∧
    (∀ d1, (a.required = true ∨ d1 ≠ a.dest) → readDest cmd1 st1 d1 = readDest cmd st d1) ∧
    (∀ d1, (a.required = true ∨ d1 ≠ a.dest) → ∀ c, readDest c st1 d1 = readDest c st d1) := by
  unfold NamedArg.Reset at h
  simp only at h
  have hread : ∀ d1, readDest
      { cmd with namedArgList := cmd.namedArgList.set i { a with set := false } } st d1 =
      readDest cmd st d1 := by
    intro d1
    cases d1 with
    | bool p => cases p <;> rfl
    | _ => rfl
  by_cases hreq : a.required = true
  · rw [if_neg (by simp [hreq])] at h
    simp only [Prod.mk.injEq, true_and] at h
    obtain ⟨rfl, rfl⟩ := h
    refine ⟨rfl, rfl, rfl, ?_, fun d1 _ => hread d1, fun _ _ _ => rfl⟩
    intro hf
    rw [hreq] at hf
    cases hf
  · have hreq2 : a.required = false := by simpa using hreq
    rw [if_pos hreq2] at h
    cases hc : coerce lib { cmd with namedArgList := cmd.namedArgList.set i { a with set := false } }
        st a.dest a.defValStr with
    | unexpectedType => rw [hc] at h; simp at h
    | done cmd2 st2 e =>
      rw [hc] at h
      cases e with
      | some e1 => simp at h
      | none =>
        simp only [Prod.mk.injEq, true_and] at h
        obtain ⟨rfl, rfl⟩ := h
        obtain ⟨b, hb⟩ := coerce_cmd lib _ st a.dest a.defValStr cmd2 st2 none hc
        obtain ⟨h1, h2, h3⟩ := coerce_spec lib _ st a.dest a.defValStr cmd2 st2 none hc
        refine ⟨by rw [hb], by rw [hb], by rw [hb], fun _ => h1 rfl, ?_, ?_⟩
        · intro d1 hd
          rcases hd with hd | hd
          · exact absurd hd hreq
          · rw [h2 d1 hd, hread]
        · intro d1 hd c
          rcases hd with hd | hd
          · exact absurd hd hreq
          · exact h3 d1 hd c

/-- The effect of the first loop of `Clear` over the specifications `rest`, which are
those of the command from index `i` on. -/
theorem resetLoop_spec (lib : FloatLib) :
    ∀ (rest : List NamedArg) (i : Nat) (cmd : Cmd) (st : Store) (cmd1 : Cmd) (st1 : Store)
      (pre : List NamedArg), cmd.namedArgList = pre ++ rest → pre.length = i →
      (rest.map (fun a => a.dest)).Nodup → resetLoop lib cmd st i rest = (none, cmd1, st1) →
      cmd1.namedArgList = pre ++ rest.map (fun a => { a with set := false }) ∧
      cmd1.subCmds = cmd.subCmds ∧ cmd1.argList = cmd.argList ∧
      (∀ a ∈ rest, a.required = false →
        readDest cmd1 st1 a.dest = parsedValue lib a.dest a.defValStr) ∧
      (∀ d1, (∀ a ∈ rest, a.required = false → a.dest ≠ d1) →
        readDest cmd1 st1 d1 = readDest cmd st d1) ∧
      (∀ d1, (∀ a ∈ rest, a.required = false → a.dest ≠ d1) →
        ∀ c, readDest c st1 d1 = readDest c st d1) := by
  intro rest
  induction rest with
  | nil =>
    intro i cmd st cmd1 st1 pre hl _ _ h
    simp only [resetLoop, Prod.mk.injEq, true_and] at h
    obtain ⟨rfl, rfl⟩ := h
    refine ⟨by simpa using hl, rfl, rfl, ?_, fun _ _ => rfl, fun _ _ _ => rfl⟩
    intro a ha
    cases ha
  | cons a r ih =>
    intro i cmd st cmd1 st1 pre hl hlen hnd h
    simp only [resetLoop] at h
    cases hr : NamedArg.Reset lib cmd st i a with
    | mk e p =>
      obtain ⟨cmd2, st2⟩ := p
      rw [hr] at h
      cases e with
      | some e1 => simp at h
      | none =>
        simp only at h
        obtain ⟨r1, r2, r3, r4, r5, r6⟩ := reset_spec lib cmd st i a cmd2 st2 hr
        have hl2 : cmd2.namedArgList = (pre ++ [{ a with set := false }]) ++ r := by
          rw [r1, hl, ← hlen]
          simp
        have hnd2 : (r.map (fun a => a.dest)).Nodup := by
          simp only [List.map_cons, List.nodup_cons] at hnd
          exact hnd.2
        have hnotin : ∀ b ∈ r, b.dest ≠ a.dest := by
          simp only [List.map_cons, List.nodup_cons, List.mem_map, not_exists, not_and] at hnd
          intro b hb e
          exact hnd.1 b hb e
        obtain ⟨i1, i2, i3, i4, i5, i6⟩ :=
          ih (i + 1) cmd2 st2 cmd1 st1 (pre ++ [{ a with set := false }]) hl2
            (by simp [hlen]) hnd2 h
        refine ⟨by rw [i1]; simp, by rw [i2, r2], by rw [i3, r3], ?_, ?_, ?_⟩
        · intro b hb hreq
          rcases List.mem_cons.mp hb with rfl | hb
          · rw [i5 b.dest (fun x hx _ => hnotin x hx)]
            exact r4 hreq
          · exact i4 b hb hreq
        · intro d1 hd
          rw [i5 d1 (fun x hx hreq => hd x (List.mem_cons_of_mem _ hx) hreq)]
          apply r5
          by_cases hreq : a.required = true
          · exact Or.inl hreq
          · exact Or.inr (fun e => hd a (List.mem_cons_self _ _) (by simpa using hreq) e.symm)
        · intro d1 hd c
          rw [i6 d1 (fun x hx hreq => hd x (List.mem_cons_of_mem _ hx) hreq) c]
          apply r6
          by_cases hreq : a.required = true
          · exact Or.inl hreq
          · exact Or.inr (fun e => hd a (List.mem_cons_self _ _) (by simpa using hreq) e.symm)

theorem readDest_nonvar (c : Cmd) (s t : Store) (d : Dest) (h : d.isVar = false) :
    readDest c s d = readDest c t d := by
  cases d with
  | bool p =>
    cases p with
    | var q => simp [Dest.isVar] at h
    | shouldRenderHelp => rfl
  | other => rfl
  | _ => simp [Dest.isVar] at h

theorem clear_eq (lib : FloatLib) (c : Cmd) (st : Store) :
    Cmd.Clear lib c st =
      match resetLoop lib { c with argList := [] } st 0 c.namedArgList with
      | (some err, cmd1, st1) => (some err, cmd1, st1)
      | (none, cmd1, st1) =>
        match clearSubCmds lib c.name c.subCmds st1 with
        | (err, subCmds1, st2) => (err, { cmd1 with subCmds := subCmds1 }, st2) := by
  cases c
  rfl

/-- Two stores that agree on the variables of the specifications of a command are
interchangeable in `ClearedOwn`. -/
theorem clearedOwn_congr (lib : FloatLib) (s s1 t t1 : Store) (c c1 : Cmd)
    (h0 : ∀ d ∈ varDests c, ∀ c2, readDest c2 t d = readDest c2 s d)
    (h1 : ∀ d ∈ varDests c, ∀ c2, readDest c2 t1 d = readDest c2 s1 d)
    (h : ClearedOwn lib s s1 c c1) : ClearedOwn lib t t1 c c1 := by
  have key : ∀ (u v : Store), (∀ d ∈ varDests c, ∀ c2, readDest c2 u d = readDest c2 v d) →
      ∀ a ∈ c.namedArgList, ∀ c2, readDest c2 u a.dest = readDest c2 v a.dest := by
    intro u v huv a ha c2
    by_cases hv : a.dest.isVar = true
    · apply huv
      rw [varDests_eq]
      apply List.mem_append_left
      exact List.mem_filter.mpr ⟨List.mem_map.mpr ⟨a, ha, rfl⟩, hv⟩
    · exact readDest_nonvar c2 u v a.dest (by simpa using hv)
  obtain ⟨a1, a2, a3, a4⟩ := h
  refine ⟨a1, a2, ?_, ?_⟩
  · intro a ha hreq
    rw [key t1 s1 h1 a ha c1]
    exact a3 a ha hreq
  · intro a ha hreq
    rw [key t1 s1 h1 a ha c1, key t s h0 a ha c]
    exact a4 a ha hreq

theorem cleared_congr (lib : FloatLib) (c : Cmd) :
    ∀ (s s1 t t1 : Store) (c1 : Cmd),
      (∀ d ∈ varDests c, ∀ c2, readDest c2 t d = readDest c2 s d) →
      (∀ d ∈ varDests c, ∀ c2, readDest c2 t1 d = readDest c2 s1 d) →
      Cleared lib s s1 c c1 → Cleared lib t t1 c c1 := by
  refine @Cmd.rec
    (fun c => ∀ (s s1 t t1 : Store) (c1 : Cmd),
      (∀ d ∈ varDests c, ∀ c2, readDest c2 t d = readDest c2 s d) →
      (∀ d ∈ varDests c, ∀ c2, readDest c2 t1 d = readDest c2 s1 d) →
      Cleared lib s s1 c c1 → Cleared lib t t1 c c1)
    (fun subs => ∀ (s s1 t t1 : Store) (l1 : List (GoString × Cmd)),
      (∀ d ∈ varDestsSubs subs, ∀ c2, readDest c2 t d = readDest c2 s d) →
      (∀ d ∈ varDestsSubs subs, ∀ c2, readDest c2 t1 d = readDest c2 s1 d) →
      ClearedSubs lib s s1 subs l1 → ClearedSubs lib t t1 subs l1)
    (fun p => ∀ (s s1 t t1 : Store) (c1 : Cmd),
      (∀ d ∈ varDests p.2, ∀ c2, readDest c2 t d = readDest c2 s d) →
      (∀ d ∈ varDests p.2, ∀ c2, readDest c2 t1 d = readDest c2 s1 d) →
      Cleared lib s s1 p.2 c1 → Cleared lib t t1 p.2 c1)
    ?_ ?_ ?_ ?_ c
  · intro name subCmds description namedArgMap namedArgList argList help parsed ih
    intro s s1 t t1 c1 h0 h1 h
    rw [cleared_eq] at h ⊢
    refine ⟨clearedOwn_congr lib s s1 t t1 _ c1 h0 h1 h.1, ?_⟩
    apply ih s s1 t t1 _ _ _ h.2
    · intro d hd
      apply h0
      rw [varDests_eq]
      exact List.mem_append_right _ hd
    · intro d hd
      apply h1
      rw [varDests_eq]
      exact List.mem_append_right _ hd
  · intro s s1 t t1 l1 _ _ h
    simpa [ClearedSubs] using h
  · intro head tail ihh iht s s1 t t1 l1 h0 h1 h
    obtain ⟨key, subCmd⟩ := head
    simp only [ClearedSubs] at h ⊢
    obtain ⟨subCmd1, rest1, e, hc, hr⟩ := h
    refine ⟨subCmd1, rest1, e, ?_, ?_⟩
    · apply ihh s s1 t t1 subCmd1 _ _ hc
      · intro d hd
        apply h0
        simp only [varDestsSubs]
        exact List.mem_append_left _ hd
      · intro d hd
        apply h1
        simp only [varDestsSubs]
        exact List.mem_append_left _ hd
    · apply iht s s1 t t1 rest1 _ _ hr
      · intro d hd
        apply h0
        simp only [varDestsSubs]
        exact List.mem_append_right _ hd
      · intro d hd
        apply h1
        simp only [varDestsSubs]
        exact List.mem_append_right _ hd
  · intro fst snd ih
    exact ih

theorem clearedSubs_congr (lib : FloatLib) :
    ∀ (subs : List (GoString × Cmd)) (s s1 t t1 : Store) (l1 : List (GoString × Cmd)),
      (∀ d ∈ varDestsSubs subs, ∀ c2, readDest c2 t d = readDest c2 s d) →
      (∀ d ∈ varDestsSubs subs, ∀ c2, readDest c2 t1 d = readDest c2 s1 d) →
      ClearedSubs lib s s1 subs l1 → ClearedSubs lib t t1 subs l1 := by
  intro subs
  induction subs with
  | nil =>
    intro s s1 t t1 l1 _ _ h
    simpa [ClearedSubs] using h
  | cons head tail ih =>
    intro s s1 t t1 l1 h0 h1 h
    obtain ⟨key, subCmd⟩ := head
    simp only [ClearedSubs] at h ⊢
    obtain ⟨subCmd1, rest1, e, hc, hr⟩ := h
    refine ⟨subCmd1, rest1, e, ?_, ?_⟩
    · apply cleared_congr lib subCmd s s1 t t1 subCmd1 _ _ hc
      · intro d hd
        apply h0
        simp only [varDestsSubs]
        exact List.mem_append_left _ hd
      · intro d hd
        apply h1
        simp only [varDestsSubs]
        exact List.mem_append_left _ hd
    · apply ih s s1 t t1 rest1 _ _ hr
      · intro d hd
        apply h0
        simp only [varDestsSubs]
        exact List.mem_append_right _ hd
      · intro d hd
        apply h1
        simp only [varDestsSubs]
        exact List.mem_append_right _ hd

theorem readDest_help (c c1 : Cmd) (st : Store) (d : Dest)
    (h : c1.shouldRenderHelp = c.shouldRenderHelp) : readDest c1 st d = readDest c st d := by
  cases d with
  | bool p =>
    cases p with
    | var q => rfl
    | shouldRenderHelp => simp [readDest, readBool, h]
  | _ => rfl

/-- The node case of the postcondition of `Clear`: the first loop followed by the
clearing of the sub-commands. -/
theorem clear_node (lib : FloatLib) (c : Cmd) (st : Store) (cmdr : Cmd) (str1 : Store)
    (subs1 : List (GoString × Cmd)) (st1 : Store)
    (hloop : resetLoop lib { c with argList := [] } st 0 c.namedArgList = (none, cmdr, str1))
    (hd : (c.namedArgList.map (fun a => a.dest)).Nodup) (hnd : (varDests c).Nodup)
    (hframe : ∀ d, d ∉ varDestsSubs c.subCmds → ∀ c2, readDest c2 st1 d = readDest c2 str1 d)
    (hsubs : ClearedSubs lib str1 st1 c.subCmds subs1) :
    (∀ d, d ∉ varDests c → ∀ c2, readDest c2 st1 d = readDest c2 st d) ∧
      Cleared lib st st1 c { cmdr with subCmds := subs1 } := by
  obtain ⟨r1, r2, r3, r4, r5, r6⟩ :=
    resetLoop_spec lib c.namedArgList 0 { c with argList := [] } st cmdr str1 [] rfl rfl hd hloop
  rw [varDests_eq] at hnd
  have hdisj := List.disjoint_of_nodup_append hnd
  have own_not_sub : ∀ a ∈ c.namedArgList, a.dest.isVar = true →
      a.dest ∉ varDestsSubs c.subCmds := by
    intro a ha hv hin
    exact hdisj (List.mem_filter.mpr ⟨List.mem_map.mpr ⟨a, ha, rfl⟩, hv⟩) hin
  have loop_store : ∀ d, d ∉ (c.namedArgList.map (fun a => a.dest)).filter Dest.isVar →
      ∀ c2, readDest c2 str1 d = readDest c2 st d := by
    intro d hdn c2
    by_cases hv : d.isVar = true
    · apply r6
      intro a ha _ e
      exact hdn (List.mem_filter.mpr ⟨List.mem_map.mpr ⟨a, ha, e⟩, hv⟩)
    · exact readDest_nonvar c2 str1 st d (by simpa using hv)
  have sub_keep : ∀ a ∈ c.namedArgList, ∀ c2,
      readDest c2 st1 a.dest = readDest c2 str1 a.dest := by
    intro a ha c2
    by_cases hv : a.dest.isVar = true
    · exact hframe a.dest (own_not_sub a ha hv) c2
    · exact readDest_nonvar c2 st1 str1 a.dest (by simpa using hv)
  refine ⟨?_, ?_⟩
  · intro d hdn c2
    rw [varDests_eq] at hdn
    rw [hframe d (fun h => hdn (List.mem_append_right _ h)) c2]
    exact loop_store d (fun h => hdn (List.mem_append_left _ h)) c2
  · rw [cleared_eq]
    refine ⟨⟨r3, r1, ?_, ?_⟩, ?_⟩
    · intro a ha hreq
      rw [readDest_help cmdr { cmdr with subCmds := subs1 } st1 a.dest rfl, sub_keep a ha cmdr]
      exact r4 a ha hreq
    · intro a ha hreq
      rw [readDest_help cmdr { cmdr with subCmds := subs1 } st1 a.dest rfl, sub_keep a ha cmdr,
        r5 a.dest]
      · exact readDest_help c { c with argList := [] } st a.dest rfl
      · intro b hb hbreq e
        have hab : b = a := by
          have hinj := List.inj_on_of_nodup_map hd
          exact hinj hb ha e
        rw [hab, hreq] at hbreq
        cases hbreq
    · apply clearedSubs_congr lib c.subCmds str1 st1 st st1 subs1 _ (fun _ _ _ => rfl) hsubs
      intro d hdin c2
      symm
      apply loop_store
      intro hown
      exact hdisj hown hdin

/-- The postcondition of `Clear` on a command tree without shared storage, together with
the frame: variables of no specification of the tree keep their value. -/
theorem clear_spec (lib : FloatLib) (c : Cmd) :
    ∀ (st : Store) (c1 : Cmd) (st1 : Store), Cmd.Clear lib c st = (none, c1, st1) →
      OwnDestsDistinct c → (varDests c).Nodup →
      (∀ d, d ∉ varDests c → ∀ c2, readDest c2 st1 d = readDest c2 st d) ∧
        Cleared lib st st1 c c1 := by
  refine @Cmd.rec
    (fun c => ∀ (st : Store) (c1 : Cmd) (st1 : Store), Cmd.Clear lib c st = (none, c1, st1) →
      OwnDestsDistinct c → (varDests c).Nodup →
      (∀ d, d ∉ varDests c → ∀ c2, readDest c2 st1 d = readDest c2 st d) ∧
        Cleared lib st st1 c c1)
    (fun subs => ∀ (nm : GoString) (st : Store) (subs1 : List (GoString × Cmd)) (st1 : Store),
      clearSubCmds lib nm subs st = (none, subs1, st1) →
      OwnDestsDistinctSubs subs → (varDestsSubs subs).Nodup →
      (∀ d, d ∉ varDestsSubs subs → ∀ c2, readDest c2 st1 d = readDest c2 st d) ∧
        ClearedSubs lib st st1 subs subs1)
    (fun p => ∀ (st : Store) (c1 : Cmd) (st1 : Store),
      Cmd.Clear lib p.2 st = (none, c1, st1) →
      OwnDestsDistinct p.2 → (varDests p.2).Nodup →
      (∀ d, d ∉ varDests p.2 → ∀ c2, readDest c2 st1 d = readDest c2 st d) ∧
        Cleared lib st st1 p.2 c1)
    ?_ ?_ ?_ ?_ c
  · intro name subCmds description namedArgMap namedArgList argList help parsed ih
    intro st c1 st1 h hown hnd
    rw [clear_eq] at h
    rw [ownDestsDistinct_eq] at hown
    cases hl : resetLoop lib
        { (⟨name, subCmds, description, namedArgMap, namedArgList, argList, help, parsed⟩ : Cmd)
          with argList := [] } st 0 namedArgList with
    | mk e p =>
      obtain ⟨cmdr, str1⟩ := p
      rw [hl] at h
      cases e with
      | some e1 => simp at h
      | none =>
        simp only at h
        cases hs : clearSubCmds lib name subCmds str1 with
        | mk e2 p2 =>
          obtain ⟨subs1, st2⟩ := p2
          rw [hs] at h
          simp only [Prod.mk.injEq] at h
          obtain ⟨rfl, rfl, rfl⟩ := h
          have hnd2 : (varDestsSubs subCmds).Nodup := by
            rw [varDests_eq] at hnd
            exact (List.nodup_append.mp hnd).2.1
          obtain ⟨f, cs⟩ := ih name str1 subs1 st2 hs hown.2 hnd2
          exact clear_node lib _ st cmdr str1 subs1 st2 hl hown.1 hnd f cs
  · intro nm st subs1 st1 h _ _
    simp only [clearSubCmds, Prod.mk.injEq, true_and] at h
    obtain ⟨rfl, rfl⟩ := h
    exact ⟨fun _ _ _ => rfl, by simp [ClearedSubs]⟩
  · intro head tail ihh iht nm st subs1 st1 h hown hnd
    obtain ⟨key, subCmd⟩ := head
    simp only [clearSubCmds] at h
    simp only [OwnDestsDistinctSubs] at hown
    simp only [varDestsSubs] at hnd
    have hdisj := List.disjoint_of_nodup_append hnd
    cases hc : Cmd.Clear lib subCmd st with
    | mk e p =>
      obtain ⟨s1, stb⟩ := p
      rw [hc] at h
      cases e with
      | some e1 => simp at h
      | none =>
        simp only at h
        cases hr : clearSubCmds lib nm tail stb with
        | mk e2 p2 =>
          obtain ⟨rest1, st2⟩ := p2
          rw [hr] at h
          simp only [Prod.mk.injEq] at h
          obtain ⟨rfl, rfl, rfl⟩ := h
          obtain ⟨f1, c1⟩ := ihh st s1 stb hc hown.1 (List.nodup_append.mp hnd).1
          obtain ⟨f2, c2⟩ := iht nm stb rest1 st2 hr hown.2 (List.nodup_append.mp hnd).2.1
          refine ⟨?_, ?_⟩
          · intro d hdn c3
            simp only [varDestsSubs] at hdn
            rw [f2 d (fun h => hdn (List.mem_append_right _ h)) c3]
            exact f1 d (fun h => hdn (List.mem_append_left _ h)) c3
          · simp only [ClearedSubs]
            refine ⟨s1, rest1, rfl, ?_, ?_⟩
            · apply cleared_congr lib subCmd st stb st st2 s1 (fun _ _ _ => rfl) _ c1
              intro d hd c3
              exact f2 d (fun h => hdisj hd h) c3
            · apply clearedSubs_congr lib tail stb st2 st st2 rest1 _ (fun _ _ _ => rfl) c2
              intro d hd c3
              symm
              exact f1 d (fun h => hdisj h hd) c3
  · intro fst snd ih
    exact ih

/-- Counterexample to C8 as stated: the optional argument `a` (default 1) and the
required argument `b` (default 2) are bound to the same `int` variable. After the
registrations the variable holds 2; `Clear` returns no error and leaves 1 in it, so the
binding of the required argument `b` does not hold the value it had before `Clear`. -/
theorem clear_shared_variable :
    (((NewCmd (str "c") []).AddIntArg Store.zero (str "a") (str "a") 0 1 false []).1.AddIntArg
        ((NewCmd (str "c") []).AddIntArg Store.zero (str "a") (str "a") 0 1 false []).2
        (str "b") (str "b") 0 2 true []).2.int 0 = 2 ∧
    (Cmd.Clear sampleLib
        (((NewCmd (str "c") []).AddIntArg Store.zero (str "a") (str "a") 0 1 false []).1.AddIntArg
          ((NewCmd (str "c") []).AddIntArg Store.zero (str "a") (str "a") 0 1 false []).2
          (str "b") (str "b") 0 2 true []).1
        (((NewCmd (str "c") []).AddIntArg Store.zero (str "a") (str "a") 0 1 false []).1.AddIntArg
          ((NewCmd (str "c") []).AddIntArg Store.zero (str "a") (str "a") 0 1 false []).2
          (str "b") (str "b") 0 2 true []).2).1 = none ∧
    (Cmd.Clear sampleLib
        (((NewCmd (str "c") []).AddIntArg Store.zero (str "a") (str "a") 0 1 false []).1.AddIntArg
          ((NewCmd (str "c") []).AddIntArg Store.zero (str "a") (str "a") 0 1 false []).2
          (str "b") (str "b") 0 2 true []).1
        (((NewCmd (str "c") []).AddIntArg Store.zero (str "a") (str "a") 0 1 false []).1.AddIntArg
          ((NewCmd (str "c") []).AddIntArg Store.zero (str "a") (str "a") 0 1 false []).2
          (str "b") (str "b") 0 2 true []).2).2.2.int 0 = 1 := by
  decide

theorem clearingArgs_eq : clearingArgs =
    [[45, 105, 61, 49, 48], [45, 100, 61, 49, 50, 51, 52, 53], [45, 108, 61, 50, 48], [45, 117, 61, 51, 48], [45, 120, 61, 52, 48], [45, 98, 61, 116, 114, 117, 101], [45, 102, 61, 49, 46, 50, 51], [45, 115, 61, 104, 101, 108, 108, 111]] := by
  decide

theorem parse_clearingArgs (x : Nat) (pf : GoString → Nat × Option strconv.NumError)
    (ff : Nat → GoString) (st : Store) (l : List GoString) (s1 s2 s3 s4 s5 s6 s7 s8 : Bool) :
    Cmd.Parse ⟨fun s => if s = [49, 46, 50, 51] then (x, none) else pf s, ff⟩
        (testCmdNF ⟨fun s => if s = [49, 46, 50, 51] then (x, none) else pf s, ff⟩ l false
          s1 s2 s3 s4 s5 s6 s7 s8) st
        [[45, 105, 61, 49, 48], [45, 100, 61, 49, 50, 51, 52, 53], [45, 108, 61, 50, 48], [45, 117, 61, 51, 48], [45, 120, 61, 52, 48], [45, 98, 61, 116, 114, 117, 101], [45, 102, 61, 49, 46, 50, 51], [45, 115, 61, 104, 101, 108, 108, 111]] =
      ⟨[str "command"], none,
        testCmdNF ⟨fun s => if s = [49, 46, 50, 51] then (x, none) else pf s, ff⟩ l false
          true s2 true true true true true true, clearingWrites x st⟩ := by
  rfl

theorem clear_testCmd (lib : FloatLib) (st : Store) (l : List GoString)
    (s1 s2 s3 s4 s5 s6 s7 s8 : Bool) :
    Cmd.Clear lib (testCmdNF lib l false s1 s2 s3 s4 s5 s6 s7 s8) st =
      (none, testCmdNF lib [] false false false false false false false false false,
        { st with int := upd st.int 1 54321 }) := by
  rfl

theorem helpFirst_register (lib : FloatLib) (cs : Cmd × Store) (r : Registration)
    (h : HelpFirst cs.1) : HelpFirst (register lib cs r).1 := by
  obtain ⟨a, h1, h2⟩ := h
  have key : ∀ (n s hl dv : GoString) (d : Dest) (rq : Bool),
      HelpFirst (cs.1.addNamedArg n s hl dv d rq) := by
    intro n s hl dv d rq
    refine ⟨a, ?_, h2⟩
    simp only [Cmd.addNamedArg]
    cases hl2 : cs.1.namedArgList with
    | nil => rw [hl2] at h1; simp at h1
    | cons b rest => rw [hl2] at h1; simpa using h1
  cases r <;> exact key _ _ _ _ _ _

theorem helpFirst_registerAll (lib : FloatLib) :
    ∀ (regs : List Registration) (cs : Cmd × Store), HelpFirst cs.1 →
      HelpFirst (registerAll lib cs regs).1 := by
  intro regs
  induction regs with
  | nil => intro cs h; exact h
  | cons r rest ih =>
    intro cs h
    simp only [registerAll, List.foldl_cons]
    exact ih (register lib cs r) (helpFirst_register lib cs r h)

theorem parseBool_false : strconv.ParseBool (str "false") = (false, none) := by decide

/-- C8 (amended). Postcondition of `Cmd.Clear` on a command tree in which no two
specifications are bound to the same storage: after `Clear` returns without error, in
the command and recursively in every sub-command, the positionals are empty, every
specification has its supplied flag false (the other fields unchanged), every
non-required binding holds the value obtained by re-parsing its default text, and
every required binding holds the value it had just before `Clear`. This includes the
help flag: when the first specification is the one registered by `NewCmd`, as in every
command built by `NewCmd` and registrations, `ShouldRenderHelp()` is false. On the
test command, after `Parse` of the list of `TestCommandClearing` (which contains
`-d=12345`), `Clear` restores `dint` to 54321 while `int` stays 10, and a second
`Parse` of the same list succeeds with the bindings of the first. -/
theorem clear_postcondition :
    (∀ (lib : FloatLib) (cmd : Cmd) (st : Store) (cmd1 : Cmd) (st1 : Store),
      NoSharedStorage cmd → Cmd.Clear lib cmd st = (none, cmd1, st1) →
      Cleared lib st st1 cmd cmd1 ∧ cmd1.Args = [] ∧ (∀ a ∈ cmd1.namedArgList, a.set = false) ∧
        (HelpFirst cmd → cmd1.ShouldRenderHelp = false)) ∧
    (∀ (lib : FloatLib) (name description : GoString) (st0 : Store) (regs : List Registration),
      HelpFirst (registerAll lib (NewCmd name description, st0) regs).1) ∧
    (∀ (lib : FloatLib) (st0 : Store), (lib.ParseFloat (str "1.23")).2 = none →
      TestClearingHolds lib st0) := by
  refine ⟨?_, ?_, ?_⟩
  · intro lib cmd st cmd1 st1 hns h
    have hc := (clear_spec lib cmd st cmd1 st1 h hns.1 hns.2).2
    have hown : ClearedOwn lib st st1 cmd cmd1 := by
      rw [cleared_eq] at hc
      exact hc.1
    refine ⟨hc, hown.1, ?_, ?_⟩
    · intro a ha
      rw [hown.2.1] at ha
      obtain ⟨b, _, rfl⟩ := List.mem_map.mp ha
      rfl
    · rintro ⟨a, h1, h2, h3, h4⟩
      have ha : a ∈ cmd.namedArgList := by
        cases hl : cmd.namedArgList with
        | nil => rw [hl] at h1; simp at h1
        | cons b rest =>
          rw [hl] at h1
          simp only [List.head?_cons, Option.some.injEq] at h1
          rw [h1]
          exact List.mem_cons_self _ _
      have := hown.2.2.1 a ha h3
      rw [h2, h4] at this
      simp only [readDest, readBool, parsedValue, parseBool_false, Value.bool.injEq] at this
      exact this
  · intro lib name description st0 regs
    apply helpFirst_registerAll
    exact ⟨_, rfl, rfl, rfl, rfl⟩
  · intro lib st0 hf
    rw [str_1_23] at hf
    have hlib := floatLib_accepts lib _ hf
    generalize (lib.ParseFloat [49, 46, 50, 51]).1 = x at hlib
    generalize lib.ParseFloat = pf at hlib
    generalize lib.FormatFloat = ff at hlib
    subst hlib
    unfold TestClearingHolds
    simp only [createTestCmd_fst, clearingArgs_eq, parse_clearingArgs, clear_testCmd]
    refine ⟨?_, ?_, ?_, ?_, ?_, ?_, ?_, ?_, ?_, ?_, ?_, ?_, ?_, ?_, ?_, ?_⟩ <;> trivial

theorem noSharedStorage_testCmd (lib : FloatLib) (l : List GoString)
    (s1 s2 s3 s4 s5 s6 s7 s8 : Bool) :
    NoSharedStorage (testCmdNF lib l false s1 s2 s3 s4 s5 s6 s7 s8) := by
  refine ⟨?_, ?_⟩
  · rw [ownDestsDistinct_eq]
    simp only [testCmdNF, testNamedArgList, List.map, OwnDestsDistinctSubs, and_true]
    decide
  · rw [varDests_eq]
    simp only [testCmdNF, testNamedArgList, List.map, varDestsSubs, List.append_nil]
    decide

/-- Witness for C8 (amended): the test command (in evaluated form), whose destinations
are distinct variables. -/
theorem clear_postcondition_witness :
    Cleared sampleLib Store.zero { Store.zero with int := upd Store.zero.int 1 54321 }
      (testCmdNF sampleLib [] false true false true true true true true true)
      (testCmdNF sampleLib [] false false false false false false false false false) :=
  (clear_postcondition.1 sampleLib
    (testCmdNF sampleLib [] false true false true true true true true true) Store.zero
    (testCmdNF sampleLib [] false false false false false false false false false)
    { Store.zero with int := upd Store.zero.int 1 54321 }
    (noSharedStorage_testCmd sampleLib [] true false true true true true true true)
    (clear_testCmd sampleLib Store.zero [] true false true true true true true true)).1

/-! ### Formatting a default and parsing it back -/

/-- The digit loop of `ParseUint` reads the decimal digits written by the formatting
loop: after them the value is `u`. -/
theorem digitsLoop_fmtDigits :
    ∀ (fuel u : Nat) (acc : List Nat) (us : Bool), u < fuel → u ≤ strconv.maxUint64 →
      strconv.digitsLoop true 10 (strconv.maxUint64 / 10 + 1) strconv.maxUint64
          (strconv.fmtDigits fuel u acc) 0 us =
        strconv.digitsLoop true 10 (strconv.maxUint64 / 10 + 1) strconv.maxUint64 acc u us := by
  intro fuel
  induction fuel with
  | zero => intro u acc us h; omega
  | succ fuel ih =>
    intro u acc us hlt hmax
    have hm : strconv.maxUint64 = 18446744073709551615 := by decide
    rw [hm] at hmax ⊢
    simp only [strconv.fmtDigits]
    by_cases hu : u ≥ 10
    · have h1 : u / 10 < fuel := by omega
      have h2 : u / 10 ≤ 18446744073709551615 := by omega
      rw [if_pos hu]
      have := ih (u / 10) ((48 + (u - u / 10 * 10)) :: acc) us h1 (by rw [hm]; exact h2)
      rw [hm] at this
      rw [this]
      have hc : ¬ (48 + (u - u / 10 * 10) = 95) := by omega
      have hd : 48 ≤ 48 + (u - u / 10 * 10) ∧ 48 + (u - u / 10 * 10) ≤ 57 := by omega
      simp only [strconv.digitsLoop, hc, false_and, if_false, hd, and_self, if_true]
      have e1 : 48 + (u - u / 10 * 10) - 48 = u % 10 := by omega
      rw [e1]
      have e2 : ¬ (u % 10 ≥ 10 % 256) := by omega
      have e3 : ¬ (u / 10 ≥ 18446744073709551615 / 10 + 1) := by omega
      have e4 : u / 10 * 10 % 2 ^ 64 = u / 10 * 10 := by
        apply Nat.mod_eq_of_lt
        have : (2 : Nat) ^ 64 = 18446744073709551616 := by norm_num
        omega
      have e5 : (u / 10 * 10 + u % 10) % 2 ^ 64 = u := by
        have : u / 10 * 10 + u % 10 = u := by omega
        rw [this]
        apply Nat.mod_eq_of_lt
        have : (2 : Nat) ^ 64 = 18446744073709551616 := by norm_num
        omega
      have e6 : ¬ (u < u / 10 * 10 ∨ u > 18446744073709551615) := by omega
      simp only [e2, e3, if_false, e4, e5, e6]
    · rw [if_neg hu]
      have hc : ¬ (48 + u = 95) := by omega
      have hd : 48 ≤ 48 + u ∧ 48 + u ≤ 57 := by omega
      simp only [strconv.digitsLoop, hc, false_and, if_false, hd, and_self, if_true]
      have e1 : 48 + u - 48 = u := by omega
      rw [e1]
      have e2 : ¬ (u ≥ 10 % 256) := by omega
      have e3 : ¬ (0 ≥ 18446744073709551615 / 10 + 1) := by omega
      have e5 : (0 * 10 % 2 ^ 64 + u) % 2 ^ 64 = u := by
        simp only [Nat.zero_mul, Nat.zero_mod, Nat.zero_add]
        apply Nat.mod_eq_of_lt
        have : (2 : Nat) ^ 64 = 18446744073709551616 := by norm_num
        omega
      have e6 : ¬ (u < 0 * 10 % 2 ^ 64 ∨ u > 18446744073709551615) := by
        simp only [Nat.zero_mul, Nat.zero_mod]
        omega
      simp only [e2, e3, if_false, e5, e6]

/-- The text of a positive number starts with a digit from 1 to 9. -/
theorem fmtDigits_head :
    ∀ (fuel u : Nat) (acc : List Nat), 0 < u → u < fuel →
      ∃ c rest, strconv.fmtDigits fuel u acc = c :: rest ∧ 49 ≤ c ∧ c ≤ 57 := by
  intro fuel
  induction fuel with
  | zero => intro u acc _ h; omega
  | succ fuel ih =>
    intro u acc hpos hlt
    simp only [strconv.fmtDigits]
    by_cases hu : u ≥ 10
    · rw [if_pos hu]
      exact ih (u / 10) _ (by omega) (by omega)
    · rw [if_neg hu]
      exact ⟨48 + u, acc, rfl, by omega, by omega⟩

theorem parseUint_formatUint (d bitSize : Nat) (hd : d < 2 ^ 64)
    (hb : bitSize = 0 ∨ bitSize = 64) :
    strconv.ParseUint (strconv.FormatUint d) 0 bitSize = (d, none) := by
  have h64 : (2 : Nat) ^ 64 = 18446744073709551616 := by norm_num
  have hm : strconv.maxUint64 = 18446744073709551615 := by decide
  have hmax :
      (2 ^ (if bitSize = 0 then strconv.IntSize else bitSize) % 2 ^ 64 + 2 ^ 64 - 1) % 2 ^ 64 =
        strconv.maxUint64 := by
    rcases hb with rfl | rfl <;> decide
  have hbs : ¬ bitSize > 64 := by rcases hb with rfl | rfl <;> decide
  have hloop := digitsLoop_fmtDigits (d + 1) d [] false (by omega) (by rw [hm]; omega)
  by_cases h0 : d = 0
  · subst h0
    rcases hb with rfl | rfl <;> decide
  · obtain ⟨c, rest, hc, hc1, hc2⟩ := fmtDigits_head (d + 1) d [] (by omega) (by omega)
    have hne : strconv.FormatUint d ≠ [] := by
      unfold strconv.FormatUint
      rw [hc]
      exact List.cons_ne_nil _ _
    have hdet : strconv.detectBase (strconv.FormatUint d) = (10, strconv.FormatUint d) := by
      unfold strconv.FormatUint
      rw [hc]
      unfold strconv.detectBase
      split
      · rename_i heq
        simp only [List.cons.injEq] at heq
        omega
      · rfl
    unfold strconv.ParseUint
    rw [if_neg hne]
    simp only [hdet, hmax, hbs, if_false, Nat.not_le_of_lt, show ¬ (2 ≤ 0 ∧ 0 ≤ 36) by omega,
      if_true, decide_True]
    unfold strconv.FormatUint at hloop ⊢
    rw [hloop]
    simp [strconv.digitsLoop]

theorem formatUint_head (d : Nat) :
    ∃ c rest, strconv.FormatUint d = c :: rest ∧ 48 ≤ c ∧ c ≤ 57 := by
  by_cases h0 : d = 0
  · subst h0
    exact ⟨48, [], by decide, by omega, by omega⟩
  · obtain ⟨c, rest, hc, hc1, hc2⟩ := fmtDigits_head (d + 1) d [] (by omega) (by omega)
    exact ⟨c, rest, hc, by omega, hc2⟩

theorem parseInt_formatInt (d : Int) (bitSize : Nat) (hlo : -(2 ^ 63) ≤ d) (hhi : d < 2 ^ 63)
    (hb : bitSize = 0 ∨ bitSize = 64) :
    strconv.ParseInt (strconv.FormatInt d) 0 bitSize = (d, none) := by
  have h64 : (2 : Nat) ^ 64 = 18446744073709551616 := by norm_num
  have h63 : (2 : Nat) ^ 63 = 9223372036854775808 := by norm_num
  have h63i : (2 : Int) ^ 63 = 9223372036854775808 := by norm_num
  have h64i : (2 : Int) ^ 64 = 18446744073709551616 := by norm_num
  have hcut : 2 ^ ((if bitSize = 0 then strconv.IntSize else bitSize) - 1) % 2 ^ 64 =
      9223372036854775808 := by
    rcases hb with rfl | rfl <;> decide
  rw [h63i] at hlo hhi
  have habs : d.natAbs < 2 ^ 64 := by omega
  have hpu := parseUint_formatUint d.natAbs bitSize habs hb
  obtain ⟨c, rest, hc, hc1, hc2⟩ := formatUint_head d.natAbs
  by_cases hneg : d < 0
  · unfold strconv.FormatInt
    rw [if_pos hneg]
    unfold strconv.ParseInt
    simp only [or_true, if_true, hpu, decide_True, hcut]
    have e1 : ¬ (true = false ∧ d.natAbs ≥ 9223372036854775808) := by simp
    have e2 : ¬ (True ∧ d.natAbs > 9223372036854775808) := by omega
    rw [if_neg e1, if_neg e2]
    congr 1
    unfold strconv.toInt64 strconv.negInt64
    rw [Nat.mod_eq_of_lt habs, h63, h63i, h64i]
    by_cases hmin : d.natAbs < 9223372036854775808
    · rw [if_pos hmin, if_neg (by omega)]
      omega
    · rw [if_neg hmin, if_pos (by omega)]
      omega
  · unfold strconv.FormatInt
    rw [if_neg hneg, hc]
    unfold strconv.ParseInt
    have n1 : ¬ (c = 43) := by omega
    have n2 : ¬ (c = 45) := by omega
    simp only [n1, n2, or_self, if_false, decide_False, ← hc, hpu, hcut]
    have e1 : ¬ (True ∧ d.natAbs ≥ 9223372036854775808) := by omega
    have e2 : ¬ (false = true ∧ d.natAbs > 9223372036854775808) := by simp
    rw [if_neg e1, if_neg e2]
    simp only [Bool.false_eq_true, if_false]
    congr 1
    unfold strconv.toInt64
    rw [Nat.mod_eq_of_lt habs, h63, if_pos (by omega)]
    omega

theorem parseBool_formatBool (b : Bool) :
    strconv.ParseBool (strconv.FormatBool b) = (b, none) := by
  cases b <;> decide

/-- The first loop of `Clear` leaves alone every variable that is the destination of
none of the specifications it resets. -/
theorem resetLoop_frame (lib : FloatLib) :
    ∀ (rest : List NamedArg) (i : Nat) (cmd : Cmd) (st : Store) (cmd1 : Cmd) (st1 : Store),
      resetLoop lib cmd st i rest = (none, cmd1, st1) →
      ∀ d1, (∀ a ∈ rest, a.dest ≠ d1) → ∀ c, readDest c st1 d1 = readDest c st d1 := by
  intro rest
  induction rest with
  | nil =>
    intro i cmd st cmd1 st1 h d1 _ c
    simp only [resetLoop, Prod.mk.injEq, true_and] at h
    rw [h.2]
  | cons a r ih =>
    intro i cmd st cmd1 st1 h d1 hd c
    simp only [resetLoop] at h
    cases hr : NamedArg.Reset lib cmd st i a with
    | mk e p =>
      obtain ⟨cmd2, st2⟩ := p
      rw [hr] at h
      cases e with
      | some e1 => simp at h
      | none =>
        simp only at h
        obtain ⟨_, _, _, _, _, r6⟩ := reset_spec lib cmd st i a cmd2 st2 hr
        rw [ih (i + 1) cmd2 st2 cmd1 st1 h d1 (fun x hx => hd x (List.mem_cons_of_mem _ hx)) c]
        exact r6 d1 (Or.inr (fun e => hd a (List.mem_cons_self _ _) e.symm)) c

/-- The first loop of `Clear` over a list made of two parts. -/
theorem resetLoop_append (lib : FloatLib) :
    ∀ (l1 l2 : List NamedArg) (i : Nat) (cmd : Cmd) (st : Store),
      resetLoop lib cmd st i (l1 ++ l2) =
        match resetLoop lib cmd st i l1 with
        | (some e, c, s) => (some e, c, s)
        | (none, c, s) => resetLoop lib c s (i + l1.length) l2 := by
  intro l1
  induction l1 with
  | nil => intro l2 i cmd st; simp [resetLoop]
  | cons a r ih =>
    intro l2 i cmd st
    simp only [List.cons_append, resetLoop]
    cases hr : NamedArg.Reset lib cmd st i a with
    | mk e p =>
      obtain ⟨cmd2, st2⟩ := p
      cases e with
      | some e1 => rfl
      | none =>
        simp only
        have := ih l2 (i + 1) cmd2 st2
        rw [show i + 1 + r.length = i + (a :: r).length by simp only [List.length_cons]; omega]
          at this
        exact this

/-- The frame of `Clear`: a variable that is the destination of no specification of the
command tree keeps its value. -/
theorem clear_frame (lib : FloatLib) (c : Cmd) :
    ∀ (st : Store) (c1 : Cmd) (st1 : Store), Cmd.Clear lib c st = (none, c1, st1) →
      ∀ d, d ∉ varDests c → ∀ c2, readDest c2 st1 d = readDest c2 st d := by
  refine @Cmd.rec
    (fun c => ∀ (st : Store) (c1 : Cmd) (st1 : Store), Cmd.Clear lib c st = (none, c1, st1) →
      ∀ d, d ∉ varDests c → ∀ c2, readDest c2 st1 d = readDest c2 st d)
    (fun subs => ∀ (nm : GoString) (st : Store) (subs1 : List (GoString × Cmd)) (st1 : Store),
      clearSubCmds lib nm subs st = (none, subs1, st1) →
      ∀ d, d ∉ varDestsSubs subs → ∀ c2, readDest c2 st1 d = readDest c2 st d)
    (fun p => ∀ (st : Store) (c1 : Cmd) (st1 : Store),
      Cmd.Clear lib p.2 st = (none, c1, st1) →
      ∀ d, d ∉ varDests p.2 → ∀ c2, readDest c2 st1 d = readDest c2 st d)
    ?_ ?_ ?_ ?_ c
  · intro name subCmds description namedArgMap namedArgList argList help parsed ih
    intro st c1 st1 h d hd c2
    rw [clear_eq] at h
    rw [varDests_eq] at hd
    cases hl : resetLoop lib
        { (⟨name, subCmds, description, namedArgMap, namedArgList, argList, help, parsed⟩ : Cmd)
          with argList := [] } st 0 namedArgList with
    | mk e p =>
      obtain ⟨cmdr, str1⟩ := p
      rw [hl] at h
      cases e with
      | some e1 => simp at h
      | none =>
        simp only at h
        cases hs : clearSubCmds lib name subCmds str1 with
        | mk e2 p2 =>
          obtain ⟨subs1, st2⟩ := p2
          rw [hs] at h
          simp only [Prod.mk.injEq] at h
          obtain ⟨rfl, rfl, rfl⟩ := h
          rw [ih name str1 subs1 st2 hs d (fun h => hd (List.mem_append_right _ h)) c2]
          by_cases hv : d.isVar = true
          · apply resetLoop_frame lib namedArgList 0 _ st cmdr str1 hl
            intro a ha e
            exact hd (List.mem_append_left _
              (List.mem_filter.mpr ⟨List.mem_map.mpr ⟨a, ha, e⟩, hv⟩))
          · exact readDest_nonvar c2 str1 st d (by simpa using hv)
  · intro nm st subs1 st1 h d _ c2
    simp only [clearSubCmds, Prod.mk.injEq, true_and] at h
    rw [h.2]
  · intro head tail ihh iht nm st subs1 st1 h d hd c2
    obtain ⟨key, subCmd⟩ := head
    simp only [clearSubCmds] at h
    simp only [varDestsSubs] at hd
    cases hc : Cmd.Clear lib subCmd st with
    | mk e p =>
      obtain ⟨s1, stb⟩ := p
      rw [hc] at h
      cases e with
      | some e1 => simp at h
      | none =>
        simp only at h
        cases hr : clearSubCmds lib nm tail stb with
        | mk e2 p2 =>
          obtain ⟨rest1, st2⟩ := p2
          rw [hr] at h
          simp only [Prod.mk.injEq] at h
          obtain ⟨rfl, rfl, rfl⟩ := h
          rw [iht nm stb rest1 st2 hr d (fun h => hd (List.mem_append_right _ h)) c2]
          exact ihh st s1 stb hc d (fun h => hd (List.mem_append_left _ h)) c2
  · intro fst snd ih
    exact ih

/-- The frame of the second loop of `Clear`. -/
theorem clearSubCmds_frame (lib : FloatLib) (nm : GoString) (subs : List (GoString × Cmd))
    (st : Store) (e : Option Error) (subs1 : List (GoString × Cmd)) (st1 : Store)
    (h : clearSubCmds lib nm subs st = (e, subs1, st1)) (he : e = none) (d : Dest)
    (hd : d ∉ varDestsSubs subs) (c2 : Cmd) : readDest c2 st1 d = readDest c2 st d := by
  subst he
  have hc : Cmd.Clear lib ⟨nm, subs, [], [], [], [], false, false⟩ st =
      (none, ⟨nm, subs1, [], [], [], [], false, false⟩, st1) := by
    rw [clear_eq]
    simp only [resetLoop, h]
  apply clear_frame lib _ st _ st1 hc d _ c2
  rw [varDests_eq]
  simpa using hd

/-- A registration sets the binding to the default at once. -/
theorem register_binding (lib : FloatLib) (cs : Cmd × Store) (r : Registration) :
    readDest (register lib cs r).1 (register lib cs r).2 r.dest = r.value := by
  cases r <;>
    simp [register, Registration.dest, Registration.value, readDest, readBool, upd,
      Cmd.AddIntArg, Cmd.AddInt64Arg, Cmd.AddUIntArg, Cmd.AddUInt64Arg, Cmd.AddFloat64Arg,
      Cmd.AddBoolArg, Cmd.AddStringArg, writeBool]

/-- A registration appends one specification; for an exact kind, its default text
converts back to the default, without error. -/
theorem register_spec (lib : FloatLib) (cs : Cmd × Store) (r : Registration) :
    ∃ a, (register lib cs r).1.namedArgList = cs.1.namedArgList ++ [a] ∧
      (register lib cs r).1.subCmds = cs.1.subCmds ∧ a.dest = r.dest ∧
      a.required = r.required ∧
      (r.Exact → parsedValue lib a.dest a.defValStr = r.value ∧ Resettable lib a) := by
  cases r with
  | int n s d v rq h =>
    refine ⟨newNamedArg n s h (strconv.FormatInt v) (.int d) rq, rfl, rfl, rfl, rfl, ?_⟩
    intro hx
    have hp := parseInt_formatInt v 0 hx.1 hx.2 (Or.inl rfl)
    refine ⟨by simp [parsedValue, newNamedArg, hp, Registration.value], ?_⟩
    intro _ cmd st
    simp [coerce, newNamedArg, hp]
  | int64 n s d v rq h =>
    refine ⟨newNamedArg n s h (strconv.FormatInt v) (.int64 d) rq, rfl, rfl, rfl, rfl, ?_⟩
    intro hx
    have hp := parseInt_formatInt v 64 hx.1 hx.2 (Or.inr rfl)
    refine ⟨by simp [parsedValue, newNamedArg, hp, Registration.value], ?_⟩
    intro _ cmd st
    simp [coerce, newNamedArg, hp]
  | uint n s d v rq h =>
    refine ⟨newNamedArg n s h (strconv.FormatUint v) (.uint d) rq, rfl, rfl, rfl, rfl, ?_⟩
    intro hx
    have hp := parseUint_formatUint v 0 hx (Or.inl rfl)
    refine ⟨by simp [parsedValue, newNamedArg, hp, Registration.value], ?_⟩
    intro _ cmd st
    simp [coerce, newNamedArg, hp]
  | uint64 n s d v rq h =>
    refine ⟨newNamedArg n s h (strconv.FormatUint v) (.uint64 d) rq, rfl, rfl, rfl, rfl, ?_⟩
    intro hx
    have hp := parseUint_formatUint v 64 hx (Or.inr rfl)
    refine ⟨by simp [parsedValue, newNamedArg, hp, Registration.value], ?_⟩
    intro _ cmd st
    simp [coerce, newNamedArg, hp]
  | float64 n s d v rq h =>
    refine ⟨newNamedArg n s h (lib.FormatFloat v) (.float64 d) rq, rfl, rfl, rfl, rfl, ?_⟩
    intro hx
    cases hx
  | bool n s d v rq h =>
    refine ⟨newNamedArg n s h (strconv.FormatBool v) (.bool (.var d)) rq, rfl, rfl, rfl, rfl,
      ?_⟩
    intro _
    have hp := parseBool_formatBool v
    refine ⟨by simp [parsedValue, newNamedArg, hp, Registration.value], ?_⟩
    intro _ cmd st
    simp [coerce, newNamedArg, hp]
  | string n s d v rq h =>
    refine ⟨newNamedArg n s h v (.string d) rq, rfl, rfl, rfl, rfl, ?_⟩
    intro _
    refine ⟨by simp [parsedValue, newNamedArg, Registration.value], ?_⟩
    intro _ cmd st
    simp [coerce, newNamedArg]

theorem registration_dest_isVar (r : Registration) : r.dest.isVar = true := by
  cases r <;> rfl

/-- After a registration whose variable is bound by no other specification of the
command tree, a `Clear` that returns no error leaves the default in the variable. -/
theorem clear_keeps_default (lib : FloatLib) (cs : Cmd × Store) (r : Registration)
    (c1 : Cmd) (st1 : Store) (hx : r.Exact) (hd : r.dest ∉ varDests cs.1)
    (h : Cmd.Clear lib (register lib cs r).1 (register lib cs r).2 = (none, c1, st1)) :
    readDest c1 st1 r.dest = r.value := by
  obtain ⟨a, hl, hs, hdest, hreq, hex⟩ := register_spec lib cs r
  obtain ⟨hpv, _⟩ := hex hx
  have hb := register_binding lib cs r
  have hv := registration_dest_isVar r
  rw [varDests_eq] at hd
  rw [clear_eq] at h
  generalize ({ (register lib cs r).1 with argList := [] } : Cmd) = c0 at h
  rw [hl, resetLoop_append] at h
  cases hloop : resetLoop lib c0 (register lib cs r).2 0 cs.1.namedArgList with
  | mk e p =>
    obtain ⟨cm, sm⟩ := p
    rw [hloop] at h
    cases e with
    | some e1 => simp at h
    | none =>
      simp only [resetLoop] at h
      cases hr : NamedArg.Reset lib cm sm (0 + cs.1.namedArgList.length) a with
      | mk e2 p2 =>
        obtain ⟨cmdr, str1⟩ := p2
        rw [hr] at h
        cases e2 with
        | some e3 => simp at h
        | none =>
          simp only at h
          cases hsub : clearSubCmds lib (register lib cs r).1.name (register lib cs r).1.subCmds
              str1 with
          | mk e4 p4 =>
            obtain ⟨subs1, st2⟩ := p4
            rw [hsub] at h
            simp only [Prod.mk.injEq] at h
            obtain ⟨he4, rfl, rfl⟩ := h
            rw [hs] at hsub
            rw [clearSubCmds_frame lib _ _ str1 e4 subs1 st2 hsub he4 r.dest
              (fun hin => hd (List.mem_append_right _ hin))]
            obtain ⟨_, _, _, r4, _, r6⟩ := reset_spec lib cm sm _ a cmdr str1 hr
            by_cases hrq : a.required = true
            · rw [r6 r.dest (Or.inl hrq)]
              rw [resetLoop_frame lib _ 0 _ _ cm sm hloop r.dest]
              · rw [readDest_var _ (register lib cs r).1 _ r.dest hv]
                exact hb
              · intro x hxin e
                exact hd (List.mem_append_left _
                  (List.mem_filter.mpr ⟨List.mem_map.mpr ⟨x, hxin, e⟩, hv⟩))
            · have := r4 (by simpa using hrq)
              rw [hpv, hdest] at this
              rw [readDest_var _ cmdr _ r.dest hv]
              exact this

/-- The first loop of `Clear` returns no error when every default converts. -/
theorem resetLoop_ok (lib : FloatLib) :
    ∀ (rest : List NamedArg) (i : Nat) (cmd : Cmd) (st : Store),
      (∀ a ∈ rest, Resettable lib a) → ∃ c1 s1, resetLoop lib cmd st i rest = (none, c1, s1) := by
  intro rest
  induction rest with
  | nil => intro i cmd st _; exact ⟨cmd, st, rfl⟩
  | cons a r ih =>
    intro i cmd st hres
    have ha := hres a (List.mem_cons_self _ _)
    have hreset : ∃ c2 s2, NamedArg.Reset lib cmd st i a = (none, c2, s2) := by
      unfold NamedArg.Reset
      simp only
      by_cases hrq : a.required = false
      · obtain ⟨c3, s3, h3⟩ := ha hrq
          { cmd with namedArgList := cmd.namedArgList.set i { a with set := false } } st
        rw [if_pos hrq, h3]
        exact ⟨c3, s3, rfl⟩
      · rw [if_neg hrq]
        exact ⟨_, _, rfl⟩
    obtain ⟨c2, s2, h2⟩ := hreset
    simp only [resetLoop, h2]
    exact ih (i + 1) c2 s2 (fun x hx => hres x (List.mem_cons_of_mem _ hx))

/-- On a command without sub-commands, `Clear` returns no error when every default
converts. -/
theorem clear_ok (lib : FloatLib) (c : Cmd) (st : Store) (hs : c.subCmds = [])
    (hr : ∀ a ∈ c.namedArgList, Resettable lib a) :
    ∃ c1 s1, Cmd.Clear lib c st = (none, c1, s1) := by
  obtain ⟨c2, s2, h2⟩ := resetLoop_ok lib c.namedArgList 0 { c with argList := [] } st hr
  rw [clear_eq, h2, hs]
  exact ⟨_, _, rfl⟩

/-- The specifications of a command built by registrations of exact kinds. -/
theorem registerAll_spec (lib : FloatLib) :
    ∀ (regs : List Registration) (cs : Cmd × Store), (∀ x ∈ regs, x.Exact) →
      cs.1.subCmds = [] → (∀ a ∈ cs.1.namedArgList, Resettable lib a) →
      (registerAll lib cs regs).1.subCmds = [] ∧
      (∀ a ∈ (registerAll lib cs regs).1.namedArgList, Resettable lib a) ∧
      (registerAll lib cs regs).1.namedArgList.map (fun a => a.dest) =
        cs.1.namedArgList.map (fun a => a.dest) ++ regs.map Registration.dest := by
  intro regs
  induction regs with
  | nil => intro cs _ hs hr; exact ⟨hs, hr, by simp [registerAll]⟩
  | cons r rest ih =>
    intro cs hx hs hr
    obtain ⟨a, hl, hsub, hdest, _, hex⟩ := register_spec lib cs r
    have hra := (hex (hx r (List.mem_cons_self _ _))).2
    have := ih (register lib cs r) (fun x hxin => hx x (List.mem_cons_of_mem _ hxin))
      (by rw [hsub, hs])
      (by
        intro b hb
        rw [hl] at hb
        rcases List.mem_append.mp hb with hb | hb
        · exact hr b hb
        · rw [List.mem_singleton.mp hb]; exact hra)
    simp only [registerAll, List.foldl_cons] at this ⊢
    refine ⟨this.1, this.2.1, ?_⟩
    rw [this.2.2, hl]
    simp [hdest]

theorem newCmd_spec (lib : FloatLib) (name description : GoString) :
    (NewCmd name description).subCmds = [] ∧
    (∀ a ∈ (NewCmd name description).namedArgList, Resettable lib a) ∧
    (NewCmd name description).namedArgList.map (fun a => a.dest) = [.bool .shouldRenderHelp] := by
  refine ⟨rfl, ?_, rfl⟩
  intro a ha
  have : a = newNamedArg (str "help") (str "h") (str "Print '" ++ name ++ str "' usage information.")
      (strconv.FormatBool false) (.bool .shouldRenderHelp) false := by
    simpa [NewCmd, Cmd.AddBoolArg, writeBool, Cmd.addNamedArg] using ha
  subst this
  intro _ cmd st
  have hp := parseBool_formatBool false
  simp [coerce, newNamedArg, hp]

/-- Counterexample to C9 as stated: the optional text argument `a` (default `x`) and
the required text argument `b` (default `y`) are registered, in this order, with the
same `string` variable. The registration of `b` sets the variable to `y` at once; the
following `Clear`, with no `Parse` in between, returns no error and leaves `x` in the
variable, not the default `y` of `b`. -/
theorem default_lost_after_clear :
    (registerAll sampleLib (NewCmd (str "c") [], Store.zero)
      [.string (str "a") (str "a") 0 (str "x") false [],
        .string (str "b") (str "b") 0 (str "y") true []]).2.string 0 = str "y" ∧
    (Cmd.Clear sampleLib
      (registerAll sampleLib (NewCmd (str "c") [], Store.zero)
        [.string (str "a") (str "a") 0 (str "x") false [],
          .string (str "b") (str "b") 0 (str "y") true []]).1
      (registerAll sampleLib (NewCmd (str "c") [], Store.zero)
        [.string (str "a") (str "a") 0 (str "x") false [],
          .string (str "b") (str "b") 0 (str "y") true []]).2).1 = none ∧
    (Cmd.Clear sampleLib
      (registerAll sampleLib (NewCmd (str "c") [], Store.zero)
        [.string (str "a") (str "a") 0 (str "x") false [],
          .string (str "b") (str "b") 0 (str "y") true []]).1
      (registerAll sampleLib (NewCmd (str "c") [], Store.zero)
        [.string (str "a") (str "a") 0 (str "x") false [],
          .string (str "b") (str "b") 0 (str "y") true []]).2).2.2.string 0 = str "x" := by
  decide

/-- The two parts of `AllResettable`. -/
theorem allResettable_eq (lib : FloatLib) (c : Cmd) :
    AllResettable lib c ↔
      (∀ a ∈ c.namedArgList, Resettable lib a) ∧ AllResettableSubs lib c.subCmds := by
  cases c
  simp [AllResettable]

/-- On a command tree in which every default converts, `Clear` returns no error. -/
theorem clear_ok_tree (lib : FloatLib) (c : Cmd) :
    AllResettable lib c → ∀ st : Store, ∃ c1 s1, Cmd.Clear lib c st = (none, c1, s1) := by
  refine @Cmd.rec
    (fun c => AllResettable lib c → ∀ st : Store, ∃ c1 s1, Cmd.Clear lib c st = (none, c1, s1))
    (fun subs => AllResettableSubs lib subs → ∀ (nm : GoString) (st : Store),
      ∃ l s1, clearSubCmds lib nm subs st = (none, l, s1))
    (fun p => AllResettable lib p.2 → ∀ st : Store,
      ∃ c1 s1, Cmd.Clear lib p.2 st = (none, c1, s1))
    ?_ ?_ ?_ ?_ c
  · intro name subCmds description namedArgMap namedArgList argList help parsed ih
    intro h st
    rw [allResettable_eq] at h
    obtain ⟨c2, s2, h2⟩ := resetLoop_ok lib namedArgList 0
      { (⟨name, subCmds, description, namedArgMap, namedArgList, argList, help, parsed⟩ : Cmd)
        with argList := [] } st h.1
    obtain ⟨l, s3, h3⟩ := ih h.2 name s2
    rw [clear_eq, h2]
    simp only
    rw [h3]
    exact ⟨_, _, rfl⟩
  · intro _ nm st
    exact ⟨[], st, rfl⟩
  · intro head tail ihh iht h nm st
    obtain ⟨key, subCmd⟩ := head
    simp only [AllResettableSubs] at h
    obtain ⟨c1, s1, h1⟩ := ihh h.1 st
    obtain ⟨l, s2, h2⟩ := iht h.2 nm s1
    simp only [clearSubCmds, h1, h2]
    exact ⟨_, _, rfl⟩
  · intro fst snd ih
    exact ih

/-- A registration appends one specification, whose default text converts without error
when the default is a value of its Go type and the library accepts what it prints. -/
theorem register_resettable_arg (lib : FloatLib) (cs : Cmd × Store) (r : Registration) :
    ∃ a, (register lib cs r).1.namedArgList = cs.1.namedArgList ++ [a] ∧
      (register lib cs r).1.subCmds = cs.1.subCmds ∧
      (lib.AcceptsFormatted → r.InRange → Resettable lib a) := by
  cases r with
  | float64 n s d v rq h =>
    refine ⟨newNamedArg n s h (lib.FormatFloat v) (.float64 d) rq, rfl, rfl, ?_⟩
    intro hacc _ _ cmd st
    simp [coerce, newNamedArg, hacc v]
  | int n s d v rq h =>
    obtain ⟨a, h1, h2, _, _, h5⟩ := register_spec lib cs (.int n s d v rq h)
    exact ⟨a, h1, h2, fun _ hr => (h5 hr).2⟩
  | int64 n s d v rq h =>
    obtain ⟨a, h1, h2, _, _, h5⟩ := register_spec lib cs (.int64 n s d v rq h)
    exact ⟨a, h1, h2, fun _ hr => (h5 hr).2⟩
  | uint n s d v rq h =>
    obtain ⟨a, h1, h2, _, _, h5⟩ := register_spec lib cs (.uint n s d v rq h)
    exact ⟨a, h1, h2, fun _ hr => (h5 hr).2⟩
  | uint64 n s d v rq h =>
    obtain ⟨a, h1, h2, _, _, h5⟩ := register_spec lib cs (.uint64 n s d v rq h)
    exact ⟨a, h1, h2, fun _ hr => (h5 hr).2⟩
  | bool n s d v rq h =>
    obtain ⟨a, h1, h2, _, _, h5⟩ := register_spec lib cs (.bool n s d v rq h)
    exact ⟨a, h1, h2, fun _ hr => (h5 hr).2⟩
  | string n s d v rq h =>
    obtain ⟨a, h1, h2, _, _, h5⟩ := register_spec lib cs (.string n s d v rq h)
    exact ⟨a, h1, h2, fun _ hr => (h5 hr).2⟩

/-- A registration keeps the command tree one in which every default converts. -/
theorem register_resettable (lib : FloatLib) (c : Cmd) (st : Store) (r : Registration)
    (hacc : lib.AcceptsFormatted) (hr : r.InRange) (h : AllResettable lib c) :
    AllResettable lib (register lib (c, st) r).1 := by
  obtain ⟨a, h1, h2, h3⟩ := register_resettable_arg lib (c, st) r
  rw [allResettable_eq] at h ⊢
  rw [h1, h2]
  refine ⟨?_, h.2⟩
  intro b hb
  rcases List.mem_append.mp hb with hb | hb
  · exact h.1 b hb
  · rw [List.mem_singleton.mp hb]
    exact h3 hacc hr

/-- A registration of an exact kind keeps the command tree one in which every default
converts, whatever the library. -/
theorem register_exact_resettable (lib : FloatLib) (c : Cmd) (st : Store) (r : Registration)
    (hx : r.Exact) (h : AllResettable lib c) :
    AllResettable lib (register lib (c, st) r).1 := by
  obtain ⟨a, h1, h2, _, _, h5⟩ := register_spec lib (c, st) r
  rw [allResettable_eq] at h ⊢
  rw [h1, h2]
  refine ⟨?_, h.2⟩
  intro b hb
  rcases List.mem_append.mp hb with hb | hb
  · exact h.1 b hb
  · rw [List.mem_singleton.mp hb]
    exact (h5 hx).2

/-- A registration of a required argument keeps the command tree one in which every
default converts, whatever the library: a required argument is not reset. -/
theorem register_required_resettable (lib : FloatLib) (c : Cmd) (st : Store)
    (r : Registration) (hq : r.required = true) (h : AllResettable lib c) :
    AllResettable lib (register lib (c, st) r).1 := by
  obtain ⟨a, h1, h2, _, h4, _⟩ := register_spec lib (c, st) r
  rw [allResettable_eq] at h ⊢
  rw [h1, h2]
  refine ⟨?_, h.2⟩
  intro b hb
  rcases List.mem_append.mp hb with hb | hb
  · exact h.1 b hb
  · rw [List.mem_singleton.mp hb]
    intro hf
    rw [h4, hq] at hf
    cases hf

/-- The assignment `m[k] = v` keeps the sub-commands ones in which every default
converts. -/
theorem allResettableSubs_mapSet (lib : FloatLib) (s : Cmd) (k : GoString)
    (hs : AllResettable lib s) :
    ∀ l : List (GoString × Cmd), AllResettableSubs lib l →
      AllResettableSubs lib (mapSet l k s) := by
  intro l
  induction l with
  | nil =>
    intro _
    simp only [mapSet, AllResettableSubs]
    exact ⟨hs, trivial⟩
  | cons x rest ih =>
    intro h
    obtain ⟨k1, v1⟩ := x
    simp only [AllResettableSubs] at h
    simp only [mapSet]
    by_cases hk : k1 = k
    · rw [if_pos hk]
      simp only [AllResettableSubs]
      exact ⟨hs, h.2⟩
    · rw [if_neg hk]
      simp only [AllResettableSubs]
      exact ⟨h.1, ih h.2⟩

/-- A call of `AddSubCmd` keeps the command tree one in which every default converts. -/
theorem addSubCmd_resettable (lib : FloatLib) (c s c1 : Cmd) (e : Option Error)
    (h : c.AddSubCmd s = (e, c1)) (hc : AllResettable lib c) (hs : AllResettable lib s) :
    AllResettable lib c1 := by
  unfold Cmd.AddSubCmd at h
  simp only at h
  cases hg : mapGet c.subCmds s.Name with
  | some old =>
    rw [hg] at h
    simp only [Prod.mk.injEq] at h
    rw [← h.2]
    exact hc
  | none =>
    rw [hg] at h
    simp only [Prod.mk.injEq] at h
    rw [← h.2, allResettable_eq]
    rw [allResettable_eq] at hc
    exact ⟨hc.1, allResettableSubs_mapSet lib s _ hs _ hc.2⟩

/-- In a command tree that the exported functions build, every default converts. -/
theorem built_resettable (lib : FloatLib) (hacc : lib.AcceptsFormatted) (c : Cmd)
    (h : Built lib c) : AllResettable lib c := by
  induction h with
  | newCmd name description =>
    rw [allResettable_eq]
    exact ⟨(newCmd_spec lib name description).2.1, by
      rw [(newCmd_spec lib name description).1]
      trivial⟩
  | register c st r _ hr ih => exact register_resettable lib c st r hacc hr ih
  | addSubCmd c s c1 _ _ hadd ihc ihs => exact addSubCmd_resettable lib c s c1 none hadd ihc ihs

/-- After a registration of an exact kind on a command tree in which every default
converts, with a variable that no other specification of the tree is bound to, `Clear`
returns no error and leaves the default in the variable. -/
theorem clear_after_register (lib : FloatLib) (c : Cmd) (st : Store) (r : Registration)
    (h : AllResettable lib c) (hx : r.Exact) (hd : r.dest ∉ varDests c) :
    ∃ c1 st1,
      Cmd.Clear lib (register lib (c, st) r).1 (register lib (c, st) r).2 = (none, c1, st1) ∧
      readDest c1 st1 r.dest = r.value := by
  obtain ⟨c1, st1, h1⟩ := clear_ok_tree lib _ (register_exact_resettable lib c st r hx h)
    (register lib (c, st) r).2
  exact ⟨c1, st1, h1, clear_keeps_default lib (c, st) r c1 st1 hx hd h1⟩


/-- In the command of the tests with its sub-command every default converts, whatever
the library: the `float64` argument is required, so its default is never parsed. -/
theorem testCmd_resettable (lib : FloatLib) (st0 : Store) :
    AllResettable lib (addSubCmd (createTestCmd lib st0).1 (createTestCmd lib st0).2).2.1 := by
  have hnew : ∀ name description : GoString, AllResettable lib (NewCmd name description) := by
    intro name description
    rw [allResettable_eq]
    exact ⟨(newCmd_spec lib name description).2.1, by
      rw [(newCmd_spec lib name description).1]
      trivial⟩
  have hsub : AllResettable lib
      ((NewCmd (str "subcmd") (str "A test sub-command.")).AddIntArg
        (createTestCmd lib st0).2 (str "int") (str "i") 2 0 true (str "An int argument.")
        |>.1.AddInt64Arg
          ((NewCmd (str "subcmd") (str "A test sub-command.")).AddIntArg
            (createTestCmd lib st0).2 (str "int") (str "i") 2 0 true
            (str "An int argument.")).2
          (str "int64") (str "l") 1 0 true (str "An int64 argument.")).1 :=
    register_required_resettable lib _ _
      (.int64 (str "int64") (str "l") 1 0 true (str "An int64 argument.")) rfl
      (register_required_resettable lib _ (createTestCmd lib st0).2
        (.int (str "int") (str "i") 2 0 true (str "An int argument.")) rfl (hnew _ _))
  have hcmd : AllResettable lib (createTestCmd lib st0).1 :=
    register_required_resettable lib _ _
      (.string (str "string") (str "s") 0 (str "empty") true (str "A string argument.")) rfl
      (register_required_resettable lib _ _
        (.float64 (str "float64") (str "f") 0 0 true (str "A float64 argument.")) rfl
        (register_required_resettable lib _ _
          (.bool (str "bool") (str "b") 0 false true (str "A bool argument.")) rfl
          (register_required_resettable lib _ _
            (.uint64 (str "uint64") (str "x") 0 0 true (str "A uint64 argument.")) rfl
            (register_required_resettable lib _ _
              (.uint (str "uint") (str "u") 0 0 true (str "A uint argument.")) rfl
              (register_required_resettable lib _ _
                (.int64 (str "int64") (str "l") 0 0 true (str "An int64 argument.")) rfl
                (register_exact_resettable lib _ _
                  (.int (str "dint") (str "d") 1 54321 false (str "A default int argument."))
                  ⟨by norm_num, by norm_num⟩
                  (register_required_resettable lib _ st0
                    (.int (str "int") (str "i") 0 0 true (str "An int argument.")) rfl
                    (hnew (str "command") (str "A test command.")))))))))
  refine addSubCmd_resettable lib _ _ _ none ?_ hcmd hsub
  rfl

/-- C9 (amended). Default round trip for the exact kinds. Formatting a default as text
and re-parsing it is the identity: `ParseInt` with bit size 0 or 64 on the decimal text
of a 64-bit signed integer, `ParseUint` with bit size 0 or 64 on the decimal text of a
64-bit unsigned integer and `ParseBool` on the text of a boolean return the value and no
error (a text default is stored and written back as it is). A registration through any
of the methods sets the binding to the default `d` at once. When the variable of the
registration is bound by no other specification of the command tree, the following
`Clear` returns no error and leaves the binding equal to `d`: this holds on every
command tree that `NewCmd`, the seven registration methods (`AddFloat64Arg` too) and
`AddSubCmd` build, the library being one whose `ParseFloat` accepts what `%f` prints, as
Go's does; it holds for every library on a command tree in which every default text
converts, so on a command built by `NewCmd` and registrations of the exact kinds, and on
the command of the tests with its sub-command, whose `float64` argument is required. On
an arbitrary command tree, a following `Clear` that returns no error leaves the binding
equal to `d`. -/
theorem default_round_trip :
    (∀ (d : Int) (bitSize : Nat), -(2 ^ 63) ≤ d → d < 2 ^ 63 → bitSize = 0 ∨ bitSize = 64 →
      strconv.ParseInt (strconv.FormatInt d) 0 bitSize = (d, none)) ∧
    (∀ (d bitSize : Nat), d < 2 ^ 64 → bitSize = 0 ∨ bitSize = 64 →
      strconv.ParseUint (strconv.FormatUint d) 0 bitSize = (d, none)) ∧
    (∀ b : Bool, strconv.ParseBool (strconv.FormatBool b) = (b, none)) ∧
    (∀ (lib : FloatLib) (cs : Cmd × Store) (r : Registration),
      readDest (register lib cs r).1 (register lib cs r).2 r.dest = r.value) ∧
    (∀ (lib : FloatLib) (c : Cmd) (st : Store) (r : Registration),
      lib.AcceptsFormatted → Built lib c → r.Exact → r.dest ∉ varDests c →
      ∃ c1 st1,
        Cmd.Clear lib (register lib (c, st) r).1 (register lib (c, st) r).2 = (none, c1, st1) ∧
        readDest c1 st1 r.dest = r.value) ∧
    (∀ (lib : FloatLib) (c : Cmd) (st : Store) (r : Registration),
      AllResettable lib c → r.Exact → r.dest ∉ varDests c →
      ∃ c1 st1,
        Cmd.Clear lib (register lib (c, st) r).1 (register lib (c, st) r).2 = (none, c1, st1) ∧
        readDest c1 st1 r.dest = r.value) ∧
    (∀ (lib : FloatLib) (c : Cmd), lib.AcceptsFormatted → Built lib c → AllResettable lib c) ∧
    (∀ (lib : FloatLib) (st0 : Store),
      Built lib (addSubCmd (createTestCmd lib st0).1 (createTestCmd lib st0).2).2.1) ∧
    (∀ (lib : FloatLib) (st0 : Store),
      AllResettable lib (addSubCmd (createTestCmd lib st0).1 (createTestCmd lib st0).2).2.1) ∧
    (∀ (lib : FloatLib) (name description : GoString) (st0 : Store) (regs : List Registration)
      (r : Registration), (∀ x ∈ regs, x.Exact) → r.Exact →
      r.dest ∉ regs.map Registration.dest →
      ∃ c1 st1,
        Cmd.Clear lib (register lib (registerAll lib (NewCmd name description, st0) regs) r).1
          (register lib (registerAll lib (NewCmd name description, st0) regs) r).2 =
            (none, c1, st1) ∧
        readDest c1 st1 r.dest = r.value) ∧
    (∀ (lib : FloatLib) (cs : Cmd × Store) (r : Registration) (c1 : Cmd) (st1 : Store),
      r.Exact → r.dest ∉ varDests cs.1 →
      Cmd.Clear lib (register lib cs r).1 (register lib cs r).2 = (none, c1, st1) →
      readDest c1 st1 r.dest = r.value) := by
  refine ⟨fun d b h1 h2 hb => parseInt_formatInt d b h1 h2 hb,
    fun d b h hb => parseUint_formatUint d b h hb, parseBool_formatBool, register_binding,
    fun lib c st r hacc hb hx hd =>
      clear_after_register lib c st r (built_resettable lib hacc c hb) hx hd,
    fun lib c st r h hx hd => clear_after_register lib c st r h hx hd,
    fun lib c hacc hb => built_resettable lib hacc c hb, ?_, testCmd_resettable,
    ?_, fun lib cs r c1 st1 hx hd h => clear_keeps_default lib cs r c1 st1 hx hd h⟩
  · intro lib st0
    have rng : ∀ v : Int, v = 0 ∨ v = 54321 → -(2 ^ 63) ≤ v ∧ v < 2 ^ 63 := by
      intro v hv
      rcases hv with rfl | rfl <;> exact ⟨by norm_num, by norm_num⟩
    have hsub : Built lib
        ((NewCmd (str "subcmd") (str "A test sub-command.")).AddIntArg
          (createTestCmd lib st0).2 (str "int") (str "i") 2 0 true (str "An int argument.")
          |>.1.AddInt64Arg
            ((NewCmd (str "subcmd") (str "A test sub-command.")).AddIntArg
              (createTestCmd lib st0).2 (str "int") (str "i") 2 0 true
              (str "An int argument.")).2
            (str "int64") (str "l") 1 0 true (str "An int64 argument.")).1 :=
      Built.register _ _ (.int64 (str "int64") (str "l") 1 0 true (str "An int64 argument."))
        (Built.register _ (createTestCmd lib st0).2
          (.int (str "int") (str "i") 2 0 true (str "An int argument."))
          (Built.newCmd _ _) (rng 0 (Or.inl rfl)))
        (rng 0 (Or.inl rfl))
    have hcmd : Built lib (createTestCmd lib st0).1 :=
      Built.register _ _
        (.string (str "string") (str "s") 0 (str "empty") true (str "A string argument."))
        (Built.register _ _
          (.float64 (str "float64") (str "f") 0 0 true (str "A float64 argument."))
          (Built.register _ _
            (.bool (str "bool") (str "b") 0 false true (str "A bool argument."))
            (Built.register _ _
              (.uint64 (str "uint64") (str "x") 0 0 true (str "A uint64 argument."))
              (Built.register _ _
                (.uint (str "uint") (str "u") 0 0 true (str "A uint argument."))
                (Built.register _ _
                  (.int64 (str "int64") (str "l") 0 0 true (str "An int64 argument."))
                  (Built.register _ _
                    (.int (str "dint") (str "d") 1 54321 false
                      (str "A default int argument."))
                    (Built.register _ st0
                      (.int (str "int") (str "i") 0 0 true (str "An int argument."))
                      (Built.newCmd (str "command") (str "A test command."))
                      (rng 0 (Or.inl rfl)))
                    (rng 54321 (Or.inr rfl)))
                  (rng 0 (Or.inl rfl)))
                (by show (0 : Nat) < 2 ^ 64; norm_num))
              (by show (0 : Nat) < 2 ^ 64; norm_num))
            trivial)
          trivial)
        trivial
    exact Built.addSubCmd _ _ _ hcmd hsub rfl
  · intro lib name description st0 regs r hregs hx hd
    obtain ⟨n1, n2, n3⟩ := newCmd_spec lib name description
    obtain ⟨a1, a2, a3⟩ := registerAll_spec lib regs (NewCmd name description, st0) hregs n1 n2
    refine clear_after_register lib (registerAll lib (NewCmd name description, st0) regs).1
      (registerAll lib (NewCmd name description, st0) regs).2 r ?_ hx ?_
    · rw [allResettable_eq, a1]
      exact ⟨a2, trivial⟩
    · rw [varDests_eq, a1, a3, n3]
      simp only [varDestsSubs, List.append_nil, List.mem_filter, List.mem_append,
        List.mem_singleton, not_and]
      intro hin
      rcases hin with hin | hin
      · rw [hin]
        decide
      · exact absurd hin hd

/-- Witness for C9 (amended): on the command of the tests with its sub-command, which
has a `float64` argument, an `int64` argument with default -5 is registered with the
variable `int64` 7, which no other specification is bound to. -/
theorem default_round_trip_witness :
    zeroLib.AcceptsFormatted ∧
    Built zeroLib (addSubCmd (createTestCmd zeroLib Store.zero).1
      (createTestCmd zeroLib Store.zero).2).2.1 ∧
    ∃ c1 st1,
      Cmd.Clear zeroLib
        (register zeroLib
          ((addSubCmd (createTestCmd zeroLib Store.zero).1
            (createTestCmd zeroLib Store.zero).2).2.1, Store.zero)
          (.int64 (str "b") (str "b") 7 (-5) false [])).1
        (register zeroLib
          ((addSubCmd (createTestCmd zeroLib Store.zero).1
            (createTestCmd zeroLib Store.zero).2).2.1, Store.zero)
          (.int64 (str "b") (str "b") 7 (-5) false [])).2 = (none, c1, st1) ∧
      readDest c1 st1 (Dest.int64 7) = Value.int64 (-5) :=
  ⟨fun _ => rfl, default_round_trip.2.2.2.2.2.2.2.1 zeroLib Store.zero,
    default_round_trip.2.2.2.2.1 zeroLib _ Store.zero
      (.int64 (str "b") (str "b") 7 (-5) false []) (fun _ => rfl)
      (default_round_trip.2.2.2.2.2.2.2.1 zeroLib Store.zero)
      ⟨by norm_num, by norm_num⟩ (by decide)⟩

/-! ### Failures of the key resolution -/

theorem indexByte_eq_none (s : GoString) (b : Nat) (h : b ∉ s) : strings.IndexByte s b = none := by
  induction s with
  | nil => rfl
  | cons c cs ih =>
    have hc : c ≠ b := fun e => h (by rw [e]; exact List.mem_cons_self _ _)
    simp only [strings.IndexByte, hc, if_false, Option.map_eq_none']
    exact ih (fun hin => h (List.mem_cons_of_mem _ hin))

/-- The resolution of a token whose stripped text begins with `=`. -/
theorem resolve_missing_name (cmd : Cmd) (t : GoString) (rest : List GoString) (r : GoString)
    (h : stripDashes t = 61 :: r) : resolve cmd t rest = .fail (.missingName t) := by
  simp [resolve, h, strings.IndexByte]

/-- The resolution of a token whose stripped text has no `=`. -/
theorem resolve_plain (cmd : Cmd) (t : GoString) (rest : List GoString)
    (h : 61 ∉ stripDashes t) :
    resolve cmd t rest =
      match cmd.lookupArg (stripDashes t) with
      | none => .fail (.unknownArgument (stripDashes t))
      | some (i, arg) =>
        if arg.dest.isBool then
          match rest with
          | [] => .ok i arg (str "true") false
          | nextArgStr :: _ =>
            if (strconv.ParseBool nextArgStr).2 = none then .ok i arg nextArgStr true
            else .ok i arg (str "true") false
        else
          match rest with
          | [] => .fail (.missingValue (stripDashes t))
          | valStr :: _ => .ok i arg valStr true := by
  simp only [resolve, indexByte_eq_none _ _ h]

/-- The resolution of a token whose stripped text is `k=v`. -/
theorem resolve_eq (cmd : Cmd) (t : GoString) (rest : List GoString) (k v : GoString)
    (h : stripDashes t = k ++ 61 :: v) (hk : k ≠ []) (h61 : 61 ∉ k) :
    resolve cmd t rest =
      match cmd.lookupArg k with
      | none => .fail (.unknownArgument k)
      | some (i, arg) => .ok i arg v false := by
  obtain ⟨n, hn⟩ : ∃ n, k.length = n + 1 := by
    cases k with
    | nil => exact absurd rfl hk
    | cons c cs => exact ⟨cs.length, rfl⟩
  have h2 : strings.IndexByte (k ++ 61 :: v) 61 = some (n + 1) := by
    rw [indexByte_append k v 61 (indexByte_eq_none _ _ h61), hn]
  have h3 : List.take (n + 1) (k ++ 61 :: v) = k := by
    rw [← hn]; simp
  have h4 : List.drop (n + 2) (k ++ 61 :: v) = v := by
    have : n + 2 = k.length + 1 := by omega
    rw [this]; simp
  simp only [resolve, h, h2, h3, h4]

/-- An iteration of the loop on a token that starts with `-`, in terms of its
resolution. -/
theorem parseLoop_named (lib : FloatLib) (cmd : Cmd) (st : Store) (t : GoString)
    (rest : List GoString) (h : strings.HasPrefix t (str "-") = true) :
    parseLoop lib cmd st (t :: rest) =
      match resolve cmd t rest with
      | .fail err => (some err, cmd, st)
      | .ok i arg valStr consumed =>
        match coerce lib cmd st arg.dest valStr with
        | .unexpectedType => (some .unexpectedTypeParsing, cmd, st)
        | .done cmd1 st1 (some e) => (some (.valueError e), cmd1, st1)
        | .done cmd1 st1 none =>
          parseLoop lib (cmd1.supplied i arg) st1 (if consumed then rest.tail else rest) := by
  obtain ⟨s, rfl⟩ := hasPrefix_dash_true t h
  rw [parseLoop_cons, step_dash]
  cases resolve cmd (45 :: s) rest with
  | fail err => rfl
  | ok i arg valStr consumed =>
    simp only
    cases coerce lib cmd st arg.dest valStr with
    | unexpectedType => rfl
    | done cmd1 st1 e => cases e <;> rfl

/-- An error of the loop is returned by `Parse` with the name of the command as the
chain, when the first token does not select a sub-command. -/
theorem parse_loop_error (lib : FloatLib) (cmd : Cmd) (st : Store) (args : List GoString)
    (err : Error) (cmd1 : Cmd) (st1 : Store)
    (h : parseLoop lib cmd st args = (some err, cmd1, st1))
    (hsub : ∀ first rest, args = first :: rest → mapGet cmd.subCmds first = none) :
    Cmd.Parse lib cmd st args = ⟨[cmd.name], some err, cmd1, st1⟩ := by
  rw [parse_eq_parseOwn lib cmd st args hsub]
  simp only [parseOwn, h]

/-- C14. Key resolution failure in `Cmd.Parse`. In every state of the loop (that is,
whenever the token is reached without an earlier error), for a token `t` that starts
with `-`, with `stripDashes t` the text left after stripping one leading `-` and then a
second `-` if present: if that text begins with `=`, the loop returns the error
"missing argument name" for `t`; if it contains no `=` and is not a key of the lookup, or
if it is `k=v` with `k` not empty, without `=`, and not a key of the lookup, the loop
returns the error "unknown argument" for the key; in each case the command and the store
are the ones before the token. When the key is registered, the token resolves to a value
(except for a non-boolean flag that is the last token), and when it resolves and the
value coerces, the loop goes on with the following tokens. An error of the loop is
returned by `Parse` with the chain `[name of the command]` when the first token does
not select a sub-command; on the test command `--=5`, `-zzz` and `--zzz=1` give the
chain `[command]` with these errors and leave `int` as it was. -/
theorem key_resolution_failure :
    (∀ (lib : FloatLib) (cmd : Cmd) (st : Store) (t : GoString) (rest : List GoString)
      (r : GoString), strings.HasPrefix t (str "-") = true → stripDashes t = 61 :: r →
      parseLoop lib cmd st (t :: rest) = (some (.missingName t), cmd, st)) ∧
    (∀ (lib : FloatLib) (cmd : Cmd) (st : Store) (t : GoString) (rest : List GoString),
      strings.HasPrefix t (str "-") = true → 61 ∉ stripDashes t →
      cmd.lookupArg (stripDashes t) = none →
      parseLoop lib cmd st (t :: rest) = (some (.unknownArgument (stripDashes t)), cmd, st)) ∧
    (∀ (lib : FloatLib) (cmd : Cmd) (st : Store) (t : GoString) (rest : List GoString)
      (k v : GoString), strings.HasPrefix t (str "-") = true → stripDashes t = k ++ 61 :: v →
      k ≠ [] → 61 ∉ k → cmd.lookupArg k = none →
      parseLoop lib cmd st (t :: rest) = (some (.unknownArgument k), cmd, st)) ∧
    (∀ (cmd : Cmd) (t : GoString) (rest : List GoString) (k v : GoString) (i : Nat)
      (arg : NamedArg), stripDashes t = k ++ 61 :: v → k ≠ [] → 61 ∉ k →
      cmd.lookupArg k = some (i, arg) → resolve cmd t rest = .ok i arg v false) ∧
    (∀ (cmd : Cmd) (t : GoString) (rest : List GoString) (i : Nat) (arg : NamedArg),
      61 ∉ stripDashes t → cmd.lookupArg (stripDashes t) = some (i, arg) →
      (arg.dest.isBool = true ∨ rest ≠ []) → ∃ v c, resolve cmd t rest = .ok i arg v c) ∧
    (∀ (lib : FloatLib) (cmd : Cmd) (st : Store) (t : GoString) (rest : List GoString) (i : Nat)
      (arg : NamedArg) (v : GoString) (c : Bool) (cmd1 : Cmd) (st1 : Store),
      strings.HasPrefix t (str "-") = true → resolve cmd t rest = .ok i arg v c →
      coerce lib cmd st arg.dest v = .done cmd1 st1 none →
      parseLoop lib cmd st (t :: rest) =
        parseLoop lib (cmd1.supplied i arg) st1 (if c then rest.tail else rest)) ∧
    (∀ (lib : FloatLib) (cmd : Cmd) (st : Store) (args : List GoString) (err : Error)
      (cmd1 : Cmd) (st1 : Store), parseLoop lib cmd st args = (some err, cmd1, st1) →
      (∀ first rest, args = first :: rest → mapGet cmd.subCmds first = none) →
      Cmd.Parse lib cmd st args = ⟨[cmd.name], some err, cmd1, st1⟩) ∧
    (∀ (lib : FloatLib) (st0 : Store),
      (Cmd.Parse lib (createTestCmd lib st0).1 (createTestCmd lib st0).2 [str "--=5"]).chain =
        [str "command"] ∧
      (Cmd.Parse lib (createTestCmd lib st0).1 (createTestCmd lib st0).2 [str "--=5"]).err =
        some (.missingName (str "--=5")) ∧
      (Cmd.Parse lib (createTestCmd lib st0).1 (createTestCmd lib st0).2 [str "-zzz"]).chain =
        [str "command"] ∧
      (Cmd.Parse lib (createTestCmd lib st0).1 (createTestCmd lib st0).2 [str "-zzz"]).err =
        some (.unknownArgument (str "zzz")) ∧
      (Cmd.Parse lib (createTestCmd lib st0).1 (createTestCmd lib st0).2
        [str "--zzz=1"]).chain = [str "command"] ∧
      (Cmd.Parse lib (createTestCmd lib st0).1 (createTestCmd lib st0).2
        [str "--zzz=1"]).err = some (.unknownArgument (str "zzz")) ∧
      (Cmd.Parse lib (createTestCmd lib st0).1 (createTestCmd lib st0).2
        [str "--zzz=1"]).store.int 0 = (createTestCmd lib st0).2.int 0) := by
  refine ⟨?_, ?_, ?_, ?_, ?_, ?_, ?_, ?_⟩
  · intro lib cmd st t rest r hp hs
    rw [parseLoop_named lib cmd st t rest hp, resolve_missing_name cmd t rest r hs]
  · intro lib cmd st t rest hp h61 hl
    rw [parseLoop_named lib cmd st t rest hp, resolve_plain cmd t rest h61, hl]
  · intro lib cmd st t rest k v hp hs hk h61 hl
    rw [parseLoop_named lib cmd st t rest hp, resolve_eq cmd t rest k v hs hk h61, hl]
  · intro cmd t rest k v i arg hs hk h61 hl
    rw [resolve_eq cmd t rest k v hs hk h61, hl]
  · intro cmd t rest i arg h61 hl hv
    rw [resolve_plain cmd t rest h61, hl]
    simp only
    cases hb : arg.dest.isBool with
    | true =>
      simp only [if_true]
      cases rest with
      | nil => exact ⟨_, _, rfl⟩
      | cons nxt r =>
        simp only
        split_ifs
        · exact ⟨_, _, rfl⟩
        · exact ⟨_, _, rfl⟩
    | false =>
      rw [hb] at hv
      simp only [Bool.false_eq_true, if_false]
      cases rest with
      | nil => simp at hv
      | cons nxt r => exact ⟨_, _, rfl⟩
  · intro lib cmd st t rest i arg v c cmd1 st1 hp hr hc
    rw [parseLoop_named lib cmd st t rest hp, hr]
    simp only [hc]
  · intro lib cmd st args err cmd1 st1 h hsub
    exact parse_loop_error lib cmd st args err cmd1 st1 h hsub
  · intro lib st0
    rw [createTestCmd_fst]
    exact ⟨rfl, rfl, rfl, rfl, rfl, rfl, rfl⟩

/-- Witness for C14: the token `-=5` in front of another token on the test command. -/
theorem key_resolution_failure_witness :
    parseLoop sampleLib (createTestCmd sampleLib Store.zero).1 Store.zero
        [str "-=5", str "x"] =
      (some (.missingName (str "-=5")), (createTestCmd sampleLib Store.zero).1, Store.zero) :=
  key_resolution_failure.1 sampleLib (createTestCmd sampleLib Store.zero).1 Store.zero
    (str "-=5") [str "x"] (str "5") (by decide) (by decide)

/-! ### The value of a flag that is not boolean -/

/-- C15. Value of a non-boolean flag in `Cmd.Parse`. In every state of the loop, for a
token `t` that starts with `-`, whose stripped text has no `=` and is mapped by the
lookup to a specification that is not bound to a `*bool`: if a token follows, it is the
value, verbatim and whatever its first byte, and when it coerces the loop goes on with
the tokens after it, so the value is neither resolved as a flag nor appended to the
positionals; if `t` is the last token, the loop returns the error "missing value" for
the key and leaves the command and the store as they were. On a command with the single
required `int` flag `i`, `[-i, -5]` succeeds, sets the variable to -5 and leaves no
positional; on the test command `[-i]` fails with the missing-value error for `i` and
leaves `int` as it was. -/
theorem non_boolean_flag_value :
    (∀ (lib : FloatLib) (cmd : Cmd) (st : Store) (t nxt : GoString) (rest : List GoString)
      (i : Nat) (arg : NamedArg), strings.HasPrefix t (str "-") = true → 61 ∉ stripDashes t →
      cmd.lookupArg (stripDashes t) = some (i, arg) → arg.dest.isBool = false →
      resolve cmd t (nxt :: rest) = .ok i arg nxt true ∧
      ∀ cmd1 st1, coerce lib cmd st arg.dest nxt = .done cmd1 st1 none →
        parseLoop lib cmd st (t :: nxt :: rest) = parseLoop lib (cmd1.supplied i arg) st1 rest) ∧
    (∀ (lib : FloatLib) (cmd : Cmd) (st : Store) (t : GoString) (i : Nat) (arg : NamedArg),
      strings.HasPrefix t (str "-") = true → 61 ∉ stripDashes t →
      cmd.lookupArg (stripDashes t) = some (i, arg) → arg.dest.isBool = false →
      parseLoop lib cmd st [t] = (some (.missingValue (stripDashes t)), cmd, st)) ∧
    (∀ (lib : FloatLib) (st0 : Store),
      (Cmd.Parse lib
        (register lib (NewCmd (str "c") [], st0) (.int (str "int") (str "i") 0 0 true [])).1
        (register lib (NewCmd (str "c") [], st0) (.int (str "int") (str "i") 0 0 true [])).2
        [str "-i", str "-5"]).err = none ∧
      (Cmd.Parse lib
        (register lib (NewCmd (str "c") [], st0) (.int (str "int") (str "i") 0 0 true [])).1
        (register lib (NewCmd (str "c") [], st0) (.int (str "int") (str "i") 0 0 true [])).2
        [str "-i", str "-5"]).store.int 0 = -5 ∧
      (Cmd.Parse lib
        (register lib (NewCmd (str "c") [], st0) (.int (str "int") (str "i") 0 0 true [])).1
        (register lib (NewCmd (str "c") [], st0) (.int (str "int") (str "i") 0 0 true [])).2
        [str "-i", str "-5"]).cmd.Args = [] ∧
      (Cmd.Parse lib (createTestCmd lib st0).1 (createTestCmd lib st0).2 [str "-i"]).err =
        some (.missingValue (str "i")) ∧
      (Cmd.Parse lib (createTestCmd lib st0).1 (createTestCmd lib st0).2 [str "-i"]).store.int 0 =
        (createTestCmd lib st0).2.int 0) := by
  refine ⟨?_, ?_, ?_⟩
  · intro lib cmd st t nxt rest i arg hp h61 hl hb
    have hr : resolve cmd t (nxt :: rest) = .ok i arg nxt true := by
      rw [resolve_plain cmd t _ h61, hl]
      simp [hb]
    refine ⟨hr, ?_⟩
    intro cmd1 st1 hc
    rw [parseLoop_named lib cmd st t _ hp, hr]
    simp only [hc, if_true, List.tail_cons]
  · intro lib cmd st t i arg hp h61 hl hb
    rw [parseLoop_named lib cmd st t _ hp, resolve_plain cmd t _ h61, hl]
    simp [hb]
  · intro lib st0
    refine ⟨rfl, rfl, rfl, ?_, ?_⟩
    · rw [createTestCmd_fst]; rfl
    · rw [createTestCmd_fst]; rfl

/-- Witness for C15: the flag `-i` of the test command followed by `-5`. -/
theorem non_boolean_flag_value_witness :
    resolve (createTestCmd sampleLib Store.zero).1 (str "-i") [str "-5"] =
      .ok 1 ⟨str "int", str "i", str "An int argument.", str "0", .int 0, true, false⟩
        (str "-5") true :=
  (non_boolean_flag_value.1 sampleLib (createTestCmd sampleLib Store.zero).1 Store.zero
    (str "-i") (str "-5") [] 1
    ⟨str "int", str "i", str "An int argument.", str "0", .int 0, true, false⟩
    (by decide) (by decide) (by decide) (by decide)).1

/-! ### Failures of the coercion -/

/-- C16 at failing inputs. On the test command the tokens `-i=abc` and `-d=abc`, which
name two different arguments, make `Parse` return the same error: the only operand of
its message is the text of the conversion error, so the argument is not named. The
other failures of the claim also end in this error: a text out of range for `int`, a
leading `-` for `uint`, a text that is no boolean literal given with `=`. The required
argument `int` is not marked supplied. -/
theorem value_error_without_name :
    (Cmd.Parse sampleLib (createTestCmd sampleLib Store.zero).1
      (createTestCmd sampleLib Store.zero).2 [str "-i=abc"]).err =
        some (.valueError ⟨str "ParseInt", str "abc", .ErrSyntax⟩) ∧
    (Cmd.Parse sampleLib (createTestCmd sampleLib Store.zero).1
      (createTestCmd sampleLib Store.zero).2 [str "-d=abc"]).err =
        some (.valueError ⟨str "ParseInt", str "abc", .ErrSyntax⟩) ∧
    (Cmd.Parse sampleLib (createTestCmd sampleLib Store.zero).1
      (createTestCmd sampleLib Store.zero).2 [str "-i=9223372036854775808"]).err =
        some (.valueError ⟨str "ParseInt", str "9223372036854775808", .ErrRange⟩) ∧
    (Cmd.Parse sampleLib (createTestCmd sampleLib Store.zero).1
      (createTestCmd sampleLib Store.zero).2 [str "-u", str "-1"]).err =
        some (.valueError ⟨str "ParseUint", str "-1", .ErrSyntax⟩) ∧
    (Cmd.Parse sampleLib (createTestCmd sampleLib Store.zero).1
      (createTestCmd sampleLib Store.zero).2 [str "-b=maybe"]).err =
        some (.valueError ⟨str "ParseBool", str "maybe", .ErrSyntax⟩) ∧
    (Cmd.Parse sampleLib (createTestCmd sampleLib Store.zero).1
      (createTestCmd sampleLib Store.zero).2 [str "-i=abc"]).cmd.namedArgList.map
        (fun a => a.set) = [false, false, false, false, false, false, false, false, false] := by
  decide

/-- C17 at failing inputs. On the test command, whose `int64`, `uint64` and `bool`
variables hold 0, 0 and false after the registrations: `-l=9223372036854775808` fails to
coerce and leaves 9223372036854775807 in the `int64` variable; `-l=20` followed by
`-l=abc` fails and leaves 0 where 20 was; `-x=18446744073709551616` fails and leaves
18446744073709551615 in the `uint64` variable; `-b` followed by `-b=maybe` fails and
leaves false where true was. The `int` path does what the claim says: `-i=10` followed
by `-i=abc` fails and leaves 10. -/
theorem binding_written_on_failed_coercion :
    (createTestCmd sampleLib Store.zero).2.int64 0 = 0 ∧
    (Cmd.Parse sampleLib (createTestCmd sampleLib Store.zero).1
      (createTestCmd sampleLib Store.zero).2 [str "-l=9223372036854775808"]).err =
        some (.valueError ⟨str "ParseInt", str "9223372036854775808", .ErrRange⟩) ∧
    (Cmd.Parse sampleLib (createTestCmd sampleLib Store.zero).1
      (createTestCmd sampleLib Store.zero).2 [str "-l=9223372036854775808"]).store.int64 0 =
        9223372036854775807 ∧
    (Cmd.Parse sampleLib (createTestCmd sampleLib Store.zero).1
      (createTestCmd sampleLib Store.zero).2 [str "-l=20"]).store.int64 0 = 20 ∧
    (Cmd.Parse sampleLib (createTestCmd sampleLib Store.zero).1
      (createTestCmd sampleLib Store.zero).2 [str "-l=20", str "-l=abc"]).err =
        some (.valueError ⟨str "ParseInt", str "abc", .ErrSyntax⟩) ∧
    (Cmd.Parse sampleLib (createTestCmd sampleLib Store.zero).1
      (createTestCmd sampleLib Store.zero).2 [str "-l=20", str "-l=abc"]).store.int64 0 = 0 ∧
    (Cmd.Parse sampleLib (createTestCmd sampleLib Store.zero).1
      (createTestCmd sampleLib Store.zero).2 [str "-x=18446744073709551616"]).err =
        some (.valueError ⟨str "ParseUint", str "18446744073709551616", .ErrRange⟩) ∧
    (Cmd.Parse sampleLib (createTestCmd sampleLib Store.zero).1
      (createTestCmd sampleLib Store.zero).2 [str "-x=18446744073709551616"]).store.uint64 0 =
        18446744073709551615 ∧
    (Cmd.Parse sampleLib (createTestCmd sampleLib Store.zero).1
      (createTestCmd sampleLib Store.zero).2 [str "-b"]).store.bool 0 = true ∧
    (Cmd.Parse sampleLib (createTestCmd sampleLib Store.zero).1
      (createTestCmd sampleLib Store.zero).2 [str "-b", str "-b=maybe"]).err =
        some (.valueError ⟨str "ParseBool", str "maybe", .ErrSyntax⟩) ∧
    (Cmd.Parse sampleLib (createTestCmd sampleLib Store.zero).1
      (createTestCmd sampleLib Store.zero).2 [str "-b", str "-b=maybe"]).store.bool 0 = false ∧
    (Cmd.Parse sampleLib (createTestCmd sampleLib Store.zero).1
      (createTestCmd sampleLib Store.zero).2 [str "-i=10", str "-i=abc"]).err =
        some (.valueError ⟨str "ParseInt", str "abc", .ErrSyntax⟩) ∧
    (Cmd.Parse sampleLib (createTestCmd sampleLib Store.zero).1
      (createTestCmd sampleLib Store.zero).2 [str "-i=10", str "-i=abc"]).store.int 0 = 10 := by
  decide

/-! ### Boolean literals -/

/-- Counterexample to C18 as stated: compared without regard to case the text `tRue` is
`true`, yet `strconv.ParseBool` rejects it, and on the test command `-b=tRue` makes
`Parse` fail; as the token after `-b` it is not taken as the value. -/
theorem mixed_case_literal_rejected :
    isBoolLiteralFold (str "tRue") = true ∧
    strconv.ParseBool (str "tRue") = (false, some ⟨str "ParseBool", str "tRue", .ErrSyntax⟩) ∧
    (Cmd.Parse sampleLib (createTestCmd sampleLib Store.zero).1
      (createTestCmd sampleLib Store.zero).2 [str "-b=tRue"]).err =
        some (.valueError ⟨str "ParseBool", str "tRue", .ErrSyntax⟩) ∧
    (Cmd.Parse sampleLib (createTestCmd sampleLib Store.zero).1
      (createTestCmd sampleLib Store.zero).2 [str "-b", str "tRue"]).cmd.Args = [str "tRue"] := by
  decide

theorem boolSpellings_eq : boolSpellings =
    [[49], [116], [84], [84, 82, 85, 69], [116, 114, 117, 101], [84, 114, 117, 101], [48], [102],
      [70], [70, 65, 76, 83, 69], [102, 97, 108, 115, 101], [70, 97, 108, 115, 101]] := by
  decide

theorem parseBool_eq (s : GoString) :
    strconv.ParseBool s =
      if s = [49] ∨ s = [116] ∨ s = [84] ∨ s = [116, 114, 117, 101] ∨ s = [84, 82, 85, 69] ∨
          s = [84, 114, 117, 101] then (true, none)
      else if s = [48] ∨ s = [102] ∨ s = [70] ∨ s = [102, 97, 108, 115, 101] ∨
          s = [70, 65, 76, 83, 69] ∨ s = [70, 97, 108, 115, 101] then (false, none)
      else (false, some ⟨str "ParseBool", s, .ErrSyntax⟩) := by
  have e1 : str "1" = [49] := by decide
  have e2 : str "t" = [116] := by decide
  have e3 : str "T" = [84] := by decide
  have e4 : str "true" = [116, 114, 117, 101] := by decide
  have e5 : str "TRUE" = [84, 82, 85, 69] := by decide
  have e6 : str "True" = [84, 114, 117, 101] := by decide
  have e7 : str "0" = [48] := by decide
  have e8 : str "f" = [102] := by decide
  have e9 : str "F" = [70] := by decide
  have e10 : str "false" = [102, 97, 108, 115, 101] := by decide
  have e11 : str "FALSE" = [70, 65, 76, 83, 69] := by decide
  have e12 : str "False" = [70, 97, 108, 115, 101] := by decide
  unfold strconv.ParseBool
  rw [e1, e2, e3, e4, e5, e6, e7, e8, e9, e10, e11, e12]

/-- C18 (amended). Boolean literal forms. `strconv.ParseBool`, the boolean coercion used
by `Cmd.Parse`, accepts a text if and only if it is one of the twelve spellings `1`,
`t`, `T`, `TRUE`, `true`, `True`, `0`, `f`, `F`, `FALSE`, `false`, `False`; each of
them is, compared without regard to case, one of `true`, `false`, `1`, `0`, `t`, `f`;
the value is true exactly for the first six. Every other text is rejected with a syntax
error. This is the coercion of the `=` form for a `*bool` destination, and the test of
the look-ahead after a bare flag. -/
theorem boolean_literal_forms :
    (∀ s : GoString, (strconv.ParseBool s).2 = none ↔ s ∈ boolSpellings) ∧
    (∀ s ∈ boolSpellings, isBoolLiteralFold s = true) ∧
    (∀ s ∈ boolSpellings, (strconv.ParseBool s).1 = true ↔
      s ∈ [str "1", str "t", str "T", str "TRUE", str "true", str "True"]) ∧
    (∀ s : GoString, s ∉ boolSpellings →
      strconv.ParseBool s = (false, some ⟨str "ParseBool", s, .ErrSyntax⟩)) ∧
    (∀ (lib : FloatLib) (cmd : Cmd) (st : Store) (p : BoolPtr) (v : GoString),
      coerce lib cmd st (.bool p) v =
        .done (writeBool cmd st p (strconv.ParseBool v).1).1
          (writeBool cmd st p (strconv.ParseBool v).1).2 (strconv.ParseBool v).2) ∧
    (∀ (cmd : Cmd) (t nxt : GoString) (rest : List GoString) (i : Nat) (arg : NamedArg),
      61 ∉ stripDashes t → cmd.lookupArg (stripDashes t) = some (i, arg) →
      arg.dest.isBool = true →
      resolve cmd t (nxt :: rest) =
        if nxt ∈ boolSpellings then .ok i arg nxt true else .ok i arg (str "true") false) := by
  have hacc : ∀ s : GoString, (strconv.ParseBool s).2 = none ↔ s ∈ boolSpellings := by
    intro s
    rw [parseBool_eq, boolSpellings_eq]
    simp only [List.mem_cons, List.mem_singleton, List.not_mem_nil, or_false]
    split_ifs with h1 h2
    · simp only [true_iff]
      tauto
    · simp only [true_iff]
      tauto
    · simp only [reduceCtorEq, false_iff]
      tauto
  refine ⟨hacc, by decide, by decide, ?_, fun _ _ _ _ _ => rfl, ?_⟩
  · intro s hs
    have hne : (strconv.ParseBool s).2 ≠ none := fun h => hs ((hacc s).mp h)
    rw [parseBool_eq] at hne ⊢
    split_ifs at hne ⊢ with h1 h2
    · exact absurd rfl hne
    · exact absurd rfl hne
    · rfl
  · intro cmd t nxt rest i arg h61 hl hb
    rw [resolve_plain cmd t _ h61, hl]
    simp only [hb, if_true, hacc]

/-- Witness for C18 (amended): the look-ahead after the flag `-b` of the test command,
the next token being `TRUE`. -/
theorem boolean_literal_forms_witness :
    resolve (createTestCmd sampleLib Store.zero).1 (str "-b") [str "TRUE"] =
      if str "TRUE" ∈ boolSpellings then
        .ok 6 ⟨str "bool", str "b", str "A bool argument.", str "false", .bool (.var 0), true,
          false⟩ (str "TRUE") true
      else
        .ok 6 ⟨str "bool", str "b", str "A bool argument.", str "false", .bool (.var 0), true,
          false⟩ (str "true") false :=
  boolean_literal_forms.2.2.2.2.2 (createTestCmd sampleLib Store.zero).1 (str "-b") (str "TRUE")
    [] 6 ⟨str "bool", str "b", str "A bool argument.", str "false", .bool (.var 0), true, false⟩
    (by decide) (by decide) (by decide)

/-! ### Registration of sub-commands and of named arguments -/

theorem mapGet_mapSet_self {α : Type} (m : List (GoString × α)) (k : GoString) (v : α) :
    mapGet (mapSet m k v) k = some v := by
  induction m with
  | nil => simp [mapSet, mapGet]
  | cons p rest ih =>
    obtain ⟨k2, v2⟩ := p
    simp only [mapSet]
    by_cases h2 : k2 = k
    · simp [h2, mapGet]
    · simp [h2, mapGet, ih]

/-- C19. `Cmd.AddSubCmd` on commands that are objects: the map `subCmds` of the command
is given the pointer to the sub-command. The call fails if and only if the map has a
sub-command under the name of the new one. On failure the error names both commands and
no command is changed, so the earlier sub-command stays attached. On success the map has
the new sub-command under its name, the other keys of the map, the other fields of the
command and the other commands are unchanged, and `Parse` on the command with that name
first is the `Parse` of the new sub-command on the remaining tokens, whatever is done to
the sub-command afterwards: an argument `n` that the sub-command gets after the call is
known when `[s, -n=5]` is parsed, and a command attached to itself gives the chain
`[c, c, c]` on `[c, c, x]`. On the commands of the tests a second `AddSubCmd` of a
command named `subcmd` fails and changes nothing. -/
theorem add_sub_command :
    (∀ (h : Heap) (cmd subCmd : Nat),
      (Heap.AddSubCmd h cmd subCmd).1 ≠ none ↔
        (mapGet (h cmd).subCmds (h subCmd).own.Name).isSome = true) ∧
    (∀ (h : Heap) (cmd subCmd old : Nat),
      mapGet (h cmd).subCmds (h subCmd).own.Name = some old →
      Heap.AddSubCmd h cmd subCmd =
        (some (.subCmdRegistered (h subCmd).own.Name (h cmd).own.name), h)) ∧
    (∀ (h : Heap) (cmd subCmd : Nat), mapGet (h cmd).subCmds (h subCmd).own.Name = none →
      (Heap.AddSubCmd h cmd subCmd).1 = none ∧
      mapGet ((Heap.AddSubCmd h cmd subCmd).2 cmd).subCmds (h subCmd).own.Name = some subCmd ∧
      (∀ k, k ≠ (h subCmd).own.Name →
        mapGet ((Heap.AddSubCmd h cmd subCmd).2 cmd).subCmds k = mapGet (h cmd).subCmds k) ∧
      (∀ a, ((Heap.AddSubCmd h cmd subCmd).2 a).own = (h a).own) ∧
      (∀ a, a ≠ cmd → (Heap.AddSubCmd h cmd subCmd).2 a = h a) ∧
      ∀ (lib : FloatLib) (st : Store) (rest : List GoString),
        (Heap.Parse lib (Heap.AddSubCmd h cmd subCmd).2 st cmd
            ((h subCmd).own.Name :: rest)).chain =
          (h cmd).own.name ::
            (Heap.Parse lib (Heap.AddSubCmd h cmd subCmd).2 st subCmd rest).chain ∧
        (Heap.Parse lib (Heap.AddSubCmd h cmd subCmd).2 st cmd
            ((h subCmd).own.Name :: rest)).err =
          (Heap.Parse lib (Heap.AddSubCmd h cmd subCmd).2 st subCmd rest).err ∧
        (Heap.Parse lib (Heap.AddSubCmd h cmd subCmd).2 st cmd
            ((h subCmd).own.Name :: rest)).store =
          (Heap.Parse lib (Heap.AddSubCmd h cmd subCmd).2 st subCmd rest).store ∧
        (Heap.Parse lib (Heap.AddSubCmd h cmd subCmd).2 st cmd
            ((h subCmd).own.Name :: rest)).heap =
          (Heap.Parse lib (Heap.AddSubCmd h cmd subCmd).2 st subCmd rest).heap) ∧
    (∀ (lib : FloatLib) (h : Heap) (st : Store) (cmd subCmd : Nat) (key : GoString)
      (rest : List GoString), mapGet (h cmd).subCmds key = some subCmd →
      Heap.Parse lib h st cmd (key :: rest) =
        ⟨(h cmd).own.name :: (Heap.Parse lib h st subCmd rest).chain,
          (Heap.Parse lib h st subCmd rest).err, (Heap.Parse lib h st subCmd rest).heap,
          (Heap.Parse lib h st subCmd rest).store⟩) ∧
    (∀ (lib : FloatLib) (h : Heap) (st : Store) (cmd a : Nat) (r : Registration),
      ((Heap.register lib h st a r).1 cmd).subCmds = (h cmd).subCmds) ∧
    (∀ (lib : FloatLib) (st0 : Store),
      (lateRegistration lib st0).1 = none ∧
      (Heap.Parse lib (lateRegistration lib st0).2.1 (lateRegistration lib st0).2.2 0
        [str "s", str "-n=5"]).chain = [str "c", str "s"] ∧
      (Heap.Parse lib (lateRegistration lib st0).2.1 (lateRegistration lib st0).2.2 0
        [str "s", str "-n=5"]).err = none ∧
      (Heap.Parse lib (lateRegistration lib st0).2.1 (lateRegistration lib st0).2.2 0
        [str "s", str "-n=5"]).store.int 0 = 5) ∧
    (∀ (lib : FloatLib) (st0 : Store),
      selfAttached.1 = none ∧
      (Heap.Parse lib selfAttached.2 st0 0 [str "c", str "c", str "x"]).chain =
        [str "c", str "c", str "c"] ∧
      (Heap.Parse lib selfAttached.2 st0 0 [str "c", str "c", str "x"]).err = none ∧
      Heap.Args (Heap.Parse lib selfAttached.2 st0 0 [str "c", str "c", str "x"]).heap 0 =
        [str "x"]) ∧
    (∀ (lib : FloatLib) (st0 : Store),
      (testHeap lib st0).1 = none ∧
      (Heap.AddSubCmd
        (Heap.NewCmd (testHeap lib st0).2.1 2 (str "subcmd") (str "Another sub-command."))
        0 2).1 = some (.subCmdRegistered (str "subcmd") (str "command")) ∧
      (Heap.AddSubCmd
        (Heap.NewCmd (testHeap lib st0).2.1 2 (str "subcmd") (str "Another sub-command."))
        0 2).2 =
        Heap.NewCmd (testHeap lib st0).2.1 2 (str "subcmd") (str "Another sub-command.") ∧
      mapGet ((Heap.AddSubCmd
        (Heap.NewCmd (testHeap lib st0).2.1 2 (str "subcmd") (str "Another sub-command."))
        0 2).2 0).subCmds (str "subcmd") = some 1) := by
  refine ⟨?_, ?_, ?_, heapParse_dispatch_all, ?_, ?_, ?_, ?_⟩
  · intro h cmd subCmd
    unfold Heap.AddSubCmd
    cases hk : mapGet (h cmd).subCmds (h subCmd).own.Name with
    | none => simp [hk]
    | some old => simp [hk]
  · intro h cmd subCmd old hk
    unfold Heap.AddSubCmd
    simp only [hk]
  · intro h cmd subCmd hk
    have he : Heap.AddSubCmd h cmd subCmd =
        (none, upd h cmd
          { h cmd with subCmds := mapSet (h cmd).subCmds (h subCmd).own.Name subCmd }) := by
      unfold Heap.AddSubCmd
      simp only [hk]
    have hd : mapGet ((Heap.AddSubCmd h cmd subCmd).2 cmd).subCmds (h subCmd).own.Name =
        some subCmd := by
      rw [he]
      simp only [upd, if_true]
      exact mapGet_mapSet_self _ _ _
    refine ⟨by rw [he], hd, ?_, ?_, ?_, ?_⟩
    · intro k hne
      rw [he]
      simp only [upd, if_true]
      exact mapGet_mapSet_ne _ _ _ _ (fun e => hne e.symm)
    · intro a
      rw [he]
      by_cases ha : a = cmd
      · simp only [upd, if_pos ha]
        rw [ha]
      · simp only [upd, if_neg ha]
    · intro a ha
      rw [he]
      simp only [upd, if_neg ha]
    · intro lib st rest
      have hn : ((Heap.AddSubCmd h cmd subCmd).2 cmd).own.name = (h cmd).own.name := by
        rw [he]
        simp only [upd, if_true]
      rw [heapParse_dispatch lib _ st cmd _ rest subCmd hd, hn]
      exact ⟨rfl, rfl, rfl, rfl⟩
  · intro lib h st cmd a r
    by_cases ha : cmd = a
    · simp only [Heap.register, upd, if_pos ha]
      rw [ha]
    · simp only [Heap.register, upd, if_neg ha]
  · intro lib st0
    exact ⟨rfl, rfl, rfl, rfl⟩
  · intro lib st0
    exact ⟨rfl, rfl, rfl, rfl⟩
  · intro lib st0
    exact ⟨rfl, rfl, rfl, rfl⟩

/-- Witness for C19: a sub-command `s` attached to a fresh command `c`, both in the
heap. -/
theorem add_sub_command_witness :
    mapGet ((Heap.NewCmd (Heap.NewCmd emptyHeap 0 (str "c") []) 1 (str "s") []) 0).subCmds
      ((Heap.NewCmd (Heap.NewCmd emptyHeap 0 (str "c") []) 1 (str "s") []) 1).own.Name = none ∧
    (Heap.AddSubCmd (Heap.NewCmd (Heap.NewCmd emptyHeap 0 (str "c") []) 1 (str "s") []) 0 1).1 =
      none ∧
    mapGet ((Heap.AddSubCmd
      (Heap.NewCmd (Heap.NewCmd emptyHeap 0 (str "c") []) 1 (str "s") []) 0 1).2 0).subCmds
      (str "s") = some 1 :=
  ⟨rfl,
    (add_sub_command.2.2.1 (Heap.NewCmd (Heap.NewCmd emptyHeap 0 (str "c") []) 1 (str "s") [])
      0 1 rfl).1,
    (add_sub_command.2.2.1 (Heap.NewCmd (Heap.NewCmd emptyHeap 0 (str "c") []) 1 (str "s") [])
      0 1 rfl).2.1⟩

/-- Counterexample to C20 as stated: on a fresh command, after `AddIntArg("x", "y", ...)`
the key `x` is mapped to that specification (index 1, bound to the `int` variable);
after `AddStringArg("x", "z", ...)` the same key is mapped to the new specification
(index 2, bound to the `string` variable). Likewise a registration under the name `help`
takes the key `help` from the implicit help flag. No error is returned: the
registration methods return nothing. -/
theorem duplicate_name_replaces_entry :
    ((register sampleLib (NewCmd (str "c") [], Store.zero)
        (.int (str "x") (str "y") 0 1 false [])).1.lookupArg (str "x")).map
      (fun p => (p.1, p.2.dest)) = some (1, .int 0) ∧
    ((register sampleLib
        (register sampleLib (NewCmd (str "c") [], Store.zero)
          (.int (str "x") (str "y") 0 1 false []))
        (.string (str "x") (str "z") 0 [] false [])).1.lookupArg (str "x")).map
      (fun p => (p.1, p.2.dest)) = some (2, .string 0) ∧
    ((NewCmd (str "c") []).lookupArg (str "help")).map (fun p => (p.1, p.2.dest)) =
      some (0, .bool .shouldRenderHelp) ∧
    ((register sampleLib (NewCmd (str "c") [], Store.zero)
        (.string (str "help") (str "q") 0 [] false [])).1.lookupArg (str "help")).map
      (fun p => (p.1, p.2.dest)) = some (1, .string 0) := by
  decide

/-- The command after a registration: one specification more, and the keys of its name
and alias mapped to it. -/
theorem register_cmd (lib : FloatLib) (cs : Cmd × Store) (r : Registration) :
    ∃ a, a.name = r.name ∧ a.short = r.short ∧ a.dest = r.dest ∧ a.required = r.required ∧
      a.set = false ∧
      (register lib cs r).1 =
        { cs.1 with
          namedArgList := cs.1.namedArgList ++ [a]
          namedArgMap :=
            mapSet (mapSet cs.1.namedArgMap r.name cs.1.namedArgList.length) r.short
              cs.1.namedArgList.length } := by
  cases r with
  | int n s d v rq h =>
    exact ⟨newNamedArg n s h (strconv.FormatInt v) (.int d) rq, rfl, rfl, rfl, rfl, rfl, rfl⟩
  | int64 n s d v rq h =>
    exact ⟨newNamedArg n s h (strconv.FormatInt v) (.int64 d) rq, rfl, rfl, rfl, rfl, rfl, rfl⟩
  | uint n s d v rq h =>
    exact ⟨newNamedArg n s h (strconv.FormatUint v) (.uint d) rq, rfl, rfl, rfl, rfl, rfl, rfl⟩
  | uint64 n s d v rq h =>
    exact ⟨newNamedArg n s h (strconv.FormatUint v) (.uint64 d) rq, rfl, rfl, rfl, rfl, rfl, rfl⟩
  | float64 n s d v rq h =>
    exact ⟨newNamedArg n s h (lib.FormatFloat v) (.float64 d) rq, rfl, rfl, rfl, rfl, rfl, rfl⟩
  | bool n s d v rq h =>
    exact ⟨newNamedArg n s h (strconv.FormatBool v) (.bool (.var d)) rq, rfl, rfl, rfl, rfl, rfl,
      rfl⟩
  | string n s d v rq h =>
    exact ⟨newNamedArg n s h v (.string d) rq, rfl, rfl, rfl, rfl, rfl, rfl⟩

/-- C20 (amended). Duplicate named-argument registration is not detected. A registration
method returns no error; whatever keys are registered already (the implicit `help` and
`h` included), it appends the new specification to the list of the command and maps its
name and its alias to it, so that the lookup of each of the two keys gives the new
specification and an earlier entry for such a key is replaced; the entries of all other
keys and the specifications registered before are unchanged. -/
theorem registration_replaces_entries :
    ∀ (lib : FloatLib) (cs : Cmd × Store) (r : Registration),
      ∃ a, a.name = r.name ∧ a.short = r.short ∧ a.dest = r.dest ∧
        (register lib cs r).1.namedArgList = cs.1.namedArgList ++ [a] ∧
        (register lib cs r).1.lookupArg r.name = some (cs.1.namedArgList.length, a) ∧
        (register lib cs r).1.lookupArg r.short = some (cs.1.namedArgList.length, a) ∧
        (∀ k, k ≠ r.name → k ≠ r.short →
          mapGet (register lib cs r).1.namedArgMap k = mapGet cs.1.namedArgMap k) ∧
        (∀ j b, cs.1.namedArgList.get? j = some b →
          (register lib cs r).1.namedArgList.get? j = some b) := by
  intro lib cs r
  obtain ⟨a, h1, h2, h3, _, _, he⟩ := register_cmd lib cs r
  have hget : (cs.1.namedArgList ++ [a]).get? cs.1.namedArgList.length = some a := by simp
  have hname : mapGet (mapSet (mapSet cs.1.namedArgMap r.name cs.1.namedArgList.length) r.short
      cs.1.namedArgList.length) r.name = some cs.1.namedArgList.length := by
    by_cases hns : r.short = r.name
    · rw [hns]; exact mapGet_mapSet_self _ _ _
    · rw [mapGet_mapSet_ne _ _ _ _ hns]; exact mapGet_mapSet_self _ _ _
  refine ⟨a, h1, h2, h3, by rw [he], ?_, ?_, ?_, ?_⟩
  · rw [he]
    simp only [Cmd.lookupArg, hname, hget]
  · rw [he]
    simp only [Cmd.lookupArg, mapGet_mapSet_self, hget]
  · intro k hk1 hk2
    rw [he]
    simp only
    rw [mapGet_mapSet_ne _ _ _ _ (fun e => hk2 e.symm),
      mapGet_mapSet_ne _ _ _ _ (fun e => hk1 e.symm)]
  · intro j b hj
    rw [he]
    simp only
    have hlt : j < cs.1.namedArgList.length := by
      rcases Nat.lt_or_ge j cs.1.namedArgList.length with h | h
      · exact h
      · rw [List.get?_eq_none.mpr h] at hj; cases hj
    rw [List.get?_eq_getElem?, List.getElem?_append_left hlt, ← List.get?_eq_getElem?]
    exact hj

/-- Witness for C20 (amended): a key that is neither the name nor the alias of the new
registration keeps its entry. -/
theorem registration_replaces_entries_witness :
    mapGet (register sampleLib (NewCmd (str "c") [], Store.zero)
        (.string (str "help") (str "q") 0 [] false [])).1.namedArgMap (str "h") =
      mapGet (NewCmd (str "c") []).namedArgMap (str "h") :=
  (registration_replaces_entries sampleLib (NewCmd (str "c") [], Store.zero)
    (.string (str "help") (str "q") 0 [] false [])).elim
    (fun _ h => h.2.2.2.2.2.2.1 (str "h") (by decide) (by decide))

/-! ### A failing parse is not rolled back -/

/-- An iteration of the loop of `Cmd.Parse` reads at most one token after its own. -/
theorem step_next_only (lib : FloatLib) (cmd : Cmd) (st : Store) (argument nextArg : GoString)
    (rest rest1 : List GoString) :
    step lib cmd st argument (nextArg :: rest) = step lib cmd st argument (nextArg :: rest1) :=
  rfl

/-- The loop of `Cmd.Parse` stops at the first iteration that fails, with the state that
iteration left: the tokens after the failing one and its look-ahead are not read. -/
theorem parseLoop_stops (lib : FloatLib) (cmd cmd1 : Cmd) (st st1 : Store) (err : Error)
    (argument : GoString) (rest : List GoString)
    (h : step lib cmd st argument rest = .fail err cmd1 st1) :
    parseLoop lib cmd st (argument :: rest) = (some err, cmd1, st1) := by
  cases rest with
  | nil => simp only [parseLoop, h]
  | cons nextArg rest => simp only [parseLoop, h]

/-- An iteration that fails in the resolution of the key, or on a destination whose type
is not one of the seven, leaves the state as it was; one that fails in the conversion
leaves the state that the type switch wrote. -/
theorem step_fail_state (lib : FloatLib) (cmd cmd1 : Cmd) (st st1 : Store) (err : Error)
    (argument : GoString) (rest : List GoString)
    (h : step lib cmd st argument rest = .fail err cmd1 st1) :
    (cmd1 = cmd ∧ st1 = st) ∨
      ∃ i arg valStr consumed e, resolve cmd argument rest = .ok i arg valStr consumed ∧
        coerce lib cmd st arg.dest valStr = .done cmd1 st1 (some e) := by
  unfold step at h
  split_ifs at h
  cases hr : resolve cmd argument rest with
  | fail e =>
    rw [hr] at h
    simp only [Step.fail.injEq] at h
    exact Or.inl ⟨h.2.1.symm, h.2.2.symm⟩
  | ok i arg valStr consumed =>
    rw [hr] at h
    simp only at h
    cases hc : coerce lib cmd st arg.dest valStr with
    | unexpectedType =>
      rw [hc] at h
      simp only [Step.fail.injEq] at h
      exact Or.inl ⟨h.2.1.symm, h.2.2.symm⟩
    | done c s e =>
      rw [hc] at h
      cases e with
      | none =>
        simp only at h
        split_ifs at h
      | some e =>
        simp only [Step.fail.injEq] at h
        obtain ⟨_, rfl, rfl⟩ := h
        exact Or.inr ⟨i, arg, valStr, consumed, e, rfl, hc⟩

/-- C28 at a failing input. On the test command the tokens `pos -l=20 -i 7 -b` are read
without error: the positional is appended, the bindings hold 20, 7 and true, and the
three specifications are marked supplied. With `-l=abc -i=9 tail` after them Parse fails
at `-l=abc`: the positional, the `int` and `bool` bindings and the marks are as after
the first tokens, `-i=9` and `tail` have no effect, but the `int64` binding written by
`-l=20` holds 0, the value that the failed conversion returned. -/
theorem failing_token_overwrites_binding :
    (parseLoop sampleLib (createTestCmd sampleLib Store.zero).1
      (createTestCmd sampleLib Store.zero).2
      [str "pos", str "-l=20", str "-i", str "7", str "-b"]).1 = none ∧
    (parseLoop sampleLib (createTestCmd sampleLib Store.zero).1
      (createTestCmd sampleLib Store.zero).2
      [str "pos", str "-l=20", str "-i", str "7", str "-b"]).2.1.argList = [str "pos"] ∧
    (parseLoop sampleLib (createTestCmd sampleLib Store.zero).1
      (createTestCmd sampleLib Store.zero).2
      [str "pos", str "-l=20", str "-i", str "7", str "-b"]).2.1.namedArgList.map
        (fun a => a.set) = [false, true, false, true, false, false, true, false, false] ∧
    (parseLoop sampleLib (createTestCmd sampleLib Store.zero).1
      (createTestCmd sampleLib Store.zero).2
      [str "pos", str "-l=20", str "-i", str "7", str "-b"]).2.2.int64 0 = 20 ∧
    (parseLoop sampleLib (createTestCmd sampleLib Store.zero).1
      (createTestCmd sampleLib Store.zero).2
      [str "pos", str "-l=20", str "-i", str "7", str "-b"]).2.2.int 0 = 7 ∧
    (parseLoop sampleLib (createTestCmd sampleLib Store.zero).1
      (createTestCmd sampleLib Store.zero).2
      [str "pos", str "-l=20", str "-i", str "7", str "-b"]).2.2.bool 0 = true ∧
    (Cmd.Parse sampleLib (createTestCmd sampleLib Store.zero).1
      (createTestCmd sampleLib Store.zero).2
      [str "pos", str "-l=20", str "-i", str "7", str "-b", str "-l=abc", str "-i=9",
        str "tail"]).err = some (.valueError ⟨str "ParseInt", str "abc", .ErrSyntax⟩) ∧
    (Cmd.Parse sampleLib (createTestCmd sampleLib Store.zero).1
      (createTestCmd sampleLib Store.zero).2
      [str "pos", str "-l=20", str "-i", str "7", str "-b", str "-l=abc", str "-i=9",
        str "tail"]).cmd.argList = [str "pos"] ∧
    (Cmd.Parse sampleLib (createTestCmd sampleLib Store.zero).1
      (createTestCmd sampleLib Store.zero).2
      [str "pos", str "-l=20", str "-i", str "7", str "-b", str "-l=abc", str "-i=9",
        str "tail"]).cmd.namedArgList.map (fun a => a.set) =
        [false, true, false, true, false, false, true, false, false] ∧
    (Cmd.Parse sampleLib (createTestCmd sampleLib Store.zero).1
      (createTestCmd sampleLib Store.zero).2
      [str "pos", str "-l=20", str "-i", str "7", str "-b", str "-l=abc", str "-i=9",
        str "tail"]).store.int 0 = 7 ∧
    (Cmd.Parse sampleLib (createTestCmd sampleLib Store.zero).1
      (createTestCmd sampleLib Store.zero).2
      [str "pos", str "-l=20", str "-i", str "7", str "-b", str "-l=abc", str "-i=9",
        str "tail"]).store.bool 0 = true ∧
    (Cmd.Parse sampleLib (createTestCmd sampleLib Store.zero).1
      (createTestCmd sampleLib Store.zero).2
      [str "pos", str "-l=20", str "-i", str "7", str "-b", str "-l=abc", str "-i=9",
        str "tail"]).store.int64 0 = 0 := by
  decide

/-! ### The default of a float argument -/

/-- C21 at failing inputs. The default of a `float64` argument is kept as the text
`fmt.Sprintf("%f", d)`, which has six digits after the point. For the defaults 1e-7
(bit pattern `0x3E7AD7F29ABCAF48`) and 2e-7 the text is `0.000000`: the registration
leaves the default in the variable, and after `Clear` the variable holds what
`strconv.ParseFloat` returns on `0.000000`, whatever function `pf` stands for it, so the
same value for the two defaults (0 in Go). The default 1/3 and the `float64` nearest to
0.333333 share the text `0.333333` in the same way. -/
theorem float_default_not_restored (pf : GoString → Nat × Option strconv.NumError) :
    fmt.Sprintf_f 0x3E7AD7F29ABCAF48 = str "0.000000" ∧
    fmt.Sprintf_f 0x3E8AD7F29ABCAF48 = str "0.000000" ∧
    fmt.Sprintf_f 0x3FD5555555555555 = str "0.333333" ∧
    fmt.Sprintf_f 0x3FD55553EF6B5D46 = str "0.333333" ∧
    (Cmd.AddFloat64Arg ⟨pf, fmt.Sprintf_f⟩ (NewCmd (str "c") []) Store.zero (str "rate")
      (str "r") 0 0x3E7AD7F29ABCAF48 false []).2.float64 0 = 0x3E7AD7F29ABCAF48 ∧
    (Cmd.Clear ⟨pf, fmt.Sprintf_f⟩
      (Cmd.AddFloat64Arg ⟨pf, fmt.Sprintf_f⟩ (NewCmd (str "c") []) Store.zero (str "rate")
        (str "r") 0 0x3E7AD7F29ABCAF48 false []).1
      (Cmd.AddFloat64Arg ⟨pf, fmt.Sprintf_f⟩ (NewCmd (str "c") []) Store.zero (str "rate")
        (str "r") 0 0x3E7AD7F29ABCAF48 false []).2).2.2.float64 0 =
      (pf (str "0.000000")).1 ∧
    (Cmd.AddFloat64Arg ⟨pf, fmt.Sprintf_f⟩ (NewCmd (str "c") []) Store.zero (str "rate")
      (str "r") 0 0x3E8AD7F29ABCAF48 false []).2.float64 0 = 0x3E8AD7F29ABCAF48 ∧
    (Cmd.Clear ⟨pf, fmt.Sprintf_f⟩
      (Cmd.AddFloat64Arg ⟨pf, fmt.Sprintf_f⟩ (NewCmd (str "c") []) Store.zero (str "rate")
        (str "r") 0 0x3E8AD7F29ABCAF48 false []).1
      (Cmd.AddFloat64Arg ⟨pf, fmt.Sprintf_f⟩ (NewCmd (str "c") []) Store.zero (str "rate")
        (str "r") 0 0x3E8AD7F29ABCAF48 false []).2).2.2.float64 0 =
      (pf (str "0.000000")).1 := by
  have hf1 : fmt.Sprintf_f 0x3E7AD7F29ABCAF48 = str "0.000000" := by decide
  have hf2 : fmt.Sprintf_f 0x3E8AD7F29ABCAF48 = str "0.000000" := by decide
  have hb : strconv.ParseBool (str "false") = (false, none) := by decide
  have hfb : strconv.FormatBool false = str "false" := by decide
  refine ⟨hf1, hf2, by decide, by decide, ?_, ?_, ?_, ?_⟩
  · simp [Cmd.AddFloat64Arg, upd]
  · rcases hp : pf (str "0.000000") with ⟨v, _ | e⟩
    · simp [Cmd.AddFloat64Arg, hf1, NewCmd, Cmd.AddBoolArg, Cmd.addNamedArg, newNamedArg,
        writeBool, Cmd.Clear, resetLoop, NamedArg.Reset, coerce, clearSubCmds, hp, upd, hb, hfb]
    · simp [Cmd.AddFloat64Arg, hf1, NewCmd, Cmd.AddBoolArg, Cmd.addNamedArg, newNamedArg,
        writeBool, Cmd.Clear, resetLoop, NamedArg.Reset, coerce, clearSubCmds, hp, upd, hb, hfb]
  · simp [Cmd.AddFloat64Arg, upd]
  · rcases hp : pf (str "0.000000") with ⟨v, _ | e⟩
    · simp [Cmd.AddFloat64Arg, hf2, NewCmd, Cmd.AddBoolArg, Cmd.addNamedArg, newNamedArg,
        writeBool, Cmd.Clear, resetLoop, NamedArg.Reset, coerce, clearSubCmds, hp, upd, hb, hfb]
    · simp [Cmd.AddFloat64Arg, hf2, NewCmd, Cmd.AddBoolArg, Cmd.addNamedArg, newNamedArg,
        writeBool, Cmd.Clear, resetLoop, NamedArg.Reset, coerce, clearSubCmds, hp, upd, hb, hfb]

end clap

namespace cli

/-! ### The tokenizer -/

/-- C10. Tokenizer escaping inside quotes, step by step and on the line of
`TestParsingCmdStrWithQuotedArgSimple`. Inside a quoted span: a backslash that does not
follow an unconsumed backslash is appended; a quote right after it replaces it by a
literal quote and the span continues; a second backslash right after it leaves one
backslash in the token and marks it consumed, and a quote after that ends the span, as
does a quote after any other byte; the closing quote adds the accumulated bytes, without
the quotes, as a token. Outside a span, a quote opens one and keeps the bytes
accumulated before it for the same token. On the test line `parseCmdStr` returns
exactly the nine tokens of the test, in order. -/
theorem tokenizer_escaping :
    (∀ (p : Nat) (cur : List Nat) (args : List GoString) (dbs : Bool),
      (p = 92 → dbs = true) →
      body (some p) 92 ⟨cur, args, true, dbs⟩ = some ⟨cur ++ [92], args, true, false⟩) ∧
    (∀ (cur : List Nat) (args : List GoString),
      body (some 92) 34 ⟨cur ++ [92], args, true, false⟩ = some ⟨cur ++ [34], args, true, false⟩) ∧
    (∀ (cur : List Nat) (args : List GoString),
      body (some 92) 92 ⟨cur ++ [92], args, true, false⟩ = some ⟨cur ++ [92], args, true, true⟩) ∧
    (∀ (p : Nat) (cur : List Nat) (args : List GoString) (dbs : Bool),
      (p = 92 → dbs = true) →
      body (some p) 34 ⟨cur, args, true, dbs⟩ = some ⟨[], args ++ [cur], false, false⟩) ∧
    (∀ (prev : Option Nat) (cur : List Nat) (args : List GoString) (dbs : Bool),
      body prev 34 ⟨cur, args, false, dbs⟩ = some ⟨cur, args, true, dbs⟩) ∧
    parseCmdStr (str ("cmd qarg1=\"Hello, \\\"World\\\"\" arg=not-quoted qarg2 \"Hello, Again\" " ++
        "qarg3 \"Hello\\\\\" qarg4 \"Hello \\\\\\\"Quote\\\\\\\"\"")) =
      .tokens [str "cmd", str "qarg1=Hello, \"World\"", str "arg=not-quoted", str "qarg2",
        str "Hello, Again", str "qarg3", str "Hello\\", str "qarg4",
        str "Hello \\\"Quote\\\""] := by
  refine ⟨?_, ?_, ?_, ?_, ?_, ?_⟩
  · intro p cur args dbs h
    by_cases hp : p = 92
    · simp [body, hp, h hp]
    · simp [body, hp]
  · intro cur args
    simp [body, setLast]
  · intro cur args
    simp [body, setLast]
  · intro p cur args dbs h
    by_cases hp : p = 92
    · simp [body, hp, h hp]
    · simp [body, hp]
  · intro prev cur args dbs
    simp [body]
  · decide

/-- Witness for C10: a backslash after the byte `a` inside a quoted span. -/
theorem tokenizer_escaping_witness :
    body (some 97) 92 ⟨[], [], true, false⟩ = some ⟨[] ++ [92], [], true, false⟩ :=
  tokenizer_escaping.1 97 [] [] false (by decide)

/-! ### Decoding of runes -/

theorem decodeRune_ascii (b : Nat) (rest : GoString) (h : b < 128) :
    utf8.DecodeRune (b :: rest) = (b, 1) := by
  simp [utf8.DecodeRune, utf8.RuneSelf, h]

theorem firstInfo_some (b sz lo hi : Nat) (h : utf8.firstInfo b = some (sz, lo, hi)) :
    128 ≤ lo ∧ hi ≤ 191 ∧ ((sz = 2 ∧ 194 ≤ b ∧ b ≤ 223) ∨
      (sz = 3 ∧ 224 ≤ b ∧ b ≤ 239 ∧ (b = 224 → 160 ≤ lo)) ∨
      (sz = 4 ∧ 240 ≤ b ∧ b ≤ 244 ∧ (b = 240 → 144 ≤ lo))) := by
  unfold utf8.firstInfo at h
  split_ifs at h <;> simp only [Option.some.injEq, Prod.mk.injEq] at h <;>
    first
    | (obtain ⟨rfl, rfl, rfl⟩ := h; omega)

/-- The outcomes of decoding at a byte: an ASCII byte is its own rune; a byte that is
not ASCII gives the error rune with width one, or starts a sequence of `n` bytes, none of
them ASCII, that encodes a rune above the ASCII range whatever follows the sequence. -/
theorem decodeRune_cases (b : Nat) (rest : GoString) :
    (b < 128 ∧ utf8.DecodeRune (b :: rest) = (b, 1)) ∨
    (128 ≤ b ∧ utf8.DecodeRune (b :: rest) = (utf8.RuneError, 1)) ∨
    (128 ≤ b ∧ ∃ r pre post, rest = pre ++ post ∧ 1 ≤ pre.length ∧ (∀ x ∈ pre, 128 ≤ x) ∧
      128 ≤ r ∧ ∀ post1, utf8.DecodeRune (b :: (pre ++ post1)) = (r, pre.length + 1)) := by
  by_cases hb : b < 128
  · exact Or.inl ⟨hb, decodeRune_ascii b rest hb⟩
  · right
    have hb1 : 128 ≤ b := by omega
    have heq : ∀ l : GoString, utf8.DecodeRune (b :: l) =
        match utf8.firstInfo b with
        | none => (utf8.RuneError, 1)
        | some (sz, lo, hi) =>
          if (b :: l).length < sz then (utf8.RuneError, 1)
          else
            match l with
            | [] => (utf8.RuneError, 1)
            | s1 :: t1 =>
              if s1 < lo ∨ hi < s1 then (utf8.RuneError, 1)
              else if sz ≤ 2 then (b % 32 * 64 + s1 % 64, 2)
              else
                match t1 with
                | [] => (utf8.RuneError, 1)
                | s2 :: t2 =>
                  if s2 < 0x80 ∨ 0xBF < s2 then (utf8.RuneError, 1)
                  else if sz ≤ 3 then (b % 16 * 4096 + s1 % 64 * 64 + s2 % 64, 3)
                  else
                    match t2 with
                    | [] => (utf8.RuneError, 1)
                    | s3 :: _ =>
                      if s3 < 0x80 ∨ 0xBF < s3 then (utf8.RuneError, 1)
                      else (b % 8 * 262144 + s1 % 64 * 4096 + s2 % 64 * 64 + s3 % 64, 4) := by
      intro l
      simp only [utf8.DecodeRune, utf8.RuneSelf, hb, if_false]
      rfl
    cases hfi : utf8.firstInfo b with
    | none => left; exact ⟨hb1, by rw [heq, hfi]⟩
    | some p =>
      obtain ⟨sz, lo, hi⟩ := p
      obtain ⟨hlo, hhi, hsz⟩ := firstInfo_some b sz lo hi hfi
      by_cases hlen : (b :: rest).length < sz
      · left; exact ⟨hb1, by rw [heq, hfi]; simp only [hlen, if_true]⟩
      · cases rest with
        | nil => left; exact ⟨hb1, by rw [heq, hfi]; simp only [hlen, if_false]⟩
        | cons s1 t1 =>
          by_cases h1 : s1 < lo ∨ hi < s1
          · left; exact ⟨hb1, by rw [heq, hfi]; simp only [hlen, if_false, h1, if_true]⟩
          · by_cases hs2 : sz ≤ 2
            · right
              refine ⟨hb1, b % 32 * 64 + s1 % 64, [s1], t1, rfl, by simp, ?_, by omega, ?_⟩
              · intro x hx; rw [List.mem_singleton.mp hx]; omega
              · intro post1
                have hl : ¬ (b :: s1 :: post1).length < sz := by
                  simp only [List.length_cons]; omega
                rw [show [s1] ++ post1 = s1 :: post1 from rfl, heq, hfi]
                simp only [hl, if_false, h1, hs2, if_true]
                rfl
            · cases t1 with
              | nil =>
                left
                exact ⟨hb1, by rw [heq, hfi]; simp only [hlen, if_false, h1, hs2]⟩
              | cons s2 t2 =>
                by_cases h2 : s2 < 0x80 ∨ 0xBF < s2
                · left
                  exact ⟨hb1, by rw [heq, hfi]; simp only [hlen, if_false, h1, hs2, h2, if_true]⟩
                · by_cases hs3 : sz ≤ 3
                  · right
                    refine ⟨hb1, b % 16 * 4096 + s1 % 64 * 64 + s2 % 64, [s1, s2], t2, rfl,
                      by simp, ?_, by omega, ?_⟩
                    · intro x hx
                      simp only [List.mem_cons, List.mem_singleton, List.not_mem_nil,
                        or_false] at hx
                      rcases hx with rfl | rfl <;> omega
                    · intro post1
                      have hl : ¬ (b :: s1 :: s2 :: post1).length < sz := by
                        simp only [List.length_cons]; omega
                      rw [show [s1, s2] ++ post1 = s1 :: s2 :: post1 from rfl, heq, hfi]
                      simp only [hl, if_false, h1, hs2, h2, hs3, if_true]
                      rfl
                  · cases t2 with
                    | nil =>
                      left
                      exact ⟨hb1, by rw [heq, hfi]; simp only [hlen, if_false, h1, hs2, h2, hs3]⟩
                    | cons s3 t3 =>
                      by_cases h3 : s3 < 0x80 ∨ 0xBF < s3
                      · left
                        exact ⟨hb1, by
                          rw [heq, hfi]
                          simp only [hlen, if_false, h1, hs2, h2, hs3, h3, if_true]⟩
                      · right
                        refine ⟨hb1, b % 8 * 262144 + s1 % 64 * 4096 + s2 % 64 * 64 + s3 % 64,
                          [s1, s2, s3], t3, rfl, by simp, ?_, by omega, ?_⟩
                        · intro x hx
                          simp only [List.mem_cons, List.mem_singleton, List.not_mem_nil,
                            or_false] at hx
                          rcases hx with rfl | rfl | rfl <;> omega
                        · intro post1
                          have hl : ¬ (b :: s1 :: s2 :: s3 :: post1).length < sz := by
                            simp only [List.length_cons]; omega
                          rw [show [s1, s2, s3] ++ post1 = s1 :: s2 :: s3 :: post1 from rfl, heq,
                            hfi]
                          simp only [hl, if_false, h1, hs2, h2, hs3, h3]
                          rfl

/-- The width of a decoded rune is at least one. -/
theorem decodeRune_width (b : Nat) (rest : GoString) :
    1 ≤ (utf8.DecodeRune (b :: rest)).2 ∧ (utf8.DecodeRune (b :: rest)).2 ≤ rest.length + 1 := by
  rcases decodeRune_cases b rest with ⟨_, hd⟩ | ⟨_, hd⟩ | ⟨_, r, pre, post, hr, hl, _, _, hd⟩
  · rw [hd]; exact ⟨le_refl _, by simp⟩
  · rw [hd]; exact ⟨le_refl _, by simp⟩
  · subst hr
    rw [hd post]
    simp only [List.length_append]
    omega

/-! ### Trimming -/

theorem isSpace_runeError : unicode.IsSpace utf8.RuneError = false := by decide

/-- What `indexFunc` passes over before the first rune that is not white space is made
of white space bytes. -/
theorem indexFunc_space :
    ∀ (s : GoString) (skip i : Nat), skip ≤ s.length → (∀ x ∈ s.take skip, 128 ≤ x) →
      match strings.indexFunc unicode.IsSpace false s skip i with
      | none => ∀ x ∈ s, SpaceByte x
      | some k => ∃ n, k = i + n ∧ n ≤ s.length ∧ ∀ x ∈ s.take n, SpaceByte x := by
  intro s
  induction s with
  | nil => intro skip i _ _; simp [strings.indexFunc]
  | cons b rest ih =>
    intro skip i hskip hpre
    cases skip with
    | succ skip =>
      simp only [strings.indexFunc]
      have hb : 128 ≤ b := hpre b (by simp)
      have := ih skip (i + 1) (by simpa using hskip)
        (fun x hx => hpre x (by simp only [List.take_succ_cons]; exact List.mem_cons_of_mem _ hx))
      cases hres : strings.indexFunc unicode.IsSpace false rest skip (i + 1) with
      | none =>
        rw [hres] at this
        simp only at this ⊢
        intro x hx
        rcases List.mem_cons.mp hx with rfl | hx
        · exact Or.inr hb
        · exact this x hx
      | some k =>
        rw [hres] at this
        simp only at this ⊢
        obtain ⟨n, hk, hn, hall⟩ := this
        refine ⟨n + 1, by omega, by simp only [List.length_cons]; omega, ?_⟩
        intro x hx
        simp only [List.take_succ_cons] at hx
        rcases List.mem_cons.mp hx with rfl | hx
        · exact Or.inr hb
        · exact hall x hx
    | zero =>
      simp only [strings.indexFunc]
      by_cases hsp : unicode.IsSpace (utf8.DecodeRune (b :: rest)).1 = false
      · rw [if_pos hsp]
        exact ⟨0, rfl, by simp, by simp⟩
      · rw [if_neg hsp]
        have hsp1 : unicode.IsSpace (utf8.DecodeRune (b :: rest)).1 = true := by simpa using hsp
        have key : SpaceByte b ∧ (utf8.DecodeRune (b :: rest)).2 - 1 ≤ rest.length ∧
            ∀ x ∈ rest.take ((utf8.DecodeRune (b :: rest)).2 - 1), 128 ≤ x := by
          rcases decodeRune_cases b rest with ⟨hb, hd⟩ | ⟨hb, hd⟩ | ⟨hb, r, pre, post, hr, hl, hp, _, hd⟩
          · rw [hd] at hsp1 ⊢
            exact ⟨Or.inl hsp1, by simp, by simp⟩
          · rw [hd, isSpace_runeError] at hsp1
            cases hsp1
          · subst hr
            rw [hd post]
            refine ⟨Or.inr hb, by simp, ?_⟩
            intro x hx
            simp only [Nat.add_sub_cancel, List.take_left'] at hx
            exact hp x (by simpa using hx)
        obtain ⟨hb, hle, hge⟩ := key
        have := ih ((utf8.DecodeRune (b :: rest)).2 - 1) (i + 1) hle hge
        cases hres : strings.indexFunc unicode.IsSpace false rest
            ((utf8.DecodeRune (b :: rest)).2 - 1) (i + 1) with
        | none =>
          rw [hres] at this
          simp only at this ⊢
          intro x hx
          rcases List.mem_cons.mp hx with rfl | hx
          · exact hb
          · exact this x hx
        | some k =>
          rw [hres] at this
          simp only at this ⊢
          obtain ⟨n, hk, hn, hall⟩ := this
          refine ⟨n + 1, by omega, by simp only [List.length_cons]; omega, ?_⟩
          intro x hx
          simp only [List.take_succ_cons] at hx
          rcases List.mem_cons.mp hx with rfl | hx
          · exact hb
          · exact hall x hx

/-- What `TrimLeftFunc` removes is made of white space bytes. -/
theorem trimLeft_split (s : GoString) :
    ∃ pre, s = pre ++ strings.TrimLeftFunc s unicode.IsSpace ∧ ∀ x ∈ pre, SpaceByte x := by
  have := indexFunc_space s 0 0 (Nat.zero_le _) (by simp)
  unfold strings.TrimLeftFunc
  cases hres : strings.indexFunc unicode.IsSpace false s 0 0 with
  | none =>
    rw [hres] at this
    exact ⟨s, by simp, this⟩
  | some k =>
    rw [hres] at this
    obtain ⟨n, hk, _, hall⟩ := this
    have hkn : k = n := by omega
    subst hkn
    exact ⟨s.take k, (List.take_append_drop k s).symm, hall⟩

theorem backToStart_le (s : GoString) (lim : Int) :
    ∀ (fuel : Nat) (start : Int), utf8.backToStart s lim fuel start ≤ start := by
  intro fuel
  induction fuel with
  | zero => intro start; simp [utf8.backToStart]
  | succ fuel ih =>
    intro start
    simp only [utf8.backToStart]
    split_ifs
    · exact le_refl _
    · exact le_trans (ih (start - 1)) (by omega)
    · exact le_refl _

/-- The last rune of a text that is not empty: its width is between one and the length
of the text; when it is white space, its bytes are white space bytes; its width is one,
or it is also what decoding forward at its first byte gives. -/
theorem decodeLastRune_spec (t : GoString) (h : t ≠ []) :
    1 ≤ (utf8.DecodeLastRune t).2 ∧ (utf8.DecodeLastRune t).2 ≤ t.length ∧
    (unicode.IsSpace (utf8.DecodeLastRune t).1 = true →
      ∀ x ∈ t.drop (t.length - (utf8.DecodeLastRune t).2), SpaceByte x) ∧
    ((utf8.DecodeLastRune t).2 = 1 ∨
      utf8.DecodeRune (t.drop (t.length - (utf8.DecodeLastRune t).2)) = utf8.DecodeLastRune t) := by
  rcases List.eq_nil_or_concat t with h0 | ⟨L, b, rfl⟩
  · exact absurd h0 h
  rw [List.concat_eq_append] at h ⊢
  have hlen : (L ++ [b]).length = L.length + 1 := by simp
  have hget : (L ++ [b]).getD (L.length + 1 - 1) 0 = b := by simp
  have hdrop1 : (L ++ [b]).drop (L.length + 1 - 1) = [b] := by simp
  unfold utf8.DecodeLastRune
  simp only [hlen, Nat.add_one_ne_zero, if_false, hget]
  by_cases hb : b < utf8.RuneSelf
  · simp only [hb, if_true, hdrop1]
    refine ⟨le_refl _, by omega, ?_, ?_⟩
    · intro hsp x hx
      rw [List.mem_singleton.mp hx]
      exact Or.inl hsp
    · exact Or.inl trivial
  · simp only [hb, if_false]
    have hb1 : 128 ≤ b := by simp only [utf8.RuneSelf] at hb; omega
    generalize hlim : (if ((L.length + 1 : Nat) : Int) - (utf8.UTFMax : Nat) < 0 then (0 : Int)
      else ((L.length + 1 : Nat) : Int) - (utf8.UTFMax : Nat)) = lim
    have hs0 := backToStart_le (L ++ [b]) lim utf8.UTFMax (((L.length + 1 : Nat) : Int) - 2)
    generalize utf8.backToStart (L ++ [b]) lim utf8.UTFMax (((L.length + 1 : Nat) : Int) - 2) = start0
      at hs0
    generalize hstart : (if start0 < 0 then 0 else start0.toNat) = start
    have hlt : start < L.length + 1 := by
      rw [← hstart]
      split_ifs <;> omega
    by_cases hne : start + (utf8.DecodeRune ((L ++ [b]).drop start)).2 ≠ L.length + 1
    · rw [if_pos hne]
      refine ⟨le_refl _, by omega, ?_, Or.inl rfl⟩
      intro hsp
      rw [isSpace_runeError] at hsp
      cases hsp
    · rw [if_neg hne]
      have he : start + (utf8.DecodeRune ((L ++ [b]).drop start)).2 = L.length + 1 := by
        simpa using hne
      have hsub : L.length + 1 - (utf8.DecodeRune ((L ++ [b]).drop start)).2 = start := by omega
      rw [hsub]
      refine ⟨by omega, by omega, ?_, Or.inr rfl⟩
      intro hsp x hx
      have hdl : ((L ++ [b]).drop start).length =
          (utf8.DecodeRune ((L ++ [b]).drop start)).2 := by
        simp only [List.length_drop, hlen]; omega
      have hlast : ((L ++ [b]).drop start).getLast? = some b := by
        rw [List.getLast?_drop]
        simp only [hlen, List.getLast?_append, List.getLast?_singleton]
        rw [if_neg (by omega)]
        rfl
      cases hdr : (L ++ [b]).drop start with
      | nil => rw [hdr] at hx; cases hx
      | cons b1 rest1 =>
        rw [hdr] at hsp hx hdl hlast
        rcases decodeRune_cases b1 rest1 with ⟨hb2, hd⟩ | ⟨hb2, hd⟩ | ⟨hb2, r, pre, post, hr, hl, hp, _, hd⟩
        · rw [hd] at hdl
          simp only [List.length_cons] at hdl
          have : rest1 = [] := List.length_eq_zero.mp (by omega)
          subst this
          simp only [List.getLast?_singleton, Option.some.injEq] at hlast
          omega
        · rw [hd, isSpace_runeError] at hsp
          cases hsp
        · subst hr
          rw [hd post] at hdl
          simp only [List.length_cons, List.length_append] at hdl
          have : post = [] := List.length_eq_zero.mp (by omega)
          subst this
          rcases List.mem_cons.mp hx with rfl | hx
          · exact Or.inr hb2
          · exact Or.inr (hp x (by simpa using hx))

/-- What `lastIndexFunc` passes over, from the index `i` down to the last rune that is
not white space, is made of white space bytes. -/
theorem lastIndexFunc_space (s : GoString) :
    ∀ (fuel i : Nat), i ≤ fuel → i ≤ s.length →
      match strings.lastIndexFunc unicode.IsSpace false s fuel i with
      | none => ∀ x ∈ s.take i, SpaceByte x
      | some k => ∃ e, k < e ∧ e ≤ i ∧ (∀ x ∈ (s.take i).drop e, SpaceByte x) ∧
          k = e - (utf8.DecodeLastRune (s.take e)).2 ∧
          (utf8.DecodeLastRune (s.take e)).2 ≤ e ∧
          unicode.IsSpace (utf8.DecodeLastRune (s.take e)).1 = false := by
  intro fuel
  induction fuel with
  | zero =>
    intro i hi _
    have : i = 0 := by omega
    subst this
    simp [strings.lastIndexFunc]
  | succ fuel ih =>
    intro i hi hlen
    simp only [strings.lastIndexFunc]
    by_cases hpos : i > 0
    · rw [if_pos hpos]
      have hne : s.take i ≠ [] := by
        intro h0
        have := congrArg List.length h0
        simp only [List.length_take, List.length_nil] at this
        omega
      have htl : (s.take i).length = i := by simp only [List.length_take]; omega
      obtain ⟨d1, d2, d3, _⟩ := decodeLastRune_spec (s.take i) hne
      rw [htl] at d2 d3
      by_cases hsp : unicode.IsSpace (utf8.DecodeLastRune (s.take i)).1 = false
      · rw [if_pos hsp]
        refine ⟨i, by omega, le_refl _, ?_, rfl, d2, hsp⟩
        intro x hx
        rw [List.drop_of_length_le (by omega)] at hx
        cases hx
      · rw [if_neg hsp]
        have hsp1 : unicode.IsSpace (utf8.DecodeLastRune (s.take i)).1 = true := by
          simpa using hsp
        have htail := d3 hsp1
        generalize (utf8.DecodeLastRune (s.take i)).2 = w at d1 d2 htail
        have hsplit : s.take i = s.take (i - w) ++ (s.take i).drop (i - w) := by
          have := (List.take_append_drop (i - w) (s.take i)).symm
          rw [List.take_take, Nat.min_eq_left (by omega)] at this
          exact this
        have := ih (i - w) (by omega) (by omega)
        cases hres : strings.lastIndexFunc unicode.IsSpace false s fuel (i - w) with
        | none =>
          rw [hres] at this
          simp only at this ⊢
          intro x hx
          rw [hsplit] at hx
          rcases List.mem_append.mp hx with hx | hx
          · exact this x hx
          · exact htail x hx
        | some k =>
          rw [hres] at this
          simp only at this ⊢
          obtain ⟨e, h1, h2, h3, h4, h5, h6⟩ := this
          refine ⟨e, h1, by omega, ?_, h4, h5, h6⟩
          intro x hx
          rw [hsplit, List.drop_append_of_le_length
            (by simp only [List.length_take]; omega)] at hx
          rcases List.mem_append.mp hx with hx | hx
          · exact h3 x hx
          · exact htail x hx
    · rw [if_neg hpos]
      have : i = 0 := by omega
      subst this
      simp

/-- What `TrimRightFunc` removes is made of white space bytes. -/
theorem trimRight_split (s : GoString) :
    ∃ post, s = strings.TrimRightFunc s unicode.IsSpace ++ post ∧ ∀ x ∈ post, SpaceByte x := by
  have := lastIndexFunc_space s s.length s.length (le_refl _) (le_refl _)
  unfold strings.TrimRightFunc
  cases hres : strings.lastIndexFunc unicode.IsSpace false s s.length s.length with
  | none =>
    rw [hres] at this
    simp only at this ⊢
    rw [List.take_length] at this
    exact ⟨s, by simp, this⟩
  | some k =>
    rw [hres] at this
    simp only at this ⊢
    obtain ⟨e, h1, h2, h3, h4, h5, h6⟩ := this
    rw [List.take_length] at h3
    have hne : s.take e ≠ [] := by
      intro h0
      have := congrArg List.length h0
      simp only [List.length_take, List.length_nil] at this
      omega
    have htl : (s.take e).length = e := by simp only [List.length_take]; omega
    obtain ⟨d1, _, _, d4⟩ := decodeLastRune_spec (s.take e) hne
    rw [htl, ← h4] at d4
    have hdk : s.drop k = (s.take e).drop k ++ s.drop e := by
      conv_lhs => rw [← List.take_append_drop e s]
      rw [List.drop_append_of_le_length (by rw [htl]; omega)]
    have key : ∀ u, e ≤ k + u → ∃ post, s = s.take (k + u) ++ post ∧ ∀ x ∈ post, SpaceByte x := by
      intro u hu
      refine ⟨s.drop (k + u), (List.take_append_drop _ s).symm, ?_⟩
      intro x hx
      apply h3 x
      have : s.drop (k + u) = (s.drop e).drop (k + u - e) := by
        rw [List.drop_drop]
        congr 1
        omega
      rw [this] at hx
      exact List.mem_of_mem_drop hx
    cases hdr : (s.take e).drop k with
    | nil =>
      have := congrArg List.length hdr
      simp only [List.length_drop, htl, List.length_nil] at this
      omega
    | cons b1 rest1 =>
      rw [hdr] at hdk d4
      have hgk : s.getD k 0 = b1 := by
        have : s[k]? = some b1 := by
          rw [← List.head?_drop, hdk]
          rfl
        rw [List.getD_eq_getElem?_getD, this]
        rfl
      rw [hgk]
      rcases decodeRune_cases b1 rest1 with ⟨hb2, hd⟩ | ⟨hb2, hd⟩ | ⟨hb2, r, pre, post, hr, hl, hp, _, hd⟩
      · have hw : (utf8.DecodeLastRune (s.take e)).2 = 1 := by
          rcases d4 with d4 | d4
          · exact d4
          · rw [← d4, hd]
        rw [if_neg (by simp only [utf8.RuneSelf]; omega)]
        exact key 1 (by omega)
      · rw [if_pos (by simp only [utf8.RuneSelf]; omega)]
        have hw : (utf8.DecodeLastRune (s.take e)).2 = 1 := by
          rcases d4 with d4 | d4
          · exact d4
          · rw [← d4, hd]
        have hwid := (decodeRune_width b1 (rest1 ++ s.drop e)).1
        rw [hdk, List.cons_append]
        exact key _ (by omega)
      · rw [if_pos (by simp only [utf8.RuneSelf]; omega)]
        subst hr
        rw [hdk, List.cons_append, List.append_assoc, hd]
        apply key
        rcases d4 with d4 | d4
        · omega
        · rw [hd] at d4
          rw [← d4] at h4
          simp only at h4
          omega

/-- What `TrimSpace` removes, on both sides, is made of white space bytes. -/
theorem trimSpace_split (s : GoString) :
    ∃ pre post, s = pre ++ strings.TrimSpace s ++ post ∧ (∀ x ∈ pre, SpaceByte x) ∧
      ∀ x ∈ post, SpaceByte x := by
  obtain ⟨pre, h1, h2⟩ := trimLeft_split s
  obtain ⟨post, h3, h4⟩ := trimRight_split (strings.TrimLeftFunc s unicode.IsSpace)
  refine ⟨pre, post, ?_, h2, h4⟩
  unfold strings.TrimSpace strings.TrimFunc
  rw [List.append_assoc, ← h3, ← h1]

/-! ### Splitting at white space -/

theorem fields_nil : fields [] = [] := by decide

theorem fields_cons_space (b : Nat) (s : GoString) (h : unicode.IsSpace b = true) :
    fields (b :: s) = fields s := by
  simp [fields, List.splitOnP_cons, h]

theorem fields_append_left (pre s : GoString) (h : ∀ x ∈ pre, unicode.IsSpace x = true) :
    fields (pre ++ s) = fields s := by
  induction pre with
  | nil => rfl
  | cons b rest ih =>
    rw [List.cons_append, fields_cons_space _ _ (h b (List.mem_cons_self _ _))]
    exact ih (fun x hx => h x (List.mem_cons_of_mem _ hx))

theorem splitOnP_append_spaces (p : Nat → Bool) (post : GoString) (h : ∀ x ∈ post, p x = true) :
    ∀ s : GoString, (s ++ post).splitOnP p = s.splitOnP p ++ List.replicate post.length [] := by
  intro s
  induction s with
  | nil =>
    induction post with
    | nil => simp [List.splitOnP_nil]
    | cons b rest ih =>
      have hb := h b (List.mem_cons_self _ _)
      have := ih (fun x hx => h x (List.mem_cons_of_mem _ hx))
      simp only [List.nil_append, List.splitOnP_nil, List.splitOnP_cons, hb, if_true,
        List.length_cons, List.replicate_succ] at this ⊢
      rw [this]
      simp
  | cons a rest ih =>
    rw [List.cons_append, List.splitOnP_cons, List.splitOnP_cons, ih]
    by_cases ha : p a = true
    · simp [ha]
    · simp only [ha, if_false]
      cases hs : List.splitOnP p rest with
      | nil => exact absurd hs (List.splitOnP_ne_nil _ _)
      | cons x xs => rfl

theorem fields_append_right (s post : GoString) (h : ∀ x ∈ post, unicode.IsSpace x = true) :
    fields (s ++ post) = fields s := by
  unfold fields
  rw [splitOnP_append_spaces _ post h s, List.filter_append]
  have : List.filter (fun t => !t.isEmpty) (List.replicate post.length ([] : GoString)) = [] := by
    rw [List.filter_eq_nil_iff]
    intro a ha
    rw [(List.mem_replicate.mp ha).2]
    simp
  rw [this, List.append_nil]

/-- No piece of a split contains a separator. -/
theorem splitOnP_no_sep (p : Nat → Bool) :
    ∀ (s : GoString), ∀ t ∈ s.splitOnP p, ∀ b ∈ t, p b = false := by
  intro s
  induction s with
  | nil =>
    intro t ht b hb
    simp only [List.splitOnP_nil, List.mem_singleton] at ht
    subst ht
    cases hb
  | cons a rest ih =>
    intro t ht b hb
    rw [List.splitOnP_cons] at ht
    by_cases ha : p a = true
    · simp only [ha, if_true, List.mem_cons] at ht
      rcases ht with rfl | ht
      · cases hb
      · exact ih t ht b hb
    · simp only [ha, if_false] at ht
      cases hs : List.splitOnP p rest with
      | nil => exact absurd hs (List.splitOnP_ne_nil _ _)
      | cons x xs =>
        rw [hs] at ht ih
        simp only [List.modifyHead_cons] at ht
        rcases List.mem_cons.mp ht with h1 | h2
        · rw [h1] at hb
          rcases List.mem_cons.mp hb with hb | hb
          · rw [hb]; simpa using ha
          · exact ih x (List.mem_cons_self _ _) b hb
        · exact ih t (List.mem_cons_of_mem _ h2) b hb

/-- Outside a quoted span, on ASCII text without a quote, the loop splits at white
space: with the token pending at the end, the tokens are those found before, followed by
the pieces of the text that are not empty, the first piece being joined to the bytes
accumulated before. -/
theorem loop_ascii :
    ∀ (s : GoString) (prev : Option Nat) (cur : List Nat) (args : List GoString) (dbs : Bool),
      (∀ b ∈ s, b < 128) → 34 ∉ s →
      ∃ cur1 args1, loop s 0 prev ⟨cur, args, false, dbs⟩ = some ⟨cur1, args1, false, dbs⟩ ∧
        (if cur1.length ≠ 0 then args1 ++ [cur1] else args1) =
          args ++ ((s.splitOnP unicode.IsSpace).modifyHead (cur ++ ·)).filter
            (fun t => !t.isEmpty) := by
  intro s
  induction s with
  | nil =>
    intro prev cur args dbs _ _
    refine ⟨cur, args, rfl, ?_⟩
    cases cur <;> simp [List.splitOnP_nil]
  | cons b rest ih =>
    intro prev cur args dbs hasc hq
    have hb : b < 128 := hasc b (List.mem_cons_self _ _)
    have hb34 : b ≠ 34 := fun e => hq (by rw [e]; exact List.mem_cons_self _ _)
    have hrest : ∀ x ∈ rest, x < 128 := fun x hx => hasc x (List.mem_cons_of_mem _ hx)
    have hq2 : 34 ∉ rest := fun h => hq (List.mem_cons_of_mem _ h)
    have hmod : b % 256 = b := by omega
    have hid : ∀ l : List GoString, List.modifyHead (fun x => x) l = l := by
      intro l; cases l <;> rfl
    simp only [loop, decodeRune_ascii b rest hb, Nat.sub_self]
    rw [List.splitOnP_cons]
    by_cases hsp : unicode.IsSpace b = true
    · by_cases hc : cur = []
      · subst hc
        have hbody : body prev b ⟨[], args, false, dbs⟩ = some ⟨[], args, false, dbs⟩ := by
          simp [body, hb34, hsp]
        rw [hbody]
        obtain ⟨cur1, args1, h1, h2⟩ := ih (some b) [] args dbs hrest hq2
        refine ⟨cur1, args1, h1, ?_⟩
        rw [h2]
        simp [hsp, hid]
      · have hbody : body prev b ⟨cur, args, false, dbs⟩ =
            some ⟨[], args ++ [cur], false, dbs⟩ := by
          simp [body, hb34, hsp, hc]
        rw [hbody]
        obtain ⟨cur1, args1, h1, h2⟩ := ih (some b) [] (args ++ [cur]) dbs hrest hq2
        refine ⟨cur1, args1, h1, ?_⟩
        rw [h2]
        simp [hsp, hc, hid]
    · have hbody : body prev b ⟨cur, args, false, dbs⟩ =
          some ⟨cur ++ [b], args, false, dbs⟩ := by
        simp [body, hb34, hsp, hmod]
      rw [hbody]
      obtain ⟨cur1, args1, h1, h2⟩ := ih (some b) (cur ++ [b]) args dbs hrest hq2
      refine ⟨cur1, args1, h1, ?_⟩
      rw [h2]
      have hf : (fun x => cur ++ [b] ++ x) = ((fun x => cur ++ x) ∘ List.cons b) := by
        funext t
        simp
      have hsp2 : unicode.IsSpace b = false := by simpa using hsp
      simp only [hsp2, Bool.false_eq_true, if_false, List.modifyHead_modifyHead]
      rw [hf]

theorem fields_single (t : GoString) (hne : t ≠ []) (h : ∀ b ∈ t, unicode.IsSpace b = false) :
    fields t = [t] := by
  unfold fields
  rw [List.splitOnP_eq_single unicode.IsSpace t (fun x hx => by simp [h x hx])]
  cases t with
  | nil => exact absurd rfl hne
  | cons a r => rfl

theorem fields_run (t : GoString) (b : Nat) (s : GoString) (hne : t ≠ [])
    (h : ∀ x ∈ t, unicode.IsSpace x = false) (hb : unicode.IsSpace b = true) :
    fields (t ++ b :: s) = t :: fields s := by
  unfold fields
  rw [List.splitOnP_first unicode.IsSpace t (fun x hx => by simp [h x hx]) b hb]
  cases t with
  | nil => exact absurd rfl hne
  | cons a r => rfl

/-- C11. Tokenizer whitespace splitting. For every line of ASCII bytes without a double
quote, `parseCmdStr` succeeds and returns `fields line`, the maximal runs of
non-whitespace bytes of the line in order. `fields` is determined by four equations: the
empty line has no run, a leading whitespace byte is passed over, a non-empty text
without whitespace is one run, and such a text followed by a whitespace byte is the
first run of the line. Hence no returned token is empty or contains whitespace, and
whitespace before and after a line adds no token. The line `cmd arg1 arg2 arg3` gives
the four tokens and `cmd ` gives the single token `cmd`. -/
theorem whitespace_splitting :
    (∀ line : GoString, (∀ b ∈ line, b < 128) → 34 ∉ line →
      parseCmdStr line = .tokens (fields line)) ∧
    (fields [] = [] ∧
      (∀ (b : Nat) (s : GoString), unicode.IsSpace b = true → fields (b :: s) = fields s) ∧
      (∀ t : GoString, t ≠ [] → (∀ b ∈ t, unicode.IsSpace b = false) → fields t = [t]) ∧
      (∀ (t : GoString) (b : Nat) (s : GoString), t ≠ [] →
        (∀ x ∈ t, unicode.IsSpace x = false) → unicode.IsSpace b = true →
        fields (t ++ b :: s) = t :: fields s)) ∧
    (∀ (line : GoString), ∀ t ∈ fields line, t ≠ [] ∧ ∀ b ∈ t, unicode.IsSpace b = false) ∧
    (∀ (pre line post : GoString), (∀ b ∈ pre, unicode.IsSpace b = true) →
      (∀ b ∈ post, unicode.IsSpace b = true) → fields (pre ++ line ++ post) = fields line) ∧
    parseCmdStr (str "cmd arg1 arg2 arg3") =
      .tokens [str "cmd", str "arg1", str "arg2", str "arg3"] ∧
    parseCmdStr (str "cmd ") = .tokens [str "cmd"] := by
  refine ⟨?_, ⟨fields_nil, fields_cons_space, fields_single, fields_run⟩, ?_, ?_, by decide,
    by decide⟩
  · intro line hasc hq
    obtain ⟨pre, post, hsplit, hpre, hpost⟩ := trimSpace_split line
    have hmem : ∀ x, x ∈ strings.TrimSpace line → x ∈ line := by
      intro x hx
      rw [hsplit]
      exact List.mem_append_left _ (List.mem_append_right _ hx)
    have hsp : ∀ l : GoString, (∀ x ∈ l, x ∈ line) → (∀ x ∈ l, SpaceByte x) →
        ∀ x ∈ l, unicode.IsSpace x = true := by
      intro l hl hs x hx
      rcases hs x hx with h | h
      · exact h
      · have := hasc x (hl x hx)
        omega
    have hpre2 := hsp pre (fun x hx => by
      rw [hsplit]; exact List.mem_append_left _ (List.mem_append_left _ hx)) hpre
    have hpost2 := hsp post (fun x hx => by
      rw [hsplit]; exact List.mem_append_right _ hx) hpost
    obtain ⟨cur1, args1, h1, h2⟩ := loop_ascii (strings.TrimSpace line) none [] [] false
      (fun b hb => hasc b (hmem b hb)) (fun h => hq (hmem 34 h))
    have hid : ∀ l : List GoString, List.modifyHead (fun x => x) l = l := by
      intro l; cases l <;> rfl
    unfold parseCmdStr
    simp only [h1, Bool.false_eq_true, if_false, h2, List.nil_append, hid]
    conv_rhs => rw [hsplit, fields_append_right _ post hpost2, fields_append_left pre _ hpre2]
    rfl
  · intro line t ht
    unfold fields at ht
    obtain ⟨h1, h2⟩ := List.mem_filter.mp ht
    refine ⟨?_, splitOnP_no_sep unicode.IsSpace line t h1⟩
    intro h0
    rw [h0] at h2
    simp at h2
  · intro pre line post hpre hpost
    rw [fields_append_right _ post hpost, fields_append_left pre _ hpre]

/-- Witness for C11: the line ` a  b ` of ASCII bytes. -/
theorem whitespace_splitting_witness :
    parseCmdStr [32, 97, 32, 32, 98, 32] = .tokens (fields [32, 97, 32, 32, 98, 32]) :=
  whitespace_splitting.1 [32, 97, 32, 32, 98, 32] (by decide) (by decide)

/-! ### Unterminated quotes -/

/-- An iteration of the loop on a rune that is not a backslash, when inside a span the
byte before is not a backslash: it does not panic, and the loop is inside a span
afterwards exactly when it was outside before a quote or inside before another rune. -/
theorem body_toggle (prev : Option Nat) (char : Nat) (st : LoopState) (hc : char ≠ 92)
    (hprev : st.parsingQuotedArg = true → ∃ p, prev = some p ∧ p ≠ 92) :
    ∃ st1, body prev char st = some st1 ∧
      st1.parsingQuotedArg = (st.parsingQuotedArg != decide (char = 34)) := by
  obtain ⟨cur, args, q, dbs⟩ := st
  cases q with
  | true =>
    obtain ⟨p, rfl, hp⟩ := hprev rfl
    by_cases h34 : char = 34
    · subst h34
      exact ⟨⟨[], args ++ [cur], false, false⟩, by simp [body, hp], by simp⟩
    · exact ⟨⟨cur ++ [char % 256], args, true, false⟩, by simp [body, h34, hc], by simp [h34]⟩
  | false =>
    by_cases h34 : char = 34
    · subst h34
      exact ⟨⟨cur, args, true, dbs⟩, by simp [body], by simp⟩
    · by_cases hsp : unicode.IsSpace char = true
      · by_cases hcur : cur = []
        · exact ⟨⟨cur, args, false, dbs⟩, by simp [body, h34, hsp, hcur], by simp [h34]⟩
        · exact ⟨⟨[], args ++ [cur], false, dbs⟩, by simp [body, h34, hsp, hcur], by simp [h34]⟩
      · exact ⟨⟨cur ++ [char % 256], args, false, dbs⟩, by simp [body, h34, hsp],
          by simp [h34]⟩

/-- On a text without a backslash the loop does not panic, and every quote switches
between inside and outside a span. -/
theorem loop_toggle :
    ∀ (s : GoString) (skip : Nat) (prev : Option Nat) (st : LoopState), 92 ∉ s →
      skip ≤ s.length → (∀ x ∈ s.take skip, 128 ≤ x) →
      (st.parsingQuotedArg = true → ∃ p, prev = some p ∧ p ≠ 92) →
      ∃ st1, loop s skip prev st = some st1 ∧
        st1.parsingQuotedArg = (st.parsingQuotedArg != decide (s.count 34 % 2 = 1)) := by
  intro s
  induction s with
  | nil =>
    intro skip prev st _ _ _ _
    exact ⟨st, rfl, by simp⟩
  | cons b rest ih =>
    intro skip prev st h92 hskip hpre hprev
    have hb92 : b ≠ 92 := fun e => h92 (by rw [e]; exact List.mem_cons_self _ _)
    have h92r : 92 ∉ rest := fun h => h92 (List.mem_cons_of_mem _ h)
    cases skip with
    | succ skip =>
      simp only [loop]
      have hb : 128 ≤ b := hpre b (by simp)
      obtain ⟨st1, h1, h2⟩ := ih skip (some b) st h92r (by simpa using hskip)
        (fun x hx => hpre x (by simp only [List.take_succ_cons]; exact List.mem_cons_of_mem _ hx))
        (fun _ => ⟨b, rfl, hb92⟩)
      refine ⟨st1, h1, ?_⟩
      rw [h2, List.count_cons_of_ne (by omega)]
    | zero =>
      simp only [loop]
      have key : ∃ st2, body prev (utf8.DecodeRune (b :: rest)).1 st = some st2 ∧
          st2.parsingQuotedArg = (st.parsingQuotedArg != decide (b = 34)) ∧
          (utf8.DecodeRune (b :: rest)).2 - 1 ≤ rest.length ∧
          ∀ x ∈ rest.take ((utf8.DecodeRune (b :: rest)).2 - 1), 128 ≤ x := by
        rcases decodeRune_cases b rest with ⟨hb, hd⟩ | ⟨hb, hd⟩ | ⟨hb, r, pre, post, hr, hl, hp, hr128, hd⟩
        · rw [hd]
          obtain ⟨st2, h1, h2⟩ := body_toggle prev b st hb92 hprev
          exact ⟨st2, h1, h2, by simp, by simp⟩
        · rw [hd]
          obtain ⟨st2, h1, h2⟩ := body_toggle prev utf8.RuneError st (by decide) hprev
          refine ⟨st2, h1, ?_, by simp, by simp⟩
          rw [h2]
          have : b ≠ 34 := by omega
          simp [this, utf8.RuneError]
        · subst hr
          rw [hd post]
          obtain ⟨st2, h1, h2⟩ := body_toggle prev r st (by omega) hprev
          refine ⟨st2, h1, ?_, by simp, ?_⟩
          · rw [h2]
            have h3 : b ≠ 34 := by omega
            have h4 : r ≠ 34 := by omega
            simp [h3, h4]
          · intro x hx
            simp only [Nat.add_sub_cancel, List.take_left'] at hx
            exact hp x (by simpa using hx)
      obtain ⟨st2, hb1, hb2, hb3, hb4⟩ := key
      rw [hb1]
      obtain ⟨st1, h1, h2⟩ := ih ((utf8.DecodeRune (b :: rest)).2 - 1) (some b) st2 h92r hb3 hb4
        (fun _ => ⟨b, rfl, hb92⟩)
      refine ⟨st1, h1, ?_⟩
      rw [h2, hb2]
      by_cases h34 : b = 34
      · subst h34
        rw [List.count_cons_self]
        rcases Nat.mod_two_eq_zero_or_one (List.count 34 rest) with h0 | h0
        · have : (List.count 34 rest + 1) % 2 = 1 := by omega
          cases st.parsingQuotedArg <;> simp [h0, this]
        · have : (List.count 34 rest + 1) % 2 = 0 := by omega
          cases st.parsingQuotedArg <;> simp [h0, this]
      · rw [List.count_cons_of_ne (fun e => h34 e.symm)]
        simp [h34]

theorem spaceByte_ne_quote (x : Nat) (h : SpaceByte x) : x ≠ 34 := by
  rcases h with h | h
  · intro e
    rw [e] at h
    revert h
    decide
  · omega

/-- Trimming removes no quote. -/
theorem trimSpace_count (s : GoString) : (strings.TrimSpace s).count 34 = s.count 34 := by
  obtain ⟨pre, post, hsplit, hpre, hpost⟩ := trimSpace_split s
  have h0 : ∀ l : GoString, (∀ x ∈ l, SpaceByte x) → l.count 34 = 0 := by
    intro l hl
    rw [List.count_eq_zero]
    intro hin
    exact spaceByte_ne_quote 34 (hl 34 hin) rfl
  conv_rhs => rw [hsplit]
  rw [List.count_append, List.count_append, h0 pre hpre, h0 post hpost]
  omega

/-- C12. Unterminated quote is a syntax error. `parseCmdStr` returns the syntax error,
which carries no token, exactly when the loop over the trimmed line ends inside a quoted
span. For every line that contains no backslash, the loop ends without a panic, the
result is the syntax error exactly when the number of double quotes of the line is odd,
and for an even number a token list is returned. -/
theorem unterminated_quote :
    (∀ input : GoString, parseCmdStr input = .syntaxError ↔
      ∃ st, loop (strings.TrimSpace input) 0 none ⟨[], [], false, false⟩ = some st ∧
        st.parsingQuotedArg = true) ∧
    (∀ input : GoString, 92 ∉ input →
      (parseCmdStr input = .syntaxError ↔ input.count 34 % 2 = 1) ∧
      (input.count 34 % 2 = 0 → ∃ args, parseCmdStr input = .tokens args)) ∧
    parseCmdStr (str "cmd \"arg") = .syntaxError := by
  refine ⟨?_, ?_, by decide⟩
  · intro input
    unfold parseCmdStr
    simp only
    cases hl : loop (strings.TrimSpace input) 0 none ⟨[], [], false, false⟩ with
    | none => simp
    | some st =>
      simp only [Option.some.injEq, exists_eq_left']
      cases hq : st.parsingQuotedArg <;> simp
  · intro input h92
    obtain ⟨pre, post, hsplit, _, _⟩ := trimSpace_split input
    have h92t : 92 ∉ strings.TrimSpace input := by
      intro h
      apply h92
      rw [hsplit]
      exact List.mem_append_left _ (List.mem_append_right _ h)
    obtain ⟨st1, h1, h2⟩ := loop_toggle (strings.TrimSpace input) 0 none ⟨[], [], false, false⟩
      h92t (Nat.zero_le _) (by simp) (by simp)
    rw [trimSpace_count] at h2
    unfold parseCmdStr
    simp only [h1, h2]
    by_cases hodd : input.count 34 % 2 = 1
    · simp [hodd]
    · have : input.count 34 % 2 = 0 := by omega
      simp [hodd, this]

/-- Witness for C12: a line with three quotes and no backslash. -/
theorem unterminated_quote_witness :
    (parseCmdStr (str "a \"b\" \"c") = .syntaxError ↔ (str "a \"b\" \"c").count 34 % 2 = 1) ∧
      ((str "a \"b\" \"c").count 34 % 2 = 0 → ∃ args, parseCmdStr (str "a \"b\" \"c") = .tokens args) :=
  unterminated_quote.2.1 (str "a \"b\" \"c") (by decide)

/-! ### Characters outside ASCII -/

/-- C13 at a failing input. The line `é` is the two bytes 195, 169, contains no white
space and no quote; `parseCmdStr` returns one token, the single byte 233 (the low eight
bits of the code point U+00E9 kept by `byte(char)`), not the line. The same happens
inside a quoted span, and the euro sign (bytes 226, 130, 172) becomes the byte 172. -/
theorem non_ascii_truncated :
    str "é" = [195, 169] ∧ parseCmdStr (str "é") = .tokens [[233]] ∧
    parseCmdStr (str "\"é\"") = .tokens [[233]] ∧
    str "€" = [226, 130, 172] ∧ parseCmdStr (str "a€") = .tokens [[97, 172]] := by
  decide

/-! ### Totality of the tokenizer -/

/-- An iteration of the loop does not panic when, inside a span, there is a byte before
the rune and the accumulator is not empty if that byte is a backslash; after a backslash
the accumulator is not empty if the loop is inside a span. -/
theorem body_safe (prev : Option Nat) (char : Nat) (st : LoopState)
    (h : st.parsingQuotedArg = true → ∃ p, prev = some p ∧ (p = 92 → st.current ≠ [])) :
    ∃ st1, body prev char st = some st1 ∧
      (st1.parsingQuotedArg = true → char = 92 → st1.current ≠ []) := by
  obtain ⟨cur, args, q, dbs⟩ := st
  cases q with
  | false =>
    by_cases h34 : char = 34
    · subst h34
      exact ⟨⟨cur, args, true, dbs⟩, by simp [body], by simp⟩
    · by_cases hsp : unicode.IsSpace char = true
      · by_cases hcur : cur = []
        · exact ⟨⟨cur, args, false, dbs⟩, by simp [body, h34, hsp, hcur], by simp⟩
        · exact ⟨⟨[], args ++ [cur], false, dbs⟩, by simp [body, h34, hsp, hcur], by simp⟩
      · exact ⟨⟨cur ++ [char % 256], args, false, dbs⟩, by simp [body, h34, hsp], by simp⟩
  | true =>
    obtain ⟨p, rfl, hp⟩ := h rfl
    by_cases hesc : p = 92 ∧ dbs = false
    · have hne : cur ≠ [] := hp hesc.1
      by_cases h34 : char = 34
      · subst h34
        exact ⟨⟨cur.dropLast ++ [34], args, true, dbs⟩, by simp [body, hesc, setLast, hne],
          by simp⟩
      · by_cases h92 : char = 92
        · subst h92
          exact ⟨⟨cur.dropLast ++ [92], args, true, true⟩, by simp [body, hesc, setLast, hne],
            by simp⟩
        · exact ⟨⟨cur ++ [char % 256], args, true, false⟩, by simp [body, h34, h92],
            by simp [h92]⟩
    · by_cases h34 : char = 34
      · subst h34
        exact ⟨⟨[], args ++ [cur], false, false⟩, by simp [body, hesc], by simp⟩
      · by_cases h92 : char = 92
        · subst h92
          exact ⟨⟨cur ++ [92], args, true, false⟩, by simp [body, hesc], by simp⟩
        · exact ⟨⟨cur ++ [char % 256], args, true, false⟩, by simp [body, h34, h92],
            by simp [h92]⟩

/-- The loop of `parseCmdStr` does not panic, on any text. -/
theorem loop_safe :
    ∀ (s : GoString) (skip : Nat) (prev : Option Nat) (st : LoopState), skip ≤ s.length →
      (∀ x ∈ s.take skip, 128 ≤ x) →
      (st.parsingQuotedArg = true →
        ∃ p, prev = some p ∧ (skip = 0 → p = 92 → st.current ≠ [])) →
      ∃ st1, loop s skip prev st = some st1 := by
  intro s
  induction s with
  | nil => intro skip prev st _ _ _; exact ⟨st, rfl⟩
  | cons b rest ih =>
    intro skip prev st hskip hpre hinv
    cases skip with
    | succ skip =>
      simp only [loop]
      have hb : 128 ≤ b := hpre b (by simp)
      exact ih skip (some b) st (by simpa using hskip)
        (fun x hx => hpre x (by simp only [List.take_succ_cons]; exact List.mem_cons_of_mem _ hx))
        (fun _ => ⟨b, rfl, fun _ h92 => by omega⟩)
    | zero =>
      simp only [loop]
      obtain ⟨st2, h1, h2⟩ := body_safe prev (utf8.DecodeRune (b :: rest)).1 st
        (fun hq => by
          obtain ⟨p, hp1, hp2⟩ := hinv hq
          exact ⟨p, hp1, hp2 rfl⟩)
      rw [h1]
      have key : (utf8.DecodeRune (b :: rest)).2 - 1 ≤ rest.length ∧
          (∀ x ∈ rest.take ((utf8.DecodeRune (b :: rest)).2 - 1), 128 ≤ x) ∧
          (b = 92 → (utf8.DecodeRune (b :: rest)).1 = 92) := by
        rcases decodeRune_cases b rest with ⟨hb, hd⟩ | ⟨hb, hd⟩ | ⟨hb, r, pre, post, hr, hl, hp, _, hd⟩
        · rw [hd]
          exact ⟨by simp, by simp, fun h => h⟩
        · rw [hd]
          exact ⟨by simp, by simp, fun h => by omega⟩
        · subst hr
          rw [hd post]
          refine ⟨by simp, ?_, fun h => by omega⟩
          intro x hx
          simp only [Nat.add_sub_cancel, List.take_left'] at hx
          exact hp x (by simpa using hx)
      obtain ⟨k1, k2, k3⟩ := key
      exact ih _ (some b) st2 k1 k2 (fun hq => ⟨b, rfl, fun _ h92 => h2 hq (k3 h92)⟩)

/-- C30. `parseCmdStr` is total. An iteration of the loop panics exactly when, inside a
quoted span and on a quote or a backslash, there is no byte before the rune (the
look-back `cmdStr[i - 1]` at index 0) or the byte before is an unconsumed backslash and
the accumulator is empty (the overwrite `current[len(current) - 1]`). Neither happens
on any input: `parseCmdStr` returns a token list or the syntax error, never an index out
of range; so on the empty string, on white space only, on a leading quote or backslash,
and on malformed UTF-8. -/
theorem tokenizer_total :
    (∀ (prev : Option Nat) (char : Nat) (st : LoopState),
      body prev char st = none ↔
        st.parsingQuotedArg = true ∧ (char = 34 ∨ char = 92) ∧
          (prev = none ∨ (prev = some 92 ∧ st.doubleBackSlash = false ∧ st.current = []))) ∧
    (∀ input : GoString,
      (∃ args, parseCmdStr input = .tokens args) ∨ parseCmdStr input = .syntaxError) ∧
    (∀ input : GoString, parseCmdStr input ≠ .indexOutOfRange) ∧
    parseCmdStr [] = .tokens [] ∧
    parseCmdStr (str " \t ") = .tokens [] ∧
    parseCmdStr (str "\"") = .syntaxError ∧
    parseCmdStr (str "\\") = .tokens [[92]] ∧
    parseCmdStr (str "\"\\\"") = .syntaxError ∧
    parseCmdStr [255, 34, 92, 34, 128, 34] = .tokens [[253, 34, 253]] := by
  have htotal : ∀ input : GoString,
      (∃ args, parseCmdStr input = .tokens args) ∨ parseCmdStr input = .syntaxError := by
    intro input
    obtain ⟨st1, h1⟩ := loop_safe (strings.TrimSpace input) 0 none ⟨[], [], false, false⟩
      (Nat.zero_le _) (by simp) (by simp)
    unfold parseCmdStr
    simp only [h1]
    cases hq : st1.parsingQuotedArg
    · exact Or.inl ⟨if st1.current.length ≠ 0 then st1.args ++ [st1.current] else st1.args,
        by simp⟩
    · exact Or.inr (by simp)
  refine ⟨?_, htotal, ?_, by decide, by decide, by decide, by decide, by decide, by decide⟩
  · intro prev char st
    obtain ⟨cur, args, q, dbs⟩ := st
    cases q with
    | false =>
      simp only [body, Bool.false_eq_true, if_false, false_and, iff_false]
      split_ifs <;> simp
    | true =>
      cases prev with
      | none =>
        by_cases h34 : char = 34
        · simp [body, h34]
        · by_cases h92 : char = 92
          · simp [body, h92]
          · simp [body, h34, h92]
      | some p =>
        by_cases h34 : char = 34
        · subst h34
          by_cases hesc : p = 92 ∧ dbs = false
          · cases cur with
            | nil => simp [body, hesc, setLast]
            | cons c cs => simp [body, hesc, setLast]
          · constructor
            · intro h
              simp [body, hesc] at h
            · rintro ⟨_, _, h | ⟨hp, hd, _⟩⟩
              · cases h
              · exact absurd ⟨Option.some.inj hp, hd⟩ hesc
        · by_cases h92 : char = 92
          · subst h92
            by_cases hesc : p = 92 ∧ dbs = false
            · cases cur with
              | nil => simp [body, hesc, setLast]
              | cons c cs => simp [body, hesc, setLast]
            · constructor
              · intro h
                simp [body, hesc] at h
              · rintro ⟨_, _, h | ⟨hp, hd, _⟩⟩
                · cases h
                · exact absurd ⟨Option.some.inj hp, hd⟩ hesc
          · simp [body, h34, h92]
  · intro input h
    rcases htotal input with ⟨args, ha⟩ | hs
    · rw [ha] at h; cases h
    · rw [hs] at h; cases h

/-! ### Runs of backslashes inside a quoted span -/

/-- The loop on a text that starts with an ASCII byte: one iteration on that byte. -/
theorem loop_byte (b : Nat) (rest : GoString) (prev : Option Nat) (st : LoopState)
    (hb : b < 128) :
    loop (b :: rest) 0 prev st = (body prev b st).bind (loop rest 0 (some b)) := by
  show (match body prev (utf8.DecodeRune (b :: rest)).1 st with
    | none => none
    | some s1 => loop rest ((utf8.DecodeRune (b :: rest)).2 - 1) (some b) s1) = _
  rw [decodeRune_ascii b rest hb]
  show (match body prev b st with
    | none => none
    | some s1 => loop rest 0 (some b) s1) = _
  cases body prev b st <;> rfl

/-- Overwriting the last byte of a list that ends in `a`. -/
theorem setLast_append (cur : List Nat) (a b : Nat) :
    setLast (cur ++ [a]) b = some (cur ++ [b]) := by
  simp [setLast]

/-- Overwriting the last byte of a concatenation that ends in `a`. -/
theorem setLast_append_append (cur l : List Nat) (a b : Nat) :
    setLast (cur ++ (l ++ [a])) b = some (cur ++ (l ++ [b])) := by
  rw [← List.append_assoc, setLast_append, List.append_assoc]

/-- Two more backslashes after an odd number of them inside a span: the first overwrites
the backslash accumulated last, the second is appended. -/
theorem loop_backslash_pairs (args : List GoString) (rest : GoString) :
    ∀ (k : Nat) (cur : List Nat),
      loop (List.replicate (2 * k) 92 ++ rest) 0 (some 92) ⟨cur ++ [92], args, true, false⟩ =
        loop rest 0 (some 92) ⟨cur ++ List.replicate (k + 1) 92, args, true, false⟩ := by
  intro k
  induction k with
  | zero => intro cur; rfl
  | succ k ih =>
    intro cur
    have h2 : 2 * (k + 1) = (2 * k + 1) + 1 := by omega
    rw [h2, List.replicate_succ, List.replicate_succ, List.cons_append, List.cons_append,
      loop_byte 92 _ _ _ (by decide)]
    have s1 : body (some 92) 92 ⟨cur ++ [92], args, true, false⟩ =
        some ⟨cur ++ [92], args, true, true⟩ := by
      simp [body, setLast_append]
    rw [s1, Option.some_bind]
    rw [loop_byte 92 _ _ _ (by decide)]
    have s2 : body (some 92) 92 ⟨cur ++ [92], args, true, true⟩ =
        some ⟨cur ++ [92] ++ [92], args, true, false⟩ := by
      simp [body]
    rw [s2, Option.some_bind]
    rw [ih (cur ++ [92])]
    have e : cur ++ [92] ++ List.replicate (k + 1) 92 = cur ++ List.replicate (k + 1 + 1) 92 := by
      rw [List.append_assoc]
      rfl
    rw [e]

/-- A run of `m + 1` backslashes inside a span, after a byte that is not a backslash. -/
theorem loop_backslash_run (m p : Nat) (cur : List Nat) (args : List GoString) (dbs : Bool)
    (rest : GoString) (hp : p ≠ 92) :
    loop (List.replicate (m + 1) 92 ++ rest) 0 (some p) ⟨cur, args, true, dbs⟩ =
      loop rest 0 (some 92)
        ⟨cur ++ List.replicate (m / 2 + 1) 92, args, true, decide (m % 2 = 1)⟩ := by
  rw [List.replicate_succ, List.cons_append, loop_byte 92 _ _ _ (by decide)]
  have s1 : body (some p) 92 ⟨cur, args, true, dbs⟩ = some ⟨cur ++ [92], args, true, false⟩ := by
    simp [body, hp]
  rw [s1, Option.some_bind]
  rcases Nat.even_or_odd' m with ⟨k, hk | hk⟩
  · subst hk
    rw [loop_backslash_pairs args rest k cur]
    have e1 : 2 * k / 2 = k := by omega
    have e2 : decide (2 * k % 2 = 1) = false := by
      have : ¬ 2 * k % 2 = 1 := by omega
      simp [this]
    rw [e1, e2]
  · subst hk
    rw [List.replicate_succ', List.append_assoc,
      loop_backslash_pairs args _ k cur, List.singleton_append,
      loop_byte 92 _ _ _ (by decide)]
    have s2 : body (some 92) 92 ⟨cur ++ List.replicate (k + 1) 92, args, true, false⟩ =
        some ⟨cur ++ List.replicate (k + 1) 92, args, true, true⟩ := by
      rw [List.replicate_succ']
      simp [body, setLast_append_append]
    rw [s2, Option.some_bind]
    have e1 : (2 * k + 1) / 2 = k := by omega
    have e2 : decide ((2 * k + 1) % 2 = 1) = true := by
      have : (2 * k + 1) % 2 = 1 := by omega
      simp [this]
    rw [e1, e2]

/-- The flag `doubleBackSlash` is false outside quoted spans: one iteration keeps this. -/
theorem body_flag (prev : Option Nat) (char : Nat) (st st1 : LoopState)
    (h : body prev char st = some st1)
    (hinv : st.parsingQuotedArg = false → st.doubleBackSlash = false) :
    st1.parsingQuotedArg = false → st1.doubleBackSlash = false := by
  obtain ⟨cur, args, q, dbs⟩ := st
  cases q with
  | false =>
    have hd : dbs = false := hinv rfl
    subst hd
    simp only [body, Bool.false_eq_true, if_false] at h
    split_ifs at h <;> simp only [Option.some.injEq] at h <;> subst h <;> simp
  | true =>
    simp only [body, if_true] at h
    split_ifs at h
    · cases prev with
      | none => simp at h
      | some p =>
        simp only at h
        split_ifs at h
        · cases hs : setLast cur (char % 256) with
          | none => rw [hs] at h; simp at h
          | some c => rw [hs] at h; simp only [Option.some.injEq] at h; subst h; simp
        · simp only [Option.some.injEq] at h; subst h; simp
    · cases prev with
      | none => simp at h
      | some p =>
        simp only at h
        split_ifs at h
        · cases hs : setLast cur (char % 256) with
          | none => rw [hs] at h; simp at h
          | some c => rw [hs] at h; simp only [Option.some.injEq] at h; subst h; simp
        · simp only [Option.some.injEq] at h; subst h; simp
    · simp only [Option.some.injEq] at h; subst h; simp

/-- The flag `doubleBackSlash` is false outside quoted spans: the loop keeps this. -/
theorem loop_flag :
    ∀ (s : GoString) (skip : Nat) (prev : Option Nat) (st st1 : LoopState),
      loop s skip prev st = some st1 →
      (st.parsingQuotedArg = false → st.doubleBackSlash = false) →
      st1.parsingQuotedArg = false → st1.doubleBackSlash = false := by
  intro s
  induction s with
  | nil =>
    intro skip prev st st1 h hinv
    simp only [loop, Option.some.injEq] at h
    subst h
    exact hinv
  | cons b rest ih =>
    intro skip prev st st1 h hinv
    cases skip with
    | succ skip =>
      simp only [loop] at h
      exact ih _ _ _ _ h hinv
    | zero =>
      simp only [loop] at h
      cases hb : body prev (utf8.DecodeRune (b :: rest)).1 st with
      | none => rw [hb] at h; simp at h
      | some s1 =>
        rw [hb] at h
        exact ih _ _ _ _ h (body_flag _ _ _ _ hb hinv)

/-- C29. The rule for runs of backslashes. Inside a quoted span, after a byte `p` that
is not a backslash (a character of the span or the opening quote), a run of `m` >= 1
backslashes adds ceil(m/2) backslashes to the token being accumulated. If a double quote
follows the run then, for even `m`, the quote ends the span and the token ends with
m/2 backslashes, and for odd `m` the token gains (m-1)/2 backslashes and a literal
quote and the span continues. The flag `doubleBackSlash` is false whenever the loop is
outside a span, so it is false when a span is entered. -/
theorem backslash_run_rule (m p : Nat) (cur : List Nat) (args : List GoString) (dbs : Bool)
    (rest : GoString) (hm : 1 ≤ m) (hp : p ≠ 92) :
    loop (List.replicate m 92 ++ rest) 0 (some p) ⟨cur, args, true, dbs⟩ =
      loop rest 0 (some 92)
        ⟨cur ++ List.replicate ((m + 1) / 2) 92, args, true, decide (m % 2 = 0)⟩ ∧
    loop (List.replicate m 92 ++ 34 :: rest) 0 (some p) ⟨cur, args, true, dbs⟩ =
      loop rest 0 (some 34)
        (if m % 2 = 0 then ⟨[], args ++ [cur ++ List.replicate (m / 2) 92], false, false⟩
         else ⟨cur ++ List.replicate ((m - 1) / 2) 92 ++ [34], args, true, false⟩) ∧
    (∀ (s : GoString) (st : LoopState), loop s 0 none ⟨[], [], false, false⟩ = some st →
      st.parsingQuotedArg = false → st.doubleBackSlash = false) ∧
    (∀ (s : GoString) (st st1 : LoopState) (prev : Option Nat) (char : Nat),
      loop s 0 none ⟨[], [], false, false⟩ = some st → st.parsingQuotedArg = false →
      body prev char st = some st1 → st1.parsingQuotedArg = true →
      st1.doubleBackSlash = false) ∧
    parseCmdStr (str "\"a\\\"") = .syntaxError ∧
    parseCmdStr (str "\"a\\\\\"") = .tokens [str "a\\"] ∧
    parseCmdStr (str "\"a\\\\\\\" b\"") = .tokens [str "a\\\" b"] ∧
    parseCmdStr (str "\"a\\\\\\\\\"") = .tokens [str "a\\\\"] ∧
    parseCmdStr (str "\"\\\\\\\\\\x\"") = .tokens [str "\\\\\\x"] := by
  obtain ⟨n, rfl⟩ : ∃ n, m = n + 1 := ⟨m - 1, by omega⟩
  have hrun := fun r => loop_backslash_run n p cur args dbs r hp
  have hflag : ∀ (s : GoString) (st : LoopState),
      loop s 0 none ⟨[], [], false, false⟩ = some st →
      st.parsingQuotedArg = false → st.doubleBackSlash = false :=
    fun s st h => loop_flag s 0 none _ st h (fun _ => rfl)
  refine ⟨?_, ?_, hflag, ?_, by decide, by decide, by decide, by decide, by decide⟩
  · rw [hrun rest]
    have e1 : (n + 1 + 1) / 2 = n / 2 + 1 := by omega
    have e2 : decide ((n + 1) % 2 = 0) = decide (n % 2 = 1) := by
      rcases Nat.mod_two_eq_zero_or_one n with h | h
      · have : ¬ (n + 1) % 2 = 0 := by omega
        simp [h, this]
      · have : (n + 1) % 2 = 0 := by omega
        simp [h, this]
    rw [e1, e2]
  · rw [hrun (34 :: rest), loop_byte 34 _ _ _ (by decide)]
    rcases Nat.mod_two_eq_zero_or_one n with h | h
    · have h1 : ¬ (n + 1) % 2 = 0 := by omega
      have h2 : ¬ n % 2 = 1 := by omega
      have e : n + 1 - 1 = n := rfl
      rw [if_neg h1, e]
      have s : body (some 92) 34
          ⟨cur ++ List.replicate (n / 2 + 1) 92, args, true, decide (n % 2 = 1)⟩ =
          some ⟨cur ++ List.replicate (n / 2) 92 ++ [34], args, true, false⟩ := by
        rw [List.replicate_succ']
        simp [body, setLast_append_append, h2]
      rw [s, Option.some_bind]
    · have h1 : (n + 1) % 2 = 0 := by omega
      have e : (n + 1) / 2 = n / 2 + 1 := by omega
      rw [if_pos h1, e]
      have s : body (some 92) 34
          ⟨cur ++ List.replicate (n / 2 + 1) 92, args, true, decide (n % 2 = 1)⟩ =
          some ⟨[], args ++ [cur ++ List.replicate (n / 2 + 1) 92], false, false⟩ := by
        simp [body, h]
      rw [s, Option.some_bind]
  · intro s st st1 prev char hl hq hb hq1
    obtain ⟨cur0, args0, q0, d0⟩ := st
    simp only at hq
    subst hq
    have hd : d0 = false := hflag s _ hl rfl
    subst hd
    simp only [body, Bool.false_eq_true, if_false] at hb
    split_ifs at hb <;> simp only [Option.some.injEq] at hb <;> subst hb <;> simp at hq1 ⊢

/-- C29 at a concrete input: three backslashes and a quote after the byte `a`. -/
theorem backslash_run_rule_witness :
    loop (List.replicate 3 92 ++ str " b\"") 0 (some 97) ⟨[97], [], true, false⟩ =
      loop (str " b\"") 0 (some 92) ⟨[97] ++ List.replicate ((3 + 1) / 2) 92, [], true,
        decide (3 % 2 = 0)⟩ ∧
    loop (List.replicate 3 92 ++ 34 :: str " b\"") 0 (some 97) ⟨[97], [], true, false⟩ =
      some ⟨[], [str "a\\\" b"], false, false⟩ :=
  ⟨(backslash_run_rule 3 97 [97] [] false (str " b\"") (by decide) (by decide)).1,
   ((backslash_run_rule 3 97 [97] [] false (str " b\"") (by decide) (by decide)).2.1).trans
     (by decide)⟩

end cli

namespace leb128

/-! ### Decoding of unsigned numbers -/

/-- Reduction modulo a power of two goes through a bitwise or. -/
theorem lor_mod_two_pow (a b n : Nat) : (a ||| b) % 2 ^ n = a % 2 ^ n ||| b % 2 ^ n := by
  apply Nat.eq_of_testBit_eq
  intro i
  simp only [Nat.testBit_mod_two_pow, Nat.testBit_or]
  by_cases h : i < n <;> simp [h]

/-- The shift of a `uint64` as a product modulo `2 ^ 64`. -/
theorem shl64_eq (x s : Nat) : shl64 x s = (x * 2 ^ s) % 2 ^ 64 := by
  unfold shl64
  split_ifs with h
  · rw [Nat.shiftLeft_eq]
  · have hd : 2 ^ 64 ∣ x * 2 ^ s :=
      Dvd.dvd.mul_left (Nat.pow_dvd_pow 2 (Nat.le_of_not_lt h)) x
    exact (Nat.mod_eq_zero_of_dvd hd).symm

/-- The mask `b & 0x7f` is the remainder modulo 128. -/
theorem and_7f (b : Nat) : b &&& 0x7f = b % 128 :=
  Nat.and_pow_two_sub_one_eq_mod b 7

/-- Or-ing a group above the bits already set adds it. -/
theorem or_group (S g k : Nat) (hS : S < 2 ^ (7 * k)) :
    S % 2 ^ 64 ||| shl64 g (7 * k) = (S + 2 ^ (7 * k) * g) % 2 ^ 64 := by
  rw [shl64_eq, Nat.add_comm, Nat.mul_add_lt_is_or hS g, lor_mod_two_pow, Nat.lor_comm,
    Nat.mul_comm]

/-- The sum of the groups of a list with one more byte in front. -/
theorem groupSum_cons (b : Nat) (bs : List Nat) :
    groupSum (b :: bs) = b % 128 + 128 * groupSum bs := by
  unfold groupSum
  rw [List.length_cons, List.range_succ_eq_map, List.map_cons, List.sum_cons, List.map_map,
    ← List.sum_map_mul_left]
  simp only [List.getD_cons_zero, Nat.mul_zero, pow_zero, Nat.mul_one]
  congr 1
  apply congrArg
  apply List.map_congr_left
  intro i _
  simp only [Function.comp, List.getD_cons_succ]
  rw [show 7 * Nat.succ i = 7 * i + 7 by omega, pow_add]
  ring

/-- The sum of the groups of `n` bytes is below `2 ^ (7 * n)`. -/
theorem groupSum_lt (bs : List Nat) : groupSum bs < 2 ^ (7 * bs.length) := by
  induction bs with
  | nil => simp [groupSum]
  | cons b bs ih =>
    rw [groupSum_cons, List.length_cons, show 7 * (bs.length + 1) = 7 * bs.length + 7 by omega,
      pow_add]
    have hb : b % 128 < 128 := Nat.mod_lt _ (by decide)
    have e : (2 : Nat) ^ 7 = 128 := by decide
    rw [e]
    omega

/-- The sum of the groups of a list with one more byte at the end. -/
theorem groupSum_append (pre : List Nat) (last : Nat) :
    groupSum (pre ++ [last]) = groupSum pre + 2 ^ (7 * pre.length) * (last % 128) := by
  induction pre with
  | nil =>
    rw [List.nil_append, groupSum_cons]
    simp [groupSum]
  | cons b pre ih =>
    rw [List.cons_append, groupSum_cons, groupSum_cons, ih, List.length_cons,
      show 7 * (pre.length + 1) = 7 * pre.length + 7 by omega, pow_add]
    ring

/-- The loop of `ReadUnsigned` from a state in which `k` groups have been read: `res`
holds their sum `S` modulo `2 ^ 64` and `shift` is `7 * k`. -/
theorem readUnsignedLoop_spec (err : GoString) (w : UintSize) (last : Nat) (rest : List Nat)
    (hl : last &&& 0x80 = 0) :
    ∀ (pre : List Nat) (k S : Nat), (∀ b ∈ pre, b &&& 0x80 ≠ 0) → S < 2 ^ (7 * k) →
      7 * (k + pre.length + 1) < 2 ^ w.bits →
      readUnsignedLoop err w (pre ++ last :: rest) (S % 2 ^ 64) (7 * k) =
        (((S + 2 ^ (7 * k) * groupSum (pre ++ [last])) % 2 ^ 64, none), ⟨rest, err⟩) := by
  have hl1 : 0x80 &&& last = 0 := by rw [Nat.land_comm]; exact hl
  intro pre
  induction pre with
  | nil =>
    intro k S _ hS _
    simp only [List.nil_append, readUnsignedLoop, if_pos hl1, and_7f, or_group S _ k hS]
    rw [groupSum_cons]
    rfl
  | cons b pre ih =>
    intro k S h hS hk
    have hb : ¬ 0x80 &&& b = 0 := by
      rw [Nat.land_comm]
      exact h b (by simp)
    have hshift : addShift w (7 * k) = 7 * (k + 1) := by
      unfold addShift
      rw [Nat.mod_eq_of_lt]
      · omega
      · simp only [List.length_cons] at hk
        omega
    have hg : b % 128 < 128 := Nat.mod_lt _ (by decide)
    have hS1 : S + 2 ^ (7 * k) * (b % 128) < 2 ^ (7 * (k + 1)) := by
      rw [show 7 * (k + 1) = 7 * k + 7 by omega, pow_add]
      have e : (2 : Nat) ^ 7 = 128 := by decide
      have hm : 2 ^ (7 * k) * (b % 128) ≤ 2 ^ (7 * k) * 127 := Nat.mul_le_mul_left _ (by omega)
      rw [e]
      omega
    have e := ih (k + 1) (S + 2 ^ (7 * k) * (b % 128))
      (fun x hx => h x (List.mem_cons_of_mem _ hx)) hS1
      (by simp only [List.length_cons] at hk; omega)
    simp only [List.cons_append, readUnsignedLoop, if_neg hb, and_7f, or_group S _ k hS, hshift]
    refine e.trans ?_
    rw [groupSum_cons, show 7 * (k + 1) = 7 * k + 7 by omega, pow_add]
    congr 2
    congr 1
    ring

/-- The loop of `ReadUnsigned` on bytes 0x80: no group is added, the counter advances. -/
theorem readUnsignedLoop_replicate (err : GoString) (w : UintSize) (rest : List Nat) :
    ∀ (k res shift : Nat), shift < 2 ^ w.bits →
      readUnsignedLoop err w (List.replicate k 0x80 ++ rest) res shift =
        readUnsignedLoop err w rest res ((shift + 7 * k) % 2 ^ w.bits) := by
  intro k
  induction k with
  | zero =>
    intro res shift hs
    rw [Nat.mul_zero, Nat.add_zero, Nat.mod_eq_of_lt hs]
    rfl
  | succ k ih =>
    intro res shift hs
    have h0 : shl64 (0x80 &&& 0x7f) shift = 0 := by
      have z : 0x80 &&& 0x7f = 0 := by decide
      rw [z, shl64_eq, Nat.zero_mul, Nat.zero_mod]
    have hb : ¬ 0x80 &&& 0x80 = 0 := by decide
    have hlt : addShift w shift < 2 ^ w.bits := Nat.mod_lt _ (Nat.two_pow_pos _)
    rw [List.replicate_succ, List.cons_append]
    simp only [readUnsignedLoop, if_neg hb, h0, Nat.or_zero]
    rw [ih res (addShift w shift) hlt]
    unfold addShift
    rw [Nat.mod_add_mod]
    congr 2
    omega

/-- The sum of the groups after `k` bytes 0x80. -/
theorem groupSum_replicate (bs : List Nat) :
    ∀ k : Nat, groupSum (List.replicate k 0x80 ++ bs) = 128 ^ k * groupSum bs := by
  intro k
  induction k with
  | zero => simp
  | succ k ih =>
    rw [List.replicate_succ, List.cons_append, groupSum_cons, ih, pow_succ]
    have : 128 % 128 = 0 := by decide
    rw [this]
    ring

/-- From the tenth group on, a group lies above the 64 bits. -/
theorem pow_128_mod (k : Nat) (hk : 10 ≤ k) (x : Nat) : 128 ^ k * x % 2 ^ 64 = 0 := by
  obtain ⟨j, rfl⟩ : ∃ j, k = 10 + j := ⟨k - 10, by omega⟩
  have e : (128 : Nat) ^ 10 = 2 ^ 64 * 64 := by decide
  rw [pow_add, e, Nat.mul_assoc, Nat.mul_assoc]
  exact Nat.mul_mod_right _ _

/-- What `ReadUnsigned` returns on a stream whose first byte with the high bit clear is
`last`, after the bytes `pre`, when the counter `shift` does not wrap around. -/
theorem readUnsigned_spec (w : UintSize) (pre : List Nat) (last : Nat) (rest : List Nat)
    (err : GoString)
    (hpre : ∀ b ∈ pre, b &&& 0x80 ≠ 0) (hlast : last &&& 0x80 = 0)
    (hn : 7 * (pre.length + 1) < 2 ^ w.bits) :
    ReadUnsigned w ⟨pre ++ last :: rest, err⟩ =
      ((groupSum (pre ++ [last]) % 2 ^ 64, none), ⟨rest, err⟩) := by
  have h := readUnsignedLoop_spec err w last rest hlast pre 0 0 hpre (by norm_num)
    (by omega)
  simp only [Nat.mul_zero, pow_zero, Nat.zero_mod, Nat.zero_add, Nat.one_mul] at h
  exact h

/-- C23 with the bound that the code needs. Let `W` be the width of `uint` on the
platform, 32 or 64 bits. For every stream `pre ++ last :: rest` in which the bytes of
`pre` have the high bit set and `last` has it clear, with `n = pre.length + 1` bytes up
to `last` and `7 * n` below `2 ^ W`, `ReadUnsigned` returns the sum of
`(b_i mod 128) * 2 ^ (7 * i)` over these `n` bytes, modulo `2 ^ 64`, without error, and
leaves `rest` in the reader: the groups at bit position 64 and above are discarded. -/
theorem read_unsigned_decodes (w : UintSize) (pre : List Nat) (last : Nat) (rest : List Nat)
    (err : GoString)
    (hpre : ∀ b ∈ pre, b &&& 0x80 ≠ 0) (hlast : last &&& 0x80 = 0)
    (hn : 7 * (pre.length + 1) < 2 ^ w.bits) :
    ReadUnsigned w ⟨pre ++ last :: rest, err⟩ =
      ((groupSum (pre ++ [last]) % 2 ^ 64, none), ⟨rest, err⟩) :=
  readUnsigned_spec w pre last rest err hpre hlast hn

/-- C23 at the example of the test, with two more bytes in the stream, for a `uint` of 32
bits and of 64 bits. -/
theorem read_unsigned_decodes_witness :
    ReadUnsigned .bits32 ⟨[0xE5, 0x8E, 0x26, 0xFF, 0x01], str "EOF"⟩ =
      ((624485, none), ⟨[0xFF, 0x01], str "EOF"⟩) ∧
    ReadUnsigned .bits64 ⟨[0xE5, 0x8E, 0x26, 0xFF, 0x01], str "EOF"⟩ =
      ((624485, none), ⟨[0xFF, 0x01], str "EOF"⟩) :=
  ⟨(read_unsigned_decodes .bits32 [0xE5, 0x8E] 0x26 [0xFF, 0x01] (str "EOF") (by decide)
      (by decide) (by decide)).trans (by decide),
   (read_unsigned_decodes .bits64 [0xE5, 0x8E] 0x26 [0xFF, 0x01] (str "EOF") (by decide)
      (by decide) (by decide)).trans (by decide)⟩

/-- C23 fails for a stream that is long enough. The counter `shift` is a `uint`. With a
`uint` of 32 bits, after `wrapLength32` = 613566757 bytes 0x80 it has wrapped around to
3, so the byte 0x01 that follows is placed at bit 3: `ReadUnsigned` returns 8, while the
sum of the groups modulo `2 ^ 64` is 0 (the group of the last byte lies above bit 64).
With a `uint` of 64 bits the same happens after `wrapLength` bytes 0x80, where the
counter is 5 and the result 32. -/
theorem read_unsigned_shift_wraps :
    (∀ b ∈ List.replicate wrapLength32 0x80, b &&& 0x80 ≠ 0) ∧ 0x01 &&& 0x80 = 0 ∧
    ReadUnsigned .bits32 ⟨List.replicate wrapLength32 0x80 ++ [0x01], str "EOF"⟩ =
      ((8, none), ⟨[], str "EOF"⟩) ∧
    groupSum (List.replicate wrapLength32 0x80 ++ [0x01]) % 2 ^ 64 = 0 ∧
    (∀ b ∈ List.replicate wrapLength 0x80, b &&& 0x80 ≠ 0) ∧
    ReadUnsigned .bits64 ⟨List.replicate wrapLength 0x80 ++ [0x01], str "EOF"⟩ =
      ((32, none), ⟨[], str "EOF"⟩) ∧
    groupSum (List.replicate wrapLength 0x80 ++ [0x01]) % 2 ^ 64 = 0 := by
  have h80 : ∀ (k b : Nat), b ∈ List.replicate k 0x80 → b &&& 0x80 ≠ 0 := by
    intro k b hb
    rw [List.eq_of_mem_replicate hb]
    decide
  refine ⟨h80 _, by decide, ?_, ?_, h80 _, ?_, ?_⟩
  · have hw : (0 + 7 * wrapLength32) % 2 ^ UintSize.bits32.bits = 3 := by decide
    unfold ReadUnsigned
    simp only []
    rw [readUnsignedLoop_replicate (str "EOF") .bits32 [0x01] wrapLength32 0 0 (by decide), hw]
    decide
  · rw [groupSum_replicate]
    exact pow_128_mod wrapLength32 (by decide) _
  · have hw : (0 + 7 * wrapLength) % 2 ^ UintSize.bits64.bits = 5 := by decide
    unfold ReadUnsigned
    simp only []
    rw [readUnsignedLoop_replicate (str "EOF") .bits64 [0x01] wrapLength 0 0 (by decide), hw]
    decide
  · rw [groupSum_replicate]
    exact pow_128_mod wrapLength (by decide) _

/-! ### Decoding of signed numbers -/

/-- The loop of `ReadSigned` and the sign extension after it, from a state in which `k`
groups have been read: `res` holds their sum `S` modulo `2 ^ 64`, `shift` is `7 * k`. -/
theorem readSignedLoop_spec (err : GoString) (w : UintSize) (last : Nat) (rest : List Nat)
    (hl : last &&& 0x80 = 0) :
    ∀ (pre : List Nat) (k S : Nat), (∀ b ∈ pre, b &&& 0x80 ≠ 0) → S < 2 ^ (7 * k) →
      7 * (k + pre.length + 1) < 2 ^ w.bits →
      readSignedLoop err w (pre ++ last :: rest) (S % 2 ^ 64) (7 * k) =
        ((strconv.toInt64
          (if 7 * (k + pre.length + 1) < 64 ∧ last &&& 0x40 ≠ 0 then
            (S + 2 ^ (7 * k) * groupSum (pre ++ [last])) % 2 ^ 64 |||
              shl64 0xFFFFFFFFFFFFFFFF (7 * (k + pre.length + 1))
           else (S + 2 ^ (7 * k) * groupSum (pre ++ [last])) % 2 ^ 64), none),
         ⟨rest, err⟩) := by
  have hl1 : 0x80 &&& last = 0 := by rw [Nat.land_comm]; exact hl
  intro pre
  induction pre with
  | nil =>
    intro k S _ hS hk
    have hshift : addShift w (7 * k) = 7 * (k + 1) := by
      unfold addShift
      rw [Nat.mod_eq_of_lt]
      · omega
      · simp only [List.length_nil] at hk
        omega
    have hg : groupSum [last] = last % 128 := by
      rw [groupSum_cons]
      rfl
    simp only [List.nil_append, readSignedLoop, if_pos hl1, and_7f, or_group S _ k hS, hshift,
      List.length_nil, Nat.add_zero, hg]
  | cons b pre ih =>
    intro k S h hS hk
    have hb : ¬ 0x80 &&& b = 0 := by
      rw [Nat.land_comm]
      exact h b (by simp)
    have hshift : addShift w (7 * k) = 7 * (k + 1) := by
      unfold addShift
      rw [Nat.mod_eq_of_lt]
      · omega
      · simp only [List.length_cons] at hk
        omega
    have hg : b % 128 < 128 := Nat.mod_lt _ (by decide)
    have hS1 : S + 2 ^ (7 * k) * (b % 128) < 2 ^ (7 * (k + 1)) := by
      rw [show 7 * (k + 1) = 7 * k + 7 by omega, pow_add]
      have e : (2 : Nat) ^ 7 = 128 := by decide
      have hm : 2 ^ (7 * k) * (b % 128) ≤ 2 ^ (7 * k) * 127 := Nat.mul_le_mul_left _ (by omega)
      rw [e]
      omega
    have e := ih (k + 1) (S + 2 ^ (7 * k) * (b % 128))
      (fun x hx => h x (List.mem_cons_of_mem _ hx)) hS1
      (by simp only [List.length_cons] at hk; omega)
    have hsum : S + 2 ^ (7 * k) * (b % 128) + 2 ^ (7 * (k + 1)) * groupSum (pre ++ [last]) =
        S + 2 ^ (7 * k) * groupSum (b :: (pre ++ [last])) := by
      rw [groupSum_cons, show 7 * (k + 1) = 7 * k + 7 by omega, pow_add]
      ring
    have hlen : k + 1 + pre.length + 1 = k + (b :: pre).length + 1 := by
      simp only [List.length_cons]
      omega
    rw [hsum, hlen] at e
    simp only [List.cons_append, readSignedLoop, if_neg hb, and_7f, or_group S _ k hS, hshift]
    exact e

/-- Bit 6 of a byte is set exactly when its low seven bits are at least 64. -/
theorem and_40 (b : Nat) : b &&& 0x40 ≠ 0 ↔ 64 ≤ b % 128 := by
  have h := Nat.and_two_pow b 6
  have e : (2 : Nat) ^ 6 = 64 := by decide
  rw [e] at h
  rw [h, Nat.testBit_to_div_mod, e]
  by_cases hb : b / 64 % 2 = 1
  · simp only [hb, decide_True, Bool.toNat_true, Nat.one_mul]
    omega
  · simp only [hb, decide_False, Bool.toNat_false, Nat.zero_mul]
    omega

/-- The sign extension of `ReadSigned` below 64 bits: or-ing the ones above bit
`7 * (m + 1)` to a number of that many bits. -/
theorem sign_extend (m U : Nat) (hm : 7 * (m + 1) < 64) (hU : U < 2 ^ (7 * (m + 1))) :
    U % 2 ^ 64 ||| shl64 0xFFFFFFFFFFFFFFFF (7 * (m + 1)) =
      U + (2 ^ 64 - 2 ^ (7 * (m + 1))) := by
  have hU64 : U % 2 ^ 64 = U :=
    Nat.mod_eq_of_lt (lt_of_lt_of_le hU (Nat.pow_le_pow_right (by decide) (by omega)))
  have hs : shl64 0xFFFFFFFFFFFFFFFF (7 * (m + 1)) =
      2 ^ (7 * (m + 1)) * (2 ^ (64 - 7 * (m + 1)) - 1) := by
    have hm8 : m ≤ 8 := by omega
    interval_cases m <;> decide
  rw [hU64, hs, Nat.lor_comm, ← Nat.mul_add_lt_is_or hU, Nat.add_comm, Nat.mul_sub, Nat.mul_one,
    ← pow_add, show 7 * (m + 1) + (64 - 7 * (m + 1)) = 64 by omega]

/-- What `ReadSigned` returns on a stream whose first byte with the high bit clear is
`last`, after the bytes `pre`, when the counter `shift` does not wrap around, and the sign
of the result below 64 bits. -/
theorem readSigned_spec (w : UintSize) (pre : List Nat) (last : Nat) (rest : List Nat)
    (err : GoString)
    (hpre : ∀ b ∈ pre, b &&& 0x80 ≠ 0) (hlast : last &&& 0x80 = 0)
    (hn : 7 * (pre.length + 1) < 2 ^ w.bits) :
    ReadSigned w ⟨pre ++ last :: rest, err⟩ =
      ((if 7 * (pre.length + 1) < 64 then
          twosComplement (7 * (pre.length + 1)) (groupSum (pre ++ [last]))
        else strconv.toInt64 (groupSum (pre ++ [last]) % 2 ^ 64), none), ⟨rest, err⟩) ∧
    (7 * (pre.length + 1) < 64 →
      (twosComplement (7 * (pre.length + 1)) (groupSum (pre ++ [last])) < 0 ↔
        last &&& 0x40 ≠ 0)) := by
  have h := readSignedLoop_spec err w last rest hlast pre 0 0 hpre (by norm_num) (by omega)
  simp only [Nat.mul_zero, pow_zero, Nat.zero_mod, Nat.zero_add, Nat.one_mul] at h
  have hU : groupSum (pre ++ [last]) < 2 ^ (7 * (pre.length + 1)) := by
    have := groupSum_lt (pre ++ [last])
    simpa using this
  have hdec := groupSum_append pre last
  have hA := groupSum_lt pre
  have hbit := and_40 last
  have e7 : (2 : Nat) ^ 7 = 128 := by decide
  have e6 : (2 : Nat) ^ 6 = 64 := by decide
  have hpow : 2 ^ (7 * (pre.length + 1)) = 2 ^ (7 * pre.length) * 128 := by
    rw [show 7 * (pre.length + 1) = 7 * pre.length + 7 by omega, pow_add, e7]
  have hpow1 : 2 ^ (7 * (pre.length + 1) - 1) = 2 ^ (7 * pre.length) * 64 := by
    rw [show 7 * (pre.length + 1) - 1 = 7 * pre.length + 6 by omega, pow_add, e6]
  have hg : last % 128 < 128 := Nat.mod_lt _ (by decide)
  -- the sign bit of the number is bit 6 of the last byte
  have hsign : 64 ≤ last % 128 ↔
      2 ^ (7 * pre.length) * 64 ≤ groupSum (pre ++ [last]) := by
    rw [hdec]
    constructor
    · intro h64
      have := Nat.mul_le_mul_left (2 ^ (7 * pre.length)) h64
      omega
    · intro hle
      by_contra hlt
      have h63 : last % 128 ≤ 63 := by omega
      have := Nat.mul_le_mul_left (2 ^ (7 * pre.length)) h63
      omega
  unfold ReadSigned
  simp only []
  rw [h]
  by_cases h64 : 7 * (pre.length + 1) < 64
  · have htc : twosComplement (7 * (pre.length + 1)) (groupSum (pre ++ [last])) =
        if 64 ≤ last % 128 then
          ((groupSum (pre ++ [last]) : Nat) : Int) - 2 ^ (7 * (pre.length + 1))
        else ((groupSum (pre ++ [last]) : Nat) : Int) := by
      unfold twosComplement
      rw [Nat.mod_eq_of_lt hU, hpow1]
      by_cases hs : 64 ≤ last % 128
      · rw [if_neg (Nat.not_lt.mpr (hsign.mp hs)), if_pos hs]
      · rw [if_pos (Nat.lt_of_not_le (fun hc => hs (hsign.mpr hc))), if_neg hs]
    have hle63 : 2 ^ (7 * (pre.length + 1)) ≤ 2 ^ 63 :=
      Nat.pow_le_pow_right (by decide) (by omega)
    have hpos : 0 < 2 ^ (7 * pre.length) := pow_pos (by decide) _
    rw [if_pos h64, htc]
    constructor
    · congr 2
      by_cases hs : 64 ≤ last % 128
      · rw [if_pos ⟨h64, hbit.mpr hs⟩, if_pos hs, sign_extend pre.length _ h64 hU]
        have hge : 2 ^ (7 * pre.length) * 64 ≤ groupSum (pre ++ [last]) := hsign.mp hs
        unfold strconv.toInt64
        have e1 : (groupSum (pre ++ [last]) + (2 ^ 64 - 2 ^ (7 * (pre.length + 1)))) % 2 ^ 64 =
            groupSum (pre ++ [last]) + (2 ^ 64 - 2 ^ (7 * (pre.length + 1))) :=
          Nat.mod_eq_of_lt (by omega)
        rw [e1, if_neg (by omega)]
        push_cast
        rw [Nat.cast_sub (by omega)]
        push_cast
        ring
      · rw [if_neg (fun hc => hs (hbit.mp hc.2)), if_neg hs]
        unfold strconv.toInt64
        have e1 : groupSum (pre ++ [last]) % 2 ^ 64 % 2 ^ 64 = groupSum (pre ++ [last]) := by
          rw [Nat.mod_mod, Nat.mod_eq_of_lt (by omega)]
        have hlt : groupSum (pre ++ [last]) < 2 ^ (7 * pre.length) * 64 :=
          Nat.lt_of_not_le (fun hc => hs (hsign.mpr hc))
        rw [e1, if_pos (by omega)]
    · intro _
      rw [hbit]
      by_cases hs : 64 ≤ last % 128
      · rw [if_pos hs]
        have : ((groupSum (pre ++ [last]) : Nat) : Int) < 2 ^ (7 * (pre.length + 1)) := by
          exact_mod_cast hU
        constructor
        · intro _; exact hs
        · intro _; omega
      · rw [if_neg hs]
        constructor
        · intro hneg
          have : (0 : Int) ≤ ((groupSum (pre ++ [last]) : Nat) : Int) := Int.natCast_nonneg _
          omega
        · intro h; exact absurd h hs
  · rw [if_neg h64, if_neg (fun hc => h64 hc.1)]
    exact ⟨rfl, fun hc => absurd hc h64⟩

/-- C24 with the bound that the code needs. Let `W` be the width of `uint` on the
platform, 32 or 64 bits. For every stream `pre ++ last :: rest` in which the bytes of
`pre` have the high bit set and `last` has it clear, with `n = pre.length + 1` bytes up
to `last` and `7 * n` below `2 ^ W`, `ReadSigned` returns without error and leaves `rest`
in the reader. When `7 * n < 64` the value is that of the two's-complement number of
`7 * n` bits whose bits are the low seven bits of the bytes, the first byte least
significant, and it is negative exactly when bit 6 of `last` is set; when `7 * n >= 64`
the value is the low 64 bits of that number as an `int64`. -/
theorem read_signed_decodes (w : UintSize) (pre : List Nat) (last : Nat) (rest : List Nat)
    (err : GoString)
    (hpre : ∀ b ∈ pre, b &&& 0x80 ≠ 0) (hlast : last &&& 0x80 = 0)
    (hn : 7 * (pre.length + 1) < 2 ^ w.bits) :
    ReadSigned w ⟨pre ++ last :: rest, err⟩ =
      ((if 7 * (pre.length + 1) < 64 then
          twosComplement (7 * (pre.length + 1)) (groupSum (pre ++ [last]))
        else strconv.toInt64 (groupSum (pre ++ [last]) % 2 ^ 64), none), ⟨rest, err⟩) ∧
    (7 * (pre.length + 1) < 64 →
      (twosComplement (7 * (pre.length + 1)) (groupSum (pre ++ [last])) < 0 ↔
        last &&& 0x40 ≠ 0)) :=
  readSigned_spec w pre last rest err hpre hlast hn

/-- C24 at the example of the test, with one more byte in the stream, for a `uint` of 32
bits and of 64 bits. -/
theorem read_signed_decodes_witness :
    ReadSigned .bits32 ⟨[0x9b, 0xf1, 0x59, 0x00], str "EOF"⟩ =
      ((-624485, none), ⟨[0x00], str "EOF"⟩) ∧
    ReadSigned .bits64 ⟨[0x9b, 0xf1, 0x59, 0x00], str "EOF"⟩ =
      ((-624485, none), ⟨[0x00], str "EOF"⟩) :=
  ⟨(read_signed_decodes .bits32 [0x9b, 0xf1] 0x59 [0x00] (str "EOF") (by decide) (by decide)
      (by decide)).1.trans (by decide),
   (read_signed_decodes .bits64 [0x9b, 0xf1] 0x59 [0x00] (str "EOF") (by decide) (by decide)
      (by decide)).1.trans (by decide)⟩

/-- The loop of `ReadSigned` on bytes 0x80: no group is added, the counter advances. -/
theorem readSignedLoop_replicate (err : GoString) (w : UintSize) (rest : List Nat) :
    ∀ (k res shift : Nat), shift < 2 ^ w.bits →
      readSignedLoop err w (List.replicate k 0x80 ++ rest) res shift =
        readSignedLoop err w rest res ((shift + 7 * k) % 2 ^ w.bits) := by
  intro k
  induction k with
  | zero =>
    intro res shift hs
    rw [Nat.mul_zero, Nat.add_zero, Nat.mod_eq_of_lt hs]
    rfl
  | succ k ih =>
    intro res shift hs
    have h0 : shl64 (0x80 &&& 0x7f) shift = 0 := by
      have z : 0x80 &&& 0x7f = 0 := by decide
      rw [z, shl64_eq, Nat.zero_mul, Nat.zero_mod]
    have hb : ¬ 0x80 &&& 0x80 = 0 := by decide
    have hlt : addShift w shift < 2 ^ w.bits := Nat.mod_lt _ (Nat.two_pow_pos _)
    rw [List.replicate_succ, List.cons_append]
    simp only [readSignedLoop, if_neg hb, h0, Nat.or_zero]
    rw [ih res (addShift w shift) hlt]
    unfold addShift
    rw [Nat.mod_add_mod]
    congr 2
    omega

/-- C24 fails for a stream that is long enough. With a `uint` of 32 bits and
`wrapLength32 - 1` bytes 0x80 before the byte 0x40 the number has `7 * 613566757` bits,
more than 64, and its low 64 bits are 0; but the counter `shift` has wrapped around to 3
after the last byte, so `ReadSigned` takes the number to have 3 bits, extends the sign
from bit 3 and returns -8. With a `uint` of 64 bits the same happens with
`wrapLength - 1` bytes 0x80, where the counter is 5 and the result -32. -/
theorem read_signed_shift_wraps :
    (∀ b ∈ List.replicate (wrapLength32 - 1) 0x80, b &&& 0x80 ≠ 0) ∧ 0x40 &&& 0x80 = 0 ∧
    (List.replicate (wrapLength32 - 1) 0x80 ++ [0x40]).length = wrapLength32 ∧
    64 ≤ 7 * wrapLength32 ∧
    ReadSigned .bits32 ⟨List.replicate (wrapLength32 - 1) 0x80 ++ [0x40], str "EOF"⟩ =
      ((-8, none), ⟨[], str "EOF"⟩) ∧
    strconv.toInt64 (groupSum (List.replicate (wrapLength32 - 1) 0x80 ++ [0x40]) % 2 ^ 64) =
      0 ∧
    (∀ b ∈ List.replicate (wrapLength - 1) 0x80, b &&& 0x80 ≠ 0) ∧
    (List.replicate (wrapLength - 1) 0x80 ++ [0x40]).length = wrapLength ∧
    64 ≤ 7 * wrapLength ∧
    ReadSigned .bits64 ⟨List.replicate (wrapLength - 1) 0x80 ++ [0x40], str "EOF"⟩ =
      ((-32, none), ⟨[], str "EOF"⟩) ∧
    strconv.toInt64 (groupSum (List.replicate (wrapLength - 1) 0x80 ++ [0x40]) % 2 ^ 64) =
      0 := by
  have h80 : ∀ (k b : Nat), b ∈ List.replicate k 0x80 → b &&& 0x80 ≠ 0 := by
    intro k b hb
    rw [List.eq_of_mem_replicate hb]
    decide
  refine ⟨h80 _, by decide, ?_, by decide, ?_, ?_, h80 _, ?_, by decide, ?_, ?_⟩
  · rw [List.length_append, List.length_replicate]
    decide
  · have hw : (0 + 7 * (wrapLength32 - 1)) % 2 ^ UintSize.bits32.bits = 4294967292 := by
      decide
    unfold ReadSigned
    simp only []
    rw [readSignedLoop_replicate (str "EOF") .bits32 [0x40] (wrapLength32 - 1) 0 0 (by decide),
      hw]
    decide
  · rw [groupSum_replicate, pow_128_mod (wrapLength32 - 1) (by decide) _]
    decide
  · rw [List.length_append, List.length_replicate]
    decide
  · have hw : (0 + 7 * (wrapLength - 1)) % 2 ^ UintSize.bits64.bits = 18446744073709551614 := by
      decide
    unfold ReadSigned
    simp only []
    rw [readSignedLoop_replicate (str "EOF") .bits64 [0x40] (wrapLength - 1) 0 0 (by decide),
      hw]
    decide
  · rw [groupSum_replicate, pow_128_mod (wrapLength - 1) (by decide) _]
    decide

/-! ### Reading in two steps -/

/-- A byte list consists of bytes with the high bit set only, or it has a first byte with
the high bit clear. -/
theorem split_at_clear (data : List Nat) :
    (∀ b ∈ data, b &&& 0x80 ≠ 0) ∨
    ∃ pre last rest, data = pre ++ last :: rest ∧ (∀ b ∈ pre, b &&& 0x80 ≠ 0) ∧
      last &&& 0x80 = 0 := by
  induction data with
  | nil => exact Or.inl (by simp)
  | cons b rest ih =>
    by_cases hb : b &&& 0x80 = 0
    · exact Or.inr ⟨[], b, rest, rfl, by simp, hb⟩
    · rcases ih with h | ⟨pre, last, rest1, h1, h2, h3⟩
      · left
        intro x hx
        rcases List.mem_cons.mp hx with h0 | h0
        · rw [h0]; exact hb
        · exact h x h0
      · right
        refine ⟨b :: pre, last, rest1, by rw [h1]; rfl, ?_, h3⟩
        intro x hx
        rcases List.mem_cons.mp hx with h0 | h0
        · rw [h0]; exact hb
        · exact h2 x h0

/-- `Read` on a stream without a byte whose high bit is clear. -/
theorem readLoop_fail (err : GoString) :
    ∀ (data n : List Nat), (∀ b ∈ data, b &&& 0x80 ≠ 0) →
      readLoop err data n = (([], some (.reader err)), ⟨[], err⟩) := by
  intro data
  induction data with
  | nil => intro n _; rfl
  | cons b rest ih =>
    intro n h
    have hb : b &&& 0x80 ≠ 0 := h b (by simp)
    simp only [readLoop, if_neg hb]
    exact ih _ (fun x hx => h x (List.mem_cons_of_mem _ hx))

/-- `ReadSigned` on a stream without a byte whose high bit is clear. -/
theorem readSignedLoop_fail (err : GoString) (w : UintSize) :
    ∀ (data : List Nat) (res shift : Nat), (∀ b ∈ data, b &&& 0x80 ≠ 0) →
      readSignedLoop err w data res shift = ((0, some (.readingSigned err)), ⟨[], err⟩) := by
  intro data
  induction data with
  | nil => intro res shift _; rfl
  | cons b rest ih =>
    intro res shift h
    have hb : ¬ 0x80 &&& b = 0 := by
      rw [Nat.land_comm]
      exact h b (by simp)
    simp only [readSignedLoop, if_neg hb]
    exact ih _ _ (fun x hx => h x (List.mem_cons_of_mem _ hx))

/-- `ReadUnsigned` on a stream without a byte whose high bit is clear. -/
theorem readUnsignedLoop_fail (err : GoString) (w : UintSize) :
    ∀ (data : List Nat) (res shift : Nat), (∀ b ∈ data, b &&& 0x80 ≠ 0) →
      readUnsignedLoop err w data res shift = ((0, some (.readingUnsigned err)), ⟨[], err⟩) := by
  intro data
  induction data with
  | nil => intro res shift _; rfl
  | cons b rest ih =>
    intro res shift h
    have hb : ¬ 0x80 &&& b = 0 := by
      rw [Nat.land_comm]
      exact h b (by simp)
    simp only [readUnsignedLoop, if_neg hb]
    exact ih _ _ (fun x hx => h x (List.mem_cons_of_mem _ hx))

/-- `Read` on a stream with a first byte whose high bit is clear. -/
theorem readLoop_ok (err : GoString) (last : Nat) (rest : List Nat) (hl : last &&& 0x80 = 0) :
    ∀ (pre n : List Nat), (∀ b ∈ pre, b &&& 0x80 ≠ 0) →
      readLoop err (pre ++ last :: rest) n = ((n ++ pre ++ [last], none), ⟨rest, err⟩) := by
  intro pre
  induction pre with
  | nil =>
    intro n _
    simp only [List.nil_append, readLoop, if_pos hl, List.append_nil]
  | cons b pre ih =>
    intro n h
    have hb : b &&& 0x80 ≠ 0 := h b (by simp)
    have e := ih (n ++ [b]) (fun x hx => h x (List.mem_cons_of_mem _ hx))
    rw [List.append_assoc n [b] pre] at e
    simp only [List.cons_append, readLoop, if_neg hb]
    exact e

/-- `ReadSigned` stops at the first byte whose high bit is clear: its value depends on
the bytes up to that one only, and the bytes after it are left in the reader. -/
theorem readSignedLoop_prefix (err err1 : GoString) (w : UintSize) (last : Nat) (rest : List Nat)
    (hl : last &&& 0x80 = 0) :
    ∀ (pre : List Nat) (res shift : Nat), (∀ b ∈ pre, b &&& 0x80 ≠ 0) →
      (readSignedLoop err w (pre ++ last :: rest) res shift).1 =
        (readSignedLoop err1 w (pre ++ [last]) res shift).1 ∧
      (readSignedLoop err w (pre ++ last :: rest) res shift).1.2 = none ∧
      (readSignedLoop err w (pre ++ last :: rest) res shift).2 = ⟨rest, err⟩ := by
  have hl1 : 0x80 &&& last = 0 := by rw [Nat.land_comm]; exact hl
  intro pre
  induction pre with
  | nil =>
    intro res shift _
    simp only [List.nil_append, readSignedLoop, if_pos hl1, and_self]
  | cons b pre ih =>
    intro res shift h
    have hb : ¬ 0x80 &&& b = 0 := by
      rw [Nat.land_comm]
      exact h b (by simp)
    simp only [List.cons_append, readSignedLoop, if_neg hb]
    exact ih _ _ (fun x hx => h x (List.mem_cons_of_mem _ hx))

/-- `ReadUnsigned` stops at the first byte whose high bit is clear. -/
theorem readUnsignedLoop_prefix (err err1 : GoString) (w : UintSize) (last : Nat) (rest : List Nat)
    (hl : last &&& 0x80 = 0) :
    ∀ (pre : List Nat) (res shift : Nat), (∀ b ∈ pre, b &&& 0x80 ≠ 0) →
      (readUnsignedLoop err w (pre ++ last :: rest) res shift).1 =
        (readUnsignedLoop err1 w (pre ++ [last]) res shift).1 ∧
      (readUnsignedLoop err w (pre ++ last :: rest) res shift).1.2 = none ∧
      (readUnsignedLoop err w (pre ++ last :: rest) res shift).2 = ⟨rest, err⟩ := by
  have hl1 : 0x80 &&& last = 0 := by rw [Nat.land_comm]; exact hl
  intro pre
  induction pre with
  | nil =>
    intro res shift _
    simp only [List.nil_append, readUnsignedLoop, if_pos hl1, and_self]
  | cons b pre ih =>
    intro res shift h
    have hb : ¬ 0x80 &&& b = 0 := by
      rw [Nat.land_comm]
      exact h b (by simp)
    simp only [List.cons_append, readUnsignedLoop, if_neg hb]
    exact ih _ _ (fun x hx => h x (List.mem_cons_of_mem _ hx))

/-- C25. Reading in two steps agrees with reading directly. For every reader, `Read`
returns an error exactly when `ReadSigned` does and exactly when `ReadUnsigned` does.
Either the stream has no byte with the high bit clear, and the three fail (`Read` with
the error of the reader and no bytes, the other two with 0), or the stream is
`pre ++ last :: rest` with `last` the first byte whose high bit is clear: then `Read`
returns `pre ++ [last]`, `AsSigned` and `AsUnsigned` on that return what `ReadSigned`
and `ReadUnsigned` return on the stream, without error, and the three leave `rest` in
the reader. -/
theorem two_step_reading (w : UintSize) (r : ByteReader) :
    ((Read r).1.2 = none ↔ (ReadSigned w r).1.2 = none) ∧
    ((Read r).1.2 = none ↔ (ReadUnsigned w r).1.2 = none) ∧
    (((∀ b ∈ r.data, b &&& 0x80 ≠ 0) ∧
      Read r = (([], some (.reader r.err)), ⟨[], r.err⟩) ∧
      ReadSigned w r = ((0, some (.readingSigned r.err)), ⟨[], r.err⟩) ∧
      ReadUnsigned w r = ((0, some (.readingUnsigned r.err)), ⟨[], r.err⟩)) ∨
     (∃ pre last rest, r.data = pre ++ last :: rest ∧ (∀ b ∈ pre, b &&& 0x80 ≠ 0) ∧
      last &&& 0x80 = 0 ∧
      Read r = ((pre ++ [last], none), ⟨rest, r.err⟩) ∧
      AsSigned w (Read r).1.1 = (ReadSigned w r).1 ∧
      AsUnsigned w (Read r).1.1 = (ReadUnsigned w r).1 ∧
      (ReadSigned w r).1.2 = none ∧ (ReadUnsigned w r).1.2 = none ∧
      (ReadSigned w r).2 = ⟨rest, r.err⟩ ∧ (ReadUnsigned w r).2 = ⟨rest, r.err⟩)) := by
  obtain ⟨data, err⟩ := r
  rcases split_at_clear data with h | ⟨pre, last, rest, hd, hpre, hl⟩
  · have h1 := readLoop_fail err data [] h
    have h2 := readSignedLoop_fail err w data 0 0 h
    have h3 := readUnsignedLoop_fail err w data 0 0 h
    refine ⟨?_, ?_, Or.inl ⟨h, h1, h2, h3⟩⟩
    · simp only [Read, ReadSigned, h1, h2]
      simp
    · simp only [Read, ReadUnsigned, h1, h3]
      simp
  · subst hd
    have h1 := readLoop_ok err last rest hl pre [] hpre
    obtain ⟨s1, s2, s3⟩ := readSignedLoop_prefix err (str "EOF") w last rest hl pre 0 0 hpre
    obtain ⟨u1, u2, u3⟩ := readUnsignedLoop_prefix err (str "EOF") w last rest hl pre 0 0 hpre
    rw [List.nil_append] at h1
    refine ⟨?_, ?_, Or.inr ⟨pre, last, rest, rfl, hpre, hl, h1, ?_, ?_, s2, u2, s3, u3⟩⟩
    · simp only [Read, ReadSigned, h1, s2]
    · simp only [Read, ReadUnsigned, h1, u2]
    · simp only [Read, h1, AsSigned, ReadSigned, bytesNewReader]
      exact s1.symm
    · simp only [Read, h1, AsUnsigned, ReadUnsigned, bytesNewReader]
      exact u1.symm

end leb128

namespace ruts

/-! ### Splitting a byte stream at a delimiter -/

/-- A byte list does not contain `delim`, or it is split at the first occurrence. -/
theorem split_at_delim (delim : Nat) (data : List Nat) :
    delim ∉ data ∨ ∃ pre rest, data = pre ++ delim :: rest ∧ delim ∉ pre := by
  induction data with
  | nil => exact Or.inl (by simp)
  | cons c rest ih =>
    by_cases hc : c = delim
    · exact Or.inr ⟨[], rest, by rw [hc]; rfl, by simp⟩
    · rcases ih with h | ⟨pre, rest1, h1, h2⟩
      · left
        intro hm
        rcases List.mem_cons.mp hm with h0 | h0
        · exact hc h0.symm
        · exact h h0
      · right
        refine ⟨c :: pre, rest1, by rw [h1]; rfl, ?_⟩
        intro hm
        rcases List.mem_cons.mp hm with h0 | h0
        · exact hc h0.symm
        · exact h2 h0

/-- The two loops on a stream without the delimiter. -/
theorem loops_fail (err : GoString) (delim : Nat) :
    ∀ (data s : List Nat), delim ∉ data →
      readUntilLoop err delim data s = (([], some err), ⟨[], err⟩) ∧
      readBytesLoop err delim data s = (([], some err), ⟨[], err⟩) := by
  intro data
  induction data with
  | nil => intro s _; exact ⟨rfl, rfl⟩
  | cons c rest ih =>
    intro s h
    have hc : ¬ c = delim := fun e => h (by rw [e]; simp)
    have hr : delim ∉ rest := fun e => h (List.mem_cons_of_mem _ e)
    simp only [readUntilLoop, readBytesLoop, if_neg hc]
    exact ih _ hr

/-- The two loops on a stream with the delimiter. -/
theorem loops_ok (err : GoString) (delim : Nat) (rest : List Nat) :
    ∀ (pre s : List Nat), delim ∉ pre →
      readUntilLoop err delim (pre ++ delim :: rest) s = ((s ++ pre, none), ⟨rest, err⟩) ∧
      readBytesLoop err delim (pre ++ delim :: rest) s =
        ((s ++ pre ++ [delim], none), ⟨rest, err⟩) := by
  intro pre
  induction pre with
  | nil =>
    intro s _
    simp only [List.nil_append, readUntilLoop, readBytesLoop, if_true, List.append_nil,
      and_self]
  | cons c pre ih =>
    intro s h
    have hc : ¬ c = delim := fun e => h (by rw [e]; simp)
    have hr : delim ∉ pre := fun e => h (List.mem_cons_of_mem _ e)
    have e := ih (s ++ [c]) hr
    rw [List.append_assoc s [c] pre] at e
    simp only [List.cons_append, readUntilLoop, readBytesLoop, if_neg hc]
    exact e

/-- C26. Splitting a byte stream at a delimiter. For every reader and byte `delim`:
if `delim` does not occur in the stream, `ReadUntil` and `ReadBytes` return no bytes and
the error of the reader; otherwise the stream is `pre ++ delim :: rest` with no `delim`
in `pre`, `ReadUntil` returns `pre` (empty when the delimiter comes first), `ReadBytes`
returns `pre` followed by `delim`, and both leave `rest` in the reader. `ReadCString` is
`ReadUntil` with delimiter 0. -/
theorem split_at_delimiter (r : ByteReader) (delim : Nat) :
    ((delim ∉ r.data ∧
      ReadUntil r delim = (([], some r.err), ⟨[], r.err⟩) ∧
      ReadBytes r delim = (([], some r.err), ⟨[], r.err⟩)) ∨
     (∃ pre rest, r.data = pre ++ delim :: rest ∧ delim ∉ pre ∧
      ReadUntil r delim = ((pre, none), ⟨rest, r.err⟩) ∧
      ReadBytes r delim = ((pre ++ [delim], none), ⟨rest, r.err⟩))) ∧
    (∀ rest err, ReadUntil ⟨delim :: rest, err⟩ delim = (([], none), ⟨rest, err⟩)) ∧
    (∀ rest err, ReadBytes ⟨delim :: rest, err⟩ delim = (([delim], none), ⟨rest, err⟩)) ∧
    ReadCString r = ReadUntil r 0 ∧
    ReadCString ⟨str "ab" ++ 0 :: str "cd", str "EOF"⟩ =
      ((str "ab", none), ⟨str "cd", str "EOF"⟩) ∧
    ReadCString ⟨str "ab", str "EOF"⟩ = (([], some (str "EOF")), ⟨[], str "EOF"⟩) := by
  obtain ⟨data, err⟩ := r
  refine ⟨?_, ?_, ?_, rfl, by decide, by decide⟩
  · rcases split_at_delim delim data with h | ⟨pre, rest, hd, hpre⟩
    · exact Or.inl ⟨h, (loops_fail err delim data [] h).1, (loops_fail err delim data [] h).2⟩
    · subst hd
      have e := loops_ok err delim rest pre [] hpre
      rw [List.nil_append] at e
      exact Or.inr ⟨pre, rest, rfl, hpre, e.1, e.2⟩
  · intro rest err1
    simp [ReadUntil, readUntilLoop]
  · intro rest err1
    simp [ReadBytes, readBytesLoop]

end ruts

namespace leb128

/-! ### Encoding and decoding back -/

/-- A number below 128 has bit 7 clear. -/
theorem and_80_lt : ∀ x < 128, x &&& 0x80 = 0 := by decide

/-- Setting bit 7 of a number below 128 adds 128, and the bit is then set. -/
theorem or_80_lt : ∀ x < 128, (x ||| 0x80 = x + 128) ∧ ((x ||| 0x80) &&& 0x80 ≠ 0) := by decide

/-- The bytes that the loop of `Encode` appends in its last `r + 1` iterations: all but
the last have the high bit set, the last has it clear, and their groups are the digits
of `valU64` in base 128, except that the last group is 127 in place of 1 in the tenth
byte of a signed value. -/
theorem encodeLoop_spec (n : Nat) (s : Bool) :
    ∀ (r valU64 : Nat), r < n →
      ∃ pre last, encodeLoop n s (r + 1) valU64 = pre ++ [last] ∧ pre.length = r ∧
        (∀ b ∈ pre, b &&& 0x80 ≠ 0) ∧ last &&& 0x80 = 0 ∧
        groupSum (pre ++ [last]) = valU64 % 128 ^ r + 128 ^ r *
          (if n = 10 ∧ s = true ∧ valU64 / 128 ^ r % 128 = 1 then 127
           else valU64 / 128 ^ r % 128) := by
  intro r
  induction r with
  | zero =>
    intro valU64 _
    have hlt : valU64 % 128 < 128 := Nat.mod_lt _ (by decide)
    refine ⟨[], if n = 10 ∧ s = true ∧ valU64 % 128 = 1 then 127 else valU64 % 128, ?_, rfl,
      by simp, ?_, ?_⟩
    · simp only [encodeLoop, and_7f, Nat.sub_zero, ne_eq, not_true_eq_false, if_false,
        List.nil_append]
      by_cases h : n = 10 ∧ s = true ∧ valU64 % 128 = 1
      · rw [if_pos h, if_pos h, h.2.2]
        rfl
      · rw [if_neg h, if_neg h]
    · split_ifs
      · decide
      · exact and_80_lt _ hlt
    · rw [List.nil_append, groupSum_cons]
      simp only [pow_zero, Nat.mod_one, Nat.div_one, Nat.zero_add, Nat.one_mul]
      split_ifs
      · rfl
      · simp [groupSum, Nat.mod_mod]
  | succ r ih =>
    intro valU64 hr
    obtain ⟨pre, last, h1, h2, h3, h4, h5⟩ := ih (valU64 >>> 7) (by omega)
    have hlt : valU64 % 128 < 128 := Nat.mod_lt _ (by decide)
    have hk : n - (r + 1) ≠ n := by omega
    have hor := or_80_lt _ hlt
    have hne : ¬ (n - (r + 1) = 10 ∧ s = true ∧ valU64 % 128 + 128 = 1) := by
      intro hc
      omega
    refine ⟨(valU64 % 128 + 128) :: pre, last, ?_, by simp [h2], ?_, h4, ?_⟩
    · have e : encodeLoop n s (r + 1 + 1) valU64 =
          (valU64 % 128 + 128) :: encodeLoop n s (r + 1) (valU64 >>> 7) := by
        simp only [encodeLoop, and_7f, ne_eq, hk, not_false_eq_true, if_true, hor.1, hne,
          if_false]
      rw [e, h1]
      rfl
    · intro b hb
      rcases List.mem_cons.mp hb with h0 | h0
      · rw [h0, ← hor.1]
        exact hor.2
      · exact h3 b h0
    · rw [List.cons_append, groupSum_cons, h5, Nat.shiftRight_eq_div_pow]
      have e7 : (2 : Nat) ^ 7 = 128 := by decide
      rw [e7, Nat.div_div_eq_div_mul, ← pow_succ', pow_succ' 128 r, Nat.mod_mul,
        Nat.add_mod_right, Nat.mod_mod]
      ring

/-- What `AsUnsigned` and `AsSigned` return on the bytes that the loop of `Encode`
produces for a counter limit `n` between 1 and 10. -/
theorem decode_encodeLoop (w : UintSize) (n : Nat) (s : Bool) (valU64 : Nat) (h1 : 1 ≤ n)
    (h10 : n ≤ 10) :
    AsUnsigned w (encodeLoop n s n valU64) =
      ((valU64 % 128 ^ (n - 1) + 128 ^ (n - 1) *
        (if n = 10 ∧ s = true ∧ valU64 / 128 ^ (n - 1) % 128 = 1 then 127
         else valU64 / 128 ^ (n - 1) % 128)) % 2 ^ 64, none) ∧
    AsSigned w (encodeLoop n s n valU64) =
      (if 7 * n < 64 then
        twosComplement (7 * n) (valU64 % 128 ^ (n - 1) + 128 ^ (n - 1) *
          (if n = 10 ∧ s = true ∧ valU64 / 128 ^ (n - 1) % 128 = 1 then 127
           else valU64 / 128 ^ (n - 1) % 128))
       else strconv.toInt64 ((valU64 % 128 ^ (n - 1) + 128 ^ (n - 1) *
          (if n = 10 ∧ s = true ∧ valU64 / 128 ^ (n - 1) % 128 = 1 then 127
           else valU64 / 128 ^ (n - 1) % 128)) % 2 ^ 64), none) := by
  obtain ⟨r, rfl⟩ : ∃ r, n = r + 1 := ⟨n - 1, by omega⟩
  obtain ⟨pre, last, e1, e2, e3, e4, e5⟩ := encodeLoop_spec (r + 1) s r valU64 (by omega)
  have hn : 7 * (pre.length + 1) < 2 ^ w.bits := by
    rw [e2]
    cases w
    · have : (2 : Nat) ^ UintSize.bits32.bits = 4294967296 := by decide
      omega
    · have : (2 : Nat) ^ UintSize.bits64.bits = 18446744073709551616 := by decide
      omega
  have hu := readUnsigned_spec w pre last [] (str "EOF") e3 e4 hn
  have hs := (readSigned_spec w pre last [] (str "EOF") e3 e4 hn).1
  rw [e5] at hu hs
  rw [e2] at hs
  simp only [Nat.add_sub_cancel]
  constructor
  · unfold AsUnsigned bytesNewReader
    rw [e1, hu]
  · unfold AsSigned bytesNewReader
    rw [e1, hs]

/-- C22. Encoding and decoding back. For every value `v` of type `int8`, `int16`,
`int32` or `int64`, `Encode` returns no error and `AsSigned` on its result returns `v`
without error; for every value `v` of type `uint8`, `uint16`, `uint32` or `uint64`,
`Encode` returns no error and `AsUnsigned` on its result returns `v` without error. This
holds whether `uint` has 32 or 64 bits. -/
theorem encode_round_trip (w : UintSize) :
    (∀ v : Int, -2 ^ 7 ≤ v → v < 2 ^ 7 →
      (Encode (.int8 v)).2 = none ∧ AsSigned w (Encode (.int8 v)).1 = (v, none)) ∧
    (∀ v : Int, -2 ^ 15 ≤ v → v < 2 ^ 15 →
      (Encode (.int16 v)).2 = none ∧ AsSigned w (Encode (.int16 v)).1 = (v, none)) ∧
    (∀ v : Int, -2 ^ 31 ≤ v → v < 2 ^ 31 →
      (Encode (.int32 v)).2 = none ∧ AsSigned w (Encode (.int32 v)).1 = (v, none)) ∧
    (∀ v : Int, -2 ^ 63 ≤ v → v < 2 ^ 63 →
      (Encode (.int64 v)).2 = none ∧ AsSigned w (Encode (.int64 v)).1 = (v, none)) ∧
    (∀ v : Nat, v < 2 ^ 8 →
      (Encode (.uint8 v)).2 = none ∧ AsUnsigned w (Encode (.uint8 v)).1 = (v, none)) ∧
    (∀ v : Nat, v < 2 ^ 16 →
      (Encode (.uint16 v)).2 = none ∧ AsUnsigned w (Encode (.uint16 v)).1 = (v, none)) ∧
    (∀ v : Nat, v < 2 ^ 32 →
      (Encode (.uint32 v)).2 = none ∧ AsUnsigned w (Encode (.uint32 v)).1 = (v, none)) ∧
    (∀ v : Nat, v < 2 ^ 64 →
      (Encode (.uint64 v)).2 = none ∧ AsUnsigned w (Encode (.uint64 v)).1 = (v, none)) := by
  refine ⟨?_, ?_, ?_, ?_, ?_, ?_, ?_, ?_⟩
  · intro v h1 h2
    refine ⟨rfl, ?_⟩
    have h := (decode_encodeLoop w 2 true (toUint64 v) (by decide) (by decide)).2
    simp only [Encode]
    rw [h]
    unfold twosComplement toUint64
    norm_num
    split_ifs <;> omega
  · intro v h1 h2
    refine ⟨rfl, ?_⟩
    have h := (decode_encodeLoop w 3 true (toUint64 v) (by decide) (by decide)).2
    simp only [Encode]
    rw [h]
    unfold twosComplement toUint64
    norm_num
    split_ifs <;> omega
  · intro v h1 h2
    refine ⟨rfl, ?_⟩
    have h := (decode_encodeLoop w 5 true (toUint64 v) (by decide) (by decide)).2
    simp only [Encode]
    rw [h]
    unfold twosComplement toUint64
    norm_num
    split_ifs <;> omega
  · intro v h1 h2
    refine ⟨rfl, ?_⟩
    have h := (decode_encodeLoop w 10 true (toUint64 v) (by decide) (by decide)).2
    simp only [Encode]
    rw [h]
    unfold strconv.toInt64 toUint64
    norm_num
    split_ifs <;> omega
  · intro v h1
    refine ⟨rfl, ?_⟩
    have h := (decode_encodeLoop w 2 false (v % 2 ^ 64) (by decide) (by decide)).1
    simp only [Encode]
    rw [h]
    norm_num
    omega
  · intro v h1
    refine ⟨rfl, ?_⟩
    have h := (decode_encodeLoop w 3 false (v % 2 ^ 64) (by decide) (by decide)).1
    simp only [Encode]
    rw [h]
    norm_num
    omega
  · intro v h1
    refine ⟨rfl, ?_⟩
    have h := (decode_encodeLoop w 5 false (v % 2 ^ 64) (by decide) (by decide)).1
    simp only [Encode]
    rw [h]
    norm_num
    omega
  · intro v h1
    refine ⟨rfl, ?_⟩
    have h := (decode_encodeLoop w 10 false (v % 2 ^ 64) (by decide) (by decide)).1
    simp only [Encode]
    rw [h]
    norm_num
    omega

/-- C22 at the extreme values of the types, at `0x8000000000000000` and at the values of
the test, for a `uint` of 64 bits, and at three values for a `uint` of 32 bits. -/
theorem encode_round_trip_witness :
    AsSigned .bits64 (Encode (.int8 (-128))).1 = (-128, none) ∧
    AsSigned .bits64 (Encode (.int8 127)).1 = (127, none) ∧
    AsSigned .bits64 (Encode (.int16 (-32768))).1 = (-32768, none) ∧
    AsSigned .bits64 (Encode (.int16 32767)).1 = (32767, none) ∧
    AsSigned .bits64 (Encode (.int32 (-2147483648))).1 = (-2147483648, none) ∧
    AsSigned .bits64 (Encode (.int32 2147483647)).1 = (2147483647, none) ∧
    AsSigned .bits64 (Encode (.int64 (-9223372036854775808))).1 = (-9223372036854775808, none) ∧
    AsSigned .bits64 (Encode (.int64 9223372036854775807)).1 = (9223372036854775807, none) ∧
    AsSigned .bits64 (Encode (.int64 (-5))).1 = (-5, none) ∧
    AsUnsigned .bits64 (Encode (.uint8 255)).1 = (255, none) ∧
    AsUnsigned .bits64 (Encode (.uint16 65535)).1 = (65535, none) ∧
    AsUnsigned .bits64 (Encode (.uint32 4294967295)).1 = (4294967295, none) ∧
    AsUnsigned .bits64 (Encode (.uint64 0x8000000000000000)).1 = (0x8000000000000000, none) ∧
    AsUnsigned .bits64 (Encode (.uint64 18446744073709551615)).1 = (18446744073709551615, none) ∧
    AsUnsigned .bits64 (Encode (.uint64 5)).1 = (5, none) ∧
    AsSigned .bits32 (Encode (.int64 (-9223372036854775808))).1 =
      (-9223372036854775808, none) ∧
    AsSigned .bits32 (Encode (.int8 (-5))).1 = (-5, none) ∧
    AsUnsigned .bits32 (Encode (.uint64 18446744073709551615)).1 =
      (18446744073709551615, none) :=
  ⟨((encode_round_trip .bits64).1 (-128) (by decide) (by decide)).2,
   ((encode_round_trip .bits64).1 127 (by decide) (by decide)).2,
   ((encode_round_trip .bits64).2.1 (-32768) (by decide) (by decide)).2,
   ((encode_round_trip .bits64).2.1 32767 (by decide) (by decide)).2,
   ((encode_round_trip .bits64).2.2.1 (-2147483648) (by decide) (by decide)).2,
   ((encode_round_trip .bits64).2.2.1 2147483647 (by decide) (by decide)).2,
   ((encode_round_trip .bits64).2.2.2.1 (-9223372036854775808) (by decide) (by decide)).2,
   ((encode_round_trip .bits64).2.2.2.1 9223372036854775807 (by decide) (by decide)).2,
   ((encode_round_trip .bits64).2.2.2.1 (-5) (by decide) (by decide)).2,
   ((encode_round_trip .bits64).2.2.2.2.1 255 (by decide)).2,
   ((encode_round_trip .bits64).2.2.2.2.2.1 65535 (by decide)).2,
   ((encode_round_trip .bits64).2.2.2.2.2.2.1 4294967295 (by decide)).2,
   ((encode_round_trip .bits64).2.2.2.2.2.2.2 0x8000000000000000 (by decide)).2,
   ((encode_round_trip .bits64).2.2.2.2.2.2.2 18446744073709551615 (by decide)).2,
   ((encode_round_trip .bits64).2.2.2.2.2.2.2 5 (by decide)).2,
   ((encode_round_trip .bits32).2.2.2.1 (-9223372036854775808) (by decide) (by decide)).2,
   ((encode_round_trip .bits32).1 (-5) (by decide) (by decide)).2,
   ((encode_round_trip .bits32).2.2.2.2.2.2.2 18446744073709551615 (by decide)).2⟩

end leb128

namespace xet

/-! ### Reading an element tree -/

/-- The memory after two lists of stores. -/
theorem writeAll_append (m : xml.Memory) (a b : List xml.Write) :
    m.writeAll (a ++ b) = (m.writeAll a).writeAll b := by
  simp [xml.Memory.writeAll]

/-- The stores of two lists of steps. -/
theorem stepWrites_append (a b : List xml.Step) :
    stepWrites (a ++ b) = stepWrites a ++ stepWrites b := by
  simp [stepWrites]

/-- The stores of a list of steps, step by step. -/
theorem stepWrites_cons (s : xml.Step) (b : List xml.Step) :
    stepWrites (s :: b) = s.writes ++ stepWrites b := by
  simp [stepWrites]

/-- The steps of a content list, item by item. -/
theorem stepsOfList_cons (buf : Nat) (x : Content) (c : List Content) :
    Content.stepsOfList buf (x :: c) =
      Content.stepsOfList buf [x] ++ Content.stepsOfList buf c := by
  cases x <;> simp [Content.stepsOfList]

/-- An item of content has at least one step. -/
theorem stepsOfList_single_length (buf : Nat) (x : Content) :
    1 ≤ (Content.stepsOfList buf [x]).length := by
  cases x with
  | element e =>
    cases e
    simp [Content.stepsOfList, Element.steps]
  | text b => simp [Content.stepsOfList]
  | comment c => simp [Content.stepsOfList]
  | directive d => simp [Content.stepsOfList]
  | procInst t i => simp [Content.stepsOfList]

/-- The character data after a content list, item by item. -/
theorem lastText_cons (buf : Nat) (d : xml.ByteSlice) (x : Content) (c : List Content) :
    Content.lastText buf d (x :: c) = Content.lastText buf (Content.lastText buf d [x]) c := by
  cases x <;> simp [Content.lastText]

/-- The children of a content list, item by item. -/
theorem children_cons (buf : Nat) (x : Content) (c : List Content) :
    Content.children buf (x :: c) = Content.children buf [x] ++ Content.children buf c := by
  cases x <;> simp [Content.children]

/-- The call of `readInternal` on a decoder that delivers the tokens of a well-nested
element and then other tokens: the element is read up to its end tag and becomes the
node `p` if `p` is nil, a child of `p` otherwise; the loop goes on with the steps after
the end tag, in the memory that the stores of the element leave. The nodes hold the
slices of the tokens. -/
theorem readInternal_element (buf : Nat) (e : Element) :
    ∀ (fuel : Nat) (rest : List xml.Step) (m : xml.Memory),
      (e.steps buf ++ rest).length ≤ fuel + 1 →
      readInternal (fuel + 1) ⟨e.steps buf ++ rest, m⟩ none =
        readInternal fuel ⟨rest, m.writeAll (stepWrites (e.steps buf))⟩
          (some (e.node buf)) ∧
      ∀ q : Node, readInternal (fuel + 1) ⟨e.steps buf ++ rest, m⟩ (some q) =
        readInternal fuel ⟨rest, m.writeAll (stepWrites (e.steps buf))⟩
          (some (q.appendChild (.element (some (e.node buf))))) := by
  refine @Element.rec
    (fun e => ∀ (fuel : Nat) (rest : List xml.Step) (m : xml.Memory),
      (e.steps buf ++ rest).length ≤ fuel + 1 →
      readInternal (fuel + 1) ⟨e.steps buf ++ rest, m⟩ none =
        readInternal fuel ⟨rest, m.writeAll (stepWrites (e.steps buf))⟩
          (some (e.node buf)) ∧
      ∀ q : Node, readInternal (fuel + 1) ⟨e.steps buf ++ rest, m⟩ (some q) =
        readInternal fuel ⟨rest, m.writeAll (stepWrites (e.steps buf))⟩
          (some (q.appendChild (.element (some (e.node buf))))))
    (fun x => ∀ (fuel : Nat) (rest : List xml.Step) (m : xml.Memory) (q : Node),
      (Content.stepsOfList buf [x] ++ rest).length ≤ fuel + 1 →
      readInternal (fuel + 1) ⟨Content.stepsOfList buf [x] ++ rest, m⟩ (some q) =
        readInternal fuel ⟨rest, m.writeAll (stepWrites (Content.stepsOfList buf [x]))⟩
          (some (.mk q.Name q.Attr (Content.lastText buf q.CharData [x])
            (q.Children ++ Content.children buf [x]))))
    (fun c => ∀ (fuel : Nat) (n : xml.Name) (ws : List xml.Write) (rest : List xml.Step)
      (m : xml.Memory) (q : Node),
      (Content.stepsOfList buf c ++ ⟨ws, .EndElement n⟩ :: rest).length ≤ fuel →
      readInternal fuel ⟨Content.stepsOfList buf c ++ ⟨ws, .EndElement n⟩ :: rest, m⟩ (some q) =
        some (.ok (some (.mk q.Name q.Attr (Content.lastText buf q.CharData c)
          (q.Children ++ Content.children buf c)))
          ⟨rest, (m.writeAll (stepWrites (Content.stepsOfList buf c))).writeAll ws⟩))
    ?_ ?_ ?_ ?_ ?_ ?_ ?_ ?_ e
  · intro name attr content ih fuel rest m h
    have e1 : (Element.mk name attr content).steps buf ++ rest =
        ⟨⟨buf, name.Local⟩ :: attrWrites buf attr, .StartElement name attr⟩ ::
          (Content.stepsOfList buf content ++ ⟨[⟨buf, name.Local⟩], .EndElement name⟩ :: rest) := by
      simp [Element.steps]
    have e2 : stepWrites ((Element.mk name attr content).steps buf) =
        (⟨buf, name.Local⟩ :: attrWrites buf attr) ++
          (stepWrites (Content.stepsOfList buf content) ++ [⟨buf, name.Local⟩]) := by
      rw [Element.steps, stepWrites_cons, stepWrites_append]
      simp [stepWrites]
    rw [e2, writeAll_append, writeAll_append]
    rw [e1] at h ⊢
    have inner := ih fuel name [⟨buf, name.Local⟩] rest
      (m.writeAll (⟨buf, name.Local⟩ :: attrWrites buf attr)) (newNode name attr)
      (by simpa using h)
    simp only [newNode, Node.Name, Node.Attr, Node.CharData, Node.Children,
      List.nil_append] at inner
    constructor
    · rw [readInternal]
      simp only [xml.Decoder.Token, newNode]
      rw [inner]
      rfl
    · intro q
      rw [readInternal]
      simp only [xml.Decoder.Token, newNode]
      rw [inner]
      rfl
  · intro e1 ih fuel rest m q h
    have e2 : Content.stepsOfList buf [Content.element e1] = e1.steps buf := by
      simp [Content.stepsOfList]
    rw [e2] at h ⊢
    rw [(ih fuel rest m h).2 q]
    cases q
    simp [Node.appendChild, Node.Name, Node.Attr, Node.CharData, Node.Children,
      Content.lastText, Content.children]
  · intro b fuel rest m q _
    cases q
    simp [Content.stepsOfList, readInternal, xml.Decoder.Token, stepWrites, Node.setCharData,
      Node.Name, Node.Attr, Node.CharData, Node.Children, Content.lastText, Content.children]
  · intro c fuel rest m q _
    cases q
    simp [Content.stepsOfList, readInternal, xml.Decoder.Token, stepWrites, Node.appendChild,
      Node.Name, Node.Attr, Node.CharData, Node.Children, Content.lastText, Content.children]
  · intro d fuel rest m q _
    cases q
    simp [Content.stepsOfList, readInternal, xml.Decoder.Token, stepWrites, Node.appendChild,
      Node.Name, Node.Attr, Node.CharData, Node.Children, Content.lastText, Content.children]
  · intro t i fuel rest m q _
    cases q
    simp [Content.stepsOfList, readInternal, xml.Decoder.Token, stepWrites, Node.appendChild,
      Node.Name, Node.Attr, Node.CharData, Node.Children, Content.lastText, Content.children]
  · intro fuel n ws rest m q h
    obtain ⟨f, rfl⟩ : ∃ f, fuel = f + 1 := ⟨fuel - 1, by
      simp [Content.stepsOfList] at h
      omega⟩
    cases q
    simp [Content.stepsOfList, readInternal, xml.Decoder.Token, stepWrites, xml.Memory.writeAll,
      Node.Name, Node.Attr, Node.CharData, Node.Children, Content.lastText, Content.children]
  · intro x c ihx ihc fuel n ws rest m q h
    have h1 := stepsOfList_single_length buf x
    rw [stepsOfList_cons, List.append_assoc] at h ⊢
    obtain ⟨f, rfl⟩ : ∃ f, fuel = f + 1 := ⟨fuel - 1, by
      rw [List.length_append] at h
      omega⟩
    rw [ihx f _ m q h, ihc f n ws rest _ _ (by rw [List.length_append] at h; omega)]
    simp only [Node.Name, Node.Attr, Node.CharData, Node.Children]
    rw [← lastText_cons, List.append_assoc, ← children_cons, stepWrites_append,
      writeAll_append]

/-- On the decoder of a document that is one well-nested element, `Read` returns the
node of the element with the decoder at its end, in the memory that the stores of the
decoder leave. -/
theorem read_element (buf : Nat) (m : xml.Memory) (e : Element) :
    Read (e.decoder buf m) = some (.ok (some (e.node buf)) ⟨[], e.memory buf m⟩) := by
  have h := (readInternal_element buf e (e.steps buf).length [] m (by simp)).1
  rw [List.append_nil] at h
  unfold Read Element.decoder Element.memory
  show readInternal ((e.steps buf).length + 1) ⟨e.steps buf, m⟩ none = _
  rw [h]
  obtain ⟨f, hf⟩ : ∃ f, (e.steps buf).length = f + 1 := by
    cases e
    exact ⟨_, by simp [Element.steps]; rfl⟩
  rw [hf]
  rfl

/-- C27 at failing inputs. `readInternal` stores the byte slices of the tokens in the
tree without copying them (xet.go 107-114; there is no call of `xml.CopyToken`), and the
decoder stores the next name, text, comment, directive or instruction at the start of the
same buffer. On a document that is one well-nested element, `Read` returns without error
a node with the name and the attributes of the root whose children are, in document
order, nodes of the child elements (of type `TypeElement`) and the slices of the
comments, directives and processing instructions; but when `Read` returns the slices do
not show the bytes of the document. On `<a><!--hello--></a>` the only child is a comment
that reads `aello`: the name of the end tag has been stored over its first byte. On
`<a>hello</a>` the character data reads `aello`. On `<a><!--one--><!--two--></a>` both
comments read `awo`. On the document of the test the root is named `phonebook`, has one
attribute `user` = `sivachandra` and three children, all elements named `contact`, which
is all that the test looks at. -/
theorem read_stores_buffer_slices :
    (∀ (buf : Nat) (m : xml.Memory) (e : Element),
      Read (e.decoder buf m) = some (.ok (some (e.node buf)) ⟨[], e.memory buf m⟩)) ∧
    (∀ (buf : Nat) (name : xml.Name) (attr : List xml.Attr) (content : List Content),
      ((Element.mk name attr content).node buf).Name = name ∧
      ((Element.mk name attr content).node buf).Attr = attr ∧
      ((Element.mk name attr content).node buf).Children = Content.children buf content) ∧
    (∀ (buf : Nat) (e : Element) (rest : List Content),
      Content.children buf (.element e :: rest) =
        .element (some (e.node buf)) :: Content.children buf rest ∧
      (TreeNode.element (some (e.node buf))).Type = TypeElement) ∧
    (∀ (buf : Nat) (c : GoString) (rest : List Content),
      Content.children buf (.comment c :: rest) =
        .comment ⟨buf, c.length⟩ :: Content.children buf rest) ∧
    Read (commentDocument.decoder 0 emptyMemory) =
      some (.ok (some (.mk ⟨[], str "a"⟩ [] ⟨0, 0⟩ [.comment ⟨0, 5⟩]))
        ⟨[], commentDocument.memory 0 emptyMemory⟩) ∧
    (xml.ByteSlice.mk 0 5).bytes (commentDocument.memory 0 emptyMemory) = str "aello" ∧
    str "aello" ≠ str "hello" ∧
    Read (textDocument.decoder 0 emptyMemory) =
      some (.ok (some (.mk ⟨[], str "a"⟩ [] ⟨0, 5⟩ []))
        ⟨[], textDocument.memory 0 emptyMemory⟩) ∧
    (xml.ByteSlice.mk 0 5).bytes (textDocument.memory 0 emptyMemory) = str "aello" ∧
    Read (twoCommentsDocument.decoder 0 emptyMemory) =
      some (.ok (some (.mk ⟨[], str "a"⟩ [] ⟨0, 0⟩ [.comment ⟨0, 3⟩, .comment ⟨0, 3⟩]))
        ⟨[], twoCommentsDocument.memory 0 emptyMemory⟩) ∧
    commentBytes (twoCommentsDocument.memory 0 emptyMemory)
        [.comment ⟨0, 3⟩, .comment ⟨0, 3⟩] = [str "awo", str "awo"] ∧
    (phonebook.node 0).Name.Local = str "phonebook" ∧
    (phonebook.node 0).Attr = [⟨⟨[], str "user"⟩, str "sivachandra"⟩] ∧
    (phonebook.node 0).Children.map TreeNode.Type = [TypeElement, TypeElement, TypeElement] ∧
    (phonebook.node 0).Children.map
        (fun c => match c with
          | .element (some n) => n.Name.Local
          | _ => []) = [str "contact", str "contact", str "contact"] := by
  refine ⟨read_element, ?_, ?_, ?_, read_element 0 emptyMemory commentDocument, by decide,
    by decide, read_element 0 emptyMemory textDocument, by decide,
    read_element 0 emptyMemory twoCommentsDocument, by decide, by rfl, by rfl, by rfl, by rfl⟩
  · intro buf name attr content
    simp [Element.node, Node.Name, Node.Attr, Node.Children]
  · intro buf e rest
    simp [Content.children, TreeNode.Type]
  · intro buf c rest
    simp [Content.children]

end xet

namespace leb128

/-! ### The shape of an encoding -/

/-- The bytes that the loop of `Encode` produces for a counter limit `n` of at least 1:
`n` bytes, all but the last with the high bit set, the last with the high bit clear, so
that `Read` on a stream that begins with them returns them and leaves the rest. -/
theorem encodeLoop_shape (n : Nat) (s : Bool) (valU64 : Nat) (hn : 1 ≤ n) :
    (encodeLoop n s n valU64).length = n ∧
    (∃ pre last, encodeLoop n s n valU64 = pre ++ [last] ∧ (∀ b ∈ pre, b &&& 0x80 ≠ 0) ∧
      last &&& 0x80 = 0) ∧
    ∀ (rest : List Nat) (err : GoString),
      Read ⟨encodeLoop n s n valU64 ++ rest, err⟩ =
        ((encodeLoop n s n valU64, none), ⟨rest, err⟩) := by
  obtain ⟨r, rfl⟩ : ∃ r, n = r + 1 := ⟨n - 1, by omega⟩
  obtain ⟨pre, last, e1, e2, e3, e4, _⟩ := encodeLoop_spec (r + 1) s r valU64 (by omega)
  refine ⟨by rw [e1, List.length_append, e2]; rfl, ⟨pre, last, e1, e3, e4⟩, ?_⟩
  intro rest err
  have h := readLoop_ok err last rest e4 pre [] e3
  rw [List.nil_append] at h
  unfold Read
  rw [e1, List.append_assoc]
  exact h

/-- C31. The shape of the output of `Encode`. `Encode` returns 2 bytes for an `int8` or
`uint8`, 3 for an `int16` or `uint16`, 5 for an `int32` or `uint32` and 10 for an `int64`
or `uint64`, whatever the value; it returns an error exactly for an argument of another
type, and then no bytes. For an argument of the eight types every byte but the last has
the high bit set and the last has it clear, and `Read` on a stream that begins with the
encoding returns the encoding and leaves the rest of the stream. -/
theorem encode_shape :
    (∀ v : Int, (Encode (.int8 v)).1.length = 2) ∧
    (∀ v : Nat, (Encode (.uint8 v)).1.length = 2) ∧
    (∀ v : Int, (Encode (.int16 v)).1.length = 3) ∧
    (∀ v : Nat, (Encode (.uint16 v)).1.length = 3) ∧
    (∀ v : Int, (Encode (.int32 v)).1.length = 5) ∧
    (∀ v : Nat, (Encode (.uint32 v)).1.length = 5) ∧
    (∀ v : Int, (Encode (.int64 v)).1.length = 10) ∧
    (∀ v : Nat, (Encode (.uint64 v)).1.length = 10) ∧
    (∀ a : Arg, (Encode a).2 ≠ none ↔ a = .other) ∧
    Encode .other = ([], some .cannotEncode) ∧
    (∀ a : Arg, a = .other ∨
      ((∃ pre last, (Encode a).1 = pre ++ [last] ∧ (∀ b ∈ pre, b &&& 0x80 ≠ 0) ∧
          last &&& 0x80 = 0) ∧
        ∀ (rest : List Nat) (err : GoString),
          Read ⟨(Encode a).1 ++ rest, err⟩ = (((Encode a).1, none), ⟨rest, err⟩))) ∧
    (Encode (.uint16 5)).1 = [0x85, 0x80, 0x00] ∧
    (Encode (.int8 (-5))).1 = [0xFB, 0x7F] ∧
    (Encode (.int64 (-5))).1 = [0xFB, 0xFF, 0xFF, 0xFF, 0xFF, 0xFF, 0xFF, 0xFF, 0xFF, 0x7F] := by
  refine ⟨fun v => (encodeLoop_shape 2 true _ (by decide)).1,
    fun v => (encodeLoop_shape 2 false _ (by decide)).1,
    fun v => (encodeLoop_shape 3 true _ (by decide)).1,
    fun v => (encodeLoop_shape 3 false _ (by decide)).1,
    fun v => (encodeLoop_shape 5 true _ (by decide)).1,
    fun v => (encodeLoop_shape 5 false _ (by decide)).1,
    fun v => (encodeLoop_shape 10 true _ (by decide)).1,
    fun v => (encodeLoop_shape 10 false _ (by decide)).1,
    ?_, rfl, ?_, by decide, by decide, by decide⟩
  · intro a
    cases a <;> simp [Encode]
  · intro a
    cases a with
    | int8 v => exact Or.inr (encodeLoop_shape 2 true _ (by decide)).2
    | uint8 v => exact Or.inr (encodeLoop_shape 2 false _ (by decide)).2
    | int16 v => exact Or.inr (encodeLoop_shape 3 true _ (by decide)).2
    | uint16 v => exact Or.inr (encodeLoop_shape 3 false _ (by decide)).2
    | int32 v => exact Or.inr (encodeLoop_shape 5 true _ (by decide)).2
    | uint32 v => exact Or.inr (encodeLoop_shape 5 false _ (by decide)).2
    | int64 v => exact Or.inr (encodeLoop_shape 10 true _ (by decide)).2
    | uint64 v => exact Or.inr (encodeLoop_shape 10 false _ (by decide)).2
    | other => exact Or.inl rfl

/-! ### Truncated input -/

/-- C32. Truncated input is an error. For every reader, and whether `uint` has 32 or 64
bits, each of `ReadSigned`,
`ReadUnsigned` and `Read` returns an error exactly when no byte of the stream has the
high bit clear, that is when the stream ends (or the reader fails) before such a byte is
read; the result is then 0, respectively no bytes, with the error of the reader wrapped
by `ReadSigned` and `ReadUnsigned` and returned as it is by `Read`. So it is on the empty
stream and on a stream of bytes that all have the high bit set. -/
theorem truncated_input_fails (w : UintSize) (r : ByteReader) :
    ((ReadSigned w r).1.2 ≠ none ↔ ∀ b ∈ r.data, b &&& 0x80 ≠ 0) ∧
    ((ReadUnsigned w r).1.2 ≠ none ↔ ∀ b ∈ r.data, b &&& 0x80 ≠ 0) ∧
    ((Read r).1.2 ≠ none ↔ ∀ b ∈ r.data, b &&& 0x80 ≠ 0) ∧
    ((ReadSigned w r).1.2 ≠ none ↔
      ReadSigned w r = ((0, some (.readingSigned r.err)), ⟨[], r.err⟩)) ∧
    ((ReadUnsigned w r).1.2 ≠ none ↔
      ReadUnsigned w r = ((0, some (.readingUnsigned r.err)), ⟨[], r.err⟩)) ∧
    ((Read r).1.2 ≠ none ↔ Read r = (([], some (.reader r.err)), ⟨[], r.err⟩)) ∧
    ReadSigned w ⟨[], r.err⟩ = ((0, some (.readingSigned r.err)), ⟨[], r.err⟩) ∧
    ReadUnsigned w ⟨[], r.err⟩ = ((0, some (.readingUnsigned r.err)), ⟨[], r.err⟩) ∧
    Read ⟨[], r.err⟩ = (([], some (.reader r.err)), ⟨[], r.err⟩) ∧
    ReadSigned w ⟨[0x80, 0xFF, 0x9b], r.err⟩ =
      ((0, some (.readingSigned r.err)), ⟨[], r.err⟩) ∧
    ReadUnsigned w ⟨[0x80, 0xFF, 0x9b], r.err⟩ =
      ((0, some (.readingUnsigned r.err)), ⟨[], r.err⟩) ∧
    Read ⟨[0x80, 0xFF, 0x9b], r.err⟩ = (([], some (.reader r.err)), ⟨[], r.err⟩) := by
  obtain ⟨data, err⟩ := r
  have h3 : ∀ b ∈ [0x80, 0xFF, 0x9b], b &&& 0x80 ≠ 0 := by decide
  refine ⟨?_, ?_, ?_, ?_, ?_, ?_, rfl, rfl, rfl, readSignedLoop_fail err w _ 0 0 h3,
    readUnsignedLoop_fail err w _ 0 0 h3, readLoop_fail err _ [] h3⟩
  all_goals
    rcases split_at_clear data with h | ⟨pre, last, rest, hd, hpre, hl⟩
  · have e : ReadSigned w ⟨data, err⟩ = _ := readSignedLoop_fail err w data 0 0 h
    rw [e]
    exact ⟨fun _ => h, fun _ hc => Option.noConfusion hc⟩
  · subst hd
    have e : (ReadSigned w ⟨pre ++ last :: rest, err⟩).1.2 = none :=
      ( readSignedLoop_prefix err err w last rest hl pre 0 0 hpre).2.1
    exact ⟨fun hc => absurd e hc, fun hall => absurd hl (hall last (by simp))⟩
  · have e : ReadUnsigned w ⟨data, err⟩ = _ := readUnsignedLoop_fail err w data 0 0 h
    rw [e]
    exact ⟨fun _ => h, fun _ hc => Option.noConfusion hc⟩
  · subst hd
    have e : (ReadUnsigned w ⟨pre ++ last :: rest, err⟩).1.2 = none :=
      ( readUnsignedLoop_prefix err err w last rest hl pre 0 0 hpre).2.1
    exact ⟨fun hc => absurd e hc, fun hall => absurd hl (hall last (by simp))⟩
  · have e : Read ⟨data, err⟩ = _ := readLoop_fail err data [] h
    rw [e]
    exact ⟨fun _ => h, fun _ hc => Option.noConfusion hc⟩
  · subst hd
    have e : Read ⟨pre ++ last :: rest, err⟩ = _ := readLoop_ok err last rest hl pre [] hpre
    rw [e]
    exact ⟨fun hc => absurd rfl hc, fun hall => absurd hl (hall last (by simp))⟩
  · have e := readSignedLoop_fail err w data 0 0 h
    simp only [ReadSigned, e]
    simp
  · subst hd
    have e := ( readSignedLoop_prefix err err w last rest hl pre 0 0 hpre).2.1
    have e2 : readSignedLoop err w (pre ++ last :: rest) 0 0 ≠
        ((0, some (.readingSigned err)), ⟨[], err⟩) := by
      intro hc
      rw [hc] at e
      simp at e
    simp only [ReadSigned, e]
    simp [e2]
  · have e := readUnsignedLoop_fail err w data 0 0 h
    simp only [ReadUnsigned, e]
    simp
  · subst hd
    have e := ( readUnsignedLoop_prefix err err w last rest hl pre 0 0 hpre).2.1
    have e2 : readUnsignedLoop err w (pre ++ last :: rest) 0 0 ≠
        ((0, some (.readingUnsigned err)), ⟨[], err⟩) := by
      intro hc
      rw [hc] at e
      simp at e
    simp only [ReadUnsigned, e]
    simp [e2]
  · have e := readLoop_fail err data [] h
    simp only [Read, e]
    simp
  · subst hd
    have e := readLoop_ok err last rest hl pre [] hpre
    simp only [Read, e]
    simp

end leb128

namespace xet

/-! ### The parent node -/

/-- A call of `readInternal` on a node that exists does not use a nil node: if it
returns, it returns a node, and the decoder has not gone backwards. -/
theorem readInternal_some :
    ∀ (fuel : Nat) (d : xml.Decoder) (q : Node),
      readInternal fuel d (some q) = none ∨
      ∃ q1 d1, readInternal fuel d (some q) = some (.ok (some q1) d1) ∧
        d1.steps.length ≤ d.steps.length := by
  intro fuel
  induction fuel with
  | zero => intro d q; exact Or.inl rfl
  | succ fuel ih =>
    intro d q
    obtain ⟨steps, m⟩ := d
    cases steps with
    | nil => exact Or.inr ⟨q, ⟨[], m⟩, rfl, Nat.le_refl _⟩
    | cons s rest =>
      obtain ⟨ws, t⟩ := s
      cases t with
      | StartElement name attr =>
        rcases ih ⟨rest, m.writeAll ws⟩ (newNode name attr) with h | ⟨e, d1, h, hl⟩
        · left
          rw [readInternal]
          simp only [xml.Decoder.Token]
          rw [h]
        · rcases ih d1 (q.appendChild (.element (some e))) with h2 | ⟨q2, d2, h2, hl2⟩
          · left
            rw [readInternal]
            simp only [xml.Decoder.Token]
            rw [h]
            exact h2
          · right
            refine ⟨q2, d2, ?_, by simp only [List.length_cons] at hl ⊢; omega⟩
            rw [readInternal]
            simp only [xml.Decoder.Token]
            rw [h]
            exact h2
      | EndElement name =>
        exact Or.inr ⟨q, ⟨rest, m.writeAll ws⟩, rfl, by simp⟩
      | CharData b =>
        rcases ih ⟨rest, m.writeAll ws⟩ (q.setCharData b) with h | ⟨q1, d1, h, hl⟩
        · exact Or.inl (by rw [readInternal]; exact h)
        · exact Or.inr ⟨q1, d1, by rw [readInternal]; exact h,
            by simp only [List.length_cons] at hl ⊢; omega⟩
      | Comment b =>
        rcases ih ⟨rest, m.writeAll ws⟩ (q.appendChild (.comment b)) with h | ⟨q1, d1, h, hl⟩
        · exact Or.inl (by rw [readInternal]; exact h)
        · exact Or.inr ⟨q1, d1, by rw [readInternal]; exact h,
            by simp only [List.length_cons] at hl ⊢; omega⟩
      | Directive b =>
        rcases ih ⟨rest, m.writeAll ws⟩ (q.appendChild (.directive b)) with h | ⟨q1, d1, h, hl⟩
        · exact Or.inl (by rw [readInternal]; exact h)
        · exact Or.inr ⟨q1, d1, by rw [readInternal]; exact h,
            by simp only [List.length_cons] at hl ⊢; omega⟩
      | ProcInst target inst =>
        rcases ih ⟨rest, m.writeAll ws⟩ (q.appendChild (.procInst target inst))
          with h | ⟨q1, d1, h, hl⟩
        · exact Or.inl (by rw [readInternal]; exact h)
        · exact Or.inr ⟨q1, d1, by rw [readInternal]; exact h,
            by simp only [List.length_cons] at hl ⊢; omega⟩

/-- A call of `readInternal` on a node that exists returns when the bound exceeds the
number of steps of the decoder. -/
theorem readInternal_total :
    ∀ (fuel : Nat) (d : xml.Decoder) (q : Node), d.steps.length < fuel →
      ∃ q1 d1, readInternal fuel d (some q) = some (.ok (some q1) d1) ∧
        d1.steps.length ≤ d.steps.length := by
  intro fuel
  induction fuel with
  | zero => intro d q h; omega
  | succ fuel ih =>
    intro d q hlen
    obtain ⟨steps, m⟩ := d
    cases steps with
    | nil => exact ⟨q, ⟨[], m⟩, rfl, Nat.le_refl _⟩
    | cons s rest =>
      obtain ⟨ws, t⟩ := s
      have hr : rest.length < fuel := by
        simp only [List.length_cons] at hlen
        omega
      cases t with
      | StartElement name attr =>
        obtain ⟨e, d1, h, hl⟩ := ih ⟨rest, m.writeAll ws⟩ (newNode name attr) hr
        obtain ⟨q2, d2, h2, hl2⟩ := ih d1 (q.appendChild (.element (some e)))
          (by simp only at hl; omega)
        refine ⟨q2, d2, ?_, by simp only [List.length_cons] at hl ⊢; omega⟩
        rw [readInternal]
        simp only [xml.Decoder.Token]
        rw [h]
        exact h2
      | EndElement name =>
        exact ⟨q, ⟨rest, m.writeAll ws⟩, rfl, by simp⟩
      | CharData b =>
        obtain ⟨q1, d1, h, hl⟩ := ih ⟨rest, m.writeAll ws⟩ (q.setCharData b) hr
        exact ⟨q1, d1, by rw [readInternal]; exact h,
          by simp only [List.length_cons] at hl ⊢; omega⟩
      | Comment b =>
        obtain ⟨q1, d1, h, hl⟩ := ih ⟨rest, m.writeAll ws⟩ (q.appendChild (.comment b)) hr
        exact ⟨q1, d1, by rw [readInternal]; exact h,
          by simp only [List.length_cons] at hl ⊢; omega⟩
      | Directive b =>
        obtain ⟨q1, d1, h, hl⟩ := ih ⟨rest, m.writeAll ws⟩ (q.appendChild (.directive b)) hr
        exact ⟨q1, d1, by rw [readInternal]; exact h,
          by simp only [List.length_cons] at hl ⊢; omega⟩
      | ProcInst target inst =>
        obtain ⟨q1, d1, h, hl⟩ :=
          ih ⟨rest, m.writeAll ws⟩ (q.appendChild (.procInst target inst)) hr
        exact ⟨q1, d1, by rw [readInternal]; exact h,
          by simp only [List.length_cons] at hl ⊢; omega⟩

/-- C33 at failing inputs. At the top level `p` is nil until the first start tag has been
read. A decoder whose first token is a processing instruction (an XML declaration), a
comment, a directive or character data makes `Read` use the field `Children` or
`CharData` of the nil node: the call panics, whatever follows and whatever the decoder
stores. This is the only way: `Read` returns nil on the decoder without tokens and on a
decoder whose first token is an end tag, it returns a node on a decoder whose first token
is a start tag, and the bound of the model is never used up. -/
theorem read_uses_nil_parent :
    (∀ (ws : List xml.Write) (target : GoString) (inst : xml.ByteSlice)
        (rest : List xml.Step) (m : xml.Memory),
      Read ⟨⟨ws, .ProcInst target inst⟩ :: rest, m⟩ = some .nilDereference) ∧
    (∀ (ws : List xml.Write) (c : xml.ByteSlice) (rest : List xml.Step) (m : xml.Memory),
      Read ⟨⟨ws, .Comment c⟩ :: rest, m⟩ = some .nilDereference) ∧
    (∀ (ws : List xml.Write) (d : xml.ByteSlice) (rest : List xml.Step) (m : xml.Memory),
      Read ⟨⟨ws, .Directive d⟩ :: rest, m⟩ = some .nilDereference) ∧
    (∀ (ws : List xml.Write) (b : xml.ByteSlice) (rest : List xml.Step) (m : xml.Memory),
      Read ⟨⟨ws, .CharData b⟩ :: rest, m⟩ = some .nilDereference) ∧
    Read ⟨Content.stepsOfList 0 [.procInst (str "xml") (str "version=\"1.0\"")] ++
        phonebook.steps 0, emptyMemory⟩ = some .nilDereference ∧
    Read ⟨Content.stepsOfList 0 [.text (str "\n")] ++ phonebook.steps 0, emptyMemory⟩ =
      some .nilDereference ∧
    (∀ m : xml.Memory, Read ⟨[], m⟩ = some (.ok none ⟨[], m⟩)) ∧
    (∀ (ws : List xml.Write) (name : xml.Name) (rest : List xml.Step) (m : xml.Memory),
      Read ⟨⟨ws, .EndElement name⟩ :: rest, m⟩ = some (.ok none ⟨rest, m.writeAll ws⟩)) ∧
    (∀ (ws : List xml.Write) (name : xml.Name) (attr : List xml.Attr) (rest : List xml.Step)
        (m : xml.Memory),
      ∃ q d1, Read ⟨⟨ws, .StartElement name attr⟩ :: rest, m⟩ = some (.ok (some q) d1)) ∧
    (∀ d : xml.Decoder, Read d ≠ none) := by
  have hstart : ∀ (ws : List xml.Write) (name : xml.Name) (attr : List xml.Attr)
      (rest : List xml.Step) (m : xml.Memory),
      ∃ q d1, Read ⟨⟨ws, .StartElement name attr⟩ :: rest, m⟩ = some (.ok (some q) d1) := by
    intro ws name attr rest m
    obtain ⟨e, d1, h, hl⟩ := readInternal_total (rest.length + 1) ⟨rest, m.writeAll ws⟩
      (newNode name attr) (Nat.lt_succ_self _)
    obtain ⟨q2, d2, h2, _⟩ := readInternal_total (rest.length + 1) d1 e
      (by simp only at hl; omega)
    refine ⟨q2, d2, ?_⟩
    unfold Read
    simp only [List.length_cons]
    rw [readInternal]
    simp only [xml.Decoder.Token]
    rw [h]
    exact h2
  refine ⟨fun _ _ _ _ _ => rfl, fun _ _ _ _ => rfl, fun _ _ _ _ => rfl, fun _ _ _ _ => rfl,
    rfl, rfl, fun _ => rfl, fun _ _ _ _ => rfl, hstart, ?_⟩
  intro d
  obtain ⟨steps, m⟩ := d
  cases steps with
  | nil => exact fun h => Option.noConfusion h
  | cons s rest =>
    obtain ⟨ws, t⟩ := s
    cases t with
    | StartElement name attr =>
      obtain ⟨q, d1, h⟩ := hstart ws name attr rest m
      rw [h]
      exact fun hc => Option.noConfusion hc
    | EndElement name => exact fun h => Option.noConfusion h
    | CharData b => exact fun h => Option.noConfusion h
    | Comment b => exact fun h => Option.noConfusion h
    | Directive b => exact fun h => Option.noConfusion h
    | ProcInst target inst => exact fun h => Option.noConfusion h

end xet
